import Mathlib

/-!
# RNX2CRX / CRX2RNX (Compact RINEX codec): a verification development

Shallow embedding of the core routines of `rnxcmp/source/rnx2crx.c` (the
compressor) and `rnxcmp/source/crx2rnx.c` (the decompressor).

Modelling conventions
* A C string is the `List Char` of its characters before the terminating NUL.
* A C `long` is an `Int`; `/` and `%` of C are `Int.tdiv` and `Int.tmod`
  (truncation toward zero).  Values stay far inside the 64-bit range for
  every RINEX field, so no wrap-around is modelled.
* The arrays `u[]`, `l[]` of a `data_format` are functions `Nat → Int`; an
  assignment `a[k] = v` is `setAt a k v`.
* Text appended to the output buffer `out_buff` through `p_buff` is returned
  as a `List Char`.
* Functions of the compressor live in namespace `rnx2crx`, those of the
  decompressor in namespace `crx2rnx`, under the names of the C source.
-/

/-! ## Definitions -/

/-- Trailing blanks are cut by scanning backwards from the end of the text
while the character is a space (`for(ds-- ; *ds == ' ' ; ds--);` in `strdiff`,
`CHOP_BLANK` in the decompressor). -/
def chop_blank (s : List Char) : List Char :=
  s.rdropWhile (fun c => c == ' ')

/-! ### The C library routines the code relies on -/

/-- The terminating character of a C string, read when a string is indexed at
or past its end. -/
def NUL : Char := Char.ofNat 0

/-- `isspace` of the C locale. -/
def isspace (c : Char) : Bool :=
  c = ' ' || c = '\t' || c = '\n' || c = '\x0b' || c = '\x0c' || c = '\r'

/-- `isdigit`. -/
def isdigit (c : Char) : Bool :=
  48 ≤ c.toNat && c.toNat ≤ 57

/-- The digit-reading loop of `atol`: accumulate while the next character is a
decimal digit. -/
def atol_digits : List Char → Nat → Nat
  | [], acc => acc
  | c :: cs, acc => if isdigit c then atol_digits cs (acc * 10 + (c.toNat - 48)) else acc

/-- `atol` (and `atoi`): skip white space, take an optional sign, read the
leading digits; `0` when there is none. -/
def atol (s : List Char) : Int :=
  let t := s.dropWhile isspace
  if t.head? = some '-' then -(atol_digits t.tail 0 : Int)
  else if t.head? = some '+' then (atol_digits t.tail 0 : Int)
  else (atol_digits t 0 : Int)

/-- `labs`. -/
def labs (x : Int) : Int :=
  if x < 0 then -x else x

/-- The character of a decimal digit, `'0' + d`. -/
def digit_char (d : Nat) : Char := Char.ofNat (48 + d)

/-- Decimal digits of a natural number, most significant first; the first
argument bounds the number of digits produced. -/
def dec_digits_aux : Nat → Nat → List Char
  | 0, _ => []
  | fuel + 1, n =>
      if n < 10 then [digit_char n] else dec_digits_aux fuel (n / 10) ++ [digit_char (n % 10)]

/-- Decimal digits of a natural number (`"0"` for zero). -/
def dec_digits (n : Nat) : List Char :=
  dec_digits_aux (n + 1) n

/-- The `k` low-order decimal digits of a natural number, zero-filled. -/
def pad_digits : Nat → Nat → List Char
  | 0, _ => []
  | k + 1, b => pad_digits k (b / 10) ++ [digit_char (b % 10)]

/-- `sprintf` with `"%ld"`. -/
def fmt_ld (x : Int) : List Char :=
  if x < 0 then '-' :: dec_digits x.natAbs else dec_digits x.natAbs

/-- `sprintf` with `"%<w>ld"`: right-justified in a field of at least `w`
characters. -/
def fmt_ld_w (w : Nat) (x : Int) : List Char :=
  List.replicate (w - (fmt_ld x).length) ' ' ++ fmt_ld x

/-- `sprintf` with `"%<p>.<p>ld"`: at least `p` digits, zero-filled (the field
width `p` is then reached by the digits themselves). -/
def fmt_ld_p (p : Nat) (x : Int) : List Char :=
  (if x < 0 then ['-'] else []) ++
    (List.replicate (p - (dec_digits x.natAbs).length) '0' ++ dec_digits x.natAbs)

/-- The assignment `a[k] = v` on an array held as a function. -/
def setAt (a : Nat → Int) (k : Nat) (v : Int) : Nat → Int :=
  fun i => if i = k then v else a i

/-- The character `p_buff[-k]` of the text `s` that ends at `p_buff`. -/
def back_get (s : List Char) (k : Nat) : Char :=
  s.getD (s.length - k) NUL

/-- The assignment `p_buff[-k] = c` on the text `s` that ends at `p_buff`. -/
def back_set (s : List Char) (k : Nat) (c : Char) : List Char :=
  s.set (s.length - k) c

/-- The canonical signed decimal representation of an integer: a minus sign for
a negative number, then the digits of Mathlib's `Nat.digits 10`, most significant
first, and the single digit `0` for zero. -/
def canonical_decimal (x : Int) : List Char :=
  (if x < 0 then ['-'] else []) ++
    (if x = 0 then ['0'] else ((Nat.digits 10 x.natAbs).reverse.map digit_char))

namespace rnx2crx

/-- The character `strdiff` writes for one column present in both strings
(`rnx2crx.c` lines 572-577). -/
def strdiff_char (c1 c2 : Char) : Char :=
  if c2 = c1 then ' ' else if c2 = ' ' then '&' else c2

/-- What becomes of a character of `s1` beyond the end of `s2`
(`for(;*ds;ds++){ if(*ds != ' ') *ds = '&'; }`, `rnx2crx.c` line 580). -/
def strdiff_rest_char (c : Char) : Char :=
  if c ≠ ' ' then '&' else c

/-- The characters `strdiff` writes at `ds` before the trailing blanks are cut
(`rnx2crx.c` lines 571-581): the column loop while both strings last, then the
rest of `s1` copied with every non-space turned into `'&'`, then the rest of
`s2` copied as it is. -/
def strdiff_body : List Char → List Char → List Char
  | [], s2 => s2
  | c1 :: s1, [] => (c1 :: s1).map strdiff_rest_char
  | c1 :: s1, c2 :: s2 => strdiff_char c1 c2 :: strdiff_body s1 s2

/-- Model of `strdiff(s1, s2, ds)` (`rnx2crx.c` lines 565-586).  `buf` is the
text already in the output buffer in front of `ds` (the buffer starts after a
non-space stopper character, so the backward scan for the last non-space
character stops at the buffer start at the latest); the result is the buffer
text up to the returned pointer. -/
def strdiff (s1 s2 buf : List Char) : List Char :=
  chop_blank (buf ++ strdiff_body s1 s2) ++ ['\n']

/-- ARC_ORDER: order of difference to take. -/
def ARC_ORDER : Nat := 3

/-- The compressor's `data_format` (`rnx2crx.c` lines 88-92). -/
structure data_format where
  u : Nat → Int
  l : Nat → Int
  order : Int

/-- Model of `read_value(p, pu, pl)` (`rnx2crx.c` lines 649-673); `p` is the
14-character field, the result is `(*pu, *pl)`. -/
def read_value (p : List Char) : Int × Int :=
  let p := p.set 10 (p.getD 9 NUL)
  let p := p.set 9 (p.getD 8 NUL)
  let pl := atol (p.drop 9)
  if p.getD 7 NUL = ' ' then (0, pl)
  else if p.getD 7 NUL = '-' then (0, -pl)
  else
    let p := p.set 8 '.'
    let pu := atol p
    (pu, if pu < 0 then -pl else pl)

/-- The body of the loop of `take_diff` for one `k`
(`rnx2crx.c` lines 682-683). -/
def take_diff_step (py0 : data_format) (py1 : data_format) (k : Nat) : data_format :=
  { py1 with u := setAt py1.u (k + 1) (py1.u k - py0.u k),
             l := setAt py1.l (k + 1) (py1.l k - py0.l k) }

/-- Model of `take_diff(py1, py0)` (`rnx2crx.c` lines 675-686): `*py1` after the
call. -/
def take_diff (py1 py0 : data_format) : data_format :=
  let order := if py0.order < (ARC_ORDER : Int) then py0.order + 1 else py0.order
  let py1 := { py1 with order := order }
  if order > 0 then (List.range order.toNat).foldl (take_diff_step py0) py1 else py1

/-- The normalization at the head of `putdiff` (`rnx2crx.c` lines 690-695). -/
def putdiff_norm (dddu dddl : Int) : Int × Int :=
  let dddu := dddu + dddl.tdiv 100000
  let dddl := dddl.tmod 100000
  if dddu < 0 ∧ dddl > 0 then (dddu + 1, dddl - 100000)
  else if dddu > 0 ∧ dddl < 0 then (dddu - 1, dddl + 100000)
  else (dddu, dddl)

/-- Model of `putdiff(dddu, dddl)` (`rnx2crx.c` lines 688-702): the text
appended at `p_buff`. -/
def putdiff (dddu dddl : Int) : List Char :=
  let n := putdiff_norm dddu dddl
  if n.1 = 0 then fmt_ld n.2 else fmt_ld n.1 ++ fmt_ld_p 5 (labs n.2)

/-- The normalization at the head of `put_clock` (`rnx2crx.c` lines 708-713). -/
def put_clock_norm (du dl : Int) : Int × Int :=
  let du := du + dl.tdiv 100000000
  let dl := dl.tmod 100000000
  if du < 0 ∧ dl > 0 then (du + 1, dl - 100000000)
  else if du > 0 ∧ dl < 0 then (du - 1, dl + 100000000)
  else (du, dl)

/-- One non-blank field of `data(sattbl)` (`rnx2crx.c` lines 533-544): `i0` is
the satellite's entry `*i0` of `sattbl`, `py0` the entry `dy0[*i0][j]` of the
previous epoch (not read when `i0 < 0`), `py1` the entry `dy1[i][j]` as
`ggetline` left it.  The result is `*py1` after the step and the text appended
at `p_buff`. -/
def data_field (i0 : Int) (py0 py1 : data_format) : data_format × List Char :=
  if i0 < 0 ∨ py0.order = -1 then
    let py1 := { py1 with order := 0 }
    (py1, fmt_ld ARC_ORDER ++ ['&'] ++ putdiff (py1.u py1.order.toNat) (py1.l py1.order.toNat))
  else
    let py1 := take_diff py1 py0
    if labs (py1.u py1.order.toNat) > 100000 then
      let py1 := { py1 with order := 0 }
      (py1, fmt_ld ARC_ORDER ++ ['&'] ++ putdiff (py1.u py1.order.toNat) (py1.l py1.order.toNat))
    else
      (py1, putdiff (py1.u py1.order.toNat) (py1.l py1.order.toNat))

/-- The entry `dy1[i][j]` as `ggetline` leaves it for a non-blank field
(`rnx2crx.c` lines 624-629): the value read into level 0, order 0; `stale` is
what the entry held before. -/
def ggetline_entry (stale : data_format) (v : Int × Int) : data_format :=
  { u := setAt stale.u 0 v.1, l := setAt stale.l 0 v.2, order := 0 }

end rnx2crx

namespace crx2rnx

/-- What becomes of a character of `ds` copied beyond the end of `s`
(`if(*s == '&') *s = ' ';`, `crx2rnx.c` line 596). -/
def repair_rest_char (c : Char) : Char :=
  if c = '&' then ' ' else c

/-- Model of `repair(s, ds)` (`crx2rnx.c` lines 585-599): the string held in
`s` after the call. -/
def repair : List Char → List Char → List Char
  | s, [] => s
  | [], d :: ds => (d :: ds).map repair_rest_char
  | c :: s, d :: ds =>
      (if d = ' ' then c else if d = '&' then ' ' else d) :: repair s ds

/-- MAX_DIFF_ORDER: maximum order of difference to be dealt with. -/
def MAX_DIFF_ORDER : Nat := 5

/-- The decompressor's `data_format` (`crx2rnx.c` lines 89-94). -/
structure data_format where
  u : Nat → Int
  l : Nat → Int
  order : Int
  arc_order : Int

/-- How a routine that may stop the program ends: normally, by `error_exit`
with an error number, or by returning 1 (the epoch is skipped). -/
inductive Ending (α : Type) where
  | ok : α → Ending α
  | error_exit : Nat → Ending α
  | skip_epoch : Ending α
  deriving DecidableEq

/-- The number read from one token of a data line into `y->u[0]`, `y->l[0]`
(`getdiff`, `crx2rnx.c` lines 647-657); `s1` is the token after an
initialization mark has been stepped over. -/
def getdiff_value (s1 : List Char) : Int × Int :=
  let length : Int := if s1.head? = some '-' then (s1.length : Int) - 1 else s1.length
  if length < 6 then (0, atol s1)
  else
    let l0 := atol (s1.drop (s1.length - 5))
    let u0 := atol (s1.take (s1.length - 5))
    (u0, if u0 < 0 then -l0 else l0)

/-- One field of the reading loop of `getdiff` (`crx2rnx.c` lines 625-659):
`s1` is the token of the field (empty for a blank field), `i0` the satellite's
entry of `sattbl`, `dy0` the entry of the previous epoch, `y` the entry being
filled, `skip` the option `-s`. -/
def getdiff_field (skip : Bool) (s1 : List Char) (i0 : Int) (dy0 y : data_format) :
    Ending data_format :=
  if s1 = [] then
    Ending.ok { y with arc_order := -1, order := -1 }
  else if s1.getD 1 NUL = '&' then
    let y := { y with order := -1, arc_order := atol s1 }
    if y.arc_order > (MAX_DIFF_ORDER : Int) then Ending.error_exit 7
    else
      let v := getdiff_value (s1.drop 2)
      Ending.ok { y with u := setAt y.u 0 v.1, l := setAt y.l 0 v.2 }
  else if i0 < 0 then
    if ¬ skip then Ending.error_exit 11 else Ending.skip_epoch
  else if dy0.arc_order < 0 then
    if ¬ skip then Ending.error_exit 12 else Ending.skip_epoch
  else
    let y := { y with order := dy0.order, arc_order := dy0.arc_order }
    let v := getdiff_value s1
    Ending.ok { y with u := setAt y.u 0 v.1, l := setAt y.l 0 v.2 }

/-- The body of the summation loops of `data()` for one `k` (`crx2rnx.c` lines
553-556 and 560-563); `a k`, `b k` are the parts of the previous epoch that are
added: `py0->u[k]`, `py0->l[k]` in the first loop and `py0->u[k1]`,
`py0->l[k1]` with `k1 = k+1` in the second. -/
def sum_step (a b : Nat → Int) (py1 : data_format) (k : Nat) : data_format :=
  let u1 := py1.u k + a k
  let l1 := py1.l k + b k
  { py1 with u := setAt py1.u (k + 1) (u1 + l1.tdiv 100000),
             l := setAt py1.l (k + 1) (l1.tmod 100000) }

/-- The summation of `data()` for one non-blank field (`crx2rnx.c` lines
549-565): `*py1` after it; `py0` is the entry `dy0[*i0][j]`. -/
def data_field (py0 py1 : data_format) : data_format :=
  if py1.order < py1.arc_order then
    let py1 := { py1 with order := py1.order + 1 }
    (List.range py1.order.toNat).foldl (sum_step py0.u py0.l) py1
  else
    (List.range py1.order.toNat).foldl
      (sum_step (fun k => py0.u (k + 1)) (fun k => py0.l (k + 1))) py1

/-- The sign adjustment at the head of `putfield` (`crx2rnx.c` lines 669-673)
on the pair `(y->u[i], y->l[i])`. -/
def putfield_adjust (u l : Int) : Int × Int :=
  if u < 0 ∧ l > 0 then (u + 1, l - 100000)
  else if u > 0 ∧ l < 0 then (u - 1, l + 100000)
  else (u, l)

/-- The 16 characters `putfield` appends for an adjusted pair `(u, l)` and the
two flag characters (`crx2rnx.c` lines 676-701). -/
def putfield_text (u l : Int) (flag0 flag1 : Char) : List Char :=
  if u ≠ 0 then
    let s := fmt_ld_w 8 u ++ [' '] ++ fmt_ld_p 5 (labs l) ++ [flag0, flag1]
    let s := back_set s 8 (back_get s 7)
    let s := back_set s 7 (back_get s 6)
    back_set s 6 '.'
  else
    let s := List.replicate 9 ' ' ++ fmt_ld_p 5 (labs l) ++ [flag0, flag1]
    let s :=
      if back_get s 7 ≠ '0' then
        let s := back_set s 8 (back_get s 7)
        let s := back_set s 7 (back_get s 6)
        if l < 0 then back_set s 9 '-' else s
      else if back_get s 6 ≠ '0' then
        let s := back_set s 7 (back_get s 6)
        back_set s 8 (if l < 0 then '-' else ' ')
      else
        back_set s 7 (if l < 0 then '-' else ' ')
    back_set s 6 '.'

/-- The range test of `putfield` (`crx2rnx.c` line 680), made only when the
adjusted upper part is not zero. -/
def putfield_overflow (u : Int) : Bool :=
  u ≠ 0 ∧ (u > 99999999 ∨ u < -9999999)

/-- Model of `putfield(y, flag)` (`crx2rnx.c` lines 664-702) without the
`--output_overflow` option: the entry after the sign adjustment and the text
appended, or `error_exit(17)` when the upper part is out of range. -/
def putfield (y : data_format) (flag0 flag1 : Char) : Ending (data_format × List Char) :=
  let i := y.order.toNat
  let a := putfield_adjust (y.u i) (y.l i)
  let y := { y with u := setAt y.u i a.1, l := setAt y.l i a.2 }
  if putfield_overflow a.1 then Ending.error_exit 17
  else Ending.ok (y, putfield_text a.1 a.2 flag0 flag1)

end crx2rnx

/-! ### RINEX observation fields -/

/-- The number a string of decimal digits denotes. -/
def dec_value (ds : List Char) : Nat :=
  ds.foldl (fun n c => n * 10 + (c.toNat - 48)) 0

/-- The text of a numeric observation field in F14.3 layout: `pad` blanks, a
minus sign when `neg`, the digits `ds` of the integer part, the decimal point
and the three decimals. -/
def f14_3 (pad : Nat) (neg : Bool) (ds : List Char) (f1 f2 f3 : Char) : List Char :=
  List.replicate pad ' ' ++ (if neg then ['-'] else []) ++ ds ++ ['.', f1, f2, f3]

/-- The value of such a field multiplied by 1000. -/
def f14_3_value (neg : Bool) (ds : List Char) (f1 f2 f3 : Char) : Int :=
  (if neg then -1 else 1) * ((dec_value ds : Int) * 1000 + (dec_value [f1, f2, f3] : Int))

/-- The text the decompressor's `putfield` writes for a field and its two flag
characters when the arc has just been initialized with the pair the
compressor's `read_value` read from `field`: order 0, the pair at level 0;
`stale` is what the entry held before. -/
def field_round_trip (stale : crx2rnx.data_format) (field : List Char) (flag0 flag1 : Char) :
    crx2rnx.Ending (List Char) :=
  match crx2rnx.putfield
      { stale with u := setAt stale.u 0 (rnx2crx.read_value field).1,
                   l := setAt stale.l 0 (rnx2crx.read_value field).2,
                   order := 0 } flag0 flag1 with
  | crx2rnx.Ending.ok r => crx2rnx.Ending.ok r.2
  | crx2rnx.Ending.error_exit n => crx2rnx.Ending.error_exit n
  | crx2rnx.Ending.skip_epoch => crx2rnx.Ending.skip_epoch

/-! ### One data arc followed through both programs -/

/-- What one epoch brings to a (satellite, observation type) slot whose field is
not blank: the satellite's entry `i0` of `sattbl` (both programs compute it
from the same two satellite lists), the value `(u, l)` the compressor read
from the field, and the contents the entries `dy1[i][j]` of the two programs
happened to hold before the epoch was read. -/
structure arc_epoch where
  i0 : Int
  value : Int × Int
  stale1 : rnx2crx.data_format
  stale2 : crx2rnx.data_format

namespace rnx2crx

/-- The tokens the compressor writes for the slot in consecutive epochs: the
entry saved at the end of an epoch (`dy0[i][j] = dy1[i][j]`, `rnx2crx.c` line
227) is the previous entry of the next one. -/
def arc_tokens (py0 : data_format) : List arc_epoch → List (List Char)
  | [] => []
  | e :: rest =>
      let r := data_field e.i0 py0 (ggetline_entry e.stale1 e.value)
      r.2 :: arc_tokens r.1 rest

end rnx2crx

namespace crx2rnx

/-- The entry of a field after `getdiff` has read its token and `data()` has
summed it up (no summation for a blank field). -/
def arc_step (skip : Bool) (tok : List Char) (i0 : Int) (dy0 stale : data_format) :
    Ending data_format :=
  match getdiff_field skip tok i0 dy0 stale with
  | Ending.ok y => if y.arc_order ≥ 0 then Ending.ok (data_field dy0 y) else Ending.ok y
  | Ending.error_exit n => Ending.error_exit n
  | Ending.skip_epoch => Ending.skip_epoch

/-- The entry as `putfield` leaves it (sign adjustment at the current order,
`crx2rnx.c` lines 669-673), which is what is saved for the next epoch
(`dy0[i][j] = dy1[i][j]`, line 242). -/
def saved_entry (y : data_format) : data_format :=
  if y.arc_order ≥ 0 then
    let i := y.order.toNat
    { y with u := setAt y.u i (putfield_adjust (y.u i) (y.l i)).1,
             l := setAt y.l i (putfield_adjust (y.u i) (y.l i)).2 }
  else y

/-- The entries the decompressor reconstructs for the slot in consecutive
epochs, each taken after the summation of `data()`; the run goes on past the
range test of `putfield`, as the program does for values that fit the RINEX
field (and for all values under `--output_overflow`). -/
def arc_entries (skip : Bool) (dy0 : data_format) :
    List (arc_epoch × List Char) → Ending (List data_format)
  | [] => Ending.ok []
  | (e, tok) :: rest =>
      match arc_step skip tok e.i0 dy0 e.stale2 with
      | Ending.ok y =>
          match arc_entries skip (saved_entry y) rest with
          | Ending.ok ys => Ending.ok (y :: ys)
          | Ending.error_exit n => Ending.error_exit n
          | Ending.skip_epoch => Ending.skip_epoch
      | Ending.error_exit n => Ending.error_exit n
      | Ending.skip_epoch => Ending.skip_epoch

end crx2rnx

/-- The relation between the entries the two programs have saved for the slot
at the end of an epoch: same order, target order 3, and level `k` of the
decompressor's entry carries the value of level `order - k` of the
compressor's entry. -/
def arc_inv (E : rnx2crx.data_format) (D : crx2rnx.data_format) : Prop :=
  D.arc_order = 3 ∧ D.order = E.order ∧ 0 ≤ E.order ∧ E.order ≤ 3 ∧
  ∀ k, k ≤ E.order.toNat →
    D.u k * 100000 + D.l k =
      E.u (E.order.toNat - k) * 100000 + E.l (E.order.toNat - k)

/-- A sample run of one slot: the value 234567.89123 (as the pair
`(234567, 89123)`) in two epochs, then increased by one unit of the last
digit, the satellite being new at the first epoch. -/
def sample_arc : List arc_epoch :=
  [ { i0 := -1, value := (234567, 89123),
      stale1 := { u := fun _ => 0, l := fun _ => 0, order := 0 },
      stale2 := { u := fun _ => 0, l := fun _ => 0, order := 0, arc_order := 0 } },
    { i0 := 0, value := (234567, 89123),
      stale1 := { u := fun _ => 0, l := fun _ => 0, order := 0 },
      stale2 := { u := fun _ => 0, l := fun _ => 0, order := 0, arc_order := 0 } },
    { i0 := 0, value := (234567, 89124),
      stale1 := { u := fun _ => 0, l := fun _ => 0, order := 0 },
      stale2 := { u := fun _ => 0, l := fun _ => 0, order := 0, arc_order := 0 } } ]

/-- A sample entry of the previous epoch in the decompressor: an arc of target
order 3 at order 0 holding the value `(10, 5)`. -/
def sample_prev_entry : crx2rnx.data_format :=
  { u := setAt (fun _ => 0) 0 10, l := setAt (fun _ => 0) 0 5, order := 0, arc_order := 3 }

/-- The entry the decompressor reaches from `sample_prev_entry` on the token
`-299995`: the parsed pair `(-2, -99995)` at level 0, summed up to order 1. -/
def sample_next_entry : crx2rnx.data_format :=
  crx2rnx.data_field sample_prev_entry
    { u := setAt (fun _ => 0) 0 (-2), l := setAt (fun _ => 0) 0 (-99995),
      order := 0, arc_order := 3 }

/-! ### Satellite tables -/

/-- The test `strncmp(a, b, C3) == 0` with `C3 = 3`: the two strings agree on
their first three characters (a string that ends earlier ends the comparison
there). -/
def strncmp3 (a b : List Char) : Bool :=
  a.take 3 == b.take 3

/-- The `i`-th 3-character satellite ID of a satellite list, the text at
`p + 3*i`. -/
def sat_id (p : List Char) (i : Nat) : List Char :=
  (p.drop (3 * i)).take 3

/-- The search loop of `set_sat_table` in both programs (`rnx2crx.c` lines
479-486, `crx2rnx.c` lines 496-502): `*sattbl` for the ID at `p_new`, looked up
in the previous list from `ps` (slot `j`) on, `n` slots remaining; `-1` when no
slot matches, else the first matching slot. -/
def find_sat (p_new : List Char) : List Char → Nat → Nat → Int
  | _, 0, _ => -1
  | ps, n + 1, j =>
      if strncmp3 p_new ps then (j : Int) else find_sat p_new (ps.drop 3) n (j + 1)

namespace rnx2crx

/-- EXIT_WARNING. -/
def EXIT_WARNING : Nat := 2

/-- The double-entry loop of `set_sat_table` (`rnx2crx.c` lines 488-494): does
one of the `n` IDs from `ps` on equal the ID at `p_new`. -/
def double_entry (p_new : List Char) : List Char → Nat → Bool
  | _, 0 => false
  | ps, n + 1 => if strncmp3 p_new ps then true else double_entry p_new (ps.drop 3) n

/-- The outer loop of `set_sat_table` (`rnx2crx.c` lines 478-497) from the ID
at `p_new` on, `n` IDs remaining: the table entries written, or the way the
routine ends on a double entry (`error_exit(13)` by default, return value 1
under `-s`). -/
def set_sat_table_loop (skip : Bool) (p_old : List Char) (nsat_old : Nat) :
    List Char → Nat → crx2rnx.Ending (List Int)
  | _, 0 => crx2rnx.Ending.ok []
  | p_new, n + 1 =>
      if double_entry p_new (p_new.drop 3) n then
        if ¬ skip then crx2rnx.Ending.error_exit 13 else crx2rnx.Ending.skip_epoch
      else
        match set_sat_table_loop skip p_old nsat_old (p_new.drop 3) n with
        | crx2rnx.Ending.ok t => crx2rnx.Ending.ok (find_sat p_new p_old nsat_old 0 :: t)
        | crx2rnx.Ending.error_exit e => crx2rnx.Ending.error_exit e
        | crx2rnx.Ending.skip_epoch => crx2rnx.Ending.skip_epoch

/-- Model of `set_sat_table(p_new, p_old, nsat_old, sattbl)` of the compressor
(`rnx2crx.c` lines 471-498) for the global `nsat`: `Ending.ok sattbl` when it
returns 0, `Ending.skip_epoch` when it returns 1. -/
def set_sat_table (skip : Bool) (nsat : Nat) (p_new p_old : List Char) (nsat_old : Nat) :
    crx2rnx.Ending (List Int) :=
  set_sat_table_loop skip p_old nsat_old p_new nsat

/-- What `main` does with the return value of `set_sat_table` (`rnx2crx.c`
lines 201-205): on return value 1 the output buffer is cleared, the exit
status becomes `EXIT_WARNING` and the loop continues with the next epoch
(`none`); otherwise the epoch goes on with the table. The state is the exit
status and the text in the output buffer. -/
def main_sat_table (skip : Bool) (nsat : Nat) (p_satlst p_satold : List Char) (nsat_old : Nat)
    (exit_status : Nat) (buf : List Char) :
    crx2rnx.Ending (Option (List Int) × Nat × List Char) :=
  match set_sat_table skip nsat p_satlst p_satold nsat_old with
  | crx2rnx.Ending.ok t => crx2rnx.Ending.ok (some t, exit_status, buf)
  | crx2rnx.Ending.skip_epoch => crx2rnx.Ending.ok (none, EXIT_WARNING, [])
  | crx2rnx.Ending.error_exit e => crx2rnx.Ending.error_exit e

end rnx2crx

namespace crx2rnx

/-- The loop of `set_sat_table` that sets `ntype_record[i]` for RINEX 3
(`crx2rnx.c` lines 490-493): the number of data types of the GNSS system named
by the first character of each ID, `error_exit(20)` when it is not defined. -/
def ntype_record_loop (ntype_gnss : Char → Int) : List Char → Nat → Ending (List Int)
  | _, 0 => Ending.ok []
  | ps, n + 1 =>
      if ntype_gnss (ps.headD NUL) < 0 then Ending.error_exit 20
      else
        match ntype_record_loop ntype_gnss (ps.drop 3) n with
        | Ending.ok r => Ending.ok (ntype_gnss (ps.headD NUL) :: r)
        | Ending.error_exit e => Ending.error_exit e
        | Ending.skip_epoch => Ending.skip_epoch

/-- The table loop of `set_sat_table` (`crx2rnx.c` lines 495-504). -/
def sattbl_loop (p_old : List Char) (nsat1 : Nat) : List Char → Nat → List Int
  | _, 0 => []
  | p_new, n + 1 => find_sat p_new p_old nsat1 0 :: sattbl_loop p_old nsat1 (p_new.drop 3) n

/-- Model of `set_sat_table(p_new, p_old, nsat1, sattbl)` of the decompressor
(`crx2rnx.c` lines 475-505) for the globals `rinex_version`, `ntype`,
`ntype_gnss` and `nsat`: the pair `(ntype_record, sattbl)`. -/
def set_sat_table (rinex_version : Int) (ntype : Int) (ntype_gnss : Char → Int) (nsat : Nat)
    (p_new p_old : List Char) (nsat1 : Nat) : Ending (List Int × List Int) :=
  match (if rinex_version = 2 then Ending.ok (List.replicate nsat ntype)
         else ntype_record_loop ntype_gnss p_new nsat) with
  | Ending.ok r => Ending.ok (r, sattbl_loop p_old nsat1 p_new nsat)
  | Ending.error_exit e => Ending.error_exit e
  | Ending.skip_epoch => Ending.skip_epoch

end crx2rnx

/-! ### The differences of an arc -/

/-- Backward difference of order `k` of a sequence at index `n`: order 0 is the
value itself, order `k+1` is the difference of order `k` at `n` minus the one at
`n-1`. -/
def back_diff (f : Nat → Int) : Nat → Nat → Int
  | 0, n => f n
  | k + 1, n => back_diff f k n - back_diff f k (n - 1)

/-- Spec-worded: the number the token of epoch `n` of an arc with values
`v 0, v 1, ...` carries when no re-initialization occurs: `v 0`, `v 1 - v 0`,
`v 2 - 2*v 1 + v 0`, and `v n - 3*v (n-1) + 3*v (n-2) - v (n-3)` from the
fourth epoch on. -/
def closed_form_difference (v : Nat → Int) : Nat → Int
  | 0 => v 0
  | 1 => v 1 - v 0
  | 2 => v 2 - 2 * v 1 + v 0
  | n + 3 => v (n + 3) - 3 * v (n + 2) + 3 * v (n + 1) - v n

namespace rnx2crx

/-- The entries of the slot at the end of consecutive epochs (the companion of
`arc_tokens`: the first components of the same steps). -/
def arc_states (py0 : data_format) : List arc_epoch → List data_format
  | [] => []
  | e :: rest =>
      let r := data_field e.i0 py0 (ggetline_entry e.stale1 e.value)
      r.1 :: arc_states r.1 rest

end rnx2crx

namespace crx2rnx

/-- EXIT_WARNING (`crx2rnx.c` line 68). -/
def EXIT_WARNING : Nat := 2

/-- The conversion `%d` of `sscanf`: white space is skipped, an optional sign
and at least one decimal digit are read; without a digit nothing is
converted. -/
def sscanf_d (s : List Char) : Option Int :=
  let t := s.dropWhile isspace
  let neg := decide (t.head? = some '-')
  let r := if t.head? = some '-' ∨ t.head? = some '+' then t.tail else t
  if (r.head?.map isdigit) = some true then
    some (if neg then -(atol_digits r 0 : Int) else (atol_digits r 0 : Int))
  else none

/-- The variables `read_clock` works on: the globals `clk_order`,
`clk_arc_order` and the targets `*yu`, `*yl` (level 0 of `clk1`). -/
structure clock_state where
  clk_order : Int
  clk_arc_order : Int
  yu : Int
  yl : Int

/-- The number read from the clock token (`read_clock`, `crx2rnx.c` lines
358-369); `p` is the token after an initialization mark has been stepped
over. -/
def read_clock_value (p : List Char) : Int × Int :=
  let p1 := if p.head? = some '-' then p.tail else p
  if p1.length < 9 then (0, atol p)
  else
    let yl := atol (p.drop (p.length - 8))
    let yu := atol (p.take (p.length - 8))
    (yu, if yu < 0 then -yl else yl)

/-- Model of `read_clock(dline, yu, yl)` (`crx2rnx.c` lines 344-371). -/
def read_clock (dline : List Char) (st : clock_state) : Ending clock_state :=
  if dline = [] then
    Ending.ok { st with clk_order := -1 }
  else if dline.getD 1 NUL = '&' then
    let clk_arc_order :=
      match sscanf_d dline with
      | some v => v
      | none => st.clk_arc_order
    if clk_arc_order > (MAX_DIFF_ORDER : Int) then Ending.error_exit 7
    else
      let v := read_clock_value (dline.drop 2)
      Ending.ok { clk_order := -1, clk_arc_order := clk_arc_order, yu := v.1, yl := v.2 }
  else
    let v := read_clock_value dline
    Ending.ok { st with yu := v.1, yl := v.2 }

/-- Model of `putfield(y, flag)` (`crx2rnx.c` lines 664-702) with the globals
`output_overflow` and `exit_status`: the entry after the sign adjustment, the
text appended and the exit status after the call, or `error_exit(17)`. -/
def putfield_with (output_overflow : Bool) (exit_status : Nat) (y : data_format)
    (flag0 flag1 : Char) : Ending (data_format × List Char × Nat) :=
  let i := y.order.toNat
  let a := putfield_adjust (y.u i) (y.l i)
  let y := { y with u := setAt y.u i a.1, l := setAt y.l i a.2 }
  if a.1 ≠ 0 then
    if a.1 > 99999999 ∨ a.1 < -9999999 then
      if output_overflow then
        Ending.ok (y, putfield_text a.1 a.2 flag0 flag1, EXIT_WARNING)
      else Ending.error_exit 17
    else Ending.ok (y, putfield_text a.1 a.2 flag0 flag1, exit_status)
  else Ending.ok (y, putfield_text a.1 a.2 flag0 flag1, exit_status)

end crx2rnx

/-- The sample run as a sequence of epochs: the value 234567.89123 in epochs 0
and 1, then increased by one unit of the last digit; the satellite is new at
epoch 0 and present afterwards. -/
def sample_epoch (n : Nat) : arc_epoch :=
  { i0 := if n = 0 then -1 else 0,
    value := (234567, if n < 2 then 89123 else 89124),
    stale1 := { u := fun _ => 0, l := fun _ => 0, order := 0 },
    stale2 := { u := fun _ => 0, l := fun _ => 0, order := 0, arc_order := 0 } }

/-! ### Clock offsets -/

/-- The conversion `%ld` of `sscanf`: white space is skipped, an optional sign
and at least one decimal digit are read; the result is the number and the text
that follows it, or nothing when there is no digit. -/
def scan_long (s : List Char) : Option (Int × List Char) :=
  let t := s.dropWhile isspace
  let neg := decide (t.head? = some '-')
  let r := if t.head? = some '-' ∨ t.head? = some '+' then t.tail else t
  if (r.head?.map isdigit) = some true then
    some (if neg then -(atol_digits r 0 : Int) else (atol_digits r 0 : Int), r.dropWhile isdigit)
  else none

/-- The call `sscanf(s, "%ld.%ld", &u, &l)`: the two targets afterwards; a
target whose conversion is not reached keeps its value `u0`, `l0`. -/
def sscanf_ld_dot_ld (s : List Char) (u0 l0 : Int) : Int × Int :=
  match scan_long s with
  | none => (u0, l0)
  | some (u, r) =>
      if r.head? = some '.' then
        match scan_long r.tail with
        | none => (u, l0)
        | some (l, _) => (u, l)
      else (u, l0)

/-- The `n` characters `strncpy(dst, src, n)` writes: the characters of `src`,
at most `n`, then NUL up to `n`. -/
def strncpy_chars (n : Nat) (src : List Char) : List Char :=
  src.take n ++ List.replicate (n - src.length) NUL

namespace rnx2crx

/-- The compressor's `clock_format` (`rnx2crx.c` lines 83-86). -/
structure clock_format where
  u : Nat → Int
  l : Nat → Int

/-- Model of `read_clock(p_clock, shift_clk)` (`rnx2crx.c` lines 448-461):
`p_clock` is the text of the epoch line from the clock column on (at least
three characters when the decimal point is found); the result is `clk1` and
`clk_order` after the call.  The digits after the point are moved one place to
the left over `shift_clk` characters and the point is stored behind them. -/
def read_clock (p_clock : List Char) (shift_clk : Nat) (clk_order : Int) (clk1 : clock_format) :
    crx2rnx.Ending (clock_format × Int) :=
  if p_clock.getD 2 NUL ≠ '.' then crx2rnx.Ending.error_exit 7
  else
    let s := p_clock.take 2 ++ strncpy_chars shift_clk (p_clock.drop 3) ++ ['.'] ++
      p_clock.drop (3 + shift_clk)
    let v := sscanf_ld_dot_ld s (clk1.u 0) (clk1.l 0)
    let l0 := if p_clock.getD 0 NUL = '-' ∨ p_clock.getD 1 NUL = '-' then -v.2 else v.2
    crx2rnx.Ending.ok
      ({ u := setAt clk1.u 0 v.1, l := setAt clk1.l 0 l0 },
        if clk_order < (ARC_ORDER : Int) then clk_order + 1 else clk_order)

/-- The body of the loop of `process_clock` for one `i`
(`rnx2crx.c` lines 466-467). -/
def process_clock_step (clk0 : clock_format) (clk1 : clock_format) (i : Nat) : clock_format :=
  { u := setAt clk1.u (i + 1) (clk1.u i - clk0.u i),
    l := setAt clk1.l (i + 1) (clk1.l i - clk0.l i) }

/-- Model of `process_clock()` (`rnx2crx.c` lines 463-469): `clk1` after the
call. -/
def process_clock (clk_order : Int) (clk1 clk0 : clock_format) : clock_format :=
  (List.range clk_order.toNat).foldl (process_clock_step clk0) clk1

/-- Model of `put_clock(du, dl, c_order)` (`rnx2crx.c` lines 704-720): the text
appended at `p_buff`. -/
def put_clock (du dl : Int) (c_order : Int) : List Char :=
  let n := put_clock_norm du dl
  (if c_order = 0 then fmt_ld ARC_ORDER ++ ['&'] else []) ++
    (if n.1 = 0 then fmt_ld n.2 ++ ['\n']
     else fmt_ld n.1 ++ fmt_ld_p 8 (labs n.2) ++ ['\n'])

/-- The variables of `main` that `initialize_all` resets. -/
structure epoch_state where
  oldline : List Char
  nsat_old : Nat
  clk_order : Int
  ep_count : Int

/-- Model of `initialize_all(oldline, &nsat_old, count)` (`rnx2crx.c` lines
402-407). -/
def initialize_all (count : Int) : epoch_state :=
  { oldline := ['&'], nsat_old := 0, clk_order := -1, ep_count := count }

/-- The periodic reset of `main` (`rnx2crx.c` line 189):
`if( ep_reset > 0 && ++ep_count > ep_reset ) initialize_all(oldline,&nsat_old,1);`. -/
def main_ep_reset (ep_reset : Int) (st : epoch_state) : epoch_state :=
  if ep_reset > 0 then
    if st.ep_count + 1 > ep_reset then initialize_all 1
    else { st with ep_count := st.ep_count + 1 }
  else st

/-- The clock offset of one observation epoch in `main` (`rnx2crx.c` lines
180-184, 189 and 212-217), for an epoch whose satellite records are read
without error: `p_clock` is the text of the epoch line from the clock column on
(empty when the line ends before it).  The result is the state and `clk1`
after the epoch's clock line is written, and the text of that line. -/
def main_clock (ep_reset : Int) (shift_clk : Nat) (p_clock : List Char) (st : epoch_state)
    (clk1 clk0 : clock_format) : crx2rnx.Ending (epoch_state × clock_format × List Char) :=
  match (if p_clock ≠ [] then read_clock p_clock shift_clk st.clk_order clk1
         else crx2rnx.Ending.ok (clk1, -1)) with
  | crx2rnx.Ending.ok r =>
      let st := main_ep_reset ep_reset { st with clk_order := r.2 }
      if st.clk_order > -1 then
        let clk1 := if st.clk_order > 0 then process_clock st.clk_order r.1 clk0 else r.1
        crx2rnx.Ending.ok
          (st, clk1, put_clock (clk1.u st.clk_order.toNat) (clk1.l st.clk_order.toNat)
            st.clk_order)
      else crx2rnx.Ending.ok (st, r.1, ['\n'])
  | crx2rnx.Ending.error_exit n => crx2rnx.Ending.error_exit n
  | crx2rnx.Ending.skip_epoch => crx2rnx.Ending.skip_epoch

end rnx2crx

namespace crx2rnx

/-- The decompressor's `clock_format` (`crx2rnx.c` lines 83-86). -/
structure clock_format where
  u : Nat → Int
  l : Nat → Int

/-- The body of the summation loops of `process_clock` for one `i`
(`crx2rnx.c` lines 381-384 and 388-391); `a i`, `b i` are the parts of the
previous epoch that are added. -/
def clock_sum_step (a b : Nat → Int) (clk1 : clock_format) (i : Nat) : clock_format :=
  let u1 := clk1.u i + a i
  let l1 := clk1.l i + b i
  { u := setAt clk1.u (i + 1) (u1 + l1.tdiv 100000000),
    l := setAt clk1.l (i + 1) (l1.tmod 100000000) }

/-- Model of `process_clock()` (`crx2rnx.c` lines 373-395): `clk1` and
`clk_order` after the call. -/
def process_clock (clk_order clk_arc_order : Int) (clk1 clk0 : clock_format) :
    clock_format × Int :=
  if clk_order < clk_arc_order then
    ((List.range (clk_order + 1).toNat).foldl (clock_sum_step clk0.u clk0.l) clk1, clk_order + 1)
  else
    ((List.range clk_order.toNat).foldl
      (clock_sum_step (fun i => clk0.u (i + 1)) (fun i => clk0.l (i + 1))) clk1, clk_order)

/-- The sign adjustment at the head of `print_clock` (`crx2rnx.c` lines
708-712). -/
def print_clock_adjust (yu yl : Int) : Int × Int :=
  if yu < 0 ∧ yl > 0 then (yu + 1, yl - 100000000)
  else if yu > 0 ∧ yl < 0 then (yu - 1, yl + 100000000)
  else (yu, yl)

/-- Model of `print_clock(yu, yl, shift_clk)` (`crx2rnx.c` lines 704-742) with
the globals `output_overflow` and `exit_status`: the text appended and the exit
status after the call, or `error_exit(17)`. -/
def print_clock (output_overflow : Bool) (exit_status : Nat) (yu yl : Int) (shift_clk : Nat) :
    Ending (List Char × Nat) :=
  let a := print_clock_adjust yu yl
  let sgn : Int := if a.2 < 0 then -1 else 1
  let tmp := fmt_ld_p (shift_clk + 1) (a.1 * 10 + sgn)
  let n := tmp.length - 1
  let tmp := tmp.take n
  let s := [' ', ' ', '.'] ++ tmp.drop (n - shift_clk)
  let rest := fmt_ld_p 8 (labs a.2) ++ ['\n']
  if n > shift_clk then
    let s := back_set s (shift_clk + 2) (tmp.getD (n - shift_clk - 1) NUL)
    if n > shift_clk + 1 then
      let s := back_set s (shift_clk + 3) (tmp.getD (n - shift_clk - 2) NUL)
      if n > shift_clk + 2 then
        if output_overflow then Ending.ok (s ++ rest, EXIT_WARNING) else Ending.error_exit 17
      else Ending.ok (s ++ rest, exit_status)
    else Ending.ok (s ++ rest, exit_status)
  else Ending.ok (s ++ rest, exit_status)

/-- The clock offset of one epoch in `main` (`crx2rnx.c` lines 200, 207 and
213-224): `dline` is the line that follows the epoch line, `st` holds
`clk_order`, `clk_arc_order` (its `yu`, `yl` are not read).  The result is the
state and `clk1` afterwards and the text `print_clock` appends, if any. -/
def main_clock (dline : List Char) (shift_clk : Nat) (st : clock_state)
    (clk1 clk0 : clock_format) : Ending (clock_state × clock_format × Option (List Char)) :=
  match read_clock dline { st with yu := clk1.u 0, yl := clk1.l 0 } with
  | Ending.ok st1 =>
      let clk1 : clock_format := { u := setAt clk1.u 0 st1.yu, l := setAt clk1.l 0 st1.yl }
      let r := if dline ≠ [] then process_clock st1.clk_order st1.clk_arc_order clk1 clk0
               else (clk1, st1.clk_order)
      let st2 := { st1 with clk_order := r.2 }
      if r.2 ≥ 0 then
        match print_clock false 0 (r.1.u r.2.toNat) (r.1.l r.2.toNat) shift_clk with
        | Ending.ok t => Ending.ok (st2, r.1, some t.1)
        | Ending.error_exit n => Ending.error_exit n
        | Ending.skip_epoch => Ending.skip_epoch
      else Ending.ok (st2, r.1, none)
  | Ending.error_exit n => Ending.error_exit n
  | Ending.skip_epoch => Ending.skip_epoch

end crx2rnx

/-- The text of a clock-offset field: `pad` blanks, a minus sign when `neg`,
the digits `ip` of the integer part, the decimal point, and the fractional
digits in two parts: the `fa` that the compressor moves in front of the point
(one digit for RINEX 2, four for RINEX 3) and the last eight, `fb`. -/
def clock_field (pad : Nat) (neg : Bool) (ip fa fb : List Char) : List Char :=
  List.replicate pad ' ' ++ (if neg then ['-'] else []) ++ ip ++ ['.'] ++ fa ++ fb

/-- The value of such a field with the decimal point taken out: the offset
multiplied by `10^9` (RINEX 2) or `10^12` (RINEX 3). -/
def clock_field_value (neg : Bool) (ip fa fb : List Char) : Int :=
  (if neg then -1 else 1) * (dec_value (ip ++ fa ++ fb) : Int)

/-- The characters the decompressor prints for the clock offset when it reads
the line the compressor wrote for the first appearance of `field` (both
programs in their initial clock state, no periodic reset). -/
def clock_round_trip (shift_clk : Nat) (field : List Char) : crx2rnx.Ending (Option (List Char)) :=
  match rnx2crx.main_clock 0 shift_clk field
      { oldline := ['&'], nsat_old := 0, clk_order := -1, ep_count := 0 }
      { u := fun _ => 0, l := fun _ => 0 } { u := fun _ => 0, l := fun _ => 0 } with
  | crx2rnx.Ending.ok r =>
      match crx2rnx.main_clock (r.2.2.take (r.2.2.length - 1)) shift_clk
          { clk_order := 0, clk_arc_order := 0, yu := 0, yl := 0 }
          { u := fun _ => 0, l := fun _ => 0 } { u := fun _ => 0, l := fun _ => 0 } with
      | crx2rnx.Ending.ok t => crx2rnx.Ending.ok t.2.2
      | crx2rnx.Ending.error_exit n => crx2rnx.Ending.error_exit n
      | crx2rnx.Ending.skip_epoch => crx2rnx.Ending.skip_epoch
  | crx2rnx.Ending.error_exit n => crx2rnx.Ending.error_exit n
  | crx2rnx.Ending.skip_epoch => crx2rnx.Ending.skip_epoch

/-! ### Header lines and epoch lines -/

/-- The test `strncmp(a, b, n) == 0` on the memory seen from the two pointers:
the first `n` characters agree, the comparison ending early at a NUL common to
both. -/
def strncmp_eq : Nat → List Char → List Char → Bool
  | 0, _, _ => true
  | n + 1, a, b =>
      if a.headD NUL ≠ b.headD NUL then false
      else if a.headD NUL = NUL then true
      else strncmp_eq n a.tail b.tail

/-- The memory seen from `&line[k]` when the buffer holds the string `line`,
its terminating NUL, and behind it whatever the buffer held before
(`stale`). -/
def mem_from (line stale : List Char) (k : Nat) : List Char :=
  (line ++ NUL :: stale).drop k

/-- `printf` with `"%-<w>.<w>s"`: the string cut to `w` characters and filled
with blanks on the right. -/
def fmt_s_left (w : Nat) (s : List Char) : List Char :=
  s.take w ++ List.replicate (w - s.length) ' '

/-- The blank chopping of a line, the macro `CHOP_BLANK` of the decompressor
and the same loop in the compressor
(`while(*--p == ' ' && p>line){}; *++p = '\0';`): trailing blanks are cut,
but the first character of the line stays whatever it is. -/
def CHOP_BLANK (s : List Char) : List Char :=
  match s with
  | [] => []
  | c :: r => c :: chop_blank r

/-- The DOS line end: `if( *(p-1) == '\r' ) p--;` in front of the line
feed. -/
def chop_cr (s : List Char) : List Char :=
  if s.getLast? = some '\r' then s.dropLast else s

namespace rnx2crx

/-- MAXSAT: maximum number of satellites observed at one epoch. -/
def MAXSAT : Nat := 100

/-- MAXTYPE: maximum number of data types for a GNSS system. -/
def MAXTYPE : Nat := 100

/-- EXIT_FAILURE (`rnx2crx.c` line 59). -/
def EXIT_FAILURE : Nat := 1

/-- CRX_VERSION1: CRINEX version for RINEX 2.x. -/
def CRX_VERSION1 : List Char := "1.0".toList

/-- CRX_VERSION2: CRINEX version for RINEX 3.x. -/
def CRX_VERSION2 : List Char := "3.0".toList

/-- The branch `error_no == 15` of `error_exit` (`rnx2crx.c` lines 827-832):
the text written to `stderr` and the exit status. -/
def error_exit_15 (string : List Char) : List Char × Nat :=
  ("The first line is :\n".toList ++ string ++ "\n\n".toList ++
    "ERROR : The file format is not valid. This program is applicable\n".toList ++
    "        only to RINEX Version 2/3 Observation file.\n".toList, EXIT_FAILURE)

/-- The first line in `header()` (`rnx2crx.c` lines 306-315): `line` is the
line as `read_chk_line` leaves it, `stale` what the buffer holds behind its
terminator.  The result is `rinex_version` and the first line written to the
output. -/
def header_first (line stale : List Char) : crx2rnx.Ending (Int × List Char) :=
  if strncmp_eq 20 (mem_from line stale 60) "RINEX VERSION / TYPE".toList = false ∨
      strncmp_eq 1 (mem_from line stale 20) "O".toList = false then
    crx2rnx.Ending.error_exit 15
  else
    let rinex_version := atol line
    if rinex_version = 2 then
      crx2rnx.Ending.ok (rinex_version,
        fmt_s_left 20 CRX_VERSION1 ++ fmt_s_left 40 "COMPACT RINEX FORMAT".toList ++
          fmt_s_left 20 "CRINEX VERS   / TYPE".toList ++ ['\n'])
    else if rinex_version = 3 then
      crx2rnx.Ending.ok (rinex_version,
        fmt_s_left 20 CRX_VERSION2 ++ fmt_s_left 40 "COMPACT RINEX FORMAT".toList ++
          fmt_s_left 20 "CRINEX VERS   / TYPE".toList ++ ['\n'])
    else crx2rnx.Ending.error_exit 15

/-- One further header line in `header()` (`rnx2crx.c` lines 320-328): `ntype`
and `ntype_gnss` after the line. -/
def header_line (line stale : List Char) (ntype : Int) (ntype_gnss : Char → Int) :
    crx2rnx.Ending (Int × (Char → Int)) :=
  if strncmp_eq 19 (mem_from line stale 60) "# / TYPES OF OBSERV".toList = true ∧
      (mem_from line stale 5).headD NUL ≠ ' ' then
    crx2rnx.Ending.ok (atol line, ntype_gnss)
  else if strncmp_eq 19 (mem_from line stale 60) "SYS / # / OBS TYPES".toList = true then
    let g : Char → Int :=
      if line.headD NUL ≠ ' ' then
        fun c => if c = line.headD NUL then atol (mem_from line stale 3) else ntype_gnss c
      else ntype_gnss
    if g (line.headD NUL) > (MAXTYPE : Int) then crx2rnx.Ending.error_exit 16
    else crx2rnx.Ending.ok (ntype, g)
  else crx2rnx.Ending.ok (ntype, ntype_gnss)

/-- The RINEX 2 branch of the loop of `put_event_data` for one line that
follows an event record (`rnx2crx.c` lines 423-427): `ntype` after the
line. -/
def put_event_line (line stale : List Char) (ntype : Int) : crx2rnx.Ending Int :=
  if strncmp_eq 19 (mem_from line stale 60) "# / TYPES OF OBSERV".toList = true ∧
      (mem_from line stale 5).headD NUL ≠ ' ' then
    if atol line > (MAXTYPE : Int) then crx2rnx.Ending.error_exit 16
    else crx2rnx.Ending.ok (atol line)
  else crx2rnx.Ending.ok ntype

/-- Model of `get_next_epoch(p_line)` for a line that ends with a line feed
(`rnx2crx.c` lines 354-377): `text` is what `fgets` read in front of the line
feed (not empty).  The result is the line as the caller gets it (return value
1), `error_exit(6)`, or, under `-s`, the skip to the next epoch (return value
2). -/
def get_next_epoch (rinex_version : Int) (skip_strange_epoch : Bool) (text : List Char) :
    crx2rnx.Ending (List Char) :=
  if rinex_version = 2 then
    let p_line := CHOP_BLANK (chop_cr text)
    if p_line.length < 29 ∨ p_line.getD 0 NUL ≠ ' ' ∨ p_line.getD 27 NUL ≠ ' ' ∨
        isdigit (p_line.getD 28 NUL) = false ∨
        (p_line.getD 29 NUL ≠ ' ' ∧ p_line.getD 29 NUL ≠ NUL) then
      if ¬ skip_strange_epoch then crx2rnx.Ending.error_exit 6 else crx2rnx.Ending.skip_epoch
    else crx2rnx.Ending.ok p_line
  else
    let p_line := chop_cr text
    if p_line.getD 0 NUL ≠ '>' then
      if ¬ skip_strange_epoch then crx2rnx.Ending.error_exit 6 else crx2rnx.Ending.skip_epoch
    else crx2rnx.Ending.ok (p_line ++ List.replicate (41 - p_line.length) ' ')

/-- The test of the event flag in `main` (`rnx2crx.c` line 174):
`atoi(strncpy(dummy,p_event,C1)) > 1`, the line then being handed to
`put_event_data`. -/
def event_flag_test (rinex_version : Int) (newline : List Char) : Bool :=
  decide (atol [newline.getD (if rinex_version = 2 then 28 else 31) NUL] > 1)

/-- The head of the epoch loop of `main` for one line (`rnx2crx.c` lines
170-187): `none` when the line is handed to `put_event_data`, otherwise the
number of satellites `nsat` of the observation epoch. -/
def main_epoch_nsat (rinex_version : Int) (skip_strange_epoch : Bool) (text : List Char)
    (clk_order : Int) (clk1 : clock_format) : crx2rnx.Ending (Option Int) :=
  match get_next_epoch rinex_version skip_strange_epoch text with
  | crx2rnx.Ending.ok newline =>
      if event_flag_test rinex_version newline then crx2rnx.Ending.ok none
      else
        let p_clock := if rinex_version = 2 then 68 else 41
        let shift_clk := if rinex_version = 2 then 1 else 4
        match (if newline.length > p_clock then
                 match read_clock (newline.drop p_clock) shift_clk clk_order clk1 with
                 | crx2rnx.Ending.ok _ => crx2rnx.Ending.ok (newline.take p_clock)
                 | crx2rnx.Ending.error_exit n => crx2rnx.Ending.error_exit n
                 | crx2rnx.Ending.skip_epoch => crx2rnx.Ending.skip_epoch
               else crx2rnx.Ending.ok newline) with
        | crx2rnx.Ending.ok newline =>
            let nsat := atol (newline.drop (if rinex_version = 2 then 29 else 32))
            if nsat > (MAXSAT : Int) then crx2rnx.Ending.error_exit 8
            else crx2rnx.Ending.ok (some nsat)
        | crx2rnx.Ending.error_exit n => crx2rnx.Ending.error_exit n
        | crx2rnx.Ending.skip_epoch => crx2rnx.Ending.skip_epoch
  | crx2rnx.Ending.error_exit n => crx2rnx.Ending.error_exit n
  | crx2rnx.Ending.skip_epoch => crx2rnx.Ending.skip_epoch

end rnx2crx

namespace crx2rnx

/-- MAXTYPE: maximum number of data types. -/
def MAXTYPE : Nat := 100

/-- One header line of the RINEX header in `header()` (`crx2rnx.c` lines
331-340), after `CHOP_BLANK`: `ntype` and `ntype_gnss` after the line. -/
def header_line (line stale : List Char) (ntype : Int) (ntype_gnss : Char → Int) :
    Ending (Int × (Char → Int)) :=
  if strncmp_eq 19 (mem_from line stale 60) "# / TYPES OF OBSERV".toList = true ∧
      (mem_from line stale 5).headD NUL ≠ ' ' then
    Ending.ok (atol line, ntype_gnss)
  else if strncmp_eq 19 (mem_from line stale 60) "SYS / # / OBS TYPES".toList = true then
    let g : Char → Int :=
      if line.headD NUL ≠ ' ' then
        fun c => if c = line.headD NUL then atol (mem_from line stale 3) else ntype_gnss c
      else ntype_gnss
    if g (line.headD NUL) > (MAXTYPE : Int) then Ending.error_exit 16
    else Ending.ok (ntype, g)
  else Ending.ok (ntype, ntype_gnss)

/-- The test of the reconstructed epoch line in `main` (`crx2rnx.c` lines
187-193) with what `skip_to_next` does first (line 441): the outcome (`ok` when
the line passes, `skip_epoch` when `skip_to_next` is entered) and
`exit_status` afterwards.  The option `-s` (the global `skip`, here `_skip`) is
not consulted on this path. -/
def main_epoch_line (rinex_version : Int) (_skip : Bool) (exit_status : Nat) (line : List Char) :
    Ending Unit × Nat :=
  let offset := if rinex_version = 2 then 3 else 6
  let ep_top_to := if rinex_version = 2 then ' ' else '>'
  if line.getD 0 NUL ≠ ep_top_to ∨ line.length < 26 + offset ∨
      line.getD (offset + 23) NUL ≠ ' ' ∨ line.getD (offset + 24) NUL ≠ ' ' ∨
      isdigit (line.getD (offset + 25) NUL) = false then
    (Ending.skip_epoch, EXIT_WARNING)
  else (Ending.ok (), exit_status)

/-- One blank data field in `data()` (`crx2rnx.c` lines 569-576): the text
appended and the row `flag[i]` afterwards; `flag` is the row after the repair
step, held as the array it is. -/
def blank_field (crinex_version : Int) (flag : Nat → Char) (j : Nat) :
    List Char × (Nat → Char) :=
  if crinex_version = 1 then
    (List.replicate 16 ' ', fun i => if i = j * 2 ∨ i = j * 2 + 1 then ' ' else flag i)
  else
    (List.replicate 14 ' ' ++ [flag (j * 2), flag (j * 2 + 1)], flag)

end crx2rnx

namespace crx2rnx

/-- What the field loop of `data()` works on for one satellite `i`: the row
`dy1[i]`, the row `flag[i]` (after the repair step, lines 532-543), the text in
`out_buff` up to `p_buff`, and `exit_status`. -/
structure record_state where
  dy1 : Nat → data_format
  flag : Nat → Char
  out_buff : List Char
  exit_status : Nat

/-- The end of an output line in `data()` (`crx2rnx.c` lines 577-580), after
field `j`: `while(*--p_buff == ' '){}; p_buff++; *p_buff++ = '\n';` when
`(j+1) == ntype || (rinex_version==2 && (j+1)%5 == 0)`. -/
def data_line_end (rinex_version ntype : Int) (j : Nat) (out_buff : List Char) : List Char :=
  if ((j : Int) + 1 = ntype) ∨ (rinex_version = 2 ∧ (j + 1) % 5 = 0) then
    chop_blank out_buff ++ ['\n']
  else out_buff

/-- One pass of the field loop of `data()` (`crx2rnx.c` lines 546-581) for
field `j`; `dy0` is the row `dy0[*i0]` of the previous epoch. -/
def data_put (crinex_version rinex_version : Int) (output_overflow : Bool) (ntype : Int)
    (dy0 : Nat → data_format) (st : record_state) (j : Nat) : Ending record_state :=
  if (st.dy1 j).arc_order ≥ 0 then
    match putfield_with output_overflow st.exit_status (data_field (dy0 j) (st.dy1 j))
        (st.flag (j * 2)) (st.flag (j * 2 + 1)) with
    | Ending.ok r =>
        Ending.ok
          { st with
            dy1 := fun k => if k = j then r.1 else st.dy1 k,
            out_buff := data_line_end rinex_version ntype j (st.out_buff ++ r.2.1),
            exit_status := r.2.2 }
    | Ending.error_exit n => Ending.error_exit n
    | Ending.skip_epoch => Ending.skip_epoch
  else
    Ending.ok
      { st with
        flag := (blank_field crinex_version st.flag j).2,
        out_buff := data_line_end rinex_version ntype j
          (st.out_buff ++ (blank_field crinex_version st.flag j).1) }

/-- The field loop of `data()` over the fields `js` (`for(j=0 ; j<ntype ;
j++)`, `crx2rnx.c` line 546). -/
def data_fields (crinex_version rinex_version : Int) (output_overflow : Bool) (ntype : Int)
    (dy0 : Nat → data_format) : List Nat → record_state → Ending record_state
  | [], st => Ending.ok st
  | j :: js, st =>
      match data_put crinex_version rinex_version output_overflow ntype dy0 st j with
      | Ending.ok st1 =>
          data_fields crinex_version rinex_version output_overflow ntype dy0 js st1
      | Ending.error_exit n => Ending.error_exit n
      | Ending.skip_epoch => Ending.skip_epoch

/-- The globals `data()` reads and writes: `ntype`, the entries `dy1`, the
flags `flag` (each row as the repair step of its satellite leaves it), the text
in `out_buff` up to `p_buff`, and `exit_status`. -/
structure data_state where
  ntype : Int
  dy1 : Nat → Nat → data_format
  flag : Nat → Nat → Char
  out_buff : List Char
  exit_status : Nat

/-- One pass of the satellite loop of `data()` (`crx2rnx.c` lines 523-582) for
satellite `i`: for RINEX 3 `ntype` is set to `ntype_record[i]` and the
satellite ID is copied from the list (`strncpy(p_buff,p,C3)`); then the fields
are written.  `dy0` is indexed by the entry of `sattbl`. -/
def data_record (crinex_version rinex_version : Int) (output_overflow : Bool)
    (ntype_record : Nat → Int) (p_sat_lst : List Char) (sattbl : Nat → Int)
    (dy0 : Int → Nat → data_format) (st : data_state) (i : Nat) : Ending data_state :=
  let ntype := if rinex_version = 3 then ntype_record i else st.ntype
  let out_buff :=
    if rinex_version = 3 then st.out_buff ++ strncpy_chars 3 (p_sat_lst.drop (3 * i))
    else st.out_buff
  match data_fields crinex_version rinex_version output_overflow ntype (dy0 (sattbl i))
      (List.range ntype.toNat)
      { dy1 := st.dy1 i, flag := st.flag i, out_buff := out_buff,
        exit_status := st.exit_status } with
  | Ending.ok r =>
      Ending.ok
        { ntype := ntype,
          dy1 := fun k => if k = i then r.dy1 else st.dy1 k,
          flag := fun k => if k = i then r.flag else st.flag k,
          out_buff := r.out_buff,
          exit_status := r.exit_status }
  | Ending.error_exit n => Ending.error_exit n
  | Ending.skip_epoch => Ending.skip_epoch

end crx2rnx

namespace rnx2crx

/-- The test of the periodic reset in `main` (`rnx2crx.c` line 189):
`ep_reset > 0 && ++ep_count > ep_reset`, on the state the epoch arrives with. -/
def ep_reset_fires (ep_reset : Int) (st : epoch_state) : Bool :=
  decide (ep_reset > 0 ∧ st.ep_count + 1 > ep_reset)

/-- Line 189 of `main` applied `n` times to the initial values of the globals
(`rnx2crx.c` lines 95, 99, 116 and 117): the counter `ep_count` the epoch
numbered `n + 1` arrives with in a run of consecutive observation epochs. -/
def ep_run (ep_reset : Int) : Nat → epoch_state
  | 0 => { oldline := ['&'], nsat_old := 0, clk_order := -1, ep_count := 0 }
  | n + 1 => main_ep_reset ep_reset (ep_run ep_reset n)

end rnx2crx

/-- A sample arc with quadratic values: the value
`23456789.123 + 1.234 n + 0.007 n^2` in units of the last digit, split at
`10^5` as `read_value` splits it; the satellite is new at epoch 0 and present
afterwards. -/
def quadratic_epoch (n : Nat) : arc_epoch :=
  { i0 := if n = 0 then -1 else 0,
    value := ((23456789123 + 1234 * (n : Int) + 7 * (n : Int) ^ 2) / 100000,
      (23456789123 + 1234 * (n : Int) + 7 * (n : Int) ^ 2) % 100000),
    stale1 := { u := fun _ => 0, l := fun _ => 0, order := 0 },
    stale2 := { u := fun _ => 0, l := fun _ => 0, order := 0, arc_order := 0 } }

/-! ### File names -/

/-- MAXCLM: maximum columns in one line (`rnx2crx.c` line 75, `crx2rnx.c`
line 79). -/
def MAXCLM : Nat := 2048

/-- `toupper` of the C locale. -/
def toupper (c : Char) : Char :=
  if 97 ≤ c.toNat ∧ c.toNat ≤ 122 then Char.ofNat (c.toNat - 32) else c

/-- The C string a buffer holds: the characters in front of the first NUL. -/
def c_string (buf : List Char) : List Char :=
  buf.takeWhile (fun c => c ≠ NUL)

/-- `strrchr(s, c)` for a character `c` other than NUL: the index of the last
`c` in the string, nothing (`NULL`) when there is none. -/
def strrchr : List Char → Char → Option Nat
  | [], _ => none
  | x :: xs, c =>
      match strrchr xs c with
      | some i => some (i + 1)
      | none => if x = c then some 0 else none

namespace rnx2crx

/-- The file names in `parse_args` (`rnx2crx.c` lines 243, 260 and 267-286)
for a single file argument `arg` and the default output (`nfout == 0`): the
name of the output file, or the error the name is refused with (the errors of
opening the files are left out).  `infile` is the buffer `strncpy` filled, the
name padded with NULs up to `MAXCLM` characters, so that `*(p+3)` and `*(p+4)`
behind a short extension read NUL. -/
def parse_args_outfile (arg : List Char) : crx2rnx.Ending (List Char) :=
  let infile := strncpy_chars MAXCLM arg
  if (c_string infile).length = MAXCLM then crx2rnx.Ending.error_exit 14
  else
    match strrchr (c_string infile) '.' with
    | none => crx2rnx.Ending.error_exit 4
    | some p =>
        if infile.getD (p + 4) NUL ≠ NUL ∨
            (toupper (infile.getD (p + 3) NUL) ≠ 'O' ∧
              c_string (infile.drop (p + 1)) ≠ "RNX".toList ∧
              c_string (infile.drop (p + 1)) ≠ "rnx".toList) then
          crx2rnx.Ending.error_exit 4
        else
          let outfile := c_string infile
          if outfile.getD (p + 3) NUL = 'o' then crx2rnx.Ending.ok (outfile.set (p + 3) 'd')
          else if outfile.getD (p + 3) NUL = 'O' then
            crx2rnx.Ending.ok (outfile.set (p + 3) 'D')
          else if outfile.drop (p + 1) = "rnx".toList then
            crx2rnx.Ending.ok (outfile.take (p + 1) ++ "crx".toList)
          else if outfile.drop (p + 1) = "RNX".toList then
            crx2rnx.Ending.ok (outfile.take (p + 1) ++ "CRX".toList)
          else crx2rnx.Ending.ok outfile

end rnx2crx

namespace crx2rnx

/-- The file names in `fileopen` (`crx2rnx.c` lines 259, 279 and 286-305) for
a single file argument `arg` and the default output (`nfout == 0`): the name of
the output file, or the error the name is refused with (the errors of opening
the files are left out). -/
def fileopen_outfile (arg : List Char) : Ending (List Char) :=
  let infile := strncpy_chars MAXCLM arg
  if (c_string infile).length = MAXCLM then Ending.error_exit 14
  else
    match strrchr (c_string infile) '.' with
    | none => Ending.error_exit 3
    | some p =>
        if infile.getD (p + 4) NUL ≠ NUL ∨
            (toupper (infile.getD (p + 3) NUL) ≠ 'D' ∧
              c_string (infile.drop (p + 1)) ≠ "CRX".toList ∧
              c_string (infile.drop (p + 1)) ≠ "crx".toList) then
          Ending.error_exit 3
        else
          let outfile := c_string infile
          if outfile.getD (p + 3) NUL = 'd' then Ending.ok (outfile.set (p + 3) 'o')
          else if outfile.getD (p + 3) NUL = 'D' then Ending.ok (outfile.set (p + 3) 'O')
          else if outfile.drop (p + 1) = "crx".toList then
            Ending.ok (outfile.take (p + 1) ++ "rnx".toList)
          else if outfile.drop (p + 1) = "CRX".toList then
            Ending.ok (outfile.take (p + 1) ++ "RNX".toList)
          else Ending.ok outfile

end crx2rnx

namespace rnx2crx

/-- The event branch of `main` (`rnx2crx.c` lines 174-178) on the variables of
`epoch_state`: once `put_event_data` has passed the event record through,
`initialize_all(oldline,&nsat_old,0)` is called and the loop continues; the
result is the state the next epoch arrives with. -/
def main_event (_st : epoch_state) : epoch_state :=
  initialize_all 0

end rnx2crx

/-! ### Continuation lines of the satellite list -/

/-- `sprintf(p, "%s", s)` into a character array held as a function of the
index: the characters of `s` from index `off` on, then the terminating NUL;
the rest of the array is left as it is. -/
def sprintf_s (mem : Nat → Char) (off : Nat) (s : List Char) : Nat → Char :=
  fun i =>
    if i < off then mem i
    else if i < off + s.length then s.getD (i - off) NUL
    else if i = off + s.length then NUL
    else mem i

namespace rnx2crx

/-- The string `read_more_sat` appends for one continuation line
(`rnx2crx.c` lines 508-513): the text from column 32 on when column 2 is a
blank, the whole line otherwise (files written before the format was made
clear).  `line` is the line as `read_chk_line` leaves it, `stale` what the
buffer holds behind its terminator. -/
def more_sat_text (line stale : List Char) : List Char :=
  if (mem_from line stale 2).headD NUL = ' ' then c_string (mem_from line stale 32)
  else line

/-- Model of `read_more_sat(n, p)` (`rnx2crx.c` lines 500-516).  The
character array from `p_satlst` on is `mem`, `off` is the offset of `p` in it;
`lines` is the input still to be read, one item for each call of
`read_chk_line`: the buffer after a line that ends with a line feed (text and
what stands behind the terminator), or nothing for a line without a line feed
(`error_exit(12)`, return value 1 under `-s`); the end of the input is
`error_exit(11)`.  The result is the array, the input left and the return
value.  The first argument bounds the number of turns of the loop. -/
def read_more_sat : Nat → Bool → Int → Nat → List (Option (List Char × List Char)) →
    (Nat → Char) → crx2rnx.Ending ((Nat → Char) × List (Option (List Char × List Char)) × Int)
  | 0, _, _, _, lines, mem => crx2rnx.Ending.ok (mem, lines, 0)
  | fuel + 1, skip_strange_epoch, n, off, lines, mem =>
      match lines with
      | [] => crx2rnx.Ending.error_exit 11
      | none :: rest =>
          if ¬ skip_strange_epoch then crx2rnx.Ending.error_exit 12
          else crx2rnx.Ending.ok (mem, rest, 1)
      | some (line, stale) :: rest =>
          let mem := sprintf_s mem (off + 36) (more_sat_text line stale)
          if n - 12 > 12 then read_more_sat fuel skip_strange_epoch (n - 12) (off + 36) rest mem
          else crx2rnx.Ending.ok (mem, rest, 0)

/-- The call in `main` (`rnx2crx.c` line 188):
`if(nsat > 12 && rinex_version == 2) read_more_sat(nsat,p_satlst);`. -/
def main_more_sat (rinex_version : Int) (skip_strange_epoch : Bool) (nsat : Int)
    (lines : List (Option (List Char × List Char))) (mem : Nat → Char) :
    crx2rnx.Ending ((Nat → Char) × List (Option (List Char × List Char)) × Int) :=
  if nsat > 12 ∧ rinex_version = 2 then
    read_more_sat nsat.toNat skip_strange_epoch nsat 0 lines mem
  else crx2rnx.Ending.ok (mem, lines, 0)

end rnx2crx

namespace crx2rnx

/-- The loop that writes the continuation lines of a RINEX 2 epoch in `main`
(`crx2rnx.c` line 220):
`for(p = &line[68],n=nsat-12; n>0; n-=12,p+=36) p_buff += sprintf(p_buff,"%32.s%.36s\n"," ",p);`
from the offset `off` of `p` in `line` and the count `n` on.  `stale` is what
the buffer holds behind the terminator of `line`; the result is the text of
each `sprintf`.  The first argument bounds the number of turns of the loop. -/
def continuation_loop (line stale : List Char) : Nat → Nat → Int → List (List Char)
  | 0, _, _ => []
  | fuel + 1, off, n =>
      if n > 0 then
        (List.replicate 32 ' ' ++ (c_string (mem_from line stale off)).take 36 ++ ['\n']) ::
          continuation_loop line stale fuel (off + 36) (n - 12)
      else []

/-- The continuation lines of a RINEX 2 epoch (`crx2rnx.c` line 220). -/
def continuation_lines (line stale : List Char) (nsat : Int) : List (List Char) :=
  continuation_loop line stale nsat.toNat 68 (nsat - 12)

end crx2rnx

/-- A sample RINEX 2 epoch of 13 satellites as the decompressor holds it: the
epoch line with the whole satellite list behind column 32. -/
def sample_line13 : List Char :=
  " 05  3 24 13 10 36.0000000  0 13".toList ++
    "G01G02G03G04G05G06G07G08G09G10G11G12G13".toList

/-- The continuation line of the sample epoch as the compressor reads it. -/
def sample_more_sat : List (Option (List Char × List Char)) :=
  [some (List.replicate 32 ' ' ++ "G13".toList, [])]

/-! ### The record line of one satellite -/

namespace rnx2crx

/-- The variables `data(sattbl)` works on while it writes the record of one
satellite: the row `dy1[i]`, the row `flag0[*i0]` of the previous epoch (not
touched for a new satellite) and the text in the output buffer in front of
`p_buff`. -/
structure record_state where
  dy1 : Nat → data_format
  flag0 : List Char
  p_buff : List Char

/-- The body of the field loop of `data(sattbl)` for one `j` (`rnx2crx.c`
lines 532-548): a non-blank field is differenced and its token appended, for
a blank field of a known satellite in RINEX 2 the two flags of the previous
epoch are blanked (the row `flag0[*i0]` holds two characters for each field),
and a blank is appended as field separator in front of every further field.
`i0` is the entry `*i0` of `sattbl`, `dy0` the row `dy0[*i0]`. -/
def data_put (rinex_version : Int) (ntype_record : Nat) (i0 : Int) (dy0 : Nat → data_format)
    (st : record_state) (j : Nat) : record_state :=
  let st :=
    if (st.dy1 j).order ≥ 0 then
      { st with dy1 := fun k => if k = j then (data_field i0 (dy0 j) (st.dy1 j)).1 else st.dy1 k,
                p_buff := st.p_buff ++ (data_field i0 (dy0 j) (st.dy1 j)).2 }
    else if i0 ≥ 0 ∧ rinex_version = 2 then
      { st with flag0 := (st.flag0.set (j * 2) ' ').set (j * 2 + 1) ' ' }
    else st
  if (j : Int) < (ntype_record : Int) - 1 then { st with p_buff := st.p_buff ++ [' '] } else st

/-- The flags of one satellite in `data(sattbl)` before trailing blanks are cut
(`rnx2crx.c` lines 550-560): for a new satellite the flags themselves, in
RINEX 3 with every blank replaced by `&`, otherwise their difference from the
flags of the previous epoch. -/
def data_flag_diff (rinex_version : Int) (i0 : Int) (flag0 flag : List Char) : List Char :=
  if i0 < 0 then
    if rinex_version = 2 then strdiff_body [] flag
    else flag.map (fun c => if c = ' ' then '&' else c)
  else strdiff_body flag0 flag

/-- The end of the record of one satellite in `data(sattbl)` (`rnx2crx.c` lines
550-560): the flags are appended at `p_buff`, by `strdiff` (which cuts the
trailing blanks of the buffer and adds the line feed) or, for a new satellite
in RINEX 3, as they are with every blank replaced by `&` and the line feed. -/
def data_flags (rinex_version : Int) (i0 : Int) (flag0 flag : List Char) (p_buff : List Char) :
    List Char :=
  if i0 < 0 then
    if rinex_version = 2 then strdiff [] flag p_buff
    else p_buff ++ flag.map (fun c => if c = ' ' then '&' else c) ++ ['\n']
  else strdiff flag0 flag p_buff

/-- The record of one satellite in `data(sattbl)` (`rnx2crx.c` lines 531-561):
the field loop, the field separator behind the last field and the flags.
`flag` is the row `flag[i]` as `ggetline` left it. -/
def data_record (rinex_version : Int) (ntype_record : Nat) (i0 : Int) (dy0 : Nat → data_format)
    (flag : List Char) (st : record_state) : record_state :=
  let st := (List.range ntype_record).foldl (data_put rinex_version ntype_record i0 dy0) st
  { st with p_buff := data_flags rinex_version i0 st.flag0 flag (st.p_buff ++ [' ']) }

/-- The token `data(sattbl)` writes for field `j` of a satellite: nothing for a
blank field. -/
def data_token (i0 : Int) (dy0 dy1 : Nat → data_format) (j : Nat) : List Char :=
  if (dy1 j).order ≥ 0 then (data_field i0 (dy0 j) (dy1 j)).2 else []

end rnx2crx

namespace crx2rnx

/-- The loop of `getdiff` that separates the fields of a data line
(`crx2rnx.c` lines 609-618) and the copy of the rest into `dflag` (line 619):
each of the `ntype` fields ends at the next blank or at the end of the line
(behind which every further field is empty); the result is the text of the
fields and the flag string.  `line` is the line as `read_chk_line` leaves
it. -/
def getdiff_split : Nat → List Char → List (List Char) × List Char
  | 0, s => ([], s)
  | j + 1, s =>
      (s.takeWhile (fun c => c ≠ ' ') ::
          (getdiff_split j ((s.dropWhile (fun c => c ≠ ' ')).drop 1)).1,
        (getdiff_split j ((s.dropWhile (fun c => c ≠ ' ')).drop 1)).2)

end crx2rnx

/-- A sample record of three fields as `ggetline` leaves it: the values
23456789.123 and 1234.567 with a blank field between them, the flags
`4`, `7` of the first field only. -/
def sample_record_dy1 (j : Nat) : rnx2crx.data_format :=
  if j = 0 then { u := fun _ => 234567, l := fun _ => 89123, order := 0 }
  else if j = 1 then { u := fun _ => 0, l := fun _ => 0, order := -1 }
  else { u := fun _ => 12, l := fun _ => 34567, order := 0 }

section LineDiff

open rnx2crx crx2rnx

theorem chop_blank_nil : chop_blank [] = [] := rfl

theorem chop_blank_cons (a : Char) (l : List Char) :
    chop_blank (a :: l) =
      if chop_blank l = [] then (if a = ' ' then [] else [a]) else a :: chop_blank l := by
  induction l using List.reverseRecOn generalizing a with
  | nil =>
    have h : chop_blank [a] = if a = ' ' then [] else [a] := by
      have := List.rdropWhile_concat (fun c => c == ' ') [] a
      simpa [chop_blank] using this
    simp [h, chop_blank_nil]
  | append_singleton l x ih =>
    have h1 : chop_blank (l ++ [x]) = if x = ' ' then chop_blank l else l ++ [x] := by
      have := List.rdropWhile_concat (fun c => c == ' ') l x
      simpa [chop_blank] using this
    have h2 : chop_blank (a :: (l ++ [x])) =
        if x = ' ' then chop_blank (a :: l) else a :: (l ++ [x]) := by
      have := List.rdropWhile_concat (fun c => c == ' ') (a :: l) x
      simpa [chop_blank] using this
    rw [h2, h1]
    by_cases hx : x = ' '
    · simp only [hx, if_true]
      exact ih a
    · simp [hx]

theorem chop_blank_split (l : List Char) :
    ∃ k, l = chop_blank l ++ List.replicate k ' ' ∧
      ∀ c, (chop_blank l).getLast? = some c → c ≠ ' ' := by
  induction l with
  | nil => exact ⟨0, by simp [chop_blank_nil], by simp [chop_blank_nil]⟩
  | cons a l ih =>
    obtain ⟨k, hk, hlast⟩ := ih
    rw [chop_blank_cons]
    by_cases hnil : chop_blank l = []
    · rw [hnil] at hk
      simp only [hnil, if_true]
      by_cases ha : a = ' '
      · refine ⟨k + 1, ?_, by simp [ha]⟩
        simp only [ha, if_true, List.nil_append, List.replicate_succ]
        rw [List.nil_append] at hk
        rw [← hk]
      · refine ⟨k, ?_, by simp [ha]⟩
        simp only [ha, if_false]
        rw [List.nil_append] at hk
        rw [← hk]
        rfl
    · simp only [hnil, if_false]
      refine ⟨k, ?_, ?_⟩
      · rw [List.cons_append, ← hk]
      · intro c hc
        apply hlast c
        obtain ⟨b, t, hbt⟩ := List.exists_cons_of_ne_nil hnil
        rw [hbt] at hc ⊢
        simpa [List.getLast?_cons_cons] using hc

theorem chop_blank_idem (l : List Char) : chop_blank (chop_blank l) = chop_blank l := by
  induction l with
  | nil => rfl
  | cons a l ih =>
    rw [chop_blank_cons]
    by_cases hnil : chop_blank l = []
    · by_cases ha : a = ' '
      · simp [hnil, ha, chop_blank_nil]
      · simp [hnil, ha, chop_blank_cons, chop_blank_nil]
    · simp only [hnil, if_false]
      rw [chop_blank_cons, ih]
      simp [hnil]

theorem strdiff_body_length (s1 s2 : List Char) :
    (strdiff_body s1 s2).length = max s1.length s2.length := by
  induction s1 generalizing s2 with
  | nil => simp [strdiff_body]
  | cons c1 s1 ih =>
    cases s2 with
    | nil => simp [strdiff_body]
    | cons c2 s2 =>
      simp only [strdiff_body, List.length_cons, ih s2]
      omega

theorem strdiff_body_both (s1 s2 : List Char) (i : Nat) (c1 c2 : Char)
    (h1 : s1[i]? = some c1) (h2 : s2[i]? = some c2) :
    (strdiff_body s1 s2)[i]? = some (strdiff_char c1 c2) := by
  induction s1 generalizing s2 i with
  | nil => simp at h1
  | cons a s1 ih =>
    cases s2 with
    | nil => simp at h2
    | cons b s2 =>
      cases i with
      | zero =>
        simp only [List.getElem?_cons_zero, Option.some.injEq] at h1 h2
        simp [strdiff_body, h1, h2]
      | succ i =>
        simp only [List.getElem?_cons_succ] at h1 h2
        simpa [strdiff_body] using ih s2 i h1 h2

theorem strdiff_body_past_s1 (s1 s2 : List Char) (i : Nat) (h : s1.length ≤ i) :
    (strdiff_body s1 s2)[i]? = s2[i]? := by
  induction s1 generalizing s2 i with
  | nil => simp [strdiff_body]
  | cons a s1 ih =>
    cases i with
    | zero => simp at h
    | succ i =>
      have h' : s1.length ≤ i := by simpa using h
      cases s2 with
      | nil =>
        have : (List.map strdiff_rest_char (a :: s1)).length ≤ i + 1 := by
          simpa using h'
        simp only [strdiff_body, List.getElem?_nil]
        exact List.getElem?_eq_none this
      | cons b s2 => simpa [strdiff_body] using ih s2 i h'

theorem strdiff_body_past_s2 (s1 s2 : List Char) (i : Nat) (c1 : Char)
    (h : s2.length ≤ i) (h1 : s1[i]? = some c1) :
    (strdiff_body s1 s2)[i]? = some (strdiff_rest_char c1) := by
  induction s1 generalizing s2 i with
  | nil => simp at h1
  | cons a s1 ih =>
    cases s2 with
    | nil =>
      simp only [strdiff_body]
      rw [List.getElem?_map, h1]
      rfl
    | cons b s2 =>
      cases i with
      | zero => simp at h
      | succ i =>
        have h' : s2.length ≤ i := by simpa using h
        simp only [List.getElem?_cons_succ] at h1
        simpa [strdiff_body] using ih s2 i h' h1

theorem repair_nil_right (s : List Char) : repair s [] = s := by
  cases s <;> rfl

theorem repair_length (s1 d : List Char) :
    (repair s1 d).length = max s1.length d.length := by
  induction s1 generalizing d with
  | nil => cases d <;> simp [repair]
  | cons c s1 ih =>
    cases d with
    | nil => simp [repair]
    | cons x d =>
      simp only [repair, List.length_cons, ih d]
      omega

theorem repair_get (s1 d : List Char) (i : Nat) (h : i < max s1.length d.length) :
    (repair s1 d)[i]? = some (
      if i < s1.length ∧ (d.length ≤ i ∨ d[i]? = some ' ') then s1.getD i ' '
      else if d[i]? = some '&' then ' ' else d.getD i ' ') := by
  induction s1 generalizing d i with
  | nil =>
    cases d with
    | nil => simp at h
    | cons x d =>
      have hi : i < (x :: d).length := by simpa using h
      simp only [repair]
      rw [List.getElem?_map, List.getElem?_eq_getElem hi]
      simp [List.getD_eq_getElem?_getD, List.getElem?_eq_getElem hi, repair_rest_char]
  | cons c s1 ih =>
    cases d with
    | nil =>
      have hi : i < (c :: s1).length := by simpa using h
      have hi2 : i < s1.length + 1 := by simpa using hi
      simp [repair, List.getD_eq_getElem?_getD, List.getElem?_eq_getElem hi, hi2]
    | cons x d =>
      cases i with
      | zero =>
        by_cases hx : x = ' '
        · simp [repair, hx]
        · by_cases hx2 : x = '&'
          · simp [repair, hx2]
          · simp [repair, hx, hx2]
      | succ i =>
        have hi : i < max s1.length d.length := by
          simp only [List.length_cons] at h
          omega
        simpa [repair] using ih d i hi

theorem repair_nil_left (d : List Char) :
    repair [] d = d.map repair_rest_char := by
  cases d <;> rfl

theorem repair_strdiff_char (c1 c2 : Char) (h : c2 ≠ '&') :
    (if strdiff_char c1 c2 = ' ' then c1
      else if strdiff_char c1 c2 = '&' then ' ' else strdiff_char c1 c2) = c2 := by
  unfold strdiff_char
  by_cases h1 : c2 = c1
  · simp [h1]
  · by_cases h2 : c2 = ' '
    · subst h2
      simp [h1]
    · simp [h1, h2, h]

theorem map_amp_of_not_mem (l : List Char) (h : '&' ∉ l) :
    l.map repair_rest_char = l := by
  induction l with
  | nil => rfl
  | cons a l ih =>
    have ha : a ≠ '&' := fun e => h (by simp [e])
    have hl : '&' ∉ l := fun e => h (List.mem_cons_of_mem _ e)
    simp [repair_rest_char, ha, ih hl]

theorem chop_blank_not_mem (l : List Char) (c : Char) (h : c ∉ l) : c ∉ chop_blank l := by
  intro hc
  obtain ⟨k, hk, _⟩ := chop_blank_split l
  apply h
  rw [hk]
  exact List.mem_append_left _ hc

theorem chop_blank_cons_congr (a : Char) (l m : List Char) (h : chop_blank l = chop_blank m) :
    chop_blank (a :: l) = chop_blank (a :: m) := by
  rw [chop_blank_cons, chop_blank_cons, h]

theorem repair_rest_cons (a : Char) (s x : List Char) :
    repair (a :: s) (strdiff_rest_char a :: x) = ' ' :: repair s x := by
  by_cases ha : a = ' '
  · simp [repair, strdiff_rest_char, ha]
  · simp [repair, strdiff_rest_char, ha]

theorem repair_removed_tail (s : List Char) :
    chop_blank (repair s (chop_blank (s.map strdiff_rest_char))) = [] := by
  induction s with
  | nil => rfl
  | cons a s ih =>
    rw [List.map_cons, chop_blank_cons]
    by_cases hnil : chop_blank (s.map strdiff_rest_char) = []
    · rw [hnil, repair_nil_right] at ih
      rw [if_pos hnil]
      by_cases ha : a = ' '
      · have h1 : strdiff_rest_char a = ' ' := by simp [strdiff_rest_char, ha]
        rw [if_pos h1, repair_nil_right, chop_blank_cons, if_pos ih, if_pos ha]
      · have h1 : strdiff_rest_char a ≠ ' ' := by simp [strdiff_rest_char, ha]
        rw [if_neg h1, repair_rest_cons, repair_nil_right, chop_blank_cons, if_pos ih, if_pos rfl]
    · rw [if_neg hnil, repair_rest_cons, chop_blank_cons, if_pos ih, if_pos rfl]

theorem repair_strdiff_body (s1 s2 : List Char) (h : '&' ∉ s2) :
    chop_blank (repair s1 (chop_blank (strdiff_body s1 s2))) = chop_blank s2 := by
  induction s1 generalizing s2 with
  | nil =>
    simp only [strdiff_body, repair_nil_left]
    rw [map_amp_of_not_mem _ (chop_blank_not_mem _ _ h), chop_blank_idem]
  | cons c1 s1 ih =>
    cases s2 with
    | nil =>
      simp only [strdiff_body]
      rw [repair_removed_tail, chop_blank_nil]
    | cons c2 s2 =>
      have hc2 : c2 ≠ '&' := fun e => h (by simp [e])
      have hs2 : '&' ∉ s2 := fun e => h (List.mem_cons_of_mem _ e)
      have key : repair (c1 :: s1) (chop_blank (strdiff_body (c1 :: s1) (c2 :: s2))) =
          c2 :: repair s1 (chop_blank (strdiff_body s1 s2)) := by
        simp only [strdiff_body]
        rw [chop_blank_cons]
        have hfix := repair_strdiff_char c1 c2 hc2
        by_cases hnil : chop_blank (strdiff_body s1 s2) = []
        · rw [if_pos hnil]
          by_cases hd : strdiff_char c1 c2 = ' '
          · rw [if_pos hd] at hfix
            rw [if_pos hd, hnil, repair_nil_right, repair_nil_right, hfix]
          · rw [if_neg hd]
            simp only [hnil, repair, repair_nil_right]
            rw [hfix]
        · simp only [hnil, if_false, repair]
          rw [hfix]
      rw [key]
      exact chop_blank_cons_congr c2 _ _ (ih s2 hs2)

theorem strdiff_body_drop (s1 s2 : List Char) :
    (strdiff_body s1 s2).drop s1.length = s2.drop s1.length := by
  induction s1 generalizing s2 with
  | nil => simp [strdiff_body]
  | cons c1 s1 ih =>
    cases s2 with
    | nil => simp [strdiff_body]
    | cons c2 s2 => simpa [strdiff_body] using ih s2

/-- C7: `strdiff` contract.  For all strings `s1` and `s2`, at every column `i`
below `min |s1| |s2|` the diff character is `' '` if `s2[i] = s1[i]`, `'&'` if
`s2[i]` is a space and `s1[i]` is not, and `s2[i]` otherwise; the part of the
diff beyond the end of `s1` is the part of `s2` beyond the end of `s1`,
verbatim; then the trailing spaces are cut (`r` is the text without them, it
does not end in a space) and a single newline is appended. -/
theorem strdiff_contract (s1 s2 buf : List Char) :
    (∀ (i : Nat) c1 c2, s1[i]? = some c1 → s2[i]? = some c2 →
      (strdiff_body s1 s2)[i]? =
        some (if c2 = c1 then ' ' else if c2 = ' ' then '&' else c2)) ∧
    (strdiff_body s1 s2).drop s1.length = s2.drop s1.length ∧
    ∃ r k, buf ++ strdiff_body s1 s2 = r ++ List.replicate k ' ' ∧
      (∀ c, r.getLast? = some c → c ≠ ' ') ∧
      strdiff s1 s2 buf = r ++ ['\n'] := by
  refine ⟨?_, strdiff_body_drop s1 s2, ?_⟩
  · intro i c1 c2 h1 h2
    exact strdiff_body_both s1 s2 i c1 c2 h1 h2
  · obtain ⟨k, hk, hlast⟩ := chop_blank_split (buf ++ strdiff_body s1 s2)
    exact ⟨chop_blank (buf ++ strdiff_body s1 s2), k, hk, hlast, rfl⟩

/-- C8 (as the claim words it, refuted): for `s1 = "abc"` and `s2 = "a"` the
diff written before the trailing blanks are cut has three characters, not the
one character of `s2`. -/
theorem strdiff_length_counterexample :
    (strdiff_body "abc".toList "a".toList).length ≠ "a".toList.length := by
  decide

/-- C8 (amended): before trailing spaces are stripped, the compressed line has
the length of the longer of the two lines, `max |s1| |s2|`; it has the length
of the current line `s2` exactly when `s1` is not longer than `s2`. -/
theorem strdiff_length (s1 s2 : List Char) :
    (strdiff_body s1 s2).length = max s1.length s2.length ∧
    ((strdiff_body s1 s2).length = s2.length ↔ s1.length ≤ s2.length) := by
  rw [strdiff_body_length]
  constructor
  · rfl
  · constructor
    · intro h
      omega
    · intro h
      omega

/-- C9: `repair` leaves in `s` a string of length `max |s1| |d|` whose column
`i` is `s1[i]` where `i < |s1|` and (`i ≥ |d|` or `d[i]` is a space), a space
where `d[i]` is `'&'`, and `d[i]` otherwise. -/
theorem repair_contract (s1 d : List Char) :
    (repair s1 d).length = max s1.length d.length ∧
    ∀ i, i < max s1.length d.length →
      (repair s1 d)[i]? = some (
        if i < s1.length ∧ (d.length ≤ i ∨ d[i]? = some ' ') then s1.getD i ' '
        else if d[i]? = some '&' then ' ' else d.getD i ' ') :=
  ⟨repair_length s1 d, fun i h => repair_get s1 d i h⟩

/-- C10: for every previous line `s1` and every current line `s2` without
`'&'`, repairing `s1` with the compressed line of `strdiff` (its newline
removed) gives `s2` up to trailing spaces. -/
theorem strdiff_repair_roundtrip (s1 s2 : List Char) (h : '&' ∉ s2) :
    chop_blank (repair s1 (strdiff s1 s2 []).dropLast) = chop_blank s2 := by
  have : (strdiff s1 s2 []).dropLast = chop_blank (strdiff_body s1 s2) := by
    simp [strdiff]
  rw [this]
  exact repair_strdiff_body s1 s2 h

/-- C10 witness: a current line shorter than the previous one, with a changed
column and a column turned blank. -/
theorem strdiff_repair_roundtrip_witness :
    '&' ∉ " 21  3 G01".toList ∧
    chop_blank (repair " 20 12 G01G02".toList
        (strdiff " 20 12 G01G02".toList " 21  3 G01".toList []).dropLast) =
      chop_blank " 21  3 G01".toList :=
  ⟨by decide, strdiff_repair_roundtrip _ _ (by decide)⟩

end LineDiff

section Arithmetic

theorem tdiv_of_nonneg (x m : Int) (hx : 0 ≤ x) (hm : 0 ≤ m) : x.tdiv m = x / m :=
  Int.tdiv_eq_ediv hx hm

theorem tmod_of_nonneg (x m : Int) (hx : 0 ≤ x) (hm : 0 ≤ m) : x.tmod m = x % m :=
  Int.tmod_eq_emod hx hm

theorem tdiv_of_nonpos (x m : Int) (hx : x ≤ 0) (hm : 0 ≤ m) : x.tdiv m = -((-x) / m) := by
  have h := Int.neg_tdiv (-x) m
  rw [neg_neg] at h
  rw [h, Int.tdiv_eq_ediv (by omega) hm]

theorem tmod_of_nonpos (x m : Int) (hx : x ≤ 0) (hm : 0 ≤ m) : x.tmod m = -((-x) % m) := by
  rw [Int.tmod_def, tdiv_of_nonpos x m hx hm]
  have := Int.emod_add_ediv (-x) m
  linarith

/-- The shared normalization step: absorb the overflow of the lower part,
then reconcile the signs. -/
theorem putdiff_norm_spec (u l : Int) :
    (rnx2crx.putdiff_norm u l).1 * 100000 + (rnx2crx.putdiff_norm u l).2 = u * 100000 + l ∧
    -100000 < (rnx2crx.putdiff_norm u l).2 ∧ (rnx2crx.putdiff_norm u l).2 < 100000 ∧
    ¬ ((rnx2crx.putdiff_norm u l).1 < 0 ∧ (rnx2crx.putdiff_norm u l).2 > 0) ∧
    ¬ ((rnx2crx.putdiff_norm u l).1 > 0 ∧ (rnx2crx.putdiff_norm u l).2 < 0) := by
  unfold rnx2crx.putdiff_norm
  rcases le_total 0 l with hl | hl
  · rw [tdiv_of_nonneg l 100000 hl (by norm_num), tmod_of_nonneg l 100000 hl (by norm_num)]
    dsimp only
    split_ifs <;> dsimp only <;> omega
  · rw [tdiv_of_nonpos l 100000 hl (by norm_num), tmod_of_nonpos l 100000 hl (by norm_num)]
    dsimp only
    split_ifs <;> dsimp only <;> omega

theorem put_clock_norm_spec (u l : Int) :
    (rnx2crx.put_clock_norm u l).1 * 100000000 + (rnx2crx.put_clock_norm u l).2
      = u * 100000000 + l ∧
    -100000000 < (rnx2crx.put_clock_norm u l).2 ∧ (rnx2crx.put_clock_norm u l).2 < 100000000 ∧
    ¬ ((rnx2crx.put_clock_norm u l).1 < 0 ∧ (rnx2crx.put_clock_norm u l).2 > 0) ∧
    ¬ ((rnx2crx.put_clock_norm u l).1 > 0 ∧ (rnx2crx.put_clock_norm u l).2 < 0) := by
  unfold rnx2crx.put_clock_norm
  rcases le_total 0 l with hl | hl
  · rw [tdiv_of_nonneg l 100000000 hl (by norm_num), tmod_of_nonneg l 100000000 hl (by norm_num)]
    dsimp only
    split_ifs <;> dsimp only <;> omega
  · rw [tdiv_of_nonpos l 100000000 hl (by norm_num), tmod_of_nonpos l 100000000 hl (by norm_num)]
    dsimp only
    split_ifs <;> dsimp only <;> omega

/-- C5: for all integers `u` and `l`, the normalization step of `putdiff`
(modulus `10^5`) and of `put_clock` (modulus `10^8`), with C's truncating
division and remainder, yields `(u', l')` with `u'*M + l' = u*M + l`,
`|l'| < M`, and `u'`, `l'` of the same sign or one of them zero. -/
theorem normalization_before_emission (u l : Int) :
    ((rnx2crx.putdiff_norm u l).1 * 10 ^ 5 + (rnx2crx.putdiff_norm u l).2 = u * 10 ^ 5 + l ∧
      |(rnx2crx.putdiff_norm u l).2| < 10 ^ 5 ∧
      (0 ≤ (rnx2crx.putdiff_norm u l).1 ∧ 0 ≤ (rnx2crx.putdiff_norm u l).2 ∨
        (rnx2crx.putdiff_norm u l).1 ≤ 0 ∧ (rnx2crx.putdiff_norm u l).2 ≤ 0)) ∧
    ((rnx2crx.put_clock_norm u l).1 * 10 ^ 8 + (rnx2crx.put_clock_norm u l).2 = u * 10 ^ 8 + l ∧
      |(rnx2crx.put_clock_norm u l).2| < 10 ^ 8 ∧
      (0 ≤ (rnx2crx.put_clock_norm u l).1 ∧ 0 ≤ (rnx2crx.put_clock_norm u l).2 ∨
        (rnx2crx.put_clock_norm u l).1 ≤ 0 ∧ (rnx2crx.put_clock_norm u l).2 ≤ 0)) := by
  obtain ⟨a1, a2, a3, a4, a5⟩ := putdiff_norm_spec u l
  obtain ⟨b1, b2, b3, b4, b5⟩ := put_clock_norm_spec u l
  refine ⟨⟨?_, ?_, ?_⟩, ⟨?_, ?_, ?_⟩⟩
  · norm_num
    exact a1
  · rw [abs_lt]
    norm_num
    exact ⟨a2, a3⟩
  · omega
  · norm_num
    exact b1
  · rw [abs_lt]
    norm_num
    exact ⟨b2, b3⟩
  · omega

end Arithmetic

section Decimal

theorem digit_char_isdigit (d : Nat) (h : d < 10) : isdigit (digit_char d) = true := by
  interval_cases d <;> decide

theorem digit_char_val (d : Nat) (h : d < 10) : (digit_char d).toNat - 48 = d := by
  interval_cases d <;> decide

theorem digit_char_of_isdigit (c : Char) (h : isdigit c = true) :
    digit_char (c.toNat - 48) = c := by
  unfold isdigit at h
  simp only [Bool.and_eq_true, decide_eq_true_eq] at h
  unfold digit_char
  have : 48 + (c.toNat - 48) = c.toNat := by omega
  rw [this, Char.ofNat_toNat]

theorem isdigit_val_lt (c : Char) (h : isdigit c = true) : c.toNat - 48 < 10 := by
  unfold isdigit at h
  simp only [Bool.and_eq_true, decide_eq_true_eq] at h
  omega

theorem dec_digits_aux_eq (f n : Nat) (h : n < f) :
    dec_digits_aux f n = dec_digits_aux (n + 1) n := by
  induction n using Nat.strong_induction_on generalizing f with
  | _ n ih =>
    obtain ⟨f', rfl⟩ : ∃ f', f = f' + 1 := ⟨f - 1, by omega⟩
    by_cases hn : n < 10
    · simp [dec_digits_aux, hn]
    · have hdiv : n / 10 < n := by omega
      simp only [dec_digits_aux, hn, if_false]
      rw [ih (n / 10) hdiv f' (by omega), ih (n / 10) hdiv n hdiv]

theorem dec_digits_lt (n : Nat) (h : n < 10) : dec_digits n = [digit_char n] := by
  simp [dec_digits, dec_digits_aux, h]

theorem dec_digits_ge (n : Nat) (h : 10 ≤ n) :
    dec_digits n = dec_digits (n / 10) ++ [digit_char (n % 10)] := by
  have hn : ¬ n < 10 := by omega
  have hdiv : n / 10 < n := by omega
  have e : dec_digits_aux (n + 1) n =
      if n < 10 then [digit_char n] else dec_digits_aux n (n / 10) ++ [digit_char (n % 10)] :=
    rfl
  unfold dec_digits
  rw [e, if_neg hn, dec_digits_aux_eq n (n / 10) hdiv]

theorem dec_digits_mul_add (a d : Nat) (ha : 0 < a) (hd : d < 10) :
    dec_digits (a * 10 + d) = dec_digits a ++ [digit_char d] := by
  rw [dec_digits_ge (a * 10 + d) (by omega)]
  have h1 : (a * 10 + d) / 10 = a := by omega
  have h2 : (a * 10 + d) % 10 = d := by omega
  rw [h1, h2]

theorem dec_digits_ne_nil (n : Nat) : dec_digits n ≠ [] := by
  by_cases h : n < 10
  · simp [dec_digits_lt n h]
  · rw [dec_digits_ge n (by omega)]
    simp

theorem dec_digits_all_digit (n : Nat) : ∀ c ∈ dec_digits n, isdigit c = true := by
  induction n using Nat.strong_induction_on with
  | _ n ih =>
    by_cases h : n < 10
    · rw [dec_digits_lt n h]
      intro c hc
      simp only [List.mem_singleton] at hc
      rw [hc]
      exact digit_char_isdigit n h
    · rw [dec_digits_ge n (by omega)]
      intro c hc
      rcases List.mem_append.mp hc with hc | hc
      · exact ih (n / 10) (by omega) c hc
      · simp only [List.mem_singleton] at hc
        rw [hc]
        exact digit_char_isdigit _ (by omega)

theorem pad_digits_length (k b : Nat) : (pad_digits k b).length = k := by
  induction k generalizing b with
  | zero => rfl
  | succ k ih => simp [pad_digits, ih]

theorem pad_digits_all_digit (k b : Nat) : ∀ c ∈ pad_digits k b, isdigit c = true := by
  induction k generalizing b with
  | zero => simp [pad_digits]
  | succ k ih =>
    intro c hc
    simp only [pad_digits, List.mem_append, List.mem_singleton] at hc
    rcases hc with hc | hc
    · exact ih _ c hc
    · rw [hc]
      exact digit_char_isdigit _ (by omega)

theorem pad_digits_zero (k : Nat) : pad_digits k 0 = List.replicate k '0' := by
  induction k with
  | zero => rfl
  | succ k ih =>
    simp only [pad_digits, Nat.zero_div, Nat.zero_mod, ih]
    rw [List.replicate_succ']
    rfl

theorem dec_digits_split (k a b : Nat) (ha : 0 < a) (hb : b < 10 ^ k) :
    dec_digits (a * 10 ^ k + b) = dec_digits a ++ pad_digits k b := by
  induction k generalizing b with
  | zero =>
    have : b = 0 := by simpa using hb
    simp [this, pad_digits]
  | succ k ih =>
    have hb' : b / 10 < 10 ^ k := by
      rw [Nat.div_lt_iff_lt_mul (by norm_num)]
      simpa [pow_succ] using hb
    have e : a * 10 ^ (k + 1) + b = (a * 10 ^ k + b / 10) * 10 + b % 10 := by
      rw [pow_succ]
      have := Nat.div_add_mod b 10
      nlinarith
    have hpos : 0 < a * 10 ^ k + b / 10 := by positivity
    rw [e, dec_digits_mul_add _ _ hpos (Nat.mod_lt _ (by norm_num)), ih _ hb']
    simp [pad_digits]

theorem zero_fill_eq_pad (k b : Nat) (hb : b < 10 ^ (k + 1)) :
    List.replicate (k + 1 - (dec_digits b).length) '0' ++ dec_digits b = pad_digits (k + 1) b := by
  induction k generalizing b with
  | zero =>
    have h : b < 10 := by simpa using hb
    have h1 : b % 10 = b := by omega
    rw [dec_digits_lt b h]
    simp [pad_digits, h1]
  | succ k ih =>
    by_cases h : b < 10
    · rw [dec_digits_lt b h]
      have h1 : b / 10 = 0 := by omega
      have h2 : b % 10 = b := by omega
      have e : pad_digits (k + 1 + 1) b = pad_digits (k + 1) (b / 10) ++ [digit_char (b % 10)] :=
        rfl
      rw [e, h1, h2, pad_digits_zero]
      simp
    · have hb' : b / 10 < 10 ^ (k + 1) := by
        rw [Nat.div_lt_iff_lt_mul (by norm_num)]
        simpa [pow_succ] using hb
      have e : pad_digits (k + 1 + 1) b = pad_digits (k + 1) (b / 10) ++ [digit_char (b % 10)] :=
        rfl
      rw [dec_digits_ge b (by omega), e, ← ih _ hb']
      simp

end Decimal

section Emission

theorem dec_digits_eq_digits (n : Nat) :
    dec_digits n = if n = 0 then ['0'] else (Nat.digits 10 n).reverse.map digit_char := by
  induction n using Nat.strong_induction_on with
  | _ n ih =>
    by_cases h : n < 10
    · rw [dec_digits_lt n h]
      by_cases h0 : n = 0
      · subst h0
        rfl
      · rw [if_neg h0, Nat.digits_of_lt 10 n h0 h]
        rfl
    · have h0 : n ≠ 0 := by omega
      have hd : n / 10 ≠ 0 := by omega
      rw [dec_digits_ge n (by omega), ih (n / 10) (by omega), if_neg hd, if_neg h0,
        Nat.digits_def' (b := 10) (n := n) (by norm_num) (by omega)]
      simp

theorem fmt_ld_eq_canonical (x : Int) : fmt_ld x = canonical_decimal x := by
  unfold fmt_ld canonical_decimal
  rw [dec_digits_eq_digits]
  by_cases hx : x < 0
  · have h0 : x ≠ 0 := by omega
    have h1 : x.natAbs ≠ 0 := by omega
    simp [hx, h0, h1]
  · by_cases h0 : x = 0
    · simp [h0]
    · have h1 : x.natAbs ≠ 0 := by omega
      simp [hx, h0, h1]

theorem fmt_ld_p_nat (b : Nat) (hb : b < 10 ^ 5) : fmt_ld_p 5 (b : Int) = pad_digits 5 b := by
  unfold fmt_ld_p
  have h : ¬ ((b : Int) < 0) := by omega
  rw [if_neg h, Int.natAbs_ofNat, List.nil_append]
  exact zero_fill_eq_pad 4 b hb

theorem fmt_ld_pos_split (a b : Nat) (ha : 0 < a) (hb : b < 10 ^ 5) :
    fmt_ld ((a : Int) * 100000 + b) = fmt_ld (a : Int) ++ fmt_ld_p 5 (b : Int) := by
  have h1 : ¬ ((a : Int) * 100000 + b < 0) := by omega
  have h2 : ¬ ((a : Int) < 0) := by omega
  have h3 : ((a : Int) * 100000 + b).natAbs = a * 10 ^ 5 + b := by omega
  rw [fmt_ld_p_nat b hb]
  unfold fmt_ld
  rw [if_neg h1, if_neg h2, h3, Int.natAbs_ofNat]
  exact dec_digits_split 5 a b ha hb

theorem fmt_ld_neg_split (a b : Nat) (ha : 0 < a) (hb : b < 10 ^ 5) :
    fmt_ld (-(a : Int) * 100000 - b) = fmt_ld (-(a : Int)) ++ fmt_ld_p 5 (b : Int) := by
  have h1 : (-(a : Int) * 100000 - b < 0) := by omega
  have h2 : (-(a : Int) < 0) := by omega
  have h3 : (-(a : Int) * 100000 - b).natAbs = a * 10 ^ 5 + b := by omega
  have h4 : (-(a : Int)).natAbs = a := by omega
  rw [fmt_ld_p_nat b hb]
  unfold fmt_ld
  rw [if_pos h1, if_pos h2, h3, h4, dec_digits_split 5 a b ha hb]
  rfl

theorem putdiff_eq_fmt_ld (u l : Int) : rnx2crx.putdiff u l = fmt_ld (u * 100000 + l) := by
  obtain ⟨h1, h2, h3, h4, h5⟩ := putdiff_norm_spec u l
  unfold rnx2crx.putdiff
  generalize rnx2crx.putdiff_norm u l = n at *
  obtain ⟨u', l'⟩ := n
  simp only at h1 h2 h3 h4 h5 ⊢
  rw [← h1]
  by_cases hu : u' = 0
  · rw [if_pos hu, hu]
    simp
  · rw [if_neg hu]
    rcases lt_or_gt_of_ne hu with hneg | hpos
    · have hl : l' ≤ 0 := by omega
      obtain ⟨a, ha⟩ : ∃ a : Nat, u' = -(a : Int) := ⟨u'.natAbs, by omega⟩
      obtain ⟨b, hb⟩ : ∃ b : Nat, l' = -(b : Int) := ⟨l'.natAbs, by omega⟩
      have hlabs : labs l' = (b : Int) := by
        unfold labs
        split_ifs <;> omega
      rw [hlabs, ha, hb]
      have := fmt_ld_neg_split a b (by omega) (by omega)
      rw [← this]
      congr 1
    · have hl : 0 ≤ l' := by omega
      obtain ⟨a, ha⟩ : ∃ a : Nat, u' = (a : Int) := ⟨u'.natAbs, by omega⟩
      obtain ⟨b, hb⟩ : ∃ b : Nat, l' = (b : Int) := ⟨l'.natAbs, by omega⟩
      have hlabs : labs l' = (b : Int) := by
        unfold labs
        split_ifs <;> omega
      rw [hlabs, ha, hb]
      exact (fmt_ld_pos_split a b (by omega) (by omega)).symm

/-- C4: `putdiff` appends the decimal of `l'` when `u' = 0` and otherwise the
decimal of `u'` followed by `|l'|` zero-filled to exactly five digits, where
`(u', l')` is the normalized pair; in both cases the text is the canonical
signed decimal representation of the integer `u*10^5 + l`. -/
theorem putdiff_emission (u l : Int) :
    ((rnx2crx.putdiff_norm u l).1 = 0 →
        rnx2crx.putdiff u l = canonical_decimal (rnx2crx.putdiff_norm u l).2) ∧
    ((rnx2crx.putdiff_norm u l).1 ≠ 0 →
        rnx2crx.putdiff u l =
          canonical_decimal (rnx2crx.putdiff_norm u l).1 ++
            pad_digits 5 (rnx2crx.putdiff_norm u l).2.natAbs) ∧
    rnx2crx.putdiff u l = canonical_decimal (u * 10 ^ 5 + l) := by
  obtain ⟨h1, h2, h3, h4, h5⟩ := putdiff_norm_spec u l
  refine ⟨?_, ?_, ?_⟩
  · intro h
    unfold rnx2crx.putdiff
    rw [if_pos h, fmt_ld_eq_canonical]
  · intro h
    unfold rnx2crx.putdiff
    rw [if_neg h, fmt_ld_eq_canonical]
    congr 1
    have hlabs : labs (rnx2crx.putdiff_norm u l).2 = ((rnx2crx.putdiff_norm u l).2.natAbs : Int) := by
      unfold labs
      split_ifs <;> omega
    rw [hlabs]
    exact fmt_ld_p_nat _ (by omega)
  · rw [putdiff_eq_fmt_ld, fmt_ld_eq_canonical]
    norm_num

end Emission

section Atol

theorem isdigit_ne (c d : Char) (h : isdigit c = true) (hd : isdigit d = false) : c ≠ d := by
  intro e
  rw [e, hd] at h
  exact Bool.false_ne_true h

theorem isdigit_not_space (c : Char) (h : isdigit c = true) : isspace c = false := by
  unfold isspace
  have h1 := isdigit_ne c ' ' h (by decide)
  have h2 := isdigit_ne c '\t' h (by decide)
  have h3 := isdigit_ne c '\n' h (by decide)
  have h4 := isdigit_ne c '\x0b' h (by decide)
  have h5 := isdigit_ne c '\x0c' h (by decide)
  have h6 := isdigit_ne c '\r' h (by decide)
  simp [h1, h2, h3, h4, h5, h6]

theorem atol_digits_append (ds t : List Char) (acc : Nat) (h : ∀ c ∈ ds, isdigit c = true) :
    atol_digits (ds ++ t) acc = atol_digits t (atol_digits ds acc) := by
  induction ds generalizing acc with
  | nil => rfl
  | cons c ds ih =>
    have hc : isdigit c = true := h c (by simp)
    have hds : ∀ c ∈ ds, isdigit c = true := fun x hx => h x (List.mem_cons_of_mem _ hx)
    simp only [List.cons_append, atol_digits, hc, if_true]
    exact ih _ hds

theorem atol_digits_stop (c : Char) (t : List Char) (acc : Nat) (h : isdigit c = false) :
    atol_digits (c :: t) acc = acc := by
  simp [atol_digits, h]

theorem atol_digits_acc (ds : List Char) (acc : Nat) (h : ∀ c ∈ ds, isdigit c = true) :
    atol_digits ds acc = acc * 10 ^ ds.length + atol_digits ds 0 := by
  induction ds generalizing acc with
  | nil => simp [atol_digits]
  | cons c ds ih =>
    have hc : isdigit c = true := h c (by simp)
    have hds : ∀ c ∈ ds, isdigit c = true := fun x hx => h x (List.mem_cons_of_mem _ hx)
    simp only [atol_digits, hc, if_true, List.length_cons]
    rw [ih _ hds, ih (0 * 10 + (c.toNat - 48)) hds]
    ring

theorem atol_digits_single (d acc : Nat) (hd : d < 10) :
    atol_digits [digit_char d] acc = acc * 10 + d := by
  simp [atol_digits, digit_char_isdigit d hd, digit_char_val d hd]

theorem atol_digits_dec_digits (n : Nat) : atol_digits (dec_digits n) 0 = n := by
  induction n using Nat.strong_induction_on with
  | _ n ih =>
    by_cases h : n < 10
    · rw [dec_digits_lt n h, atol_digits_single n 0 h]
      omega
    · rw [dec_digits_ge n (by omega), atol_digits_append _ _ _ (dec_digits_all_digit _),
        ih (n / 10) (by omega), atol_digits_single _ _ (by omega)]
      omega

theorem atol_digits_pad_digits (k b acc : Nat) :
    atol_digits (pad_digits k b) acc = acc * 10 ^ k + b % 10 ^ k := by
  induction k generalizing b acc with
  | zero => simp [pad_digits, atol_digits, Nat.mod_one]
  | succ k ih =>
    have e : pad_digits (k + 1) b = pad_digits k (b / 10) ++ [digit_char (b % 10)] := rfl
    rw [e, atol_digits_append _ _ _ (pad_digits_all_digit _ _), ih,
      atol_digits_single _ _ (by omega)]
    have hm : b % 10 ^ (k + 1) = b % 10 + 10 * (b / 10 % 10 ^ k) := by
      rw [pow_succ, mul_comm, Nat.mod_mul]
    rw [hm]
    ring

theorem atol_of_digits (s : List Char) (h : ∀ c, s.head? = some c → isdigit c = true) :
    atol s = (atol_digits s 0 : Int) := by
  unfold atol
  cases s with
  | nil => simp [atol_digits]
  | cons c r =>
    have hc : isdigit c = true := h c rfl
    have hsp := isdigit_not_space c hc
    have h1 := isdigit_ne c '-' hc (by decide)
    have h2 := isdigit_ne c '+' hc (by decide)
    simp [List.dropWhile, hsp, h1, h2]

theorem atol_minus (r : List Char) : atol ('-' :: r) = -(atol_digits r 0 : Int) := by
  unfold atol
  have : isspace '-' = false := by decide
  simp [List.dropWhile, this]

theorem atol_blanks (k : Nat) (r : List Char) : atol (List.replicate k ' ' ++ r) = atol r := by
  induction k with
  | zero => simp
  | succ k ih =>
    have e : atol (' ' :: (List.replicate k ' ' ++ r)) = atol (List.replicate k ' ' ++ r) := by
      unfold atol
      have : isspace ' ' = true := by decide
      simp [List.dropWhile, this]
    rw [List.replicate_succ, List.cons_append, e, ih]

theorem dec_digits_head_digit (n : Nat) :
    ∀ c, (dec_digits n).head? = some c → isdigit c = true := by
  intro c hc
  exact dec_digits_all_digit n c (List.mem_of_mem_head? hc)

theorem atol_fmt_ld (x : Int) : atol (fmt_ld x) = x := by
  unfold fmt_ld
  by_cases hx : x < 0
  · rw [if_pos hx, atol_minus, atol_digits_dec_digits]
    omega
  · rw [if_neg hx, atol_of_digits _ (dec_digits_head_digit _), atol_digits_dec_digits]
    omega

end Atol

section TokenParse

theorem dec_digits_length_small (n : Nat) (h : n < 10 ^ 5) : (dec_digits n).length ≤ 5 := by
  have e := congrArg List.length (zero_fill_eq_pad 4 n h)
  rw [List.length_append, List.length_replicate, pad_digits_length] at e
  omega

theorem atol_pad_digits (k b : Nat) (hb : b < 10 ^ (k + 1)) :
    atol (pad_digits (k + 1) b) = (b : Int) := by
  rw [atol_of_digits]
  · rw [atol_digits_pad_digits, Nat.mod_eq_of_lt hb]
    simp
  · intro c hc
    exact pad_digits_all_digit _ _ c (List.mem_of_mem_head? hc)

theorem head_dec_digits_ne_minus (n : Nat) : (dec_digits n).head? ≠ some '-' := by
  intro h
  have := dec_digits_head_digit n '-' h
  revert this
  decide

theorem atol_dec_digits (n : Nat) : atol (dec_digits n) = (n : Int) := by
  rw [atol_of_digits _ (dec_digits_head_digit _), atol_digits_dec_digits]

theorem getdiff_value_nonneg (n : Nat) :
    crx2rnx.getdiff_value (dec_digits n) = (((n / 100000 : Nat) : Int), ((n % 100000 : Nat) : Int)) := by
  unfold crx2rnx.getdiff_value
  rw [if_neg (head_dec_digits_ne_minus n)]
  by_cases hs : n < 10 ^ 5
  · have hlen := dec_digits_length_small n hs
    have h6 : ((dec_digits n).length : Int) < 6 := by omega
    have h1 : n / 100000 = 0 := by omega
    have h2 : n % 100000 = n := by omega
    simp only [h6, if_true]
    rw [atol_dec_digits, h1, h2]
    rfl
  · have ha : 0 < n / 100000 := by omega
    have hb : n % 100000 < 10 ^ 5 := by omega
    have hn : n = n / 100000 * 10 ^ 5 + n % 100000 := by omega
    have hsplit := dec_digits_split 5 (n / 100000) (n % 100000) ha hb
    rw [← hn] at hsplit
    have hne := dec_digits_ne_nil (n / 100000)
    have hpos : 0 < (dec_digits (n / 100000)).length := List.length_pos.mpr hne
    have hlen : (dec_digits n).length = (dec_digits (n / 100000)).length + 5 := by
      rw [hsplit, List.length_append, pad_digits_length]
    have h6 : ¬ (((dec_digits n).length : Int) < 6) := by omega
    have hsub : (dec_digits n).length - 5 = (dec_digits (n / 100000)).length := by omega
    simp only [h6, if_false]
    rw [hsub, hsplit, List.drop_left, List.take_left, atol_pad_digits 4 _ hb, atol_dec_digits]
    have : ¬ (((n / 100000 : Nat) : Int) < 0) := by omega
    rw [if_neg this]

theorem getdiff_value_neg (n : Nat) (hn0 : 0 < n) :
    crx2rnx.getdiff_value ('-' :: dec_digits n) =
      (-((n / 100000 : Nat) : Int), -((n % 100000 : Nat) : Int)) := by
  unfold crx2rnx.getdiff_value
  have hh : ('-' :: dec_digits n).head? = some '-' := rfl
  rw [if_pos hh]
  by_cases hs : n < 10 ^ 5
  · have hlen := dec_digits_length_small n hs
    have h6 : ((('-' :: dec_digits n).length : Nat) : Int) - 1 < 6 := by
      simp only [List.length_cons]
      omega
    have h1 : n / 100000 = 0 := by omega
    have h2 : n % 100000 = n := by omega
    simp only [h6, if_true]
    rw [atol_minus, atol_digits_dec_digits, h1, h2]
    rfl
  · have ha : 0 < n / 100000 := by omega
    have hb : n % 100000 < 10 ^ 5 := by omega
    have hn : n = n / 100000 * 10 ^ 5 + n % 100000 := by omega
    have hsplit := dec_digits_split 5 (n / 100000) (n % 100000) ha hb
    rw [← hn] at hsplit
    have hne := dec_digits_ne_nil (n / 100000)
    have hpos : 0 < (dec_digits (n / 100000)).length := List.length_pos.mpr hne
    have hlen : (dec_digits n).length = (dec_digits (n / 100000)).length + 5 := by
      rw [hsplit, List.length_append, pad_digits_length]
    have h6 : ¬ (((('-' :: dec_digits n).length : Nat) : Int) - 1 < 6) := by
      simp only [List.length_cons]
      omega
    have hsub : ('-' :: dec_digits n).length - 5 = ('-' :: dec_digits (n / 100000)).length := by
      simp only [List.length_cons]
      omega
    have happ : '-' :: dec_digits n =
        ('-' :: dec_digits (n / 100000)) ++ pad_digits 5 (n % 100000) := by
      rw [hsplit]
      rfl
    simp only [h6, if_false]
    rw [hsub, happ, List.drop_left, List.take_left, atol_pad_digits 4 _ hb, atol_minus,
      atol_digits_dec_digits]
    have : (-((n / 100000 : Nat) : Int) < 0) := by omega
    rw [if_pos this]

theorem getdiff_value_fmt_ld (x : Int) :
    crx2rnx.getdiff_value (fmt_ld x) = (x.tdiv 100000, x.tmod 100000) := by
  unfold fmt_ld
  by_cases hx : x < 0
  · rw [if_pos hx, getdiff_value_neg _ (by omega),
      tdiv_of_nonpos x 100000 (by omega) (by norm_num),
      tmod_of_nonpos x 100000 (by omega) (by norm_num)]
    have e : (-x) = (x.natAbs : Int) := by omega
    rw [e]
    norm_cast
  · rw [if_neg hx, getdiff_value_nonneg,
      tdiv_of_nonneg x 100000 (by omega) (by norm_num),
      tmod_of_nonneg x 100000 (by omega) (by norm_num)]
    have e : x = (x.natAbs : Int) := by omega
    rw [e]
    norm_cast

theorem getdiff_value_putdiff (u l : Int) :
    (crx2rnx.getdiff_value (rnx2crx.putdiff u l)).1 * 100000 +
      (crx2rnx.getdiff_value (rnx2crx.putdiff u l)).2 = u * 100000 + l := by
  rw [putdiff_eq_fmt_ld, getdiff_value_fmt_ld]
  have := Int.tdiv_add_tmod (u * 100000 + l) 100000
  dsimp only
  linarith

end TokenParse

section ArcLoops

theorem setAt_same (a : Nat → Int) (k : Nat) (v : Int) : setAt a k v k = v := by
  simp [setAt]

theorem setAt_other (a : Nat → Int) (k i : Nat) (v : Int) (h : i ≠ k) : setAt a k v i = a i := by
  simp [setAt, h]

theorem take_diff_loop (py0 py1 : rnx2crx.data_format) (n : Nat) :
    ((List.range n).foldl (rnx2crx.take_diff_step py0) py1).order = py1.order ∧
    ((List.range n).foldl (rnx2crx.take_diff_step py0) py1).u 0 = py1.u 0 ∧
    ((List.range n).foldl (rnx2crx.take_diff_step py0) py1).l 0 = py1.l 0 ∧
    ∀ k, k < n →
      ((List.range n).foldl (rnx2crx.take_diff_step py0) py1).u (k + 1) =
        ((List.range n).foldl (rnx2crx.take_diff_step py0) py1).u k - py0.u k ∧
      ((List.range n).foldl (rnx2crx.take_diff_step py0) py1).l (k + 1) =
        ((List.range n).foldl (rnx2crx.take_diff_step py0) py1).l k - py0.l k := by
  induction n with
  | zero => simp
  | succ n ih =>
    obtain ⟨h1, h2, h3, h4⟩ := ih
    rw [List.range_succ, List.foldl_append]
    simp only [List.foldl_cons, List.foldl_nil]
    generalize (List.range n).foldl (rnx2crx.take_diff_step py0) py1 = F at h1 h2 h3 h4
    refine ⟨h1, ?_, ?_, ?_⟩
    · simp only [rnx2crx.take_diff_step]
      rw [setAt_other _ _ _ _ (by omega), h2]
    · simp only [rnx2crx.take_diff_step]
      rw [setAt_other _ _ _ _ (by omega), h3]
    · intro k hk
      simp only [rnx2crx.take_diff_step]
      by_cases hkn : k = n
      · subst hkn
        rw [setAt_same, setAt_same, setAt_other _ _ _ _ (by omega),
          setAt_other _ _ _ _ (by omega)]
        exact ⟨rfl, rfl⟩
      · have hk' : k < n := by omega
        rw [setAt_other _ _ _ _ (by omega), setAt_other _ _ _ _ (by omega),
          setAt_other _ _ _ _ (by omega), setAt_other _ _ _ _ (by omega)]
        exact h4 k hk'

theorem tdiv_tmod_value (x : Int) : x.tdiv 100000 * 100000 + x.tmod 100000 = x := by
  have := Int.tdiv_add_tmod x 100000
  linarith

theorem tmod_bounds (x : Int) : -100000 < x.tmod 100000 ∧ x.tmod 100000 < 100000 := by
  rcases le_total 0 x with hx | hx
  · rw [tmod_of_nonneg x 100000 hx (by norm_num)]
    omega
  · rw [tmod_of_nonpos x 100000 hx (by norm_num)]
    omega

theorem sum_loop (a b : Nat → Int) (y : crx2rnx.data_format) (n : Nat) :
    ((List.range n).foldl (crx2rnx.sum_step a b) y).order = y.order ∧
    ((List.range n).foldl (crx2rnx.sum_step a b) y).arc_order = y.arc_order ∧
    ((List.range n).foldl (crx2rnx.sum_step a b) y).u 0 = y.u 0 ∧
    ((List.range n).foldl (crx2rnx.sum_step a b) y).l 0 = y.l 0 ∧
    ∀ k, k < n →
      ((List.range n).foldl (crx2rnx.sum_step a b) y).u (k + 1) * 100000 +
          ((List.range n).foldl (crx2rnx.sum_step a b) y).l (k + 1) =
        (((List.range n).foldl (crx2rnx.sum_step a b) y).u k * 100000 +
          ((List.range n).foldl (crx2rnx.sum_step a b) y).l k) + (a k * 100000 + b k) ∧
      -100000 < ((List.range n).foldl (crx2rnx.sum_step a b) y).l (k + 1) ∧
      ((List.range n).foldl (crx2rnx.sum_step a b) y).l (k + 1) < 100000 := by
  induction n with
  | zero => simp
  | succ n ih =>
    obtain ⟨h1, h1', h2, h3, h4⟩ := ih
    rw [List.range_succ, List.foldl_append]
    simp only [List.foldl_cons, List.foldl_nil]
    generalize (List.range n).foldl (crx2rnx.sum_step a b) y = G at h1 h1' h2 h3 h4
    refine ⟨h1, h1', ?_, ?_, ?_⟩
    · simp only [crx2rnx.sum_step]
      rw [setAt_other _ _ _ _ (by omega), h2]
    · simp only [crx2rnx.sum_step]
      rw [setAt_other _ _ _ _ (by omega), h3]
    · intro k hk
      simp only [crx2rnx.sum_step]
      by_cases hkn : k = n
      · subst hkn
        rw [setAt_same, setAt_same, setAt_other _ _ _ _ (by omega),
          setAt_other _ _ _ _ (by omega)]
        refine ⟨?_, tmod_bounds _⟩
        have := tdiv_tmod_value (G.l k + b k)
        linarith
      · have hk' : k < n := by omega
        rw [setAt_other _ _ _ _ (by omega), setAt_other _ _ _ _ (by omega),
          setAt_other _ _ _ _ (by omega), setAt_other _ _ _ _ (by omega)]
        exact h4 k hk'

theorem arc_telescope (m : Nat) (e1 e0 y A : Nat → Int)
    (he : ∀ j, j < m → e1 (j + 1) = e1 j - e0 j)
    (hy0 : y 0 = e1 m)
    (hy : ∀ k, k < m → y (k + 1) = y k + A k)
    (hA : ∀ k, k < m → A k = e0 (m - 1 - k)) :
    ∀ k, k ≤ m → y k = e1 (m - k) := by
  intro k
  induction k with
  | zero =>
    intro _
    simpa using hy0
  | succ k ih =>
    intro hk
    have hk' : k < m := by omega
    have e : m - k = (m - 1 - k) + 1 := by omega
    have e' : m - (k + 1) = m - 1 - k := by omega
    rw [hy k hk', ih (by omega), hA k hk', e, he (m - 1 - k) (by omega), e']
    ring

end ArcLoops

section ArcTokens

theorem fmt_ld_arc_order : fmt_ld (rnx2crx.ARC_ORDER : Int) = ['3'] := by
  decide

theorem fmt_ld_ne_nil (x : Int) : fmt_ld x ≠ [] := by
  unfold fmt_ld
  split_ifs
  · simp
  · exact dec_digits_ne_nil _

theorem fmt_ld_chars (x : Int) : ∀ c ∈ fmt_ld x, c = '-' ∨ isdigit c = true := by
  intro c hc
  unfold fmt_ld at hc
  split_ifs at hc
  · rcases List.mem_cons.mp hc with h | h
    · exact Or.inl h
    · exact Or.inr (dec_digits_all_digit _ c h)
  · exact Or.inr (dec_digits_all_digit _ c hc)

theorem fmt_ld_getD_ne_amp (x : Int) (i : Nat) : (fmt_ld x).getD i NUL ≠ '&' := by
  rw [List.getD_eq_getElem?_getD]
  cases h : (fmt_ld x)[i]? with
  | none =>
    simp only [Option.getD_none]
    decide
  | some c =>
    simp only [Option.getD_some]
    have hc : c ∈ fmt_ld x := List.getElem?_mem h
    rcases fmt_ld_chars x c hc with h1 | h1
    · rw [h1]
      decide
    · exact isdigit_ne c '&' h1 (by decide)

theorem atol_init_mark (t : List Char) : atol ('3' :: '&' :: t) = 3 := by
  rw [atol_of_digits _ (by intro c hc; simp at hc; rw [← hc]; decide)]
  have h3 : isdigit '3' = true := by decide
  have ha : isdigit '&' = false := by decide
  simp [atol_digits, h3, ha]

theorem getdiff_field_init (skip : Bool) (t : List Char) (i0 : Int)
    (dy0 y : crx2rnx.data_format) :
    crx2rnx.getdiff_field skip ('3' :: '&' :: t) i0 dy0 y =
      crx2rnx.Ending.ok
        { u := setAt y.u 0 (crx2rnx.getdiff_value t).1,
          l := setAt y.l 0 (crx2rnx.getdiff_value t).2,
          order := -1, arc_order := 3 } := by
  unfold crx2rnx.getdiff_field
  have h1 : ('3' :: '&' :: t) ≠ [] := by simp
  have h2 : ('3' :: '&' :: t).getD 1 NUL = '&' := rfl
  have h3 : ¬ ((3 : Int) > (crx2rnx.MAX_DIFF_ORDER : Int)) := by decide
  rw [if_neg h1, if_pos h2]
  simp only [atol_init_mark, h3, if_false, List.drop_succ_cons, List.drop_zero]

theorem getdiff_field_plain (skip : Bool) (x : Int) (i0 : Int)
    (dy0 y : crx2rnx.data_format) (hi : 0 ≤ i0) (ha : 0 ≤ dy0.arc_order) :
    crx2rnx.getdiff_field skip (fmt_ld x) i0 dy0 y =
      crx2rnx.Ending.ok
        { u := setAt y.u 0 (x.tdiv 100000),
          l := setAt y.l 0 (x.tmod 100000),
          order := dy0.order, arc_order := dy0.arc_order } := by
  unfold crx2rnx.getdiff_field
  have h1 : ¬ (i0 < 0) := by omega
  have h2 : ¬ (dy0.arc_order < 0) := by omega
  rw [if_neg (fmt_ld_ne_nil x), if_neg (fmt_ld_getD_ne_amp x 1), if_neg h1, if_neg h2]
  simp only [getdiff_value_fmt_ld]

theorem putfield_adjust_value (u l : Int) :
    (crx2rnx.putfield_adjust u l).1 * 100000 + (crx2rnx.putfield_adjust u l).2 =
      u * 100000 + l := by
  unfold crx2rnx.putfield_adjust
  split_ifs <;> dsimp only <;> omega

theorem saved_entry_order (y : crx2rnx.data_format) :
    (crx2rnx.saved_entry y).order = y.order ∧
    (crx2rnx.saved_entry y).arc_order = y.arc_order := by
  unfold crx2rnx.saved_entry
  split_ifs <;> exact ⟨rfl, rfl⟩

theorem saved_entry_value (y : crx2rnx.data_format) (k : Nat) :
    (crx2rnx.saved_entry y).u k * 100000 + (crx2rnx.saved_entry y).l k =
      y.u k * 100000 + y.l k := by
  unfold crx2rnx.saved_entry
  split_ifs
  · dsimp only
    by_cases hk : k = y.order.toNat
    · rw [hk, setAt_same, setAt_same]
      exact putfield_adjust_value _ _
    · rw [setAt_other _ _ _ _ hk, setAt_other _ _ _ _ hk]
  · rfl

end ArcTokens

section ArcRoundTrip

theorem take_diff_spec (py1 E : rnx2crx.data_format) (n m : Nat) (hn : E.order = (n : Int))
    (hm : m = if n < 3 then n + 1 else n) (hpos : 0 < m) :
    (rnx2crx.take_diff py1 E).order = (m : Int) ∧
    (rnx2crx.take_diff py1 E).u 0 = py1.u 0 ∧
    (rnx2crx.take_diff py1 E).l 0 = py1.l 0 ∧
    ∀ k, k < m →
      (rnx2crx.take_diff py1 E).u (k + 1) = (rnx2crx.take_diff py1 E).u k - E.u k ∧
      (rnx2crx.take_diff py1 E).l (k + 1) = (rnx2crx.take_diff py1 E).l k - E.l k := by
  have ho : (if E.order < (rnx2crx.ARC_ORDER : Int) then E.order + 1 else E.order) = (m : Int) := by
    rw [hn, hm]
    unfold rnx2crx.ARC_ORDER
    by_cases h : n < 3
    · have h' : (n : Int) < ((3 : Nat) : Int) := by omega
      rw [if_pos h, if_pos h']
      push_cast
      rfl
    · have h' : ¬ ((n : Int) < ((3 : Nat) : Int)) := by omega
      rw [if_neg h, if_neg h']
  unfold rnx2crx.take_diff
  simp only [ho]
  have hgt : (m : Int) > 0 := by omega
  rw [if_pos hgt, Int.toNat_ofNat]
  obtain ⟨h1, h2, h3, h4⟩ := take_diff_loop E { py1 with order := (m : Int) } m
  exact ⟨h1, h2, h3, h4⟩

theorem data_field_spec (D y0 : crx2rnx.data_format) (n m : Nat) (hn : y0.order = (n : Int))
    (hA : y0.arc_order = 3) (hm : m = if n < 3 then n + 1 else n) :
    (crx2rnx.data_field D y0).order = (m : Int) ∧
    (crx2rnx.data_field D y0).arc_order = 3 ∧
    (crx2rnx.data_field D y0).u 0 = y0.u 0 ∧
    (crx2rnx.data_field D y0).l 0 = y0.l 0 ∧
    ∀ k, k < m →
      (crx2rnx.data_field D y0).u (k + 1) * 100000 + (crx2rnx.data_field D y0).l (k + 1) =
        ((crx2rnx.data_field D y0).u k * 100000 + (crx2rnx.data_field D y0).l k) +
          (if n < 3 then D.u k * 100000 + D.l k else D.u (k + 1) * 100000 + D.l (k + 1)) := by
  unfold crx2rnx.data_field
  by_cases h : n < 3
  · have h' : y0.order < y0.arc_order := by omega
    have hm' : m = n + 1 := by rw [hm, if_pos h]
    have ht : (y0.order + 1).toNat = m := by omega
    rw [if_pos h']
    simp only [ht]
    obtain ⟨h1, h2, h3, h4, h5⟩ :=
      sum_loop D.u D.l { y0 with order := y0.order + 1 } m
    refine ⟨?_, ?_, h3, h4, ?_⟩
    · rw [h1]
      simp only
      omega
    · rw [h2]
      exact hA
    · intro k hk
      rw [if_pos h]
      exact (h5 k hk).1
  · have h' : ¬ (y0.order < y0.arc_order) := by omega
    have hm' : m = n := by rw [hm, if_neg h]
    have ht : y0.order.toNat = m := by omega
    rw [if_neg h']
    simp only [ht]
    obtain ⟨h1, h2, h3, h4, h5⟩ :=
      sum_loop (fun k => D.u (k + 1)) (fun k => D.l (k + 1)) y0 m
    refine ⟨?_, ?_, h3, h4, ?_⟩
    · rw [h1]
      omega
    · rw [h2]
      exact hA
    · intro k hk
      rw [if_neg h]
      exact (h5 k hk).1

theorem arc_step_init (skip : Bool) (U L : Int) (i0 : Int) (D stale2 : crx2rnx.data_format) :
    ∃ y, crx2rnx.arc_step skip
          (fmt_ld (rnx2crx.ARC_ORDER : Int) ++ ['&'] ++ rnx2crx.putdiff U L) i0 D stale2
        = crx2rnx.Ending.ok y ∧
      y.arc_order = 3 ∧ y.order = 0 ∧ y.u 0 * 100000 + y.l 0 = U * 100000 + L := by
  have htok : fmt_ld (rnx2crx.ARC_ORDER : Int) ++ ['&'] ++ rnx2crx.putdiff U L =
      '3' :: '&' :: rnx2crx.putdiff U L := by
    rw [fmt_ld_arc_order]
    rfl
  rw [htok]
  unfold crx2rnx.arc_step
  rw [getdiff_field_init]
  have h3 : ((3 : Int) ≥ 0) := by decide
  simp only [h3, if_true]
  refine ⟨_, rfl, ?_, ?_, ?_⟩
  · simp [crx2rnx.data_field]
  · simp [crx2rnx.data_field]
  · have hv := getdiff_value_putdiff U L
    simpa [crx2rnx.data_field, setAt] using hv

end ArcRoundTrip

section ArcRoundTripMain

theorem arc_inv_init (E1 : rnx2crx.data_format) (y : crx2rnx.data_format)
    (hE : E1.order = 0) (hA : y.arc_order = 3) (hO : y.order = 0)
    (hv : y.u 0 * 100000 + y.l 0 = E1.u 0 * 100000 + E1.l 0) :
    arc_inv E1 (crx2rnx.saved_entry y) := by
  obtain ⟨so, sa⟩ := saved_entry_order y
  refine ⟨?_, ?_, ?_, ?_, ?_⟩
  · rw [sa, hA]
  · rw [so, hO, hE]
  · omega
  · omega
  · intro k hk
    have hk0 : k = 0 := by
      rw [hE] at hk
      simpa using hk
    rw [hk0, saved_entry_value, hE]
    simpa using hv

theorem arc_step_ok (skip : Bool) (e : arc_epoch) (E : rnx2crx.data_format)
    (D : crx2rnx.data_format) (h : arc_inv E D ∨ e.i0 < 0 ∨ E.order = -1) :
    ∃ y, crx2rnx.arc_step skip
          (rnx2crx.data_field e.i0 E (rnx2crx.ggetline_entry e.stale1 e.value)).2
          e.i0 D e.stale2 = crx2rnx.Ending.ok y ∧
      0 ≤ y.arc_order ∧ 0 ≤ y.order ∧
      y.u y.order.toNat * 100000 + y.l y.order.toNat = e.value.1 * 100000 + e.value.2 ∧
      arc_inv (rnx2crx.data_field e.i0 E (rnx2crx.ggetline_entry e.stale1 e.value)).1
        (crx2rnx.saved_entry y) := by
  have hp0u : (rnx2crx.ggetline_entry e.stale1 e.value).u 0 = e.value.1 := by
    simp [rnx2crx.ggetline_entry, setAt]
  have hp0l : (rnx2crx.ggetline_entry e.stale1 e.value).l 0 = e.value.2 := by
    simp [rnx2crx.ggetline_entry, setAt]
  generalize rnx2crx.ggetline_entry e.stale1 e.value = py1 at hp0u hp0l
  unfold rnx2crx.data_field
  by_cases hinit : e.i0 < 0 ∨ E.order = -1
  · rw [if_pos hinit]
    dsimp only
    rw [Int.toNat_zero]
    obtain ⟨y, hy, hA, hO, hv⟩ := arc_step_init skip (py1.u 0) (py1.l 0) e.i0 D e.stale2
    refine ⟨y, hy, by omega, by omega, ?_, ?_⟩
    · rw [hO, Int.toNat_zero, hv, hp0u, hp0l]
    · exact arc_inv_init _ y rfl hA hO hv
  · rw [if_neg hinit]
    have hinv : arc_inv E D := by
      rcases h with h | h
      · exact h
      · exact absurd h hinit
    obtain ⟨iA, iO, i0, i3, iV⟩ := hinv
    have hi0 : 0 ≤ e.i0 := by
      by_contra hc
      exact hinit (Or.inl (by omega))
    obtain ⟨n, hn⟩ : ∃ n : Nat, E.order = (n : Int) := ⟨E.order.toNat, by omega⟩
    have hn3 : n ≤ 3 := by omega
    obtain ⟨m, hm⟩ : ∃ m : Nat, m = if n < 3 then n + 1 else n := ⟨_, rfl⟩
    have hmpos : 0 < m := by
      rw [hm]
      split_ifs <;> omega
    have hm3 : m ≤ 3 := by
      rw [hm]
      split_ifs <;> omega
    obtain ⟨t1, t2, t3, t4⟩ := take_diff_spec py1 E n m hn hm hmpos
    generalize rnx2crx.take_diff py1 E = E1 at t1 t2 t3 t4
    dsimp only
    by_cases hslip : labs (E1.u E1.order.toNat) > 100000
    · rw [if_pos hslip]
      dsimp only
      rw [Int.toNat_zero]
      obtain ⟨y, hy, hA, hO, hv⟩ := arc_step_init skip (E1.u 0) (E1.l 0) e.i0 D e.stale2
      refine ⟨y, hy, by omega, by omega, ?_, ?_⟩
      · rw [hO, Int.toNat_zero, hv, t2, t3, hp0u, hp0l]
      · exact arc_inv_init _ y rfl hA hO hv
    · rw [if_neg hslip]
      dsimp only
      have hmt : E1.order.toNat = m := by omega
      rw [hmt, putdiff_eq_fmt_ld]
      unfold crx2rnx.arc_step
      rw [getdiff_field_plain skip _ e.i0 D e.stale2 hi0 (by omega)]
      have hge : D.arc_order ≥ 0 := by omega
      simp only [hge, if_true]
      obtain ⟨d1, d2, d3, d4, d5⟩ := data_field_spec D
        { u := setAt e.stale2.u 0 ((E1.u m * 100000 + E1.l m).tdiv 100000),
          l := setAt e.stale2.l 0 ((E1.u m * 100000 + E1.l m).tmod 100000),
          order := D.order, arc_order := D.arc_order } n m (by simp only; omega) iA hm
      refine ⟨_, rfl, ?_, ?_, ?_, ?_⟩
      · rw [d2]
        decide
      · rw [d1]
        omega
      all_goals
        generalize crx2rnx.data_field D
          { u := setAt e.stale2.u 0 ((E1.u m * 100000 + E1.l m).tdiv 100000),
            l := setAt e.stale2.l 0 ((E1.u m * 100000 + E1.l m).tmod 100000),
            order := D.order, arc_order := D.arc_order } = Y at d1 d2 d3 d4 d5
        have hY0 : Y.u 0 * 100000 + Y.l 0 = E1.u m * 100000 + E1.l m := by
          rw [d3, d4]
          simp only [setAt_same]
          exact tdiv_tmod_value _
        have htel := arc_telescope m (fun j => E1.u j * 100000 + E1.l j)
          (fun j => E.u j * 100000 + E.l j) (fun k => Y.u k * 100000 + Y.l k)
          (fun k => if n < 3 then D.u k * 100000 + D.l k
            else D.u (k + 1) * 100000 + D.l (k + 1))
          (by
            intro j hj
            obtain ⟨a, b⟩ := t4 j hj
            simp only
            rw [a, b]
            ring)
          hY0 d5
          (by
            intro k hk
            simp only
            have hnt : E.order.toNat = n := by omega
            by_cases h3 : n < 3
            · have hmn : m = n + 1 := by rw [hm, if_pos h3]
              rw [if_pos h3, iV k (by omega), hnt]
              have : n - k = m - 1 - k := by omega
              rw [this]
            · have hmn : m = n := by rw [hm, if_neg h3]
              rw [if_neg h3, iV (k + 1) (by omega), hnt]
              have : n - (k + 1) = m - 1 - k := by omega
              rw [this])
      · have hYm : Y.order.toNat = m := by omega
        rw [hYm]
        have := htel m (le_refl m)
        simp only [Nat.sub_self] at this
        rw [this, t2, t3, hp0u, hp0l]
      · obtain ⟨so, sa⟩ := saved_entry_order Y
        refine ⟨?_, ?_, ?_, ?_, ?_⟩
        · rw [sa, d2]
        · rw [so, d1, t1]
        · omega
        · omega
        · intro k hk
          rw [hmt] at hk ⊢
          rw [saved_entry_value]
          exact htel k hk

end ArcRoundTripMain

section ArcRun

theorem arc_run (skip : Bool) (es : List arc_epoch) :
    ∀ (E : rnx2crx.data_format) (D : crx2rnx.data_format),
      (arc_inv E D ∨ ∀ e, es.head? = some e → e.i0 < 0 ∨ E.order = -1) →
      ∃ ys, crx2rnx.arc_entries skip D (es.zip (rnx2crx.arc_tokens E es)) =
            crx2rnx.Ending.ok ys ∧
        List.Forall₂
          (fun (y : crx2rnx.data_format) (e : arc_epoch) =>
            0 ≤ y.arc_order ∧ 0 ≤ y.order ∧
            y.u y.order.toNat * 100000 + y.l y.order.toNat =
              e.value.1 * 100000 + e.value.2) ys es := by
  induction es with
  | nil =>
    intro E D _
    exact ⟨[], rfl, List.Forall₂.nil⟩
  | cons e rest ih =>
    intro E D h
    have h' : arc_inv E D ∨ e.i0 < 0 ∨ E.order = -1 := by
      rcases h with h | h
      · exact Or.inl h
      · exact Or.inr (h e rfl)
    obtain ⟨y, hy, hA, hO, hv, hinv⟩ := arc_step_ok skip e E D h'
    obtain ⟨ys, hys, hall⟩ := ih _ _ (Or.inl hinv)
    refine ⟨y :: ys, ?_, List.Forall₂.cons ⟨hA, hO, hv⟩ hall⟩
    have hz : (e :: rest).zip (rnx2crx.arc_tokens E (e :: rest)) =
        (e, (rnx2crx.data_field e.i0 E (rnx2crx.ggetline_entry e.stale1 e.value)).2) ::
          rest.zip (rnx2crx.arc_tokens
            (rnx2crx.data_field e.i0 E (rnx2crx.ggetline_entry e.stale1 e.value)).1 rest) := rfl
    rw [hz]
    simp only [crx2rnx.arc_entries]
    rw [hy]
    simp only
    rw [hys]

/-- C1: arc round trip.  For every sequence of field values `(u_i, l_i)` of
one slot that is non-blank in consecutive epochs and starts a new arc at its
first epoch (new satellite, or blank field in the previous epoch), feeding the
tokens the compressor emits (`take_diff`, `data`, `putdiff`; `3&` and the raw
value on every initialization, the top-order difference otherwise) to the
decompressor's `getdiff` parsing and `data()` summation succeeds and yields at
every epoch an entry whose pair at level `order` has the value
`u_i*10^5 + l_i`, re-initializations by the compressor included. -/
theorem arc_round_trip (skip : Bool) (es : List arc_epoch) (py0 : rnx2crx.data_format)
    (dy0 : crx2rnx.data_format)
    (hfirst : ∀ e, es.head? = some e → e.i0 < 0 ∨ py0.order = -1) :
    ∃ ys, crx2rnx.arc_entries skip dy0 (es.zip (rnx2crx.arc_tokens py0 es)) =
          crx2rnx.Ending.ok ys ∧
      List.Forall₂
        (fun (y : crx2rnx.data_format) (e : arc_epoch) =>
          0 ≤ y.arc_order ∧ 0 ≤ y.order ∧
          y.u y.order.toNat * 10 ^ 5 + y.l y.order.toNat =
            e.value.1 * 10 ^ 5 + e.value.2) ys es := by
  obtain ⟨ys, h1, h2⟩ := arc_run skip es py0 dy0 (Or.inr hfirst)
  refine ⟨ys, h1, ?_⟩
  norm_num
  exact h2

/-- C1 witness: the sample run (a value repeated, then increased by one),
started with a new satellite. -/
theorem arc_round_trip_witness :
    (∀ e, sample_arc.head? = some e →
      e.i0 < 0 ∨ ({ u := fun _ => 0, l := fun _ => 0, order := 0 } : rnx2crx.data_format).order = -1) ∧
    ∃ ys, crx2rnx.arc_entries false
          { u := fun _ => 0, l := fun _ => 0, order := 0, arc_order := 0 }
          (sample_arc.zip (rnx2crx.arc_tokens
            { u := fun _ => 0, l := fun _ => 0, order := 0 } sample_arc)) =
          crx2rnx.Ending.ok ys ∧
      List.Forall₂
        (fun (y : crx2rnx.data_format) (e : arc_epoch) =>
          0 ≤ y.arc_order ∧ 0 ≤ y.order ∧
          y.u y.order.toNat * 10 ^ 5 + y.l y.order.toNat =
            e.value.1 * 10 ^ 5 + e.value.2) ys sample_arc :=
  ⟨by
    intro e he
    simp only [sample_arc, List.head?_cons, Option.some.injEq] at he
    subst he
    exact Or.inl (by decide),
   arc_round_trip false sample_arc _ _ (by
    intro e he
    simp only [sample_arc, List.head?_cons, Option.some.injEq] at he
    subst he
    exact Or.inl (by decide))⟩

theorem sample_arc_tokens :
    rnx2crx.arc_tokens { u := fun _ => 0, l := fun _ => 0, order := 0 } sample_arc =
      ["3&23456789123".toList, "0".toList, "1".toList] := by
  decide

end ArcRun

section DecoderNormalized

theorem atol_digits_lt (r : List Char) (acc : Nat) :
    atol_digits r acc < (acc + 1) * 10 ^ r.length := by
  induction r generalizing acc with
  | nil => simp [atol_digits]
  | cons c r ih =>
    simp only [atol_digits, List.length_cons]
    have hp : 0 < 10 ^ r.length := by positivity
    by_cases hc : isdigit c = true
    · rw [if_pos hc]
      have hd := isdigit_val_lt c hc
      have h1 := ih (acc * 10 + (c.toNat - 48))
      have h2 : (acc * 10 + (c.toNat - 48) + 1) * 10 ^ r.length ≤
          (acc + 1) * 10 ^ (r.length + 1) := by
        rw [pow_succ]
        have : acc * 10 + (c.toNat - 48) + 1 ≤ (acc + 1) * 10 := by omega
        calc (acc * 10 + (c.toNat - 48) + 1) * 10 ^ r.length
            ≤ ((acc + 1) * 10) * 10 ^ r.length := Nat.mul_le_mul_right _ this
          _ = (acc + 1) * (10 ^ r.length * 10) := by ring
      omega
    · rw [if_neg hc]
      have : acc + 1 ≤ (acc + 1) * 10 ^ (r.length + 1) :=
        Nat.le_mul_of_pos_right _ (by positivity)
      omega

theorem atol_digits_zero_lt (r : List Char) (k : Nat) (h : r.length ≤ k) :
    atol_digits r 0 < 10 ^ k := by
  have h1 := atol_digits_lt r 0
  have h2 : 10 ^ r.length ≤ 10 ^ k := Nat.pow_le_pow_right (by norm_num) h
  omega

theorem atol_abs_lt (s : List Char) (k : Nat) (h : s.length ≤ k) :
    -(10 ^ k : Int) < atol s ∧ atol s < (10 ^ k : Int) := by
  have hd : (s.dropWhile isspace).length ≤ k :=
    le_trans (List.dropWhile_suffix isspace).length_le h
  have ht : (s.dropWhile isspace).tail.length ≤ k := by
    rw [List.length_tail]
    omega
  have b1 := atol_digits_zero_lt _ k hd
  have b2 := atol_digits_zero_lt _ k ht
  have c1 : ((atol_digits (s.dropWhile isspace) 0 : Nat) : Int) < (10 ^ k : Int) := by
    exact_mod_cast b1
  have c2 : ((atol_digits (s.dropWhile isspace).tail 0 : Nat) : Int) < (10 ^ k : Int) := by
    exact_mod_cast b2
  have p : (0 : Int) < 10 ^ k := by positivity
  unfold atol
  dsimp only
  split_ifs <;> constructor <;> omega

theorem getdiff_value_l_bound (s : List Char) :
    -100000 < (crx2rnx.getdiff_value s).2 ∧ (crx2rnx.getdiff_value s).2 < 100000 := by
  unfold crx2rnx.getdiff_value
  dsimp only
  by_cases hm : s.head? = some '-'
  · rw [if_pos hm]
    by_cases h6 : (s.length : Int) - 1 < 6
    · rw [if_pos h6]
      dsimp only
      obtain ⟨r, hr⟩ : ∃ r, s = '-' :: r := by
        cases s with
        | nil => simp at hm
        | cons c r =>
          simp only [List.head?_cons, Option.some.injEq] at hm
          exact ⟨r, by rw [hm]⟩
      have hlen : r.length ≤ 5 := by
        rw [hr] at h6
        simp only [List.length_cons] at h6
        omega
      rw [hr, atol_minus]
      have := atol_digits_zero_lt r 5 hlen
      omega
    · rw [if_neg h6]
      dsimp only
      have hl : (s.drop (s.length - 5)).length ≤ 5 := by
        rw [List.length_drop]
        omega
      have := atol_abs_lt _ 5 hl
      split_ifs <;> omega
  · rw [if_neg hm]
    by_cases h6 : (s.length : Int) < 6
    · rw [if_pos h6]
      dsimp only
      have := atol_abs_lt s 5 (by omega)
      omega
    · rw [if_neg h6]
      dsimp only
      have hl : (s.drop (s.length - 5)).length ≤ 5 := by
        rw [List.length_drop]
        omega
      have := atol_abs_lt _ 5 hl
      split_ifs <;> omega

theorem getdiff_field_l_bound (skip : Bool) (tok : List Char) (i0 : Int)
    (dy0 stale y0 : crx2rnx.data_format)
    (h : crx2rnx.getdiff_field skip tok i0 dy0 stale = crx2rnx.Ending.ok y0)
    (hnb : 0 ≤ y0.arc_order) :
    -100000 < y0.l 0 ∧ y0.l 0 < 100000 := by
  unfold crx2rnx.getdiff_field at h
  dsimp only at h
  split_ifs at h
  · simp only [crx2rnx.Ending.ok.injEq] at h
    rw [← h] at hnb
    simp at hnb
  · simp only [crx2rnx.Ending.ok.injEq] at h
    rw [← h]
    simp only [setAt_same]
    exact getdiff_value_l_bound _
  · simp only [crx2rnx.Ending.ok.injEq] at h
    rw [← h]
    simp only [setAt_same]
    exact getdiff_value_l_bound _

theorem data_field_l_bound (dy0 y0 : crx2rnx.data_format)
    (h0 : -100000 < y0.l 0 ∧ y0.l 0 < 100000) :
    -100000 < (crx2rnx.data_field dy0 y0).l (crx2rnx.data_field dy0 y0).order.toNat ∧
    (crx2rnx.data_field dy0 y0).l (crx2rnx.data_field dy0 y0).order.toNat < 100000 := by
  unfold crx2rnx.data_field
  by_cases hb : y0.order < y0.arc_order
  · rw [if_pos hb]
    dsimp only
    obtain ⟨h1, _, _, h4, h5⟩ :=
      sum_loop dy0.u dy0.l { y0 with order := y0.order + 1 } (y0.order + 1).toNat
    rw [h1]
    dsimp only
    rcases Nat.eq_zero_or_pos (y0.order + 1).toNat with hz | hp
    · rw [hz] at h4 ⊢
      simp only [List.range_zero, List.foldl_nil] at h4 ⊢
      exact h0
    · obtain ⟨k, hk⟩ : ∃ k, (y0.order + 1).toNat = k + 1 := ⟨(y0.order + 1).toNat - 1, by omega⟩
      have := (h5 k (by omega)).2
      rw [← hk] at this
      exact this
  · rw [if_neg hb]
    obtain ⟨h1, _, _, h4, h5⟩ :=
      sum_loop (fun k => dy0.u (k + 1)) (fun k => dy0.l (k + 1)) y0 y0.order.toNat
    rw [h1]
    rcases Nat.eq_zero_or_pos y0.order.toNat with hz | hp
    · rw [hz] at h4 ⊢
      simp only [List.range_zero, List.foldl_nil] at h4 ⊢
      exact h0
    · obtain ⟨k, hk⟩ : ∃ k, y0.order.toNat = k + 1 := ⟨y0.order.toNat - 1, by omega⟩
      have := (h5 k (by omega)).2
      rw [← hk] at this
      exact this

theorem putfield_adjust_normal (u l : Int) (hl : -100000 < l ∧ l < 100000) :
    -100000 < (crx2rnx.putfield_adjust u l).2 ∧ (crx2rnx.putfield_adjust u l).2 < 100000 ∧
    (0 ≤ (crx2rnx.putfield_adjust u l).1 ∧ 0 ≤ (crx2rnx.putfield_adjust u l).2 ∨
      (crx2rnx.putfield_adjust u l).1 ≤ 0 ∧ (crx2rnx.putfield_adjust u l).2 ≤ 0) := by
  unfold crx2rnx.putfield_adjust
  split_ifs <;> dsimp only <;> omega

/-- C6: in every state the decompressor reaches through `getdiff` parsing and
the summation of `data()` (any token text, any previous entry), the pair at
the current order after `putfield`'s sign adjustment satisfies `|l| < 10^5`,
`u` and `l` have the same sign or one is zero, and the adjustment leaves
`u*10^5 + l` unchanged. -/
theorem putfield_pair_normalized (skip : Bool) (tok : List Char) (i0 : Int)
    (dy0 stale y : crx2rnx.data_format)
    (h : crx2rnx.arc_step skip tok i0 dy0 stale = crx2rnx.Ending.ok y)
    (hnb : 0 ≤ y.arc_order) :
    |(crx2rnx.putfield_adjust (y.u y.order.toNat) (y.l y.order.toNat)).2| < 10 ^ 5 ∧
    (0 ≤ (crx2rnx.putfield_adjust (y.u y.order.toNat) (y.l y.order.toNat)).1 ∧
        0 ≤ (crx2rnx.putfield_adjust (y.u y.order.toNat) (y.l y.order.toNat)).2 ∨
      (crx2rnx.putfield_adjust (y.u y.order.toNat) (y.l y.order.toNat)).1 ≤ 0 ∧
        (crx2rnx.putfield_adjust (y.u y.order.toNat) (y.l y.order.toNat)).2 ≤ 0) ∧
    (crx2rnx.putfield_adjust (y.u y.order.toNat) (y.l y.order.toNat)).1 * 10 ^ 5 +
        (crx2rnx.putfield_adjust (y.u y.order.toNat) (y.l y.order.toNat)).2 =
      y.u y.order.toNat * 10 ^ 5 + y.l y.order.toNat := by
  have hb : -100000 < y.l y.order.toNat ∧ y.l y.order.toNat < 100000 := by
    unfold crx2rnx.arc_step at h
    cases hg : crx2rnx.getdiff_field skip tok i0 dy0 stale with
    | ok y0 =>
      rw [hg] at h
      dsimp only at h
      by_cases ha : y0.arc_order ≥ 0
      · rw [if_pos ha] at h
        simp only [crx2rnx.Ending.ok.injEq] at h
        rw [← h]
        exact data_field_l_bound dy0 y0 (getdiff_field_l_bound skip tok i0 dy0 stale y0 hg ha)
      · rw [if_neg ha] at h
        simp only [crx2rnx.Ending.ok.injEq] at h
        rw [h] at ha
        exact absurd hnb ha
    | error_exit n =>
      rw [hg] at h
      simp at h
    | skip_epoch =>
      rw [hg] at h
      simp at h
  obtain ⟨a1, a2, a3⟩ := putfield_adjust_normal _ _ hb
  have a4 := putfield_adjust_value (y.u y.order.toNat) (y.l y.order.toNat)
  refine ⟨?_, a3, ?_⟩
  · rw [abs_lt]
    norm_num
    exact ⟨a1, a2⟩
  · norm_num
    exact a4

end DecoderNormalized

section DecoderNormalizedWitness

theorem sample_next_entry_reached :
    crx2rnx.arc_step false "-299995".toList 0 sample_prev_entry
        { u := fun _ => 0, l := fun _ => 0, order := 0, arc_order := 0 } =
      crx2rnx.Ending.ok sample_next_entry := by
  rfl

theorem sample_next_entry_pair :
    sample_next_entry.order = 1 ∧ sample_next_entry.u 1 = 8 ∧ sample_next_entry.l 1 = -99990 := by
  decide

/-- C6 witness: from the previous value `(10, 5)` the token `-299995` leads to
the pair `(8, -99990)` at order 1, of opposite signs before the adjustment. -/
theorem putfield_pair_normalized_witness :
    (crx2rnx.arc_step false "-299995".toList 0 sample_prev_entry
        { u := fun _ => 0, l := fun _ => 0, order := 0, arc_order := 0 } =
      crx2rnx.Ending.ok sample_next_entry ∧ 0 ≤ sample_next_entry.arc_order) ∧
    (|(crx2rnx.putfield_adjust (sample_next_entry.u sample_next_entry.order.toNat)
        (sample_next_entry.l sample_next_entry.order.toNat)).2| < 10 ^ 5 ∧
    (0 ≤ (crx2rnx.putfield_adjust (sample_next_entry.u sample_next_entry.order.toNat)
          (sample_next_entry.l sample_next_entry.order.toNat)).1 ∧
        0 ≤ (crx2rnx.putfield_adjust (sample_next_entry.u sample_next_entry.order.toNat)
          (sample_next_entry.l sample_next_entry.order.toNat)).2 ∨
      (crx2rnx.putfield_adjust (sample_next_entry.u sample_next_entry.order.toNat)
          (sample_next_entry.l sample_next_entry.order.toNat)).1 ≤ 0 ∧
        (crx2rnx.putfield_adjust (sample_next_entry.u sample_next_entry.order.toNat)
          (sample_next_entry.l sample_next_entry.order.toNat)).2 ≤ 0) ∧
    (crx2rnx.putfield_adjust (sample_next_entry.u sample_next_entry.order.toNat)
        (sample_next_entry.l sample_next_entry.order.toNat)).1 * 10 ^ 5 +
        (crx2rnx.putfield_adjust (sample_next_entry.u sample_next_entry.order.toNat)
          (sample_next_entry.l sample_next_entry.order.toNat)).2 =
      sample_next_entry.u sample_next_entry.order.toNat * 10 ^ 5 +
        sample_next_entry.l sample_next_entry.order.toNat) :=
  ⟨⟨by rfl, by decide⟩,
   putfield_pair_normalized false "-299995".toList 0 sample_prev_entry
    { u := fun _ => 0, l := fun _ => 0, order := 0, arc_order := 0 } sample_next_entry
    (by rfl) (by decide)⟩

end DecoderNormalizedWitness

section ReadValue

theorem list_length_seven (q : List Char) (h : q.length = 7) :
    ∃ q0 q1 q2 q3 q4 q5 q6, q = [q0, q1, q2, q3, q4, q5, q6] := by
  rcases q with _ | ⟨q0, _ | ⟨q1, _ | ⟨q2, _ | ⟨q3, _ | ⟨q4, _ | ⟨q5, _ | ⟨q6, _ | ⟨q7, t⟩⟩⟩⟩⟩⟩⟩⟩
  all_goals first
    | exact ⟨_, _, _, _, _, _, _, rfl⟩
    | (simp at h)

theorem read_value_split (q : List Char) (hq : q.length = 7) (p7 a b c f1 f2 f3 : Char) :
    rnx2crx.read_value (q ++ [p7, a, b, c, f1, f2, f3]) =
      if p7 = ' ' then (0, atol [a, b, f1, f2, f3])
      else if p7 = '-' then (0, -atol [a, b, f1, f2, f3])
      else (atol (q ++ [p7, '.', a, b, f1, f2, f3]),
            if atol (q ++ [p7, '.', a, b, f1, f2, f3]) < 0 then -atol [a, b, f1, f2, f3]
            else atol [a, b, f1, f2, f3]) := by
  obtain ⟨q0, q1, q2, q3, q4, q5, q6, rfl⟩ := list_length_seven q hq
  rfl

theorem atol_digits_eq_dec_value (ds : List Char) (acc : Nat) (h : ∀ c ∈ ds, isdigit c = true) :
    atol_digits ds acc = ds.foldl (fun n c => n * 10 + (c.toNat - 48)) acc := by
  induction ds generalizing acc with
  | nil => rfl
  | cons c ds ih =>
    have hc : isdigit c = true := h c (by simp)
    have hds : ∀ c ∈ ds, isdigit c = true := fun x hx => h x (List.mem_cons_of_mem _ hx)
    simp only [atol_digits, hc, if_true, List.foldl_cons]
    exact ih _ hds

theorem dec_value_eq (ds : List Char) (h : ∀ c ∈ ds, isdigit c = true) :
    dec_value ds = atol_digits ds 0 :=
  (atol_digits_eq_dec_value ds 0 h).symm

theorem atol_digits_ge (t : List Char) (acc : Nat) : acc ≤ atol_digits t acc := by
  induction t generalizing acc with
  | nil => simp [atol_digits]
  | cons c t ih =>
    simp only [atol_digits]
    split_ifs
    · have := ih (acc * 10 + (c.toNat - 48))
      omega
    · exact le_refl _

theorem digit_val_pos (c : Char) (h : isdigit c = true) (h0 : c ≠ '0') : 0 < c.toNat - 48 := by
  by_contra hc
  have hz : c.toNat - 48 = 0 := by omega
  have := digit_char_of_isdigit c h
  rw [hz] at this
  exact h0 this.symm

theorem atol_digits_pos (ds : List Char) (h : ∀ c ∈ ds, isdigit c = true)
    (hne : ds ≠ []) (hz : ds.head? ≠ some '0') : 0 < atol_digits ds 0 := by
  cases ds with
  | nil => exact absurd rfl hne
  | cons c t =>
    have hc : isdigit c = true := h c (by simp)
    have h0 : c ≠ '0' := fun e => hz (by simp [e])
    have hp := digit_val_pos c hc h0
    simp only [atol_digits, hc, if_true]
    have := atol_digits_ge t (0 * 10 + (c.toNat - 48))
    omega

theorem atol_signed_digits (pad : Nat) (neg : Bool) (hs t : List Char) (c : Char)
    (h : ∀ x ∈ hs, isdigit x = true) (hne : hs ≠ []) (hc : isdigit c = false) :
    atol (List.replicate pad ' ' ++ (if neg then ['-'] else []) ++ hs ++ c :: t) =
      (if neg then -1 else 1) * (atol_digits hs 0 : Int) := by
  rw [List.append_assoc, List.append_assoc, atol_blanks]
  have hd : atol_digits (hs ++ c :: t) 0 = atol_digits hs 0 := by
    rw [atol_digits_append _ _ _ h, atol_digits_stop _ _ _ hc]
  cases neg with
  | true =>
    simp only [if_true, List.singleton_append]
    rw [atol_minus, hd]
    ring
  | false =>
    have hhead : ∀ x, (hs ++ c :: t).head? = some x → isdigit x = true := by
      intro x hx
      cases hs with
      | nil => exact absurd rfl hne
      | cons y ys =>
        simp only [List.cons_append, List.head?_cons, Option.some.injEq] at hx
        rw [← hx]
        exact h y (by simp)
    simp only [Bool.false_eq_true, if_false, List.nil_append]
    rw [atol_of_digits _ hhead, hd]
    ring

end ReadValue

section ReadValueExact

theorem atol_digits_three (a b c : Char) (acc : Nat) (ha : isdigit a = true)
    (hb : isdigit b = true) (hc : isdigit c = true) :
    atol_digits [a, b, c] acc =
      ((acc * 10 + (a.toNat - 48)) * 10 + (b.toNat - 48)) * 10 + (c.toNat - 48) := by
  simp [atol_digits, ha, hb, hc]

theorem atol_digits_four (a b c d : Char) (ha : isdigit a = true)
    (hb : isdigit b = true) (hc : isdigit c = true) (hd : isdigit d = true) :
    atol_digits [a, b, c, d] 0 =
      (((a.toNat - 48) * 10 + (b.toNat - 48)) * 10 + (c.toNat - 48)) * 10 + (d.toNat - 48) := by
  simp [atol_digits, ha, hb, hc, hd]

theorem atol_digits_five (a b c d e : Char) (ha : isdigit a = true)
    (hb : isdigit b = true) (hc : isdigit c = true) (hd : isdigit d = true)
    (he : isdigit e = true) :
    atol_digits [a, b, c, d, e] 0 =
      ((((a.toNat - 48) * 10 + (b.toNat - 48)) * 10 + (c.toNat - 48)) * 10 + (d.toNat - 48)) * 10
        + (e.toNat - 48) := by
  simp [atol_digits, ha, hb, hc, hd, he]

theorem atol_five_digits (a b c d e : Char) (ha : isdigit a = true)
    (hb : isdigit b = true) (hc : isdigit c = true) (hd : isdigit d = true)
    (he : isdigit e = true) :
    atol [a, b, c, d, e] =
      ((((((a.toNat - 48) * 10 + (b.toNat - 48)) * 10 + (c.toNat - 48)) * 10 + (d.toNat - 48)) * 10
        + (e.toNat - 48) : Nat) : Int) := by
  rw [atol_of_digits _ (by intro x hx; simp at hx; rw [← hx]; exact ha),
    atol_digits_five a b c d e ha hb hc hd he]

theorem atol_blank_four (b c d e : Char)
    (hb : isdigit b = true) (hc : isdigit c = true) (hd : isdigit d = true)
    (he : isdigit e = true) :
    atol [' ', b, c, d, e] =
      (((((b.toNat - 48) * 10 + (c.toNat - 48)) * 10 + (d.toNat - 48)) * 10
        + (e.toNat - 48) : Nat) : Int) := by
  have := atol_blanks 1 [b, c, d, e]
  simp only [List.replicate_one, List.singleton_append] at this
  rw [this, atol_of_digits _ (by intro x hx; simp at hx; rw [← hx]; exact hb),
    atol_digits_four b c d e hb hc hd he]

theorem atol_minus_four (b c d e : Char)
    (hb : isdigit b = true) (hc : isdigit c = true) (hd : isdigit d = true)
    (he : isdigit e = true) :
    atol ['-', b, c, d, e] =
      -(((((b.toNat - 48) * 10 + (c.toNat - 48)) * 10 + (d.toNat - 48)) * 10
        + (e.toNat - 48) : Nat) : Int) := by
  rw [atol_minus, atol_digits_four b c d e hb hc hd he]

theorem atol_blank_blank_three (c d e : Char)
    (hc : isdigit c = true) (hd : isdigit d = true) (he : isdigit e = true) :
    atol [' ', ' ', c, d, e] =
      ((((c.toNat - 48) * 10 + (d.toNat - 48)) * 10 + (e.toNat - 48) : Nat) : Int) := by
  have := atol_blanks 2 [c, d, e]
  simp only [List.replicate, List.cons_append, List.nil_append] at this
  rw [this, atol_of_digits _ (by intro x hx; simp at hx; rw [← hx]; exact hc),
    atol_digits_three c d e 0 hc hd he]
  simp

theorem atol_blank_minus_three (c d e : Char)
    (hc : isdigit c = true) (hd : isdigit d = true) (he : isdigit e = true) :
    atol [' ', '-', c, d, e] =
      -((((c.toNat - 48) * 10 + (d.toNat - 48)) * 10 + (e.toNat - 48) : Nat) : Int) := by
  have := atol_blanks 1 ['-', c, d, e]
  simp only [List.replicate_one, List.singleton_append] at this
  rw [this, atol_minus, atol_digits_three c d e 0 hc hd he]
  simp

theorem dec_value_three (c d e : Char) :
    dec_value [c, d, e] = ((c.toNat - 48) * 10 + (d.toNat - 48)) * 10 + (e.toNat - 48) := by
  simp [dec_value]

theorem list_split_last_three (l : List Char) (h : 3 ≤ l.length) :
    ∃ hs x y z, l = hs ++ [x, y, z] := by
  have hd : (l.drop (l.length - 3)).length = 3 := by
    rw [List.length_drop]
    omega
  rcases hl : l.drop (l.length - 3) with _ | ⟨x, _ | ⟨y, _ | ⟨z, _ | ⟨w, t⟩⟩⟩⟩
  all_goals rw [hl] at hd
  all_goals simp at hd
  refine ⟨l.take (l.length - 3), x, y, z, ?_⟩
  rw [← hl, List.take_append_drop]

end ReadValueExact

section ReadValueMain

theorem read_value_f14_3 (pad : Nat) (neg : Bool) (ds : List Char) (f1 f2 f3 : Char)
    (hlen : pad + (if neg then 1 else 0) + ds.length = 10)
    (hds : ∀ c ∈ ds, isdigit c = true)
    (hlz : ds ≠ ['0'] → ds.head? ≠ some '0')
    (hf1 : isdigit f1 = true) (hf2 : isdigit f2 = true) (hf3 : isdigit f3 = true) :
    rnx2crx.read_value (f14_3 pad neg ds f1 f2 f3) =
      ((if neg then -1 else 1) * ((dec_value ds / 100 : Nat) : Int),
       (if neg then -1 else 1) *
         (((dec_value ds % 100) * 1000 + dec_value [f1, f2, f3] : Nat) : Int)) := by
  have hsp : ¬ ((' ' : Char) = '-') := by decide
  rcases ds with _ | ⟨d1, _ | ⟨d2, _ | ⟨d3, t⟩⟩⟩
  · -- empty integer part
    cases neg with
    | true =>
      have hp : pad = 9 := by simpa using hlen
      subst hp
      have e : f14_3 9 true [] f1 f2 f3 =
          List.replicate 7 ' ' ++ [' ', ' ', '-', '.', f1, f2, f3] := rfl
      rw [e, read_value_split (List.replicate 7 ' ') rfl, if_pos rfl, atol_blank_minus_three _ _ _ hf1 hf2 hf3,
        dec_value_three]
      simp [dec_value]
    | false =>
      have hp : pad = 10 := by simpa using hlen
      subst hp
      have e : f14_3 10 false [] f1 f2 f3 =
          List.replicate 7 ' ' ++ [' ', ' ', ' ', '.', f1, f2, f3] := rfl
      rw [e, read_value_split (List.replicate 7 ' ') rfl, if_pos rfl, atol_blank_blank_three _ _ _ hf1 hf2 hf3,
        dec_value_three]
      simp [dec_value]
  · -- one digit
    have h1 : isdigit d1 = true := hds d1 (by simp)
    have b1 := isdigit_val_lt d1 h1
    have v1 : dec_value [d1] = d1.toNat - 48 := by simp [dec_value]
    have q1 : (d1.toNat - 48) / 100 = 0 := by omega
    have r1 : (d1.toNat - 48) % 100 = d1.toNat - 48 := by omega
    cases neg with
    | true =>
      have hp : pad = 8 := by
        simp only [if_true, List.length_singleton] at hlen
        omega
      subst hp
      have e : f14_3 8 true [d1] f1 f2 f3 =
          List.replicate 7 ' ' ++ [' ', '-', d1, '.', f1, f2, f3] := rfl
      rw [e, read_value_split (List.replicate 7 ' ') rfl, if_pos rfl, atol_minus_four _ _ _ _ h1 hf1 hf2 hf3,
        dec_value_three, v1, q1, r1]
      simp only [if_true, Prod.mk.injEq]
      constructor
      · simp
      · push_cast
        ring
    | false =>
      have hp : pad = 9 := by
        simp only [Bool.false_eq_true, if_false, List.length_singleton] at hlen
        omega
      subst hp
      have e : f14_3 9 false [d1] f1 f2 f3 =
          List.replicate 7 ' ' ++ [' ', ' ', d1, '.', f1, f2, f3] := rfl
      rw [e, read_value_split (List.replicate 7 ' ') rfl, if_pos rfl, atol_blank_four _ _ _ _ h1 hf1 hf2 hf3,
        dec_value_three, v1, q1, r1]
      simp only [Bool.false_eq_true, if_false, Prod.mk.injEq]
      constructor
      · simp
      · push_cast
        ring
  · -- two digits
    have h1 : isdigit d1 = true := hds d1 (by simp)
    have h2 : isdigit d2 = true := hds d2 (by simp)
    have b1 := isdigit_val_lt d1 h1
    have b2 := isdigit_val_lt d2 h2
    have v : dec_value [d1, d2] = (d1.toNat - 48) * 10 + (d2.toNat - 48) := by simp [dec_value]
    have q1 : ((d1.toNat - 48) * 10 + (d2.toNat - 48)) / 100 = 0 := by omega
    have r1 : ((d1.toNat - 48) * 10 + (d2.toNat - 48)) % 100 =
        (d1.toNat - 48) * 10 + (d2.toNat - 48) := by omega
    cases neg with
    | true =>
      have hp : pad = 7 := by
        simp only [if_true, List.length_cons, List.length_nil] at hlen
        omega
      subst hp
      have e : f14_3 7 true [d1, d2] f1 f2 f3 =
          List.replicate 7 ' ' ++ ['-', d1, d2, '.', f1, f2, f3] := rfl
      rw [e, read_value_split (List.replicate 7 ' ') rfl, if_neg (by decide), if_pos rfl,
        atol_five_digits _ _ _ _ _ h1 h2 hf1 hf2 hf3, dec_value_three, v, q1, r1]
      simp only [if_true, Prod.mk.injEq]
      constructor
      · simp
      · push_cast
        ring
    | false =>
      have hp : pad = 8 := by
        simp only [Bool.false_eq_true, if_false, List.length_cons, List.length_nil] at hlen
        omega
      subst hp
      have e : f14_3 8 false [d1, d2] f1 f2 f3 =
          List.replicate 7 ' ' ++ [' ', d1, d2, '.', f1, f2, f3] := rfl
      rw [e, read_value_split (List.replicate 7 ' ') rfl, if_pos rfl,
        atol_five_digits _ _ _ _ _ h1 h2 hf1 hf2 hf3, dec_value_three, v, q1, r1]
      simp only [Bool.false_eq_true, if_false, Prod.mk.injEq]
      constructor
      · simp
      · push_cast
        ring
  · -- three digits or more
    obtain ⟨hs, x, a, b, hsplit⟩ := list_split_last_three (d1 :: d2 :: d3 :: t)
      (by simp only [List.length_cons]; omega)
    have hne : d1 :: d2 :: d3 :: t ≠ ['0'] := by simp
    have hhead := hlz hne
    rw [hsplit] at hds hlen hhead ⊢
    clear hsplit hne hlz
    have hx : isdigit x = true := hds x (by simp)
    have ha : isdigit a = true := hds a (by simp)
    have hb : isdigit b = true := hds b (by simp)
    have hhs : ∀ c ∈ hs ++ [x], isdigit c = true := by
      intro c hc
      apply hds c
      rcases List.mem_append.mp hc with h | h
      · exact List.mem_append_left _ h
      · simp only [List.mem_singleton] at h
        simp [h]
    have hhx_ne : hs ++ [x] ≠ [] := by simp
    have hhx_head : (hs ++ [x]).head? ≠ some '0' := by
      cases hs with
      | nil => simpa using hhead
      | cons y ys => simpa using hhead
    have hH := atol_digits_pos (hs ++ [x]) hhs hhx_ne hhx_head
    have hq : (List.replicate pad ' ' ++ (if neg then ['-'] else []) ++ hs).length = 7 := by
      simp only [List.length_append, List.length_replicate, List.length_cons,
        List.length_nil] at hlen ⊢
      cases neg <;> simp at hlen ⊢ <;> omega
    have e : f14_3 pad neg (hs ++ [x, a, b]) f1 f2 f3 =
        (List.replicate pad ' ' ++ (if neg then ['-'] else []) ++ hs) ++
          [x, a, b, '.', f1, f2, f3] := by
      simp [f14_3]
    have e2 : (List.replicate pad ' ' ++ (if neg then ['-'] else []) ++ hs) ++
          [x, '.', a, b, f1, f2, f3] =
        List.replicate pad ' ' ++ (if neg then ['-'] else []) ++ (hs ++ [x]) ++
          '.' :: [a, b, f1, f2, f3] := by
      simp
    have hxs : x ≠ ' ' := isdigit_ne x ' ' hx (by decide)
    have hxm : x ≠ '-' := isdigit_ne x '-' hx (by decide)
    have hval : dec_value (hs ++ [x, a, b]) =
        (atol_digits (hs ++ [x]) 0 * 10 + (a.toNat - 48)) * 10 + (b.toNat - 48) := by
      rw [dec_value_eq _ hds]
      have : hs ++ [x, a, b] = (hs ++ [x]) ++ [a, b] := by simp
      rw [this, atol_digits_append _ _ _ hhs]
      simp [atol_digits, ha, hb]
    have ba := isdigit_val_lt a ha
    have bb := isdigit_val_lt b hb
    rw [e, read_value_split _ hq, if_neg hxs, if_neg hxm, e2,
      atol_signed_digits pad neg (hs ++ [x]) _ '.' hhs hhx_ne (by decide),
      atol_five_digits _ _ _ _ _ ha hb hf1 hf2 hf3, dec_value_three, hval]
    generalize atol_digits (hs ++ [x]) 0 = H at hH
    have q1 : ((H * 10 + (a.toNat - 48)) * 10 + (b.toNat - 48)) / 100 = H := by omega
    have r1 : ((H * 10 + (a.toNat - 48)) * 10 + (b.toNat - 48)) % 100 =
        (a.toNat - 48) * 10 + (b.toNat - 48) := by omega
    rw [q1, r1]
    cases neg with
    | true =>
      have hneg : (-1 : Int) * (H : Int) < 0 := by omega
      simp only [if_true, hneg, Prod.mk.injEq, true_and]
      push_cast
      ring
    | false =>
      have hpos : ¬ ((1 : Int) * (H : Int) < 0) := by omega
      simp only [Bool.false_eq_true, if_false, hpos, Prod.mk.injEq, true_and]
      push_cast
      ring

end ReadValueMain

section ReadValueClaim

theorem dec_value_three_lt (f1 f2 f3 : Char) (hf1 : isdigit f1 = true) (hf2 : isdigit f2 = true)
    (hf3 : isdigit f3 = true) : dec_value [f1, f2, f3] < 1000 := by
  rw [dec_value_three]
  have b1 := isdigit_val_lt f1 hf1
  have b2 := isdigit_val_lt f2 hf2
  have b3 := isdigit_val_lt f3 hf3
  omega

/-- C3: `read_value` is exact.  For every 14-character field made of blanks,
an optional minus sign, an integer part `ds` of decimal digits without leading
zeros (possibly empty, or the single digit 0), a decimal point at column 10
and three decimals, `read_value` returns `(u, l)` with `u*10^5 + l` equal to
the field's value multiplied by 1000, `|l| < 10^5`, and `u`, `l` never of
opposite sign. -/
theorem read_value_exact (pad : Nat) (neg : Bool) (ds : List Char) (f1 f2 f3 : Char)
    (hlen : pad + (if neg then 1 else 0) + ds.length = 10)
    (hds : ∀ c ∈ ds, isdigit c = true)
    (hlz : ds ≠ ['0'] → ds.head? ≠ some '0')
    (hf1 : isdigit f1 = true) (hf2 : isdigit f2 = true) (hf3 : isdigit f3 = true) :
    (rnx2crx.read_value (f14_3 pad neg ds f1 f2 f3)).1 * 10 ^ 5 +
        (rnx2crx.read_value (f14_3 pad neg ds f1 f2 f3)).2 = f14_3_value neg ds f1 f2 f3 ∧
    |(rnx2crx.read_value (f14_3 pad neg ds f1 f2 f3)).2| < 10 ^ 5 ∧
    (0 ≤ (rnx2crx.read_value (f14_3 pad neg ds f1 f2 f3)).1 ∧
        0 ≤ (rnx2crx.read_value (f14_3 pad neg ds f1 f2 f3)).2 ∨
      (rnx2crx.read_value (f14_3 pad neg ds f1 f2 f3)).1 ≤ 0 ∧
        (rnx2crx.read_value (f14_3 pad neg ds f1 f2 f3)).2 ≤ 0) := by
  rw [read_value_f14_3 pad neg ds f1 f2 f3 hlen hds hlz hf1 hf2 hf3]
  have hF := dec_value_three_lt f1 f2 f3 hf1 hf2 hf3
  unfold f14_3_value
  generalize dec_value [f1, f2, f3] = F at hF
  generalize dec_value ds = D
  have hD : D = D / 100 * 100 + D % 100 := by omega
  have hr : D % 100 < 100 := Nat.mod_lt _ (by norm_num)
  generalize D / 100 = Q at hD
  generalize D % 100 = R at hD hr
  subst hD
  rw [abs_lt]
  cases neg with
  | true =>
    simp only [if_true]
    push_cast
    refine ⟨by ring, ⟨by omega, by omega⟩, Or.inr ⟨by omega, by omega⟩⟩
  | false =>
    simp only [Bool.false_eq_true, if_false]
    push_cast
    refine ⟨by ring, ⟨by omega, by omega⟩, Or.inl ⟨by omega, by omega⟩⟩

/-- C3 witness: the field `-12345.678` right-justified in 14 columns (read as
the pair `(-123, -45678)`): the parameters give that text and meet the
hypotheses. -/
theorem read_value_exact_witness :
    (f14_3 4 true "12345".toList '6' '7' '8' = "    -12345.678".toList ∧
      4 + (if true = true then 1 else 0) + "12345".toList.length = 10) ∧
    ((rnx2crx.read_value (f14_3 4 true "12345".toList '6' '7' '8')).1 * 10 ^ 5 +
        (rnx2crx.read_value (f14_3 4 true "12345".toList '6' '7' '8')).2 =
          f14_3_value true "12345".toList '6' '7' '8' ∧
    |(rnx2crx.read_value (f14_3 4 true "12345".toList '6' '7' '8')).2| < 10 ^ 5 ∧
    (0 ≤ (rnx2crx.read_value (f14_3 4 true "12345".toList '6' '7' '8')).1 ∧
        0 ≤ (rnx2crx.read_value (f14_3 4 true "12345".toList '6' '7' '8')).2 ∨
      (rnx2crx.read_value (f14_3 4 true "12345".toList '6' '7' '8')).1 ≤ 0 ∧
        (rnx2crx.read_value (f14_3 4 true "12345".toList '6' '7' '8')).2 ≤ 0)) :=
  ⟨⟨by decide, by decide⟩,
   read_value_exact 4 true "12345".toList '6' '7' '8' (by decide) (by decide) (by decide)
    (by decide) (by decide) (by decide)⟩

end ReadValueClaim

section FieldText

theorem field_round_trip_zero_text :
    field_round_trip sample_prev_entry "         0.123".toList ' ' ' ' =
      crx2rnx.Ending.ok "          .123  ".toList := by
  decide

theorem pad_digits_of_digits (ds : List Char) (h : ∀ c ∈ ds, isdigit c = true) :
    pad_digits ds.length (atol_digits ds 0) = ds := by
  induction ds using List.reverseRecOn with
  | nil => rfl
  | append_singleton ds c ih =>
    have hds : ∀ x ∈ ds, isdigit x = true := fun x hx => h x (List.mem_append_left _ hx)
    have hc : isdigit c = true := h c (by simp)
    have bc := isdigit_val_lt c hc
    rw [atol_digits_append _ _ _ hds, List.length_append, List.length_singleton]
    have e1 : atol_digits [c] (atol_digits ds 0) = atol_digits ds 0 * 10 + (c.toNat - 48) := by
      simp [atol_digits, hc]
    rw [e1]
    have e2 : pad_digits (ds.length + 1) (atol_digits ds 0 * 10 + (c.toNat - 48)) =
        pad_digits ds.length ((atol_digits ds 0 * 10 + (c.toNat - 48)) / 10) ++
          [digit_char ((atol_digits ds 0 * 10 + (c.toNat - 48)) % 10)] := rfl
    have e3 : (atol_digits ds 0 * 10 + (c.toNat - 48)) / 10 = atol_digits ds 0 := by omega
    have e4 : (atol_digits ds 0 * 10 + (c.toNat - 48)) % 10 = c.toNat - 48 := by omega
    rw [e2, e3, e4, ih hds, digit_char_of_isdigit c hc]

theorem dec_digits_of_digits (hs : List Char) (h : ∀ c ∈ hs, isdigit c = true)
    (hne : hs ≠ []) (hz : hs.head? ≠ some '0') :
    dec_digits (atol_digits hs 0) = hs := by
  induction hs using List.reverseRecOn with
  | nil => exact absurd rfl hne
  | append_singleton hs c ih =>
    have hhs : ∀ x ∈ hs, isdigit x = true := fun x hx => h x (List.mem_append_left _ hx)
    have hc : isdigit c = true := h c (by simp)
    have bc := isdigit_val_lt c hc
    rw [atol_digits_append _ _ _ hhs]
    have e1 : atol_digits [c] (atol_digits hs 0) = atol_digits hs 0 * 10 + (c.toNat - 48) := by
      simp [atol_digits, hc]
    rw [e1]
    by_cases hnil : hs = []
    · subst hnil
      simp only [atol_digits, Nat.zero_mul, Nat.zero_add, List.nil_append]
      rw [dec_digits_lt _ bc, digit_char_of_isdigit c hc]
    · have hz' : hs.head? ≠ some '0' := by
        cases hs with
        | nil => exact absurd rfl hnil
        | cons y ys => simpa using hz
      have hpos := atol_digits_pos hs hhs hnil hz'
      rw [dec_digits_mul_add _ _ hpos bc, ih hhs hnil hz', digit_char_of_isdigit c hc]

theorem back_get_append (p t : List Char) (k : Nat) (hk : k ≤ t.length) :
    back_get (p ++ t) k = t.getD (t.length - k) NUL := by
  unfold back_get
  have e : (p ++ t).length - k = p.length + (t.length - k) := by
    rw [List.length_append]
    omega
  rw [e, List.getD_eq_getElem?_getD, List.getD_eq_getElem?_getD,
    List.getElem?_append_right (by omega)]
  congr 2
  omega

theorem back_set_append (p t : List Char) (k : Nat) (c : Char) (hk : k ≤ t.length) :
    back_set (p ++ t) k c = p ++ t.set (t.length - k) c := by
  unfold back_set
  have e : (p ++ t).length - k = p.length + (t.length - k) := by
    rw [List.length_append]
    omega
  rw [e, List.set_append_right _ _ (by omega)]
  congr 2
  omega

theorem putfield_text_nonzero (u l : Int) (c1 c2 c3 c4 c5 flag0 flag1 : Char) (hu : u ≠ 0)
    (hfmt : fmt_ld_p 5 (labs l) = [c1, c2, c3, c4, c5]) :
    crx2rnx.putfield_text u l flag0 flag1 =
      fmt_ld_w 8 u ++ [c1, c2, '.', c3, c4, c5, flag0, flag1] := by
  unfold crx2rnx.putfield_text
  rw [if_pos hu, hfmt]
  have e : fmt_ld_w 8 u ++ [' '] ++ [c1, c2, c3, c4, c5] ++ [flag0, flag1] =
      fmt_ld_w 8 u ++ [' ', c1, c2, c3, c4, c5, flag0, flag1] := by simp
  dsimp only
  rw [e, back_get_append _ _ 7 (by simp), back_set_append _ _ 8 _ (by simp)]
  simp only [List.length_cons, List.length_nil]
  rw [back_get_append _ _ 6 (by simp), back_set_append _ _ 7 _ (by simp),
    back_set_append _ _ 6 _ (by simp)]
  rfl

theorem putfield_text_zero (l : Int) (c1 c2 c3 c4 c5 flag0 flag1 : Char)
    (hfmt : fmt_ld_p 5 (labs l) = [c1, c2, c3, c4, c5]) :
    crx2rnx.putfield_text 0 l flag0 flag1 =
      if c1 ≠ '0' then
        List.replicate 7 ' ' ++
          [if l < 0 then '-' else ' ', c1, c2, '.', c3, c4, c5, flag0, flag1]
      else if c2 ≠ '0' then
        List.replicate 8 ' ' ++ [if l < 0 then '-' else ' ', c2, '.', c3, c4, c5, flag0, flag1]
      else
        List.replicate 9 ' ' ++ [if l < 0 then '-' else ' ', '.', c3, c4, c5, flag0, flag1] := by
  unfold crx2rnx.putfield_text
  rw [if_neg (by simp), hfmt]
  have e : List.replicate 9 ' ' ++ [c1, c2, c3, c4, c5] ++ [flag0, flag1] =
      [' ', ' ', ' ', ' ', ' ', ' ', ' ', ' ', ' ', c1, c2, c3, c4, c5, flag0, flag1] := rfl
  dsimp only
  rw [e]
  have g7 : back_get
      [' ', ' ', ' ', ' ', ' ', ' ', ' ', ' ', ' ', c1, c2, c3, c4, c5, flag0, flag1] 7 = c1 := rfl
  have g6 : back_get
      [' ', ' ', ' ', ' ', ' ', ' ', ' ', ' ', ' ', c1, c2, c3, c4, c5, flag0, flag1] 6 = c2 := rfl
  rw [g7, g6]
  by_cases h1 : c1 ≠ '0'
  · rw [if_pos h1, if_pos h1]
    by_cases hl : l < 0
    · rw [if_pos hl, if_pos hl]
      rfl
    · rw [if_neg hl, if_neg hl]
      rfl
  · rw [if_neg h1, if_neg h1]
    by_cases h2 : c2 ≠ '0'
    · rw [if_pos h2, if_pos h2]
      by_cases hl : l < 0
      · rw [if_pos hl]
        rfl
      · rw [if_neg hl]
        rfl
    · rw [if_neg h2, if_neg h2]
      by_cases hl : l < 0
      · rw [if_pos hl]
        rfl
      · rw [if_neg hl]
        rfl

end FieldText

section FieldRoundTrip

theorem field_round_trip_eq (stale : crx2rnx.data_format) (field : List Char)
    (flag0 flag1 : Char) (u l : Int) (hr : rnx2crx.read_value field = (u, l))
    (hs : ¬ (u < 0 ∧ l > 0) ∧ ¬ (u > 0 ∧ l < 0))
    (hov : -9999999 ≤ u ∧ u ≤ 99999999) :
    field_round_trip stale field flag0 flag1 =
      crx2rnx.Ending.ok (crx2rnx.putfield_text u l flag0 flag1) := by
  unfold field_round_trip crx2rnx.putfield
  simp only [hr, Int.toNat_zero, setAt_same]
  have ha : crx2rnx.putfield_adjust u l = (u, l) := by
    unfold crx2rnx.putfield_adjust
    rw [if_neg hs.1, if_neg hs.2]
  have ho : crx2rnx.putfield_overflow u = false := by
    unfold crx2rnx.putfield_overflow
    simp only [decide_eq_false_iff_not]
    omega
  rw [ha]
  simp only [ho]
  rfl

theorem fmt_five (c1 c2 c3 c4 c5 : Char) (l : Int) (h1 : isdigit c1 = true)
    (h2 : isdigit c2 = true) (h3 : isdigit c3 = true) (h4 : isdigit c4 = true)
    (h5 : isdigit c5 = true)
    (hl : labs l = ((atol_digits [c1, c2, c3, c4, c5] 0 : Nat) : Int)) :
    fmt_ld_p 5 (labs l) = [c1, c2, c3, c4, c5] := by
  have hall : ∀ c ∈ [c1, c2, c3, c4, c5], isdigit c = true := by
    intro c hc
    simp only [List.mem_cons, List.mem_singleton, List.not_mem_nil, or_false] at hc
    rcases hc with h | h | h | h | h <;> rw [h] <;> assumption
  rw [hl, fmt_ld_p_nat _ (atol_digits_zero_lt _ 5 (by simp))]
  exact pad_digits_of_digits [c1, c2, c3, c4, c5] hall

theorem labs_neg_nat (n : Nat) : labs (-1 * (n : Int)) = (n : Int) := by
  unfold labs
  split_ifs <;> omega

theorem labs_pos_nat (n : Nat) : labs (1 * (n : Int)) = (n : Int) := by
  unfold labs
  split_ifs <;> omega

theorem zero_digit : isdigit '0' = true ∧ '0'.toNat - 48 = 0 := by
  decide

end FieldRoundTrip

section FieldRoundTripMain

theorem labs_signed_nat (neg : Bool) (n : Nat) :
    labs ((if neg then -1 else 1) * (n : Int)) = (n : Int) := by
  cases neg with
  | true => exact labs_neg_nat n
  | false => exact labs_pos_nat n

theorem round_trip_zero (stale : crx2rnx.data_format) (field : List Char) (flag0 flag1 : Char)
    (neg : Bool) (n : Nat) (c1 c2 c3 c4 c5 : Char)
    (h1 : isdigit c1 = true) (h2 : isdigit c2 = true) (h3 : isdigit c3 = true)
    (h4 : isdigit c4 = true) (h5 : isdigit c5 = true)
    (hn : n = atol_digits [c1, c2, c3, c4, c5] 0)
    (hr : rnx2crx.read_value field = (0, (if neg then -1 else 1) * (n : Int)))
    (hpos : neg = true → 0 < n) :
    field_round_trip stale field flag0 flag1 =
      crx2rnx.Ending.ok
        (if c1 ≠ '0' then
          List.replicate 7 ' ' ++
            [if neg then '-' else ' ', c1, c2, '.', c3, c4, c5, flag0, flag1]
        else if c2 ≠ '0' then
          List.replicate 8 ' ' ++ [if neg then '-' else ' ', c2, '.', c3, c4, c5, flag0, flag1]
        else
          List.replicate 9 ' ' ++ [if neg then '-' else ' ', '.', c3, c4, c5, flag0, flag1]) := by
  have hfmt := fmt_five c1 c2 c3 c4 c5 ((if neg then -1 else 1) * (n : Int)) h1 h2 h3 h4 h5
    (by rw [labs_signed_nat, hn])
  rw [field_round_trip_eq stale _ flag0 flag1 _ _ hr
    (by constructor <;> omega) (by constructor <;> omega),
    putfield_text_zero _ _ _ _ _ _ _ _ hfmt]
  have hsign : ((if neg then -1 else 1) * (n : Int) < 0) ↔ neg = true := by
    cases neg with
    | true =>
      have := hpos rfl
      simp only [if_true, iff_true]
      omega
    | false =>
      simp only [Bool.false_eq_true, if_false, iff_false]
      omega
  simp only [hsign]

theorem round_trip_nonzero (stale : crx2rnx.data_format) (field : List Char)
    (flag0 flag1 : Char) (neg : Bool) (H n : Nat) (c1 c2 c3 c4 c5 : Char)
    (h1 : isdigit c1 = true) (h2 : isdigit c2 = true) (h3 : isdigit c3 = true)
    (h4 : isdigit c4 = true) (h5 : isdigit c5 = true)
    (hn : n = atol_digits [c1, c2, c3, c4, c5] 0)
    (hr : rnx2crx.read_value field =
      ((if neg then -1 else 1) * (H : Int), (if neg then -1 else 1) * (n : Int)))
    (hH : 0 < H) (hb : H < if neg then 10 ^ 7 else 10 ^ 8) :
    field_round_trip stale field flag0 flag1 =
      crx2rnx.Ending.ok
        (fmt_ld_w 8 ((if neg then -1 else 1) * (H : Int)) ++
          [c1, c2, '.', c3, c4, c5, flag0, flag1]) := by
  have hfmt := fmt_five c1 c2 c3 c4 c5 ((if neg then -1 else 1) * (n : Int)) h1 h2 h3 h4 h5
    (by rw [labs_signed_nat, hn])
  have hu : (if neg then -1 else 1) * (H : Int) ≠ 0 := by
    cases neg <;> simp only [if_true, Bool.false_eq_true, if_false] <;> omega
  have hsame : ¬ ((if neg then -1 else 1) * (H : Int) < 0 ∧ (if neg then -1 else 1) * (n : Int) > 0) ∧
      ¬ ((if neg then -1 else 1) * (H : Int) > 0 ∧ (if neg then -1 else 1) * (n : Int) < 0) := by
    cases neg <;> simp only [if_true, Bool.false_eq_true, if_false] <;> omega
  have hrange : -9999999 ≤ (if neg then -1 else 1) * (H : Int) ∧
      (if neg then -1 else 1) * (H : Int) ≤ 99999999 := by
    cases neg <;> simp only [if_true, Bool.false_eq_true, if_false] at hb ⊢ <;> omega
  rw [field_round_trip_eq stale _ flag0 flag1 _ _ hr hsame hrange,
    putfield_text_nonzero _ _ _ _ _ _ _ _ _ hu hfmt]

theorem field_round_trip_f14_3 (stale : crx2rnx.data_format) (pad : Nat) (neg : Bool)
    (ds : List Char) (f1 f2 f3 flag0 flag1 : Char)
    (hlen : pad + (if neg then 1 else 0) + ds.length = 10)
    (hds : ∀ c ∈ ds, isdigit c = true)
    (hlz : ds.head? ≠ some '0')
    (hnz : neg = true → f14_3_value neg ds f1 f2 f3 ≠ 0)
    (hf1 : isdigit f1 = true) (hf2 : isdigit f2 = true) (hf3 : isdigit f3 = true) :
    field_round_trip stale (f14_3 pad neg ds f1 f2 f3) flag0 flag1 =
      crx2rnx.Ending.ok (f14_3 pad neg ds f1 f2 f3 ++ [flag0, flag1]) := by
  have hrv := read_value_f14_3 pad neg ds f1 f2 f3 hlen hds (fun _ => hlz) hf1 hf2 hf3
  have hF := dec_value_three_lt f1 f2 f3 hf1 hf2 hf3
  have hF3 := dec_value_three f1 f2 f3
  have z := zero_digit
  have b1 := isdigit_val_lt f1 hf1
  have b2 := isdigit_val_lt f2 hf2
  have b3 := isdigit_val_lt f3 hf3
  rcases ds with _ | ⟨d1, _ | ⟨d2, _ | ⟨d3, t⟩⟩⟩
  · -- empty integer part
    have hD : dec_value [] = 0 := rfl
    have hpos : neg = true → 0 < dec_value [f1, f2, f3] := by
      intro hn
      have := hnz hn
      unfold f14_3_value at this
      rw [hD] at this
      by_contra hc
      have h0 : dec_value [f1, f2, f3] = 0 := by omega
      rw [h0] at this
      simp at this
    have hr : rnx2crx.read_value (f14_3 pad neg [] f1 f2 f3) =
        (0, (if neg then -1 else 1) * ((dec_value [f1, f2, f3] : Nat) : Int)) := by
      rw [hrv, hD]
      simp
    rw [round_trip_zero stale _ flag0 flag1 neg (dec_value [f1, f2, f3]) '0' '0' f1 f2 f3
      z.1 z.1 hf1 hf2 hf3
      (by rw [atol_digits_five _ _ _ _ _ z.1 z.1 hf1 hf2 hf3, hF3, z.2]; omega) hr hpos,
      if_neg (by decide), if_neg (by decide)]
    cases neg with
    | true =>
      have hp : pad = 9 := by simpa using hlen
      subst hp
      rfl
    | false =>
      have hp : pad = 10 := by simpa using hlen
      subst hp
      rfl
  · -- one digit
    have h1 : isdigit d1 = true := hds d1 (by simp)
    have hd0 : d1 ≠ '0' := fun e => hlz (by simp [e])
    have p1 := digit_val_pos d1 h1 hd0
    have c1 := isdigit_val_lt d1 h1
    have v1 : dec_value [d1] = d1.toNat - 48 := by simp [dec_value]
    have q1 : (d1.toNat - 48) / 100 = 0 := by omega
    have r1 : (d1.toNat - 48) % 100 = d1.toNat - 48 := by omega
    have hr : rnx2crx.read_value (f14_3 pad neg [d1] f1 f2 f3) =
        (0, (if neg then -1 else 1) *
          (((d1.toNat - 48) * 1000 + dec_value [f1, f2, f3] : Nat) : Int)) := by
      rw [hrv, v1, q1, r1]
      simp
    rw [round_trip_zero stale _ flag0 flag1 neg _ '0' d1 f1 f2 f3
      z.1 h1 hf1 hf2 hf3
      (by rw [atol_digits_five _ _ _ _ _ z.1 h1 hf1 hf2 hf3, hF3, z.2]; omega) hr
      (by intro _; omega),
      if_neg (by decide), if_pos hd0]
    cases neg with
    | true =>
      have hp : pad = 8 := by
        simp only [if_true, List.length_singleton] at hlen
        omega
      subst hp
      rfl
    | false =>
      have hp : pad = 9 := by
        simp only [Bool.false_eq_true, if_false, List.length_singleton] at hlen
        omega
      subst hp
      rfl
  · -- two digits
    have h1 : isdigit d1 = true := hds d1 (by simp)
    have h2 : isdigit d2 = true := hds d2 (by simp)
    have hd0 : d1 ≠ '0' := fun e => hlz (by simp [e])
    have p1 := digit_val_pos d1 h1 hd0
    have c1 := isdigit_val_lt d1 h1
    have c2 := isdigit_val_lt d2 h2
    have v : dec_value [d1, d2] = (d1.toNat - 48) * 10 + (d2.toNat - 48) := by simp [dec_value]
    have q1 : ((d1.toNat - 48) * 10 + (d2.toNat - 48)) / 100 = 0 := by omega
    have r1 : ((d1.toNat - 48) * 10 + (d2.toNat - 48)) % 100 =
        (d1.toNat - 48) * 10 + (d2.toNat - 48) := by omega
    have hr : rnx2crx.read_value (f14_3 pad neg [d1, d2] f1 f2 f3) =
        (0, (if neg then -1 else 1) *
          ((((d1.toNat - 48) * 10 + (d2.toNat - 48)) * 1000 + dec_value [f1, f2, f3] : Nat)
            : Int)) := by
      rw [hrv, v, q1, r1]
      simp
    rw [round_trip_zero stale _ flag0 flag1 neg _ d1 d2 f1 f2 f3
      h1 h2 hf1 hf2 hf3
      (by rw [atol_digits_five _ _ _ _ _ h1 h2 hf1 hf2 hf3, hF3]; omega) hr
      (by intro _; omega),
      if_pos hd0]
    cases neg with
    | true =>
      have hp : pad = 7 := by
        simp only [if_true, List.length_cons, List.length_nil] at hlen
        omega
      subst hp
      rfl
    | false =>
      have hp : pad = 8 := by
        simp only [Bool.false_eq_true, if_false, List.length_cons, List.length_nil] at hlen
        omega
      subst hp
      rfl
  · -- three digits or more
    obtain ⟨hs, x, a, b, hsplit⟩ := list_split_last_three (d1 :: d2 :: d3 :: t)
      (by simp only [List.length_cons]; omega)
    rw [hsplit] at hds hlen hlz hrv ⊢
    clear hsplit hnz
    have hx : isdigit x = true := hds x (by simp)
    have ha : isdigit a = true := hds a (by simp)
    have hb : isdigit b = true := hds b (by simp)
    have hhs : ∀ c ∈ hs ++ [x], isdigit c = true := by
      intro c hc
      apply hds c
      rcases List.mem_append.mp hc with h | h
      · exact List.mem_append_left _ h
      · simp only [List.mem_singleton] at h
        simp [h]
    have hhx_ne : hs ++ [x] ≠ [] := by simp
    have hhx_head : (hs ++ [x]).head? ≠ some '0' := by
      cases hs with
      | nil => simpa using hlz
      | cons y ys => simpa using hlz
    have hH := atol_digits_pos (hs ++ [x]) hhs hhx_ne hhx_head
    have hdd := dec_digits_of_digits (hs ++ [x]) hhs hhx_ne hhx_head
    have hlen' : pad + (if neg then 1 else 0) + (hs ++ [x]).length = 8 := by
      simp only [List.length_append, List.length_cons, List.length_nil] at hlen ⊢
      omega
    have hHlt := atol_digits_zero_lt (hs ++ [x]) (hs ++ [x]).length (le_refl _)
    have hval : dec_value (hs ++ [x, a, b]) =
        (atol_digits (hs ++ [x]) 0 * 10 + (a.toNat - 48)) * 10 + (b.toNat - 48) := by
      rw [dec_value_eq _ hds]
      have : hs ++ [x, a, b] = (hs ++ [x]) ++ [a, b] := by simp
      rw [this, atol_digits_append _ _ _ hhs]
      simp [atol_digits, ha, hb]
    have ba := isdigit_val_lt a ha
    have bb := isdigit_val_lt b hb
    have e : f14_3 pad neg (hs ++ [x, a, b]) f1 f2 f3 ++ [flag0, flag1] =
        (List.replicate pad ' ' ++ (if neg then ['-'] else []) ++ (hs ++ [x])) ++
          [a, b, '.', f1, f2, f3, flag0, flag1] := by
      simp [f14_3]
    rw [hval] at hrv
    generalize hHdef : atol_digits (hs ++ [x]) 0 = H at hH hdd hHlt hrv
    generalize hLdef : (hs ++ [x]).length = L at hlen' hHlt
    have q1 : ((H * 10 + (a.toNat - 48)) * 10 + (b.toNat - 48)) / 100 = H := by omega
    have r1 : ((H * 10 + (a.toNat - 48)) * 10 + (b.toNat - 48)) % 100 =
        (a.toNat - 48) * 10 + (b.toNat - 48) := by omega
    rw [q1, r1] at hrv
    have hbound : H < if neg then 10 ^ 7 else 10 ^ 8 := by
      cases neg with
      | true =>
        simp only [if_true] at hlen' ⊢
        exact lt_of_lt_of_le hHlt (Nat.pow_le_pow_right (by norm_num) (by omega))
      | false =>
        simp only [Bool.false_eq_true, if_false] at hlen' ⊢
        exact lt_of_lt_of_le hHlt (Nat.pow_le_pow_right (by norm_num) (by omega))
    rw [round_trip_nonzero stale _ flag0 flag1 neg H _ a b f1 f2 f3 ha hb hf1 hf2 hf3
      (by rw [atol_digits_five _ _ _ _ _ ha hb hf1 hf2 hf3, hF3]; omega) hrv hH hbound, e]
    congr 2
    unfold fmt_ld_w fmt_ld
    cases neg with
    | true =>
      simp only [if_true] at hlen' ⊢
      have hlt : (-1 * (H : Int)) < 0 := by omega
      have hna : (-1 * (H : Int)).natAbs = H := by omega
      rw [if_pos hlt, hna, hdd]
      simp only [List.length_cons, hLdef]
      have : 8 - (L + 1) = pad := by omega
      rw [this]
      simp
    | false =>
      simp only [Bool.false_eq_true, if_false] at hlen' ⊢
      have hlt : ¬ ((1 * (H : Int)) < 0) := by omega
      have hna : (1 * (H : Int)).natAbs = H := by omega
      rw [if_neg hlt, hna, hdd, hLdef]
      have : 8 - L = pad := by omega
      rw [this]
      simp

end FieldRoundTripMain

section FieldRoundTripClaim

/-- C2 (as the claim words it, refuted): the field `0.123`, one of the claim's
own examples, is read as `(0, 123)` and written back by `putfield` without its
zero, as `.123` after ten blanks. -/
theorem field_text_round_trip_counterexample :
    field_round_trip sample_prev_entry "         0.123".toList ' ' ' ' ≠
      crx2rnx.Ending.ok ("         0.123".toList ++ [' ', ' ']) := by
  decide

/-- C2 (amended): for every 14-character numeric observation field in F14.3
layout (blanks, optional minus sign, integer part, decimal point at column 10,
three decimals) whose integer part does not begin with the digit 0 (it is
empty when the magnitude is below 1) and whose value is not zero when it
carries a minus sign, the compressor's `read_value` followed by the
decompressor's `putfield` on a freshly initialized arc (order 0, the same two
flag characters) reproduces the same 14 characters, followed by the flags. -/
theorem field_text_round_trip (stale : crx2rnx.data_format) (pad : Nat) (neg : Bool)
    (ds : List Char) (f1 f2 f3 flag0 flag1 : Char)
    (hlen : pad + (if neg then 1 else 0) + ds.length = 10)
    (hds : ∀ c ∈ ds, isdigit c = true)
    (hlz : ds.head? ≠ some '0')
    (hnz : neg = true → f14_3_value neg ds f1 f2 f3 ≠ 0)
    (hf1 : isdigit f1 = true) (hf2 : isdigit f2 = true) (hf3 : isdigit f3 = true) :
    field_round_trip stale (f14_3 pad neg ds f1 f2 f3) flag0 flag1 =
      crx2rnx.Ending.ok (f14_3 pad neg ds f1 f2 f3 ++ [flag0, flag1]) :=
  field_round_trip_f14_3 stale pad neg ds f1 f2 f3 flag0 flag1 hlen hds hlz hnz hf1 hf2 hf3

/-- C2 witness: the field `23456789.123` (two leading blanks) with the flags
`4` and `7`. -/
theorem field_text_round_trip_witness :
    (f14_3 2 false "23456789".toList '1' '2' '3' = "  23456789.123".toList ∧
      2 + (if false = true then 1 else 0) + "23456789".toList.length = 10) ∧
    field_round_trip sample_prev_entry (f14_3 2 false "23456789".toList '1' '2' '3') '4' '7' =
      crx2rnx.Ending.ok (f14_3 2 false "23456789".toList '1' '2' '3' ++ ['4', '7']) :=
  ⟨⟨by decide, by decide⟩,
   field_text_round_trip sample_prev_entry 2 false "23456789".toList '1' '2' '3' '4' '7'
    (by decide) (by decide) (by decide) (by decide) (by decide) (by decide) (by decide)⟩

end FieldRoundTripClaim

section SatTable

theorem strncmp3_iff (p q : List Char) (i j : Nat) :
    strncmp3 (p.drop (3 * i)) (q.drop (3 * j)) = true ↔ sat_id p i = sat_id q j := by
  simp [strncmp3, sat_id]

theorem drop_three_drop (p : List Char) (k : Nat) :
    (p.drop 3).drop (3 * k) = p.drop (3 * (k + 1)) := by
  rw [List.drop_drop]
  congr 1
  omega

theorem find_sat_spec (p_new : List Char) (n : Nat) :
    ∀ (ps : List Char) (j0 : Nat),
      (find_sat p_new ps n j0 = -1 ↔
        ∀ k, k < n → strncmp3 p_new (ps.drop (3 * k)) = false) ∧
      (find_sat p_new ps n j0 ≠ -1 →
        ∃ k, k < n ∧ find_sat p_new ps n j0 = ((j0 + k : Nat) : Int) ∧
          strncmp3 p_new (ps.drop (3 * k)) = true ∧
          ∀ k', k' < k → strncmp3 p_new (ps.drop (3 * k')) = false) := by
  induction n with
  | zero =>
    intro ps j0
    simp [find_sat]
  | succ n ih =>
    intro ps j0
    obtain ⟨ih1, ih2⟩ := ih (ps.drop 3) (j0 + 1)
    by_cases h : strncmp3 p_new ps = true
    · have e : find_sat p_new ps (n + 1) j0 = (j0 : Int) := by simp [find_sat, h]
      rw [e]
      constructor
      · constructor
        · intro hneg
          omega
        · intro hall
          have := hall 0 (by omega)
          simp [h] at this
      · intro _
        exact ⟨0, by omega, by simp, by simpa using h, by intro k' hk'; omega⟩
    · have h' : strncmp3 p_new ps = false := by simpa using h
      have e : find_sat p_new ps (n + 1) j0 = find_sat p_new (ps.drop 3) n (j0 + 1) := by
        simp [find_sat, h']
      rw [e]
      constructor
      · rw [ih1]
        constructor
        · intro hall k hk
          cases k with
          | zero => simpa using h'
          | succ k =>
            rw [← drop_three_drop]
            exact hall k (by omega)
        · intro hall k hk
          rw [drop_three_drop]
          exact hall (k + 1) (by omega)
      · intro hne
        obtain ⟨k, hk, hv, ht, hfirst⟩ := ih2 hne
        refine ⟨k + 1, by omega, ?_, ?_, ?_⟩
        · rw [hv]
          congr 1
          omega
        · rw [← drop_three_drop]
          exact ht
        · intro k' hk'
          cases k' with
          | zero => simpa using h'
          | succ k' =>
            rw [← drop_three_drop]
            exact hfirst k' (by omega)

/-- The entry of the table for the `i`-th current satellite, in terms of
satellite IDs. -/
theorem find_sat_id (p_new p_old : List Char) (nsat_old i : Nat) :
    (find_sat (p_new.drop (3 * i)) p_old nsat_old 0 = -1 ↔
      ∀ j, j < nsat_old → sat_id p_new i ≠ sat_id p_old j) ∧
    (find_sat (p_new.drop (3 * i)) p_old nsat_old 0 ≠ -1 →
      ∃ j, j < nsat_old ∧ find_sat (p_new.drop (3 * i)) p_old nsat_old 0 = (j : Int) ∧
        sat_id p_new i = sat_id p_old j ∧
        ∀ j', j' < j → sat_id p_new i ≠ sat_id p_old j') := by
  obtain ⟨h1, h2⟩ := find_sat_spec (p_new.drop (3 * i)) nsat_old p_old 0
  constructor
  · rw [h1]
    constructor
    · intro h j hj e
      have := h j hj
      rw [(strncmp3_iff p_new p_old i j).mpr e] at this
      exact Bool.noConfusion this
    · intro h j hj
      by_contra hc
      have ht : strncmp3 (p_new.drop (3 * i)) (p_old.drop (3 * j)) = true := by simpa using hc
      exact h j hj ((strncmp3_iff p_new p_old i j).mp ht)
  · intro hne
    obtain ⟨k, hk, hv, ht, hfirst⟩ := h2 hne
    refine ⟨k, hk, ?_, (strncmp3_iff p_new p_old i k).mp ht, ?_⟩
    · rw [hv]
      simp
    · intro j' hj' e
      have := hfirst j' hj'
      rw [(strncmp3_iff p_new p_old i j').mpr e] at this
      exact Bool.noConfusion this

end SatTable

section SatTableLoops

theorem set_sat_table_loop_ok (skip : Bool) (p_old : List Char) (nsat_old : Nat) (n : Nat) :
    ∀ (p : List Char) (t : List Int),
      rnx2crx.set_sat_table_loop skip p_old nsat_old p n = crx2rnx.Ending.ok t →
      t.length = n ∧
      ∀ i, i < n → t[i]? = some (find_sat (p.drop (3 * i)) p_old nsat_old 0) := by
  induction n with
  | zero =>
    intro p t h
    simp only [rnx2crx.set_sat_table_loop, crx2rnx.Ending.ok.injEq] at h
    subst h
    simp
  | succ n ih =>
    intro p t h
    simp only [rnx2crx.set_sat_table_loop] at h
    split_ifs at h
    cases hr : rnx2crx.set_sat_table_loop skip p_old nsat_old (p.drop 3) n with
    | ok t' =>
      rw [hr] at h
      simp only [crx2rnx.Ending.ok.injEq] at h
      subst h
      obtain ⟨hl, hi⟩ := ih (p.drop 3) t' hr
      refine ⟨by simp [hl], ?_⟩
      intro i hi'
      cases i with
      | zero => simp
      | succ i =>
        rw [List.getElem?_cons_succ, hi i (by omega), drop_three_drop]
    | error_exit e =>
      rw [hr] at h
      simp at h
    | skip_epoch =>
      rw [hr] at h
      simp at h

theorem sattbl_loop_spec (p_old : List Char) (nsat1 : Nat) (n : Nat) :
    ∀ (p : List Char),
      (crx2rnx.sattbl_loop p_old nsat1 p n).length = n ∧
      ∀ i, i < n →
        (crx2rnx.sattbl_loop p_old nsat1 p n)[i]? =
          some (find_sat (p.drop (3 * i)) p_old nsat1 0) := by
  induction n with
  | zero =>
    intro p
    simp [crx2rnx.sattbl_loop]
  | succ n ih =>
    intro p
    obtain ⟨hl, hi⟩ := ih (p.drop 3)
    refine ⟨by simp [crx2rnx.sattbl_loop, hl], ?_⟩
    intro i hi'
    cases i with
    | zero => simp [crx2rnx.sattbl_loop]
    | succ i =>
      simp only [crx2rnx.sattbl_loop, List.getElem?_cons_succ]
      rw [hi i (by omega), drop_three_drop]

theorem crx_set_sat_table_ok (rinex_version ntype : Int) (ntype_gnss : Char → Int) (nsat : Nat)
    (p_new p_old : List Char) (nsat1 : Nat) (r t : List Int)
    (h : crx2rnx.set_sat_table rinex_version ntype ntype_gnss nsat p_new p_old nsat1 =
      crx2rnx.Ending.ok (r, t)) :
    t = crx2rnx.sattbl_loop p_old nsat1 p_new nsat := by
  unfold crx2rnx.set_sat_table at h
  split at h
  · simp only [crx2rnx.Ending.ok.injEq, Prod.mk.injEq] at h
    exact h.2.symm
  · simp at h
  · simp at h

theorem double_entry_spec (p_new : List Char) (n : Nat) :
    ∀ (ps : List Char),
      rnx2crx.double_entry p_new ps n = true ↔
        ∃ k, k < n ∧ strncmp3 p_new (ps.drop (3 * k)) = true := by
  induction n with
  | zero =>
    intro ps
    simp [rnx2crx.double_entry]
  | succ n ih =>
    intro ps
    by_cases h : strncmp3 p_new ps = true
    · simp only [rnx2crx.double_entry, h, if_true, true_iff]
      exact ⟨0, by omega, by simpa using h⟩
    · have h' : strncmp3 p_new ps = false := by simpa using h
      simp only [rnx2crx.double_entry, h', Bool.false_eq_true, if_false]
      rw [ih]
      constructor
      · rintro ⟨k, hk, ht⟩
        exact ⟨k + 1, by omega, by rw [← drop_three_drop]; exact ht⟩
      · rintro ⟨k, hk, ht⟩
        cases k with
        | zero =>
          simp only [Nat.mul_zero, List.drop_zero] at ht
          rw [ht] at h'
          exact Bool.noConfusion h'
        | succ k => exact ⟨k, by omega, by rw [drop_three_drop]; exact ht⟩

/-- Two distinct slots among the first `n` IDs of `p` hold the same ID. -/
theorem dup_cons (p : List Char) (n : Nat) :
    (∃ i j, i < j ∧ j < n + 1 ∧ sat_id p i = sat_id p j) ↔
      (rnx2crx.double_entry p (p.drop 3) n = true ∨
        ∃ i j, i < j ∧ j < n ∧ sat_id (p.drop 3) i = sat_id (p.drop 3) j) := by
  have hid : ∀ k, sat_id (p.drop 3) k = sat_id p (k + 1) := by
    intro k
    unfold sat_id
    rw [drop_three_drop]
  rw [double_entry_spec]
  constructor
  · rintro ⟨i, j, hij, hj, e⟩
    cases i with
    | zero =>
      left
      obtain ⟨j', rfl⟩ : ∃ j', j = j' + 1 := ⟨j - 1, by omega⟩
      refine ⟨j', by omega, ?_⟩
      have := (strncmp3_iff p p 0 (j' + 1)).mpr e
      rw [drop_three_drop]
      simpa using this
    | succ i =>
      right
      obtain ⟨j', rfl⟩ : ∃ j', j = j' + 1 := ⟨j - 1, by omega⟩
      exact ⟨i, j', by omega, by omega, by rw [hid, hid]; exact e⟩
  · rintro (⟨k, hk, ht⟩ | ⟨i, j, hij, hj, e⟩)
    · refine ⟨0, k + 1, by omega, by omega, ?_⟩
      rw [drop_three_drop] at ht
      have := (strncmp3_iff p p 0 (k + 1)).mp (by simpa using ht)
      exact this
    · exact ⟨i + 1, j + 1, by omega, by omega, by rw [← hid, ← hid]; exact e⟩

theorem set_sat_table_loop_dup (skip : Bool) (p_old : List Char) (nsat_old : Nat) (n : Nat) :
    ∀ (p : List Char),
      ((∃ i j, i < j ∧ j < n ∧ sat_id p i = sat_id p j) →
        rnx2crx.set_sat_table_loop skip p_old nsat_old p n =
          if skip then crx2rnx.Ending.skip_epoch else crx2rnx.Ending.error_exit 13) ∧
      ((¬ ∃ i j, i < j ∧ j < n ∧ sat_id p i = sat_id p j) →
        ∃ t, rnx2crx.set_sat_table_loop skip p_old nsat_old p n = crx2rnx.Ending.ok t) := by
  induction n with
  | zero =>
    intro p
    constructor
    · rintro ⟨i, j, _, hj, _⟩
      omega
    · intro _
      exact ⟨[], rfl⟩
  | succ n ih =>
    intro p
    obtain ⟨ih1, ih2⟩ := ih (p.drop 3)
    rw [dup_cons]
    simp only [rnx2crx.set_sat_table_loop]
    by_cases hd : rnx2crx.double_entry p (p.drop 3) n = true
    · simp only [hd, if_true, true_or, forall_true_left, not_true_eq_false, false_implies,
        and_true]
      cases skip <;> simp
    · simp only [hd, Bool.false_eq_true, if_false, false_or]
      constructor
      · intro h
        rw [ih1 h]
        cases skip <;> simp
      · intro h
        obtain ⟨t, ht⟩ := ih2 h
        rw [ht]
        exact ⟨_, rfl⟩

end SatTableLoops

section SatTableClaims

open crx2rnx in
/-- C11: `set_sat_table` in both programs.  On a run that reports no duplicate
(the compressor returns 0; the decompressor, which has no duplicate test,
returns), the table has `nsat` entries and for every `i < nsat` the entry
`sattbl[i]` is `-1` iff the `i`-th current ID equals no ID of the previous
list, and otherwise it is the least previous slot `j < nsat_old` that holds the
same ID. -/
theorem set_sat_table_entries (skip : Bool) (nsat : Nat) (p_new p_old : List Char)
    (nsat_old : Nat) (rinex_version ntype : Int) (ntype_gnss : Char → Int) :
    (∀ t, rnx2crx.set_sat_table skip nsat p_new p_old nsat_old = Ending.ok t →
      t.length = nsat ∧
      ∀ i, i < nsat → ∃ e, t[i]? = some e ∧
        (e = -1 ↔ ∀ j, j < nsat_old → sat_id p_new i ≠ sat_id p_old j) ∧
        (e ≠ -1 → ∃ j, j < nsat_old ∧ e = (j : Int) ∧ sat_id p_new i = sat_id p_old j ∧
          ∀ j', j' < j → sat_id p_new i ≠ sat_id p_old j')) ∧
    (∀ r t, crx2rnx.set_sat_table rinex_version ntype ntype_gnss nsat p_new p_old nsat_old =
        Ending.ok (r, t) →
      t.length = nsat ∧
      ∀ i, i < nsat → ∃ e, t[i]? = some e ∧
        (e = -1 ↔ ∀ j, j < nsat_old → sat_id p_new i ≠ sat_id p_old j) ∧
        (e ≠ -1 → ∃ j, j < nsat_old ∧ e = (j : Int) ∧ sat_id p_new i = sat_id p_old j ∧
          ∀ j', j' < j → sat_id p_new i ≠ sat_id p_old j')) := by
  constructor
  · intro t h
    obtain ⟨hl, hi⟩ := set_sat_table_loop_ok skip p_old nsat_old nsat p_new t h
    refine ⟨hl, ?_⟩
    intro i hi'
    obtain ⟨h1, h2⟩ := find_sat_id p_new p_old nsat_old i
    exact ⟨_, hi i hi', h1, h2⟩
  · intro r t h
    have ht := crx_set_sat_table_ok rinex_version ntype ntype_gnss nsat p_new p_old nsat_old r t h
    obtain ⟨hl, hi⟩ := sattbl_loop_spec p_old nsat_old nsat p_new
    rw [ht]
    refine ⟨hl, ?_⟩
    intro i hi'
    obtain ⟨h1, h2⟩ := find_sat_id p_new p_old nsat_old i
    exact ⟨_, hi i hi', h1, h2⟩

/-- A sample epoch: the current list `G01 G02 G05` against the previous list
`G02 G03 G01` gives the table `2, 0, -1` in both programs. -/
theorem set_sat_table_sample :
    rnx2crx.set_sat_table false 3 "G01G02G05".toList "G02G03G01".toList 3 =
      crx2rnx.Ending.ok [2, 0, -1] ∧
    crx2rnx.set_sat_table 2 4 (fun _ => -1) 3 "G01G02G05".toList "G02G03G01".toList 3 =
      crx2rnx.Ending.ok ([4, 4, 4], [2, 0, -1]) := by
  decide

/-- C11 witness: the contract at the sample epoch, where both programs
return a table. -/
theorem set_sat_table_entries_witness :
    (rnx2crx.set_sat_table false 3 "G01G02G05".toList "G02G03G01".toList 3 =
        crx2rnx.Ending.ok [2, 0, -1] ∧
      crx2rnx.set_sat_table 2 4 (fun _ => -1) 3 "G01G02G05".toList "G02G03G01".toList 3 =
        crx2rnx.Ending.ok ([4, 4, 4], [2, 0, -1])) ∧
    ([2, 0, -1] : List Int).length = 3 ∧
    ∀ i, i < 3 → ∃ e, ([2, 0, -1] : List Int)[i]? = some e ∧
      (e = -1 ↔ ∀ j, j < 3 → sat_id "G01G02G05".toList i ≠ sat_id "G02G03G01".toList j) ∧
      (e ≠ -1 → ∃ j : Nat, j < 3 ∧ e = (j : Int) ∧
        sat_id "G01G02G05".toList i = sat_id "G02G03G01".toList j ∧
        ∀ j', j' < j → sat_id "G01G02G05".toList i ≠ sat_id "G02G03G01".toList j') :=
  ⟨by decide,
   (set_sat_table_entries false 3 "G01G02G05".toList "G02G03G01".toList 3 2 4 (fun _ => -1)).1
    [2, 0, -1] (by decide)⟩

open crx2rnx in
/-- C12: duplicate detection in the compressor.  `set_sat_table` fails
(`error_exit(13)` by default; return value 1 under `-s`, on which `main` clears
the output buffer, sets the exit status to 2 and goes on with the next epoch)
if and only if two distinct slots of the current satellite list hold the same
3-character ID; otherwise it returns 0 (with a table). -/
theorem set_sat_table_duplicate (skip : Bool) (nsat : Nat) (p_new p_old : List Char)
    (nsat_old : Nat) (exit_status : Nat) (buf : List Char) :
    ((∃ i j, i < j ∧ j < nsat ∧ sat_id p_new i = sat_id p_new j) ↔
      rnx2crx.set_sat_table skip nsat p_new p_old nsat_old =
        if skip then Ending.skip_epoch else Ending.error_exit 13) ∧
    ((¬ ∃ i j, i < j ∧ j < nsat ∧ sat_id p_new i = sat_id p_new j) ↔
      ∃ t, rnx2crx.set_sat_table skip nsat p_new p_old nsat_old = Ending.ok t) ∧
    ((∃ i j, i < j ∧ j < nsat ∧ sat_id p_new i = sat_id p_new j) →
      rnx2crx.main_sat_table true nsat p_new p_old nsat_old exit_status buf =
        Ending.ok (none, 2, []) ∧
      rnx2crx.main_sat_table false nsat p_new p_old nsat_old exit_status buf =
        Ending.error_exit 13) := by
  obtain ⟨h1, h2⟩ := set_sat_table_loop_dup skip p_old nsat_old nsat p_new
  have hne : ∀ t : List Int, (Ending.ok t : Ending (List Int)) ≠
      (if skip then Ending.skip_epoch else Ending.error_exit 13) := by
    intro t
    cases skip <;> simp
  refine ⟨⟨h1, ?_⟩, ⟨h2, ?_⟩, ?_⟩
  · intro h
    by_contra hc
    obtain ⟨t, ht⟩ := h2 hc
    rw [rnx2crx.set_sat_table] at h
    rw [ht] at h
    exact hne t h
  · rintro ⟨t, ht⟩ hdup
    have := h1 hdup
    rw [rnx2crx.set_sat_table] at ht
    rw [ht] at this
    exact hne t this
  · intro hdup
    have a := (set_sat_table_loop_dup true p_old nsat_old nsat p_new).1 hdup
    have b := (set_sat_table_loop_dup false p_old nsat_old nsat p_new).1 hdup
    simp only [if_true, Bool.false_eq_true, if_false] at a b
    constructor
    · unfold rnx2crx.main_sat_table rnx2crx.set_sat_table
      rw [a]
      rfl
    · unfold rnx2crx.main_sat_table rnx2crx.set_sat_table
      rw [b]

end SatTableClaims

section ArcInit

/-- The text of an arc initialization: the mark and the raw value. -/
theorem data_field_init_text (i0 : Int) (py0 py1 : rnx2crx.data_format)
    (h : i0 < 0 ∨ py0.order = -1) :
    rnx2crx.data_field i0 py0 py1 =
      ({ py1 with order := 0 },
        ['3', '&'] ++ canonical_decimal (py1.u 0 * 100000 + py1.l 0)) := by
  unfold rnx2crx.data_field
  rw [if_pos h]
  simp only [Int.toNat_zero]
  rw [fmt_ld_arc_order, putdiff_eq_fmt_ld, fmt_ld_eq_canonical]
  rfl

/-- C13: arc initialization in the compressor.  For a non-blank field whose
satellite was absent from the previous epoch (`*i0 < 0`) or whose field in the
satellite's previous slot was blank (order `-1`), `data()` sets the order to 0
and emits `3&` followed by the decimal of `u[0]*10^5 + l[0]`; in particular,
when the satellite's ID equals no ID of the previous list (a new or reappearing
satellite), the table entry computed by `set_sat_table` is negative and each of
its non-blank fields carries the `3&` prefix. -/
theorem arc_initialization (i0 : Int) (py0 py1 : rnx2crx.data_format)
    (p_new p_old : List Char) (nsat_old i : Nat) :
    ((i0 < 0 ∨ py0.order = -1) →
      (rnx2crx.data_field i0 py0 py1).1.order = 0 ∧
      (rnx2crx.data_field i0 py0 py1).2 =
        ['3', '&'] ++ canonical_decimal (py1.u 0 * 100000 + py1.l 0)) ∧
    ((∀ j, j < nsat_old → sat_id p_new i ≠ sat_id p_old j) →
      (rnx2crx.data_field (find_sat (p_new.drop (3 * i)) p_old nsat_old 0) py0 py1).1.order = 0 ∧
      (rnx2crx.data_field (find_sat (p_new.drop (3 * i)) p_old nsat_old 0) py0 py1).2 =
        ['3', '&'] ++ canonical_decimal (py1.u 0 * 100000 + py1.l 0)) := by
  constructor
  · intro h
    rw [data_field_init_text i0 py0 py1 h]
    exact ⟨rfl, rfl⟩
  · intro h
    have hf : find_sat (p_new.drop (3 * i)) p_old nsat_old 0 = -1 :=
      (find_sat_id p_new p_old nsat_old i).1.2 h
    rw [data_field_init_text _ py0 py1 (Or.inl (by rw [hf]; decide))]
    exact ⟨rfl, rfl⟩

/-- C13 witness: satellite `G05` is not in the previous list `G02 G03 G01`;
its field with the value `(234567, 89123)` is written as `3&23456789123`. -/
theorem arc_initialization_witness :
    (∀ j, j < 3 → sat_id "G01G02G05".toList 2 ≠ sat_id "G02G03G01".toList j) ∧
    (rnx2crx.data_field (find_sat ("G01G02G05".toList.drop (3 * 2)) "G02G03G01".toList 3 0)
        { u := fun _ => 7, l := fun _ => 7, order := 2 }
        (rnx2crx.ggetline_entry { u := fun _ => 0, l := fun _ => 0, order := 0 }
          (234567, 89123))).2 = "3&23456789123".toList :=
  ⟨by decide,
   ((arc_initialization (-1) { u := fun _ => 7, l := fun _ => 7, order := 2 }
      (rnx2crx.ggetline_entry { u := fun _ => 0, l := fun _ => 0, order := 0 }
        (234567, 89123)) "G01G02G05".toList "G02G03G01".toList 3 2).2 (by decide)).2.trans
    (by
      show ['3', '&'] ++ canonical_decimal (234567 * 100000 + 89123) = _
      rw [← fmt_ld_eq_canonical]
      decide)⟩

end ArcInit

section CycleSlip

theorem take_diff_order (py1 py0 : rnx2crx.data_format) :
    (rnx2crx.take_diff py1 py0).order =
      if py0.order < 3 then py0.order + 1 else py0.order := by
  unfold rnx2crx.take_diff
  simp only [rnx2crx.ARC_ORDER, Nat.cast_ofNat]
  split_ifs <;> first | rfl | exact (take_diff_loop _ _ _).1

theorem take_diff_level0 (py1 py0 : rnx2crx.data_format) :
    (rnx2crx.take_diff py1 py0).u 0 = py1.u 0 ∧ (rnx2crx.take_diff py1 py0).l 0 = py1.l 0 := by
  unfold rnx2crx.take_diff
  simp only
  split_ifs <;>
    first
    | exact ⟨rfl, rfl⟩
    | exact ⟨(take_diff_loop _ _ _).2.1, (take_diff_loop _ _ _).2.2.1⟩

theorem take_diff_first (py1 py0 : rnx2crx.data_format) (h : py0.order = 0) :
    (rnx2crx.take_diff py1 py0).order = 1 ∧
    (rnx2crx.take_diff py1 py0).u 1 = py1.u 0 - py0.u 0 ∧
    (rnx2crx.take_diff py1 py0).l 1 = py1.l 0 - py0.l 0 := by
  obtain ⟨h1, h2, h3, h4⟩ := take_diff_spec py1 py0 0 1 (by rw [h]; rfl) (by decide) (by decide)
  obtain ⟨h5, h6⟩ := h4 0 (by decide)
  refine ⟨by rw [h1]; rfl, ?_, ?_⟩
  · rw [h5, h2]
  · rw [h6, h3]

/-- The continuing branch of `data()` written out. -/
theorem data_field_continue (i0 : Int) (py0 py1 : rnx2crx.data_format)
    (h0 : 0 ≤ i0) (h1 : py0.order ≠ -1) :
    rnx2crx.data_field i0 py0 py1 =
      if labs ((rnx2crx.take_diff py1 py0).u (rnx2crx.take_diff py1 py0).order.toNat) > 100000 then
        ({ rnx2crx.take_diff py1 py0 with order := 0 },
          ['3', '&'] ++ canonical_decimal (py1.u 0 * 100000 + py1.l 0))
      else
        (rnx2crx.take_diff py1 py0,
          canonical_decimal
            ((rnx2crx.take_diff py1 py0).u (rnx2crx.take_diff py1 py0).order.toNat * 100000 +
              (rnx2crx.take_diff py1 py0).l (rnx2crx.take_diff py1 py0).order.toNat)) := by
  unfold rnx2crx.data_field
  have hc : ¬ (i0 < 0 ∨ py0.order = -1) := by
    rintro (h | h)
    · omega
    · exact h1 h
  rw [if_neg hc]
  simp only [Int.toNat_zero]
  rw [fmt_ld_arc_order, putdiff_eq_fmt_ld, putdiff_eq_fmt_ld, fmt_ld_eq_canonical,
    fmt_ld_eq_canonical, (take_diff_level0 py1 py0).1, (take_diff_level0 py1 py0).2]
  rfl

/-- C14 (as the claim words it, refuted): previous value `(0, 0)` at order 0, new value
`(2, 0)`.  The first-order difference is `200000 > 10^5`, yet `data()` does not
re-initialize: it writes the difference `200000` and the order becomes 1. -/
theorem cycle_slip_counterexample :
    labs ((2 - 0) * 100000 + (0 - 0)) > 100000 ∧
    (rnx2crx.data_field 0 { u := fun _ => 0, l := fun _ => 0, order := 0 }
        (rnx2crx.ggetline_entry { u := fun _ => 0, l := fun _ => 0, order := 0 } (2, 0))).2 =
      "200000".toList ∧
    (rnx2crx.data_field 0 { u := fun _ => 0, l := fun _ => 0, order := 0 }
        (rnx2crx.ggetline_entry { u := fun _ => 0, l := fun _ => 0, order := 0 } (2, 0))).1.order =
      1 := by
  decide

/-- C14 (amended): cycle-slip re-initialization.  For a continuing arc (the
satellite was present, `0 <= *i0`, and its previous field was not blank),
`data()` re-initializes exactly when the absolute value of the upper part
`u[order]` of the difference pair `take_diff` computed exceeds `10^5`; the lower
part plays no role.  Then the order becomes 0 and `3&` with the raw value is
written; otherwise the difference itself is written and the order stays
positive.  For a first-order difference the upper part is `u1 - u0`. -/
theorem cycle_slip_reinit (i0 : Int) (py0 py1 : rnx2crx.data_format)
    (h0 : 0 ≤ i0) (h1 : 0 ≤ py0.order) :
    (labs ((rnx2crx.take_diff py1 py0).u (rnx2crx.take_diff py1 py0).order.toNat) > 100000 →
      (rnx2crx.data_field i0 py0 py1).1.order = 0 ∧
      (rnx2crx.data_field i0 py0 py1).2 =
        ['3', '&'] ++ canonical_decimal (py1.u 0 * 100000 + py1.l 0)) ∧
    (labs ((rnx2crx.take_diff py1 py0).u (rnx2crx.take_diff py1 py0).order.toNat) ≤ 100000 →
      0 < (rnx2crx.data_field i0 py0 py1).1.order ∧
      (rnx2crx.data_field i0 py0 py1).2 =
        canonical_decimal
          ((rnx2crx.take_diff py1 py0).u (rnx2crx.take_diff py1 py0).order.toNat * 100000 +
            (rnx2crx.take_diff py1 py0).l (rnx2crx.take_diff py1 py0).order.toNat)) ∧
    (py0.order = 0 →
      (rnx2crx.take_diff py1 py0).u (rnx2crx.take_diff py1 py0).order.toNat =
        py1.u 0 - py0.u 0 ∧
      (rnx2crx.take_diff py1 py0).l (rnx2crx.take_diff py1 py0).order.toNat =
        py1.l 0 - py0.l 0) := by
  have hd := data_field_continue i0 py0 py1 h0 (by omega)
  refine ⟨?_, ?_, ?_⟩
  · intro h
    rw [hd, if_pos h]
    exact ⟨rfl, rfl⟩
  · intro h
    rw [hd, if_neg (by omega)]
    refine ⟨?_, rfl⟩
    show 0 < (rnx2crx.take_diff py1 py0).order
    rw [take_diff_order]
    split_ifs <;> omega
  · intro h
    obtain ⟨a, b, c⟩ := take_diff_first py1 py0 h
    rw [a]
    exact ⟨b, c⟩

/-- C14 witness: previous value `(0, 0)` at order 0; the new value
`(100001, 0)` re-initializes the arc. -/
theorem cycle_slip_reinit_witness :
    (0 : Int) ≤ 0 ∧
    (rnx2crx.data_field 0 { u := fun _ => 0, l := fun _ => 0, order := 0 }
        (rnx2crx.ggetline_entry { u := fun _ => 0, l := fun _ => 0, order := 0 }
          (100001, 0))).2 = "3&10000100000".toList :=
  ⟨le_refl 0,
   ((cycle_slip_reinit 0 { u := fun _ => 0, l := fun _ => 0, order := 0 }
      (rnx2crx.ggetline_entry { u := fun _ => 0, l := fun _ => 0, order := 0 } (100001, 0))
      (le_refl 0) (le_refl 0)).1 (by decide)).2.trans
    (by
      show ['3', '&'] ++ canonical_decimal (100001 * 100000 + 0) = _
      rw [← fmt_ld_eq_canonical]
      decide)⟩

end CycleSlip

section ClosedForm

theorem closed_form_eq_back_diff (v : Nat → Int) (n : Nat) :
    closed_form_difference v n = back_diff v (min n 3) n := by
  match n with
  | 0 => rfl
  | 1 => rfl
  | 2 =>
    show v 2 - 2 * v 1 + v 0 = (v 2 - v 1) - (v 1 - v 0)
    ring
  | n + 3 =>
    have h : min (n + 3) 3 = 3 := by omega
    rw [h]
    show v (n + 3) - 3 * v (n + 2) + 3 * v (n + 1) - v n =
      ((v (n + 3) - v (n + 2)) - (v (n + 2) - v (n + 1))) -
        ((v (n + 2) - v (n + 1)) - (v (n + 1) - v n))
    ring

theorem back_diff_linear (U L : Nat → Int) (k : Nat) :
    ∀ n, back_diff (fun m => U m * 100000 + L m) k n =
      back_diff U k n * 100000 + back_diff L k n := by
  induction k with
  | zero => intro n; rfl
  | succ k ih =>
    intro n
    simp only [back_diff]
    rw [ih n, ih (n - 1)]
    ring

theorem closed_form_linear (U L : Nat → Int) (n : Nat) :
    closed_form_difference (fun m => U m * 100000 + L m) n =
      closed_form_difference U n * 100000 + closed_form_difference L n := by
  rw [closed_form_eq_back_diff, closed_form_eq_back_diff, closed_form_eq_back_diff,
    back_diff_linear]

/-- One continuing epoch on which the slip test does not fire: the entry holds
the backward differences of the values, the token is the top one. -/
theorem arc_step_closed (U L : Nat → Int) (n : Nat) (S stale : rnx2crx.data_format) (i0 : Int)
    (hord : S.order = ((min n 3 : Nat) : Int))
    (hlev : ∀ k, k ≤ min n 3 → S.u k = back_diff U k n ∧ S.l k = back_diff L k n)
    (hi : 0 ≤ i0) (hslip : labs (back_diff U (min (n + 1) 3) (n + 1)) ≤ 100000) :
    (rnx2crx.data_field i0 S (rnx2crx.ggetline_entry stale (U (n + 1), L (n + 1)))).2 =
      canonical_decimal (back_diff U (min (n + 1) 3) (n + 1) * 100000 +
        back_diff L (min (n + 1) 3) (n + 1)) ∧
    (rnx2crx.data_field i0 S (rnx2crx.ggetline_entry stale (U (n + 1), L (n + 1)))).1.order =
      ((min (n + 1) 3 : Nat) : Int) ∧
    ∀ k, k ≤ min (n + 1) 3 →
      (rnx2crx.data_field i0 S (rnx2crx.ggetline_entry stale (U (n + 1), L (n + 1)))).1.u k =
        back_diff U k (n + 1) ∧
      (rnx2crx.data_field i0 S (rnx2crx.ggetline_entry stale (U (n + 1), L (n + 1)))).1.l k =
        back_diff L k (n + 1) := by
  set py1 := rnx2crx.ggetline_entry stale (U (n + 1), L (n + 1)) with hpy1
  have hm : min (n + 1) 3 = if min n 3 < 3 then min n 3 + 1 else min n 3 := by
    split_ifs <;> omega
  obtain ⟨h1, h2, h3, h4⟩ :=
    take_diff_spec py1 S (min n 3) (min (n + 1) 3) hord hm (by omega)
  have hu0 : py1.u 0 = U (n + 1) := by rw [hpy1]; simp [rnx2crx.ggetline_entry, setAt]
  have hl0 : py1.l 0 = L (n + 1) := by rw [hpy1]; simp [rnx2crx.ggetline_entry, setAt]
  have hT : ∀ k, k ≤ min (n + 1) 3 →
      (rnx2crx.take_diff py1 S).u k = back_diff U k (n + 1) ∧
      (rnx2crx.take_diff py1 S).l k = back_diff L k (n + 1) := by
    intro k
    induction k with
    | zero =>
      intro _
      exact ⟨by rw [h2, hu0]; rfl, by rw [h3, hl0]; rfl⟩
    | succ k ih =>
      intro hk
      obtain ⟨a, b⟩ := h4 k (by omega)
      obtain ⟨c, d⟩ := ih (by omega)
      obtain ⟨e, f⟩ := hlev k (by omega)
      constructor
      · rw [a, c, e]; simp only [back_diff, Nat.add_sub_cancel]
      · rw [b, d, f]; simp only [back_diff, Nat.add_sub_cancel]
  have hne : S.order ≠ -1 := by rw [hord]; omega
  have hd := data_field_continue i0 S py1 hi hne
  have htop : (rnx2crx.take_diff py1 S).order.toNat = min (n + 1) 3 := by
    rw [h1]; exact Int.toNat_ofNat _
  rw [htop] at hd
  obtain ⟨hx, hy⟩ := hT (min (n + 1) 3) (le_refl _)
  rw [hx, hy, if_neg (by omega)] at hd
  rw [hd]
  exact ⟨rfl, h1, hT⟩

/-- A run of continuing epochs after epoch `n`, no slip test firing. -/
theorem arc_run_closed (epoch : Nat → arc_epoch) (len : Nat) :
    ∀ (n : Nat) (S : rnx2crx.data_format),
      S.order = ((min n 3 : Nat) : Int) →
      (∀ k, k ≤ min n 3 → S.u k = back_diff (fun m => (epoch m).value.1) k n ∧
        S.l k = back_diff (fun m => (epoch m).value.2) k n) →
      (∀ m, n < m → m < n + 1 + len → 0 ≤ (epoch m).i0) →
      (∀ m, n < m → m < n + 1 + len →
        labs (closed_form_difference (fun m => (epoch m).value.1) m) ≤ 100000) →
      ∀ i, i < len →
        (rnx2crx.arc_tokens S ((List.range' (n + 1) len).map epoch))[i]? =
          some (canonical_decimal (closed_form_difference
            (fun m => (epoch m).value.1 * 100000 + (epoch m).value.2) (n + 1 + i))) ∧
        ∃ T, (rnx2crx.arc_states S ((List.range' (n + 1) len).map epoch))[i]? = some T ∧
          T.order = ((min (n + 1 + i) 3 : Nat) : Int) := by
  induction len with
  | zero => intro n S _ _ _ _ i hi; omega
  | succ len ih =>
    intro n S hord hlev hcont hslip i hi
    have hs := hslip (n + 1) (by omega) (by omega)
    rw [closed_form_eq_back_diff] at hs
    obtain ⟨h1, h2, h3⟩ := arc_step_closed (fun m => (epoch m).value.1)
      (fun m => (epoch m).value.2) n S (epoch (n + 1)).stale1 (epoch (n + 1)).i0 hord hlev
      (hcont (n + 1) (by omega) (by omega)) hs
    rw [List.range'_succ, List.map_cons]
    simp only [rnx2crx.arc_tokens, rnx2crx.arc_states]
    cases i with
    | zero =>
      simp only [List.getElem?_cons_zero, Nat.add_zero]
      refine ⟨?_, _, rfl, h2⟩
      rw [closed_form_linear, closed_form_eq_back_diff, closed_form_eq_back_diff]
      exact congrArg some h1
    | succ i =>
      simp only [List.getElem?_cons_succ]
      have := ih (n + 1) _ h2 h3 (fun m a b => hcont m (by omega) (by omega))
        (fun m a b => hslip m (by omega) (by omega)) i (by omega)
      have e : n + 1 + (i + 1) = n + 1 + 1 + i := by omega
      rw [e]
      exact this

end ClosedForm

section ClosedFormClaims

/-- A run that starts an arc at epoch 0 and then continues without the slip
test firing: tokens and orders. -/
theorem arc_run_from_start (epoch : Nat → arc_epoch) (N : Nat) (py0 : rnx2crx.data_format)
    (hstart : (epoch 0).i0 < 0 ∨ py0.order = -1)
    (hcont : ∀ n, 0 < n → n < N → 0 ≤ (epoch n).i0)
    (hslip : ∀ n, 0 < n → n < N →
      labs (closed_form_difference (fun m => (epoch m).value.1) n) ≤ 100000) :
    ∀ n, n < N →
      (rnx2crx.arc_tokens py0 ((List.range N).map epoch))[n]? =
        some ((if n = 0 then ['3', '&'] else []) ++
          canonical_decimal (closed_form_difference
            (fun m => (epoch m).value.1 * 100000 + (epoch m).value.2) n)) ∧
      ∃ T, (rnx2crx.arc_states py0 ((List.range N).map epoch))[n]? = some T ∧
        T.order = ((min n 3 : Nat) : Int) := by
  intro n hn
  obtain ⟨N, rfl⟩ : ∃ N', N = N' + 1 := ⟨N - 1, by omega⟩
  rw [List.range_eq_range', List.range'_succ, List.map_cons]
  simp only [rnx2crx.arc_tokens, rnx2crx.arc_states]
  have hd := data_field_init_text (epoch 0).i0 py0
    (rnx2crx.ggetline_entry (epoch 0).stale1 (epoch 0).value) hstart
  rw [hd]
  cases n with
  | zero =>
    simp only [List.getElem?_cons_zero, if_true]
    refine ⟨?_, _, rfl, rfl⟩
    simp [rnx2crx.ggetline_entry, setAt, closed_form_difference]
  | succ n =>
    simp only [List.getElem?_cons_succ]
    have := arc_run_closed epoch N 0
      { rnx2crx.ggetline_entry (epoch 0).stale1 (epoch 0).value with order := 0 } rfl
      (by
        intro k hk
        have hk0 : k = 0 := by omega
        subst hk0
        simp [rnx2crx.ggetline_entry, setAt, back_diff])
      (fun m a b => hcont m a (by omega)) (fun m a b => hslip m a (by omega)) n (by omega)
    have e : 0 + 1 + n = n + 1 := by omega
    rw [e] at this
    simp only [Nat.zero_add] at this
    rw [if_neg (by omega), List.nil_append]
    exact this

/-- C15: closed form of the emitted tokens.  For an arc with values
`v_n = u_n*10^5 + l_n` that is initialized at epoch 0 and continues in the
epochs `0 < n < N` (satellite present) without the slip test firing (the test
is made on the upper part of the difference), the token of epoch 0 is `3&`
followed by the decimal of `v_0`, and the token of every later epoch `n` is the
decimal of `v_1 - v_0`, `v_2 - 2*v_1 + v_0`, and
`v_n - 3*v_(n-1) + 3*v_(n-2) - v_(n-3)` for `n >= 3`. -/
theorem token_closed_form (epoch : Nat → arc_epoch) (N : Nat) (py0 : rnx2crx.data_format)
    (hstart : (epoch 0).i0 < 0 ∨ py0.order = -1)
    (hcont : ∀ n, 0 < n → n < N → 0 ≤ (epoch n).i0)
    (hslip : ∀ n, 0 < n → n < N →
      labs (closed_form_difference (fun m => (epoch m).value.1) n) ≤ 100000) :
    ∀ n, n < N →
      (rnx2crx.arc_tokens py0 ((List.range N).map epoch))[n]? =
        some ((if n = 0 then ['3', '&'] else []) ++
          canonical_decimal (closed_form_difference
            (fun m => (epoch m).value.1 * 100000 + (epoch m).value.2) n)) :=
  fun n hn => (arc_run_from_start epoch N py0 hstart hcont hslip n hn).1

/-- C15 witness: the value 23456789123 repeated and then increased by 1 gives
`3&23456789123`, `0`, `1`. -/
theorem token_closed_form_witness :
    rnx2crx.arc_tokens { u := fun _ => 0, l := fun _ => 0, order := 0 }
        ((List.range 3).map sample_epoch) =
      ["3&23456789123".toList, "0".toList, "1".toList] ∧
    ∀ n, n < 3 →
      (rnx2crx.arc_tokens { u := fun _ => 0, l := fun _ => 0, order := 0 }
          ((List.range 3).map sample_epoch))[n]? =
        some ((if n = 0 then ['3', '&'] else []) ++
          canonical_decimal (closed_form_difference
            (fun m => (sample_epoch m).value.1 * 100000 + (sample_epoch m).value.2) n)) :=
  ⟨by decide,
   token_closed_form sample_epoch 3 { u := fun _ => 0, l := fun _ => 0, order := 0 }
    (Or.inl (by decide))
    (by intro n h1 h2; interval_cases n <;> decide)
    (by intro n h1 h2; interval_cases n <;> decide)⟩

end ClosedFormClaims

section OrderProgression

theorem data_field_order_cases (i0 : Int) (py0 py1 : rnx2crx.data_format)
    (h0 : 0 ≤ i0) (h1 : 0 ≤ py0.order) (h3 : py0.order ≤ 3) :
    ((rnx2crx.data_field i0 py0 py1).1.order = min (py0.order + 1) 3 ∧
      py0.order ≤ (rnx2crx.data_field i0 py0 py1).1.order) ∨
    ((rnx2crx.data_field i0 py0 py1).1.order = 0 ∧
      (rnx2crx.data_field i0 py0 py1).2.take 2 = ['3', '&']) := by
  have hd := data_field_continue i0 py0 py1 h0 (by omega)
  rw [hd]
  split_ifs with h
  · exact Or.inr ⟨rfl, rfl⟩
  · left
    show (rnx2crx.take_diff py1 py0).order = _ ∧ _ ≤ (rnx2crx.take_diff py1 py0).order
    rw [take_diff_order]
    split_ifs <;> constructor <;> omega

theorem data_field_order_range (i0 : Int) (py0 py1 : rnx2crx.data_format)
    (h1 : -1 ≤ py0.order) (h3 : py0.order ≤ 3) :
    0 ≤ (rnx2crx.data_field i0 py0 py1).1.order ∧ (rnx2crx.data_field i0 py0 py1).1.order ≤ 3 := by
  by_cases h : i0 < 0 ∨ py0.order = -1
  · rw [data_field_init_text i0 py0 py1 h]
    exact ⟨le_refl _, by show (0 : Int) ≤ 3; decide⟩
  · have a : 0 ≤ i0 := by
      by_contra hc
      exact h (Or.inl (by omega))
    have b : 0 ≤ py0.order := by
      by_contra hc
      exact h (Or.inr (by omega))
    rcases data_field_order_cases i0 py0 py1 a b h3 with ⟨e, _⟩ | ⟨e, _⟩
    · rw [e]; constructor <;> omega
    · rw [e]; exact ⟨le_refl _, by decide⟩

theorem arc_states_order_range (es : List arc_epoch) :
    ∀ S : rnx2crx.data_format, -1 ≤ S.order → S.order ≤ 3 →
      ∀ T ∈ rnx2crx.arc_states S es, 0 ≤ T.order ∧ T.order ≤ 3 := by
  induction es with
  | nil => intro S _ _ T hT; simp [rnx2crx.arc_states] at hT
  | cons e rest ih =>
    intro S h1 h3 T hT
    simp only [rnx2crx.arc_states, List.mem_cons] at hT
    have hr := data_field_order_range e.i0 S (rnx2crx.ggetline_entry e.stale1 e.value) h1 h3
    rcases hT with rfl | hT
    · exact hr
    · exact ih _ (by omega) hr.2 T hT

/-- C19: order progression in the compressor.  A newly created arc has order
0; `take_diff` sets the order to `min(previous order + 1, 3)`; a continuing
step of `data()` therefore leaves the order at that value, which is not below
the previous one, unless it re-initializes the arc (order 0, token with `3&`).
Every entry of a run has its order in `0..3`, and in a run that starts an arc
and continues without re-initialization the order at epoch `n` is
`min(n, 3)`: 0, 1, 2, 3, 3, ... -/
theorem order_progression (i0 : Int) (py0 py1 S : rnx2crx.data_format)
    (es : List arc_epoch) (epoch : Nat → arc_epoch) (N : Nat) :
    ((i0 < 0 ∨ py0.order = -1) → (rnx2crx.data_field i0 py0 py1).1.order = 0) ∧
    (py0.order ≤ 3 → (rnx2crx.take_diff py1 py0).order = min (py0.order + 1) 3) ∧
    (0 ≤ i0 → 0 ≤ py0.order → py0.order ≤ 3 →
      ((rnx2crx.data_field i0 py0 py1).1.order = min (py0.order + 1) 3 ∧
        py0.order ≤ (rnx2crx.data_field i0 py0 py1).1.order) ∨
      ((rnx2crx.data_field i0 py0 py1).1.order = 0 ∧
        (rnx2crx.data_field i0 py0 py1).2.take 2 = ['3', '&'])) ∧
    (-1 ≤ S.order → S.order ≤ 3 →
      ∀ T ∈ rnx2crx.arc_states S es, 0 ≤ T.order ∧ T.order ≤ 3) ∧
    (((epoch 0).i0 < 0 ∨ S.order = -1) →
      (∀ n, 0 < n → n < N → 0 ≤ (epoch n).i0) →
      (∀ n, 0 < n → n < N →
        labs (closed_form_difference (fun m => (epoch m).value.1) n) ≤ 100000) →
      ∀ n, n < N → ∃ T, (rnx2crx.arc_states S ((List.range N).map epoch))[n]? = some T ∧
        T.order = ((min n 3 : Nat) : Int)) := by
  refine ⟨?_, ?_, data_field_order_cases i0 py0 py1, arc_states_order_range es S, ?_⟩
  · intro h
    rw [data_field_init_text i0 py0 py1 h]
  · intro h
    rw [take_diff_order]
    split_ifs <;> omega
  · intro hstart hcont hslip n hn
    exact (arc_run_from_start epoch N S hstart hcont hslip n hn).2

/-- C19 witness: in the sample run the orders are 0, 1, 2. -/
theorem order_progression_witness :
    (rnx2crx.arc_states { u := fun _ => 0, l := fun _ => 0, order := 0 }
        ((List.range 3).map sample_epoch)).map (fun T => T.order) = [0, 1, 2] ∧
    ∀ n, n < 3 → ∃ T,
      (rnx2crx.arc_states { u := fun _ => 0, l := fun _ => 0, order := 0 }
        ((List.range 3).map sample_epoch))[n]? = some T ∧ T.order = ((min n 3 : Nat) : Int) :=
  ⟨by decide,
   (order_progression 0 { u := fun _ => 0, l := fun _ => 0, order := 0 }
      { u := fun _ => 0, l := fun _ => 0, order := 0 }
      { u := fun _ => 0, l := fun _ => 0, order := 0 } [] sample_epoch 3).2.2.2.2
    (Or.inl (by decide))
    (by intro n h1 h2; interval_cases n <;> decide)
    (by intro n h1 h2; interval_cases n <;> decide)⟩

end OrderProgression

section DecoderInit

open crx2rnx in
/-- C16: decoder initialization errors.  For a token that is not blank and is
not an initialization marker (its second character is not `&`), `getdiff`
fails if the satellite is new (`i0 < 0`: `error_exit(11)`, checked first) or
the previous field of the slot was blank (`arc_order < 0`: `error_exit(12)`);
under `-s` it returns 1 instead and the epoch is skipped.  In every other case
it succeeds and the entry inherits `order` and `arc_order` of the previous
epoch's entry. -/
theorem getdiff_uninitialized (skip : Bool) (tok : List Char) (i0 : Int)
    (dy0 y : data_format) (h1 : tok ≠ []) (h2 : tok.getD 1 NUL ≠ '&') :
    (i0 < 0 → getdiff_field skip tok i0 dy0 y =
      if skip then Ending.skip_epoch else Ending.error_exit 11) ∧
    (0 ≤ i0 → dy0.arc_order < 0 → getdiff_field skip tok i0 dy0 y =
      if skip then Ending.skip_epoch else Ending.error_exit 12) ∧
    (0 ≤ i0 → 0 ≤ dy0.arc_order →
      ∃ y1, getdiff_field skip tok i0 dy0 y = Ending.ok y1 ∧
        y1.order = dy0.order ∧ y1.arc_order = dy0.arc_order) := by
  refine ⟨?_, ?_, ?_⟩
  · intro h
    unfold getdiff_field
    rw [if_neg h1, if_neg h2, if_pos h]
    cases skip <;> simp
  · intro h h3
    unfold getdiff_field
    rw [if_neg h1, if_neg h2, if_neg (by omega), if_pos h3]
    cases skip <;> simp
  · intro h h3
    unfold getdiff_field
    rw [if_neg h1, if_neg h2, if_neg (by omega), if_neg (by omega)]
    exact ⟨_, rfl, rfl, rfl⟩

/-- C16 witness: the token `123` for a new satellite. -/
theorem getdiff_uninitialized_witness :
    ("123".toList ≠ [] ∧ "123".toList.getD 1 NUL ≠ '&') ∧
    crx2rnx.getdiff_field false "123".toList (-1) sample_prev_entry sample_prev_entry =
      crx2rnx.Ending.error_exit 11 ∧
    crx2rnx.getdiff_field true "123".toList (-1) sample_prev_entry sample_prev_entry =
      crx2rnx.Ending.skip_epoch :=
  ⟨by decide,
   (getdiff_uninitialized false "123".toList (-1) sample_prev_entry sample_prev_entry
      (by decide) (by decide)).1 (by decide),
   (getdiff_uninitialized true "123".toList (-1) sample_prev_entry sample_prev_entry
      (by decide) (by decide)).1 (by decide)⟩

theorem atol_digit_mark (d : Nat) (hd : d < 10) (rest : List Char) :
    atol (digit_char d :: '&' :: rest) = (d : Int) := by
  have hdig := digit_char_isdigit d hd
  rw [atol_of_digits _ (by intro c hc; simp at hc; rw [← hc]; exact hdig)]
  have ha : isdigit '&' = false := by decide
  simp [atol_digits, hdig, ha, digit_char_val d hd]

theorem sscanf_digit_mark (d : Nat) (hd : d < 10) (rest : List Char) :
    crx2rnx.sscanf_d (digit_char d :: '&' :: rest) = some (d : Int) := by
  have hdig := digit_char_isdigit d hd
  have hs := isdigit_not_space _ hdig
  have hm : digit_char d ≠ '-' := isdigit_ne _ _ hdig (by decide)
  have hp : digit_char d ≠ '+' := isdigit_ne _ _ hdig (by decide)
  have ha : isdigit '&' = false := by decide
  unfold crx2rnx.sscanf_d
  simp [List.dropWhile, hs, hm, hp, hdig, atol_digits, ha, digit_char_val d hd]

end DecoderInit

section ArcOrderBound

open crx2rnx in
/-- C17 (as the claim words it, refuted): the marker `4&` has an arc order above 3, yet the
decompressor accepts it, for a data field and for the clock, and records the
arc order 4. -/
theorem arc_order_bound_counterexample :
    (3 : Int) < 4 ∧
    (∃ y1, getdiff_field false "4&123".toList (-1) sample_prev_entry sample_prev_entry =
        Ending.ok y1 ∧ y1.arc_order = 4) ∧
    (∃ st, read_clock "4&123".toList { clk_order := 0, clk_arc_order := 0, yu := 0, yl := 0 } =
        Ending.ok st ∧ st.clk_arc_order = 4) :=
  ⟨by decide, ⟨_, rfl, rfl⟩, ⟨_, rfl, rfl⟩⟩

open crx2rnx in
/-- C17 (amended): arc-order bound in the decompressor.  For every
initialization marker `M&` with a decimal digit `M`, read for a data field
(`getdiff`) or for the clock (`read_clock`), the decompressor fails with
`error_exit(7)` exactly when `M` exceeds `MAX_DIFF_ORDER = 5`; a marker with
`M <= 5` is accepted and `M` becomes the arc order. -/
theorem arc_order_bound (d : Nat) (hd : d < 10) (rest : List Char) (skip : Bool) (i0 : Int)
    (dy0 y : data_format) (st : clock_state) :
    (getdiff_field skip (digit_char d :: '&' :: rest) i0 dy0 y = Ending.error_exit 7 ↔
      MAX_DIFF_ORDER < d) ∧
    (d ≤ MAX_DIFF_ORDER →
      ∃ y1, getdiff_field skip (digit_char d :: '&' :: rest) i0 dy0 y = Ending.ok y1 ∧
        y1.arc_order = (d : Int)) ∧
    (read_clock (digit_char d :: '&' :: rest) st = Ending.error_exit 7 ↔
      MAX_DIFF_ORDER < d) ∧
    (d ≤ MAX_DIFF_ORDER →
      ∃ st1, read_clock (digit_char d :: '&' :: rest) st = Ending.ok st1 ∧
        st1.clk_arc_order = (d : Int)) ∧
    MAX_DIFF_ORDER = 5 := by
  have hg : getdiff_field skip (digit_char d :: '&' :: rest) i0 dy0 y =
      if (d : Int) > (MAX_DIFF_ORDER : Int) then Ending.error_exit 7
      else Ending.ok { u := setAt y.u 0 (getdiff_value rest).1,
                       l := setAt y.l 0 (getdiff_value rest).2,
                       order := -1, arc_order := (d : Int) } := by
    unfold getdiff_field
    rw [if_neg (by simp), if_pos (by simp)]
    simp only [atol_digit_mark d hd rest]
    rfl
  have hr : read_clock (digit_char d :: '&' :: rest) st =
      if (d : Int) > (MAX_DIFF_ORDER : Int) then Ending.error_exit 7
      else Ending.ok { clk_order := -1, clk_arc_order := (d : Int),
                       yu := (read_clock_value rest).1, yl := (read_clock_value rest).2 } := by
    unfold read_clock
    rw [if_neg (by simp), if_pos (by simp)]
    simp only [sscanf_digit_mark d hd rest]
    rfl
  rw [hg, hr]
  refine ⟨?_, ?_, ?_, ?_, rfl⟩
  · constructor
    · intro h
      by_contra hc
      rw [if_neg (by omega)] at h
      exact Ending.noConfusion h
    · intro h
      rw [if_pos (by omega)]
  · intro h
    rw [if_neg (by omega)]
    exact ⟨_, rfl, rfl⟩
  · constructor
    · intro h
      by_contra hc
      rw [if_neg (by omega)] at h
      exact Ending.noConfusion h
    · intro h
      rw [if_pos (by omega)]
  · intro h
    rw [if_neg (by omega)]
    exact ⟨_, rfl, rfl⟩

open crx2rnx in
/-- C17 witness: the marker `6&` is refused for a data field and for the
clock. -/
theorem arc_order_bound_witness :
    6 < 10 ∧
    getdiff_field false ('6' :: '&' :: "123".toList) 0 sample_prev_entry sample_prev_entry =
      Ending.error_exit 7 ∧
    read_clock ('6' :: '&' :: "123".toList)
      { clk_order := 0, clk_arc_order := 0, yu := 0, yl := 0 } = Ending.error_exit 7 :=
  ⟨by decide,
   (arc_order_bound 6 (by decide) "123".toList false 0 sample_prev_entry sample_prev_entry
      { clk_order := 0, clk_arc_order := 0, yu := 0, yl := 0 }).1.2 (by decide),
   (arc_order_bound 6 (by decide) "123".toList false 0 sample_prev_entry sample_prev_entry
      { clk_order := 0, clk_arc_order := 0, yu := 0, yl := 0 }).2.2.1.2 (by decide)⟩

end ArcOrderBound

section OrderInvariant

theorem NUL_ne_amp : NUL ≠ '&' := by decide

theorem atol_digits_amp (rest : List Char) (acc : Nat) : atol_digits ('&' :: rest) acc = acc :=
  atol_digits_stop '&' rest acc (by decide)

/-- The arc order read from a marker is not negative. -/
theorem atol_mark_nonneg (tok : List Char) (h : tok.getD 1 NUL = '&') : 0 ≤ atol tok := by
  match tok, h with
  | [], h => exact absurd h NUL_ne_amp
  | [_], h => exact absurd h NUL_ne_amp
  | c :: c2 :: rest, h =>
    have hc2 : c2 = '&' := h
    subst hc2
    unfold atol
    by_cases hs : isspace c = true
    · have hamp : isspace '&' = false := by decide
      have : (c :: '&' :: rest).dropWhile isspace = '&' :: rest := by
        simp [List.dropWhile, hs, hamp]
      rw [this]
      simp [atol_digits_amp]
    · have : (c :: '&' :: rest).dropWhile isspace = c :: '&' :: rest := by
        simp [List.dropWhile, hs]
      rw [this]
      simp only [List.head?_cons, Option.some.injEq, List.tail_cons]
      split_ifs
      · rw [atol_digits_amp]; simp
      · exact Int.natCast_nonneg _
      · exact Int.natCast_nonneg _

theorem crx_data_field_order (dy0 y : crx2rnx.data_format) :
    (crx2rnx.data_field dy0 y).order = (if y.order < y.arc_order then y.order + 1 else y.order) ∧
    (crx2rnx.data_field dy0 y).arc_order = y.arc_order := by
  unfold crx2rnx.data_field
  split_ifs
  · exact ⟨(sum_loop _ _ _ _).1, (sum_loop _ _ _ _).2.1⟩
  · exact ⟨(sum_loop _ _ _ _).1, (sum_loop _ _ _ _).2.1⟩

/-- After an initialization marker the order is 0. -/
theorem arc_step_init_order (skip : Bool) (tok : List Char) (i0 : Int)
    (dy0 stale y : crx2rnx.data_format) (h1 : tok ≠ []) (h2 : tok.getD 1 NUL = '&')
    (h : crx2rnx.arc_step skip tok i0 dy0 stale = crx2rnx.Ending.ok y) :
    y.order = 0 ∧ 0 ≤ y.arc_order ∧ y.arc_order ≤ 5 := by
  have ha := atol_mark_nonneg tok h2
  unfold crx2rnx.arc_step crx2rnx.getdiff_field at h
  rw [if_neg h1, if_pos h2] at h
  simp only [crx2rnx.MAX_DIFF_ORDER, Nat.cast_ofNat] at h
  by_cases hb : atol tok > 5
  · rw [if_pos hb] at h
    exact crx2rnx.Ending.noConfusion h
  · rw [if_neg hb] at h
    simp only [ge_iff_le] at h
    rw [if_pos ha] at h
    injection h with h
    subst h
    obtain ⟨a, b⟩ := crx_data_field_order dy0
      { u := setAt stale.u 0 (crx2rnx.getdiff_value (tok.drop 2)).1,
        l := setAt stale.l 0 (crx2rnx.getdiff_value (tok.drop 2)).2,
        order := -1, arc_order := atol tok }
    rw [a, b]
    simp only
    rw [if_pos (by omega)]
    refine ⟨by norm_num, ha, by omega⟩

/-- One step keeps `0 <= order <= arc_order`. -/
theorem arc_step_order (skip : Bool) (tok : List Char) (i0 : Int)
    (dy0 stale y : crx2rnx.data_format)
    (hinv : i0 < 0 ∨ (0 ≤ dy0.arc_order → 0 ≤ dy0.order ∧ dy0.order ≤ dy0.arc_order))
    (h : crx2rnx.arc_step skip tok i0 dy0 stale = crx2rnx.Ending.ok y)
    (hA : 0 ≤ y.arc_order) :
    0 ≤ y.order ∧ y.order ≤ y.arc_order := by
  by_cases h1 : tok = []
  · exfalso
    unfold crx2rnx.arc_step crx2rnx.getdiff_field at h
    rw [if_pos h1] at h
    simp only [ge_iff_le] at h
    rw [if_neg (by norm_num)] at h
    injection h with h
    subst h
    simp at hA
  by_cases h2 : tok.getD 1 NUL = '&'
  · obtain ⟨a, b, _⟩ := arc_step_init_order skip tok i0 dy0 stale y h1 h2 h
    rw [a]
    exact ⟨le_refl _, b⟩
  · unfold crx2rnx.arc_step crx2rnx.getdiff_field at h
    rw [if_neg h1, if_neg h2] at h
    by_cases h3 : i0 < 0
    · rw [if_pos h3] at h
      cases skip <;> simp at h
    · rw [if_neg h3] at h
      by_cases h4 : dy0.arc_order < 0
      · rw [if_pos h4] at h
        cases skip <;> simp at h
      · rw [if_neg h4] at h
        simp only [ge_iff_le] at h
        rw [if_pos (by omega)] at h
        injection h with h
        subst h
        obtain ⟨a, b⟩ := crx_data_field_order dy0
          { u := setAt stale.u 0 (crx2rnx.getdiff_value tok).1,
            l := setAt stale.l 0 (crx2rnx.getdiff_value tok).2,
            order := dy0.order, arc_order := dy0.arc_order }
        rw [a, b]
        simp only
        have hd : 0 ≤ dy0.order ∧ dy0.order ≤ dy0.arc_order := by
          rcases hinv with hi | hi
          · exact absurd hi h3
          · exact hi (by omega)
        split_ifs <;> constructor <;> omega

theorem arc_entries_order (skip : Bool) (run : List (arc_epoch × List Char)) :
    ∀ (dy0 : crx2rnx.data_format) (ys : List crx2rnx.data_format),
      ((0 ≤ dy0.arc_order → 0 ≤ dy0.order ∧ dy0.order ≤ dy0.arc_order) ∨
        ∀ p, run.head? = some p → p.1.i0 < 0) →
      crx2rnx.arc_entries skip dy0 run = crx2rnx.Ending.ok ys →
      ∀ z ∈ ys, 0 ≤ z.arc_order → 0 ≤ z.order ∧ z.order ≤ z.arc_order := by
  induction run with
  | nil =>
    intro dy0 ys _ h z hz
    simp only [crx2rnx.arc_entries] at h
    injection h with h
    subst h
    simp at hz
  | cons p rest ih =>
    intro dy0 ys hinv h z hz
    obtain ⟨e, tok⟩ := p
    simp only [crx2rnx.arc_entries] at h
    cases hs : crx2rnx.arc_step skip tok e.i0 dy0 e.stale2 with
    | error_exit n => rw [hs] at h; exact crx2rnx.Ending.noConfusion h
    | skip_epoch => rw [hs] at h; exact crx2rnx.Ending.noConfusion h
    | ok y =>
      rw [hs] at h
      simp only at h
      have hy : 0 ≤ y.arc_order → 0 ≤ y.order ∧ y.order ≤ y.arc_order := by
        intro hA
        refine arc_step_order skip tok e.i0 dy0 e.stale2 y ?_ hs hA
        rcases hinv with hi | hi
        · exact Or.inr hi
        · exact Or.inl (hi (e, tok) rfl)
      cases hr : crx2rnx.arc_entries skip (crx2rnx.saved_entry y) rest with
      | error_exit n => rw [hr] at h; exact crx2rnx.Ending.noConfusion h
      | skip_epoch => rw [hr] at h; exact crx2rnx.Ending.noConfusion h
      | ok ys1 =>
        rw [hr] at h
        simp only at h
        injection h with h
        subst h
        rcases List.mem_cons.1 hz with rfl | hz
        · exact hy
        · refine ih (crx2rnx.saved_entry y) ys1 (Or.inl ?_) hr z hz
          rw [(saved_entry_order y).1, (saved_entry_order y).2]
          exact hy

end OrderInvariant

section OrderInvariantClaim

open crx2rnx in
/-- C18: order invariant in the decompressor.  After `getdiff` and `data()`
have processed a non-blank field (`arc_order >= 0`), its order satisfies
`0 <= order <= arc_order`: an initialization marker gives order 0 (and an arc
order in `0..5`); a continuing step keeps the invariant of the previous
epoch's entry; and so every entry of a run has it, whether the run starts from
an entry that has it or with a new satellite. -/
theorem order_invariant (skip : Bool) (tok : List Char) (i0 : Int)
    (dy0 stale y : data_format) (run : List (arc_epoch × List Char)) (ys : List data_format) :
    (tok ≠ [] → tok.getD 1 NUL = '&' → arc_step skip tok i0 dy0 stale = Ending.ok y →
      y.order = 0 ∧ 0 ≤ y.arc_order ∧ y.arc_order ≤ 5) ∧
    ((i0 < 0 ∨ (0 ≤ dy0.arc_order → 0 ≤ dy0.order ∧ dy0.order ≤ dy0.arc_order)) →
      arc_step skip tok i0 dy0 stale = Ending.ok y → 0 ≤ y.arc_order →
      0 ≤ y.order ∧ y.order ≤ y.arc_order) ∧
    (((0 ≤ dy0.arc_order → 0 ≤ dy0.order ∧ dy0.order ≤ dy0.arc_order) ∨
        ∀ p, run.head? = some p → p.1.i0 < 0) →
      arc_entries skip dy0 run = Ending.ok ys →
      ∀ z ∈ ys, 0 ≤ z.arc_order → 0 ≤ z.order ∧ z.order ≤ z.arc_order) :=
  ⟨arc_step_init_order skip tok i0 dy0 stale y, arc_step_order skip tok i0 dy0 stale y,
   arc_entries_order skip run dy0 ys⟩

/-- The decompressor on the tokens of the sample run: three entries of arc
order 3 with the orders 0, 1, 2. -/
theorem sample_arc_entries :
    ∃ ys, crx2rnx.arc_entries false
        { u := fun _ => 0, l := fun _ => 0, order := 0, arc_order := 0 }
        (sample_arc.zip ["3&23456789123".toList, "0".toList, "1".toList]) =
        crx2rnx.Ending.ok ys ∧
      ys.map (fun y => (y.order, y.arc_order)) = [(0, 3), (1, 3), (2, 3)] :=
  ⟨_, rfl, by decide⟩

open crx2rnx in
/-- C18 witness: the continuing step from `sample_prev_entry` (order 0, arc
order 3) on the token `-299995` reaches `sample_next_entry`, of order 1. -/
theorem order_invariant_witness :
    arc_step false "-299995".toList 0 sample_prev_entry
        { u := fun _ => 0, l := fun _ => 0, order := 0, arc_order := 0 } =
      Ending.ok sample_next_entry ∧
    0 ≤ sample_next_entry.order ∧ sample_next_entry.order ≤ sample_next_entry.arc_order :=
  ⟨rfl,
   (order_invariant false "-299995".toList 0 sample_prev_entry
      { u := fun _ => 0, l := fun _ => 0, order := 0, arc_order := 0 } sample_next_entry
      [] []).2.1 (Or.inr (fun _ => by decide)) rfl (by decide)⟩

end OrderInvariantClaim

section FieldOverflow

open crx2rnx in
theorem putfield_with_eq (output_overflow : Bool) (exit_status : Nat) (y : data_format)
    (flag0 flag1 : Char) :
    putfield_with output_overflow exit_status y flag0 flag1 =
      if (putfield_adjust (y.u y.order.toNat) (y.l y.order.toNat)).1 < -9999999 ∨
          99999999 < (putfield_adjust (y.u y.order.toNat) (y.l y.order.toNat)).1 then
        if output_overflow then
          Ending.ok
            ({ y with
                u := setAt y.u y.order.toNat
                  (putfield_adjust (y.u y.order.toNat) (y.l y.order.toNat)).1,
                l := setAt y.l y.order.toNat
                  (putfield_adjust (y.u y.order.toNat) (y.l y.order.toNat)).2 },
              putfield_text (putfield_adjust (y.u y.order.toNat) (y.l y.order.toNat)).1
                (putfield_adjust (y.u y.order.toNat) (y.l y.order.toNat)).2 flag0 flag1,
              EXIT_WARNING)
        else Ending.error_exit 17
      else
        Ending.ok
          ({ y with
              u := setAt y.u y.order.toNat
                (putfield_adjust (y.u y.order.toNat) (y.l y.order.toNat)).1,
              l := setAt y.l y.order.toNat
                (putfield_adjust (y.u y.order.toNat) (y.l y.order.toNat)).2 },
            putfield_text (putfield_adjust (y.u y.order.toNat) (y.l y.order.toNat)).1
              (putfield_adjust (y.u y.order.toNat) (y.l y.order.toNat)).2 flag0 flag1,
            exit_status) := by
  unfold putfield_with
  simp only
  generalize (putfield_adjust (y.u y.order.toNat) (y.l y.order.toNat)).1 = a
  by_cases h0 : a ≠ 0
  · rw [if_pos h0]
    by_cases h1 : a > 99999999 ∨ a < -9999999
    · have h2 : a < -9999999 ∨ 99999999 < a := by omega
      rw [if_pos h1, if_pos h2]
    · have h2 : ¬ (a < -9999999 ∨ 99999999 < a) := by omega
      rw [if_neg h1, if_neg h2]
  · have h2 : ¬ (a < -9999999 ∨ 99999999 < a) := by omega
    rw [if_neg h0, if_neg h2]

open crx2rnx in
theorem putfield_eq (y : data_format) (flag0 flag1 : Char) :
    (putfield y flag0 flag1 = Ending.error_exit 17 ↔
      ((putfield_adjust (y.u y.order.toNat) (y.l y.order.toNat)).1 < -9999999 ∨
        99999999 < (putfield_adjust (y.u y.order.toNat) (y.l y.order.toNat)).1)) := by
  unfold putfield putfield_overflow
  simp only
  generalize (putfield_adjust (y.u y.order.toNat) (y.l y.order.toNat)).1 = a
  by_cases h : a < -9999999 ∨ 99999999 < a
  · have : (decide (a ≠ 0 ∧ (a > 99999999 ∨ a < -9999999))) = true := by
      rw [decide_eq_true_iff]
      constructor <;> omega
    rw [if_pos this]
    exact ⟨fun _ => h, fun _ => rfl⟩
  · have : ¬ (decide (a ≠ 0 ∧ (a > 99999999 ∨ a < -9999999))) = true := by
      rw [decide_eq_true_iff]
      rintro ⟨_, h2⟩
      omega
    rw [if_neg this]
    exact ⟨fun h2 => Ending.noConfusion h2, fun h2 => absurd h2 h⟩

open crx2rnx in
/-- C20 (as the claim words it, refuted): the normalized pair `(-10000000, 0)` has
`-10^7 <= u <= 10^8 - 1` and `u != 0`, yet `putfield` without the override
stops with `error_exit(17)`. -/
theorem field_overflow_counterexample :
    (-10 ^ 7 : Int) ≤ -10000000 ∧ (-10000000 : Int) ≤ 10 ^ 8 - 1 ∧ (-10000000 : Int) ≠ 0 ∧
    putfield_adjust (-10000000) 0 = (-10000000, 0) ∧
    putfield_with false 0
      { u := fun _ => -10000000, l := fun _ => 0, order := 0, arc_order := 3 } ' ' ' ' =
      Ending.error_exit 17 ∧
    putfield { u := fun _ => -10000000, l := fun _ => 0, order := 0, arc_order := 3 } ' ' ' ' =
      Ending.error_exit 17 :=
  ⟨by decide, by decide, by decide, by decide, rfl, rfl⟩

open crx2rnx in
/-- C20 (amended): field overflow in the decompressor.  With `(u, l)` the pair
of the entry after the sign adjustment (the pair itself when it is
normalized), `putfield` without the override stops with `error_exit(17)`
exactly when `u < -9999999` or `u > 99999999`, and completes, leaving the exit
status as it was, exactly when `-9999999 <= u <= 10^8 - 1`; with the override
it completes for an out-of-range `u` as well and sets the exit status to 2. -/
theorem field_overflow (exit_status : Nat) (y : data_format) (flag0 flag1 : Char) :
    (putfield_with false exit_status y flag0 flag1 = Ending.error_exit 17 ↔
      ((putfield_adjust (y.u y.order.toNat) (y.l y.order.toNat)).1 < -9999999 ∨
        10 ^ 8 - 1 < (putfield_adjust (y.u y.order.toNat) (y.l y.order.toNat)).1)) ∧
    ((∃ y1 text, putfield_with false exit_status y flag0 flag1 =
        Ending.ok (y1, text, exit_status)) ↔
      (-9999999 ≤ (putfield_adjust (y.u y.order.toNat) (y.l y.order.toNat)).1 ∧
        (putfield_adjust (y.u y.order.toNat) (y.l y.order.toNat)).1 ≤ 10 ^ 8 - 1)) ∧
    (((putfield_adjust (y.u y.order.toNat) (y.l y.order.toNat)).1 < -9999999 ∨
        10 ^ 8 - 1 < (putfield_adjust (y.u y.order.toNat) (y.l y.order.toNat)).1) →
      ∃ y1 text, putfield_with true exit_status y flag0 flag1 = Ending.ok (y1, text, 2)) ∧
    (putfield y flag0 flag1 = Ending.error_exit 17 ↔
      putfield_with false exit_status y flag0 flag1 = Ending.error_exit 17) ∧
    (¬ (y.u y.order.toNat < 0 ∧ y.l y.order.toNat > 0) →
      ¬ (y.u y.order.toNat > 0 ∧ y.l y.order.toNat < 0) →
      putfield_adjust (y.u y.order.toNat) (y.l y.order.toNat) =
        (y.u y.order.toNat, y.l y.order.toNat)) := by
  have hw := putfield_with_eq false exit_status y flag0 flag1
  have ht := putfield_with_eq true exit_status y flag0 flag1
  have hp := putfield_eq y flag0 flag1
  have e : (10 : Int) ^ 8 - 1 = 99999999 := by norm_num
  rw [e]
  have h1 : putfield_with false exit_status y flag0 flag1 = Ending.error_exit 17 ↔
      ((putfield_adjust (y.u y.order.toNat) (y.l y.order.toNat)).1 < -9999999 ∨
        99999999 < (putfield_adjust (y.u y.order.toNat) (y.l y.order.toNat)).1) := by
    rw [hw]
    constructor
    · intro h
      by_contra hc
      rw [if_neg hc] at h
      exact Ending.noConfusion h
    · intro h
      rw [if_pos h]
      rfl
  refine ⟨h1, ?_, ?_, ?_, ?_⟩
  · constructor
    · rintro ⟨y1, text, h⟩
      by_contra hc
      have : putfield_with false exit_status y flag0 flag1 = Ending.error_exit 17 :=
        h1.2 (by omega)
      rw [this] at h
      exact Ending.noConfusion h
    · intro h
      rw [hw, if_neg (by omega)]
      exact ⟨_, _, rfl⟩
  · intro h
    rw [ht, if_pos h]
    exact ⟨_, _, rfl⟩
  · rw [hp, h1]
  · intro a b
    unfold putfield_adjust
    rw [if_neg a, if_neg b]

open crx2rnx in
/-- C20 witness: the largest negative upper part that fits, `-9999999`, and
the first one that does not, under the override. -/
theorem field_overflow_witness :
    (∃ y1 text, putfield_with false 0
      { u := fun _ => -9999999, l := fun _ => 0, order := 0, arc_order := 3 } ' ' ' ' =
      Ending.ok (y1, text, 0)) ∧
    (∃ y1 text, putfield_with true 0
      { u := fun _ => -10000000, l := fun _ => 0, order := 0, arc_order := 3 } ' ' ' ' =
      Ending.ok (y1, text, 2)) :=
  ⟨(field_overflow 0 { u := fun _ => -9999999, l := fun _ => 0, order := 0, arc_order := 3 }
      ' ' ' ').2.1.2 (by decide),
   (field_overflow 0 { u := fun _ => -10000000, l := fun _ => 0, order := 0, arc_order := 3 }
      ' ' ' ').2.2.1 (by decide)⟩

end FieldOverflow


section ClockEmission

theorem fmt_ld_p8_nat (b : Nat) (hb : b < 10 ^ 8) : fmt_ld_p 8 (b : Int) = pad_digits 8 b := by
  unfold fmt_ld_p
  have h : ¬ ((b : Int) < 0) := by omega
  rw [if_neg h, Int.natAbs_ofNat, List.nil_append]
  exact zero_fill_eq_pad 7 b hb

theorem fmt_ld_pos_split8 (a b : Nat) (ha : 0 < a) (hb : b < 10 ^ 8) :
    fmt_ld ((a : Int) * 100000000 + b) = fmt_ld (a : Int) ++ fmt_ld_p 8 (b : Int) := by
  have h1 : ¬ ((a : Int) * 100000000 + b < 0) := by omega
  have h2 : ¬ ((a : Int) < 0) := by omega
  have h3 : ((a : Int) * 100000000 + b).natAbs = a * 10 ^ 8 + b := by omega
  rw [fmt_ld_p8_nat b hb]
  unfold fmt_ld
  rw [if_neg h1, if_neg h2, h3, Int.natAbs_ofNat]
  exact dec_digits_split 8 a b ha hb

theorem fmt_ld_neg_split8 (a b : Nat) (ha : 0 < a) (hb : b < 10 ^ 8) :
    fmt_ld (-(a : Int) * 100000000 - b) = fmt_ld (-(a : Int)) ++ fmt_ld_p 8 (b : Int) := by
  have h1 : (-(a : Int) * 100000000 - b < 0) := by omega
  have h2 : (-(a : Int) < 0) := by omega
  have h3 : (-(a : Int) * 100000000 - b).natAbs = a * 10 ^ 8 + b := by omega
  have h4 : (-(a : Int)).natAbs = a := by omega
  rw [fmt_ld_p8_nat b hb]
  unfold fmt_ld
  rw [if_pos h1, if_pos h2, h3, h4, dec_digits_split 8 a b ha hb]
  rfl

/-- The number `put_clock` writes is the decimal of `du*10^8 + dl`. -/
theorem put_clock_eq_fmt_ld (du dl : Int) (c_order : Int) :
    rnx2crx.put_clock du dl c_order =
      (if c_order = 0 then ['3', '&'] else []) ++ (fmt_ld (du * 100000000 + dl) ++ ['\n']) := by
  obtain ⟨h1, h2, h3, h4, h5⟩ := put_clock_norm_spec du dl
  unfold rnx2crx.put_clock
  rw [fmt_ld_arc_order]
  generalize rnx2crx.put_clock_norm du dl = n at *
  obtain ⟨u', l'⟩ := n
  simp only at h1 h2 h3 h4 h5 ⊢
  rw [← h1]
  have hmark : (if c_order = 0 then ['3'] ++ ['&'] else []) =
      (if c_order = 0 then ['3', '&'] else ([] : List Char)) := rfl
  rw [hmark]
  congr 1
  by_cases hu : u' = 0
  · rw [if_pos hu, hu]
    simp
  · rw [if_neg hu, List.append_assoc]
    rw [← List.append_assoc]
    congr 1
    rcases lt_or_gt_of_ne hu with hneg | hpos
    · have hl : l' ≤ 0 := by omega
      obtain ⟨a, ha⟩ : ∃ a : Nat, u' = -(a : Int) := ⟨u'.natAbs, by omega⟩
      obtain ⟨b, hb⟩ : ∃ b : Nat, l' = -(b : Int) := ⟨l'.natAbs, by omega⟩
      have hlabs : labs l' = (b : Int) := by
        unfold labs
        split_ifs <;> omega
      rw [hlabs, ha, hb]
      have := fmt_ld_neg_split8 a b (by omega) (by omega)
      rw [← this]
      congr 1
    · have hl : 0 ≤ l' := by omega
      obtain ⟨a, ha⟩ : ∃ a : Nat, u' = (a : Int) := ⟨u'.natAbs, by omega⟩
      obtain ⟨b, hb⟩ : ∃ b : Nat, l' = (b : Int) := ⟨l'.natAbs, by omega⟩
      have hlabs : labs l' = (b : Int) := by
        unfold labs
        split_ifs <;> omega
      rw [hlabs, ha, hb]
      exact (fmt_ld_pos_split8 a b (by omega) (by omega)).symm

end ClockEmission


section ClockScan

theorem dropWhile_blanks (k : Nat) (r : List Char)
    (h : ∀ x, r.head? = some x → isspace x = false) :
    (List.replicate k ' ' ++ r).dropWhile isspace = r := by
  induction k with
  | zero =>
    cases r with
    | nil => rfl
    | cons x xs =>
      have := h x rfl
      simp [List.dropWhile, this]
  | succ k ih =>
    have hb : isspace ' ' = true := by decide
    rw [List.replicate_succ, List.cons_append, List.dropWhile_cons, if_pos hb]
    exact ih

theorem atol_digits_halt (r : List Char) (acc : Nat)
    (h : ∀ x, r.head? = some x → isdigit x = false) : atol_digits r acc = acc := by
  cases r with
  | nil => rfl
  | cons x xs => exact atol_digits_stop x xs acc (h x rfl)

theorem dropWhile_digits (hs r : List Char) (h : ∀ x ∈ hs, isdigit x = true)
    (hr : ∀ x, r.head? = some x → isdigit x = false) :
    (hs ++ r).dropWhile isdigit = r := by
  induction hs with
  | nil =>
    cases r with
    | nil => rfl
    | cons x xs =>
      have := hr x rfl
      simp [List.dropWhile, this]
  | cons y ys ih =>
    have hy : isdigit y = true := h y (by simp)
    rw [List.cons_append, List.dropWhile_cons, if_pos hy]
    exact ih (fun x hx => h x (List.mem_cons_of_mem _ hx))

/-- The conversion `%ld` on blanks, an optional minus sign and digits. -/
theorem scan_long_signed (pad : Nat) (neg : Bool) (hs r : List Char)
    (h : ∀ x ∈ hs, isdigit x = true) (hne : hs ≠ [])
    (hr : ∀ x, r.head? = some x → isdigit x = false) :
    scan_long (List.replicate pad ' ' ++ (if neg then ['-'] else []) ++ hs ++ r) =
      some ((if neg then -1 else 1) * (atol_digits hs 0 : Int), r) := by
  obtain ⟨y, ys, rfl⟩ : ∃ y ys, hs = y :: ys := by
    cases hs with
    | nil => exact absurd rfl hne
    | cons y ys => exact ⟨y, ys, rfl⟩
  have hy : isdigit y = true := h y (by simp)
  have hys := isdigit_not_space y hy
  have hym : y ≠ '-' := isdigit_ne _ _ hy (by decide)
  have hyp : y ≠ '+' := isdigit_ne _ _ hy (by decide)
  have hd : atol_digits (y :: ys ++ r) 0 = atol_digits (y :: ys) 0 := by
    rw [atol_digits_append _ _ _ h, atol_digits_halt _ _ hr]
  have hdw : (y :: ys ++ r).dropWhile isdigit = r := dropWhile_digits _ _ h hr
  unfold scan_long
  rw [List.append_assoc, List.append_assoc]
  cases neg with
  | true =>
    have hsp : ∀ x, (['-'] ++ (y :: ys ++ r)).head? = some x → isspace x = false := by
      intro x hx
      simp only [List.singleton_append, List.head?_cons, Option.some.injEq] at hx
      rw [← hx]
      decide
    simp only [if_true]
    rw [dropWhile_blanks _ _ hsp]
    simp only [List.singleton_append, List.head?_cons, true_or, if_true, List.tail_cons,
      decide_True]
    rw [hd, hdw]
    simp [hy]
  | false =>
    have hsp : ∀ x, ([] ++ (y :: ys ++ r)).head? = some x → isspace x = false := by
      intro x hx
      simp only [List.nil_append, List.cons_append, List.head?_cons, Option.some.injEq] at hx
      rw [← hx]
      exact hys
    simp only [Bool.false_eq_true, if_false]
    rw [dropWhile_blanks _ _ hsp]
    simp only [List.nil_append]
    have hh : (y :: ys ++ r).head? = some y := rfl
    have hno : ¬ ((y :: ys ++ r).head? = some '-' ∨ (y :: ys ++ r).head? = some '+') := by
      rw [hh]
      simp [hym, hyp]
    have hnm : ¬ ((y :: ys ++ r).head? = some '-') := fun e => hno (Or.inl e)
    rw [if_neg hno]
    simp only [hnm, decide_False, Bool.false_eq_true, if_false]
    rw [hd, hdw, hh]
    simp [hy]

theorem dec_value_append (a b : List Char) (hb : ∀ x ∈ b, isdigit x = true) :
    dec_value (a ++ b) = dec_value a * 10 ^ b.length + dec_value b := by
  unfold dec_value
  rw [List.foldl_append]
  have h1 := atol_digits_eq_dec_value b (a.foldl (fun n c => n * 10 + (c.toNat - 48)) 0) hb
  have h2 := atol_digits_eq_dec_value b 0 hb
  rw [← h1, ← h2]
  exact atol_digits_acc b _ hb

end ClockScan


section ClockRead

/-- The two characters in front of the decimal point of a clock field. -/
theorem clock_field_head (pad : Nat) (neg : Bool) (ip : List Char)
    (hshape : pad + (if neg then 1 else 0) + ip.length = 2)
    (hip : ∀ x ∈ ip, isdigit x = true) :
    ∃ a b, List.replicate pad ' ' ++ (if neg then ['-'] else []) ++ ip = [a, b] ∧
      ((a = '-' ∨ b = '-') ↔ neg = true) := by
  have hd : ∀ x, isdigit x = true → x ≠ '-' := fun x hx => isdigit_ne _ _ hx (by decide)
  cases neg with
  | true =>
    simp only [if_true] at hshape
    rcases ip with _ | ⟨d, _ | ⟨d2, t⟩⟩
    · have hp : pad = 1 := by simpa using hshape
      subst hp
      exact ⟨' ', '-', rfl, by simp⟩
    · have hp : pad = 0 := by simpa using hshape
      subst hp
      exact ⟨'-', d, rfl, by simp⟩
    · simp only [List.length_cons] at hshape
      omega
  | false =>
    simp only [Bool.false_eq_true, if_false] at hshape
    rcases ip with _ | ⟨d1, _ | ⟨d2, _ | ⟨d3, t⟩⟩⟩
    · have hp : pad = 2 := by simpa using hshape
      subst hp
      exact ⟨' ', ' ', rfl, by simp⟩
    · have hp : pad = 1 := by simpa using hshape
      subst hp
      have h1 := hd d1 (hip d1 (by simp))
      exact ⟨' ', d1, rfl, by simp [h1]⟩
    · have hp : pad = 0 := by simpa using hshape
      subst hp
      have h1 := hd d1 (hip d1 (by simp))
      have h2 := hd d2 (hip d2 (by simp))
      exact ⟨d1, d2, rfl, by simp [h1, h2]⟩
    · simp only [List.length_cons] at hshape
      omega

/-- What the compressor's `read_clock` reads from a clock field. -/
theorem read_clock_field (pad : Nat) (neg : Bool) (ip fa fb : List Char) (clk_order : Int)
    (clk1 : rnx2crx.clock_format)
    (hshape : pad + (if neg then 1 else 0) + ip.length = 2)
    (hip : ∀ x ∈ ip, isdigit x = true)
    (hfa : ∀ x ∈ fa, isdigit x = true) (hfa0 : fa ≠ [])
    (hfb : ∀ x ∈ fb, isdigit x = true) (hfb0 : fb ≠ []) :
    rnx2crx.read_clock (clock_field pad neg ip fa fb) fa.length clk_order clk1 =
      crx2rnx.Ending.ok
        ({ u := setAt clk1.u 0 ((if neg then -1 else 1) * (atol_digits (ip ++ fa) 0 : Int)),
           l := setAt clk1.l 0 ((if neg then -1 else 1) * (atol_digits fb 0 : Int)) },
          if clk_order < 3 then clk_order + 1 else clk_order) := by
  obtain ⟨a, b, hpre, hsign⟩ := clock_field_head pad neg ip hshape hip
  have e1 : clock_field pad neg ip fa fb = a :: b :: '.' :: (fa ++ fb) := by
    unfold clock_field
    rw [hpre]
    simp
  have hs : a :: b :: (fa ++ ['.'] ++ fb) =
      List.replicate pad ' ' ++ (if neg then ['-'] else []) ++ (ip ++ fa) ++ ('.' :: fb) := by
    rw [← List.append_assoc, hpre]
    simp
  have hdot : ∀ x, ('.' :: fb).head? = some x → isdigit x = false := by
    intro x hx
    simp only [List.head?_cons, Option.some.injEq] at hx
    rw [← hx]
    decide
  have hnil : ∀ x, ([] : List Char).head? = some x → isdigit x = false := by
    intro x hx
    simp at hx
  have hu := scan_long_signed pad neg (ip ++ fa) ('.' :: fb)
    (by
      intro x hx
      rcases List.mem_append.1 hx with h | h
      · exact hip x h
      · exact hfa x h)
    (by simp [hfa0]) hdot
  have hl := scan_long_signed 0 false fb [] hfb hfb0 hnil
  simp only [List.replicate_zero, Bool.false_eq_true, if_false, List.nil_append,
    List.append_nil, one_mul] at hl
  unfold rnx2crx.read_clock
  rw [e1]
  have hcopy : strncpy_chars fa.length (fa ++ fb) = fa := by
    unfold strncpy_chars
    rw [List.take_left]
    simp
  simp only [List.getD_cons_succ, List.getD_cons_zero, ne_eq, not_true_eq_false, if_false,
    List.take_succ_cons, List.take_zero, List.drop_succ_cons, List.drop_zero, hcopy]
  have hdrop : List.drop (3 + fa.length) (a :: b :: '.' :: (fa ++ fb)) = fb := by
    have : 3 + fa.length = (a :: b :: '.' :: fa).length := by simp; omega
    rw [this]
    exact @List.drop_left' Char (a :: b :: '.' :: fa) fb _ rfl
  rw [hdrop]
  have hs2 : [a, b] ++ fa ++ ['.'] ++ fb = a :: b :: (fa ++ ['.'] ++ fb) := by simp
  rw [hs2, hs]
  unfold sscanf_ld_dot_ld
  rw [hu]
  simp only [List.head?_cons, if_true, List.tail_cons]
  rw [hl]
  simp only [rnx2crx.ARC_ORDER, Nat.cast_ofNat]
  congr 2
  cases neg with
  | true =>
    have : a = '-' ∨ b = '-' := hsign.2 rfl
    simp only [this, if_true]
    ring_nf
  | false =>
    have : ¬ (a = '-' ∨ b = '-') := fun h => by simpa using hsign.1 h
    simp only [this, if_false, Bool.false_eq_true]
    ring_nf

end ClockRead


section ClockEncoding

theorem clock_field_value_split (neg : Bool) (ip fa fb : List Char)
    (hip : ∀ x ∈ ip, isdigit x = true) (hfa : ∀ x ∈ fa, isdigit x = true)
    (hfb : ∀ x ∈ fb, isdigit x = true) (hlen : fb.length = 8) :
    (if neg then -1 else 1) * (atol_digits (ip ++ fa) 0 : Int) * 100000000 +
        (if neg then -1 else 1) * (atol_digits fb 0 : Int) =
      clock_field_value neg ip fa fb := by
  have hipfa : ∀ x ∈ ip ++ fa, isdigit x = true := by
    intro x hx
    rcases List.mem_append.1 hx with h | h
    · exact hip x h
    · exact hfa x h
  unfold clock_field_value
  rw [dec_value_append _ _ hfb, hlen, dec_value_eq _ hipfa, dec_value_eq _ hfb]
  push_cast
  ring

/-- The clock line of the epoch at which a clock offset first appears, and of
the next epoch when the offset is unchanged. -/
theorem main_clock_first_and_same (pad : Nat) (neg : Bool) (ip fa fb : List Char)
    (st : rnx2crx.epoch_state) (clk1 clk0 : rnx2crx.clock_format)
    (hshape : pad + (if neg then 1 else 0) + ip.length = 2)
    (hip : ∀ x ∈ ip, isdigit x = true)
    (hfa : ∀ x ∈ fa, isdigit x = true) (hfa0 : fa ≠ [])
    (hfb : ∀ x ∈ fb, isdigit x = true) (hlen : fb.length = 8)
    (hfirst : st.clk_order = -1) :
    ∃ st1 c1,
      rnx2crx.main_clock 0 fa.length (clock_field pad neg ip fa fb) st clk1 clk0 =
        crx2rnx.Ending.ok
          (st1, c1, ['3', '&'] ++ (fmt_ld (clock_field_value neg ip fa fb) ++ ['\n'])) ∧
      c1.u 0 * 100000000 + c1.l 0 = clock_field_value neg ip fa fb ∧
      st1.clk_order = 0 ∧
      ∃ st2 c2,
        rnx2crx.main_clock 0 fa.length (clock_field pad neg ip fa fb) st1 c1 c1 =
          crx2rnx.Ending.ok (st2, c2, ['0', '\n']) := by
  have hfb0 : fb ≠ [] := by
    intro h
    rw [h] at hlen
    simp at hlen
  have hne : clock_field pad neg ip fa fb ≠ [] := by
    unfold clock_field
    simp
  have hv := clock_field_value_split neg ip fa fb hip hfa hfb hlen
  refine ⟨{ st with clk_order := 0 },
    { u := setAt clk1.u 0 ((if neg then -1 else 1) * (atol_digits (ip ++ fa) 0 : Int)),
      l := setAt clk1.l 0 ((if neg then -1 else 1) * (atol_digits fb 0 : Int)) }, ?_, ?_, rfl, ?_⟩
  · unfold rnx2crx.main_clock
    rw [if_pos hne, read_clock_field pad neg ip fa fb _ _ hshape hip hfa hfa0 hfb hfb0, hfirst]
    generalize (if neg then -1 else 1) * (atol_digits (ip ++ fa) 0 : Int) = U at hv ⊢
    generalize (if neg then -1 else 1) * (atol_digits fb 0 : Int) = L at hv ⊢
    simp only [rnx2crx.main_ep_reset, gt_iff_lt, lt_self_iff_false, if_false]
    norm_num
    rw [put_clock_eq_fmt_ld]
    simp only [setAt_same, if_true]
    rw [hv]
    rfl
  · simp only [setAt_same]
    exact hv
  · refine ⟨{ st with clk_order := 1 },
      rnx2crx.process_clock 1
        { u := setAt (setAt clk1.u 0 ((if neg then -1 else 1) * (atol_digits (ip ++ fa) 0 : Int)))
            0 ((if neg then -1 else 1) * (atol_digits (ip ++ fa) 0 : Int)),
          l := setAt (setAt clk1.l 0 ((if neg then -1 else 1) * (atol_digits fb 0 : Int)))
            0 ((if neg then -1 else 1) * (atol_digits fb 0 : Int)) }
        { u := setAt clk1.u 0 ((if neg then -1 else 1) * (atol_digits (ip ++ fa) 0 : Int)),
          l := setAt clk1.l 0 ((if neg then -1 else 1) * (atol_digits fb 0 : Int)) }, ?_⟩
    unfold rnx2crx.main_clock
    rw [if_pos hne, read_clock_field pad neg ip fa fb _ _ hshape hip hfa hfa0 hfb hfb0]
    generalize (if neg then -1 else 1) * (atol_digits (ip ++ fa) 0 : Int) = U
    generalize (if neg then -1 else 1) * (atol_digits fb 0 : Int) = L
    simp only [rnx2crx.main_ep_reset, gt_iff_lt, lt_self_iff_false, if_false]
    norm_num
    rw [put_clock_eq_fmt_ld]
    have hz : ∀ A : rnx2crx.clock_format,
        (rnx2crx.process_clock 1 { u := setAt A.u 0 U, l := setAt A.l 0 L } A).u 1 =
          setAt A.u 0 U 0 - A.u 0 ∧
        (rnx2crx.process_clock 1 { u := setAt A.u 0 U, l := setAt A.l 0 L } A).l 1 =
          setAt A.l 0 L 0 - A.l 0 := by
      intro A
      constructor <;> rfl
    obtain ⟨hz1, hz2⟩ := hz { u := setAt clk1.u 0 U, l := setAt clk1.l 0 L }
    simp only at hz1 hz2
    rw [hz1, hz2]
    simp only [setAt_same, sub_self]
    decide

end ClockEncoding


section ClockEncodingClaim

open rnx2crx in
/-- C21: clock encoding.  For a RINEX 2 clock-offset field of 12 characters
(two characters of blanks, sign and integer digits, the decimal point at
column 2, nine fractional digits), `read_clock` yields `(u, l)` with
`u*10^8 + l` equal to the offset multiplied by `10^9`, sign included, also when
the integer part is zero or absent; at the first appearance of a clock offset
(`clk_order = -1` before) the compressor writes `3&` followed by the decimal of
that integer, and for an unchanged offset at the next epoch it writes `0`. -/
theorem clock_encoding (pad : Nat) (neg : Bool) (ip : List Char) (f1 : Char) (fb : List Char)
    (st : epoch_state) (clk1 clk0 : clock_format)
    (hshape : pad + (if neg then 1 else 0) + ip.length = 2)
    (hip : ∀ x ∈ ip, isdigit x = true) (hf1 : isdigit f1 = true)
    (hfb : ∀ x ∈ fb, isdigit x = true) (hlen : fb.length = 8) :
    (clock_field pad neg ip [f1] fb).length = 12 ∧
    (∃ c o, read_clock (clock_field pad neg ip [f1] fb) 1 st.clk_order clk1 =
        crx2rnx.Ending.ok (c, o) ∧
      c.u 0 * 10 ^ 8 + c.l 0 = clock_field_value neg ip [f1] fb) ∧
    (st.clk_order = -1 →
      ∃ st1 c1,
        main_clock 0 1 (clock_field pad neg ip [f1] fb) st clk1 clk0 =
          crx2rnx.Ending.ok
            (st1, c1,
              ['3', '&'] ++ canonical_decimal (clock_field_value neg ip [f1] fb) ++ ['\n']) ∧
        ∃ st2 c2,
          main_clock 0 1 (clock_field pad neg ip [f1] fb) st1 c1 c1 =
            crx2rnx.Ending.ok (st2, c2, ['0', '\n'])) := by
  have hfa : ∀ x ∈ [f1], isdigit x = true := by
    intro x hx
    rw [List.mem_singleton] at hx
    rw [hx]
    exact hf1
  have hfb0 : fb ≠ [] := by
    intro h
    rw [h] at hlen
    simp at hlen
  refine ⟨?_, ?_, ?_⟩
  · unfold clock_field
    simp only [List.length_append, List.length_replicate, List.length_singleton, hlen]
    have : (if neg then ['-'] else ([] : List Char)).length = if neg then 1 else 0 := by
      cases neg <;> rfl
    rw [this]
    omega
  · have h := read_clock_field pad neg ip [f1] fb st.clk_order clk1 hshape hip hfa
      (by simp) hfb hfb0
    refine ⟨_, _, h, ?_⟩
    simp only [setAt_same]
    have := clock_field_value_split neg ip [f1] fb hip hfa hfb hlen
    rw [← this]
    norm_num
  · intro hfirst
    obtain ⟨st1, c1, h1, _, _, st2, c2, h2⟩ :=
      main_clock_first_and_same pad neg ip [f1] fb st clk1 clk0 hshape hip hfa (by simp) hfb hlen
        hfirst
    refine ⟨st1, c1, ?_, st2, c2, h2⟩
    rw [← fmt_ld_eq_canonical, List.append_assoc]
    exact h1

open rnx2crx in
/-- C21 witness: the offset `0.123456789` is read as `(1, 23456789)`, written
as `3&123456789` at its first appearance and as `0` when it is unchanged at the
next epoch. -/
theorem clock_encoding_witness :
    clock_field 1 false ['0'] ['1'] "23456789".toList = " 0.123456789".toList ∧
    clock_field_value false ['0'] ['1'] "23456789".toList = 123456789 ∧
    ∃ st1 c1,
      main_clock 0 1 (clock_field 1 false ['0'] ['1'] "23456789".toList)
          { oldline := ['&'], nsat_old := 0, clk_order := -1, ep_count := 0 }
          { u := fun _ => 0, l := fun _ => 0 } { u := fun _ => 0, l := fun _ => 0 } =
        crx2rnx.Ending.ok
          (st1, c1,
            ['3', '&'] ++
              canonical_decimal (clock_field_value false ['0'] ['1'] "23456789".toList) ++
              ['\n']) ∧
      ∃ st2 c2,
        main_clock 0 1 (clock_field 1 false ['0'] ['1'] "23456789".toList) st1 c1 c1 =
          crx2rnx.Ending.ok (st2, c2, ['0', '\n']) :=
  ⟨by decide, by decide,
   (clock_encoding 1 false ['0'] '1' "23456789".toList
      { oldline := ['&'], nsat_old := 0, clk_order := -1, ep_count := 0 }
      { u := fun _ => 0, l := fun _ => 0 } { u := fun _ => 0, l := fun _ => 0 }
      (by decide) (by decide) (by decide) (by decide) (by decide)).2.2 rfl⟩

/-- The sample clock offset as text: the compressor writes `3&123456789`. -/
theorem sample_clock_line :
    (match rnx2crx.main_clock 0 1 " 0.123456789".toList
        { oldline := ['&'], nsat_old := 0, clk_order := -1, ep_count := 0 }
        { u := fun _ => 0, l := fun _ => 0 } { u := fun _ => 0, l := fun _ => 0 } with
      | crx2rnx.Ending.ok r => r.2.2
      | _ => []) = "3&123456789\n".toList := by
  decide

end ClockEncodingClaim


section ClockParse

theorem dec_digits_length_small8 (n : Nat) (h : n < 10 ^ 8) : (dec_digits n).length ≤ 8 := by
  have e := congrArg List.length (zero_fill_eq_pad 7 n h)
  rw [List.length_append, List.length_replicate, pad_digits_length] at e
  omega

theorem read_clock_value_nonneg (n : Nat) :
    crx2rnx.read_clock_value (dec_digits n) =
      (((n / 100000000 : Nat) : Int), ((n % 100000000 : Nat) : Int)) := by
  unfold crx2rnx.read_clock_value
  rw [if_neg (head_dec_digits_ne_minus n)]
  by_cases hs : n < 10 ^ 8
  · have hlen := dec_digits_length_small8 n hs
    have h9 : (dec_digits n).length < 9 := by omega
    have h1 : n / 100000000 = 0 := by omega
    have h2 : n % 100000000 = n := by omega
    simp only [h9, if_true]
    rw [atol_dec_digits, h1, h2]
    rfl
  · have ha : 0 < n / 100000000 := by omega
    have hb : n % 100000000 < 10 ^ 8 := by omega
    have hn : n = n / 100000000 * 10 ^ 8 + n % 100000000 := by omega
    have hsplit := dec_digits_split 8 (n / 100000000) (n % 100000000) ha hb
    rw [← hn] at hsplit
    have hne := dec_digits_ne_nil (n / 100000000)
    have hpos : 0 < (dec_digits (n / 100000000)).length := List.length_pos.mpr hne
    have hlen : (dec_digits n).length = (dec_digits (n / 100000000)).length + 8 := by
      rw [hsplit, List.length_append, pad_digits_length]
    have h9 : ¬ ((dec_digits n).length < 9) := by omega
    have hsub : (dec_digits n).length - 8 = (dec_digits (n / 100000000)).length := by omega
    simp only [h9, if_false]
    rw [hsub, hsplit, List.drop_left, List.take_left, atol_pad_digits 7 _ hb, atol_dec_digits]
    have : ¬ (((n / 100000000 : Nat) : Int) < 0) := by omega
    rw [if_neg this]

theorem read_clock_value_neg (n : Nat) :
    crx2rnx.read_clock_value ('-' :: dec_digits n) =
      (-((n / 100000000 : Nat) : Int), -((n % 100000000 : Nat) : Int)) := by
  unfold crx2rnx.read_clock_value
  have hh : ('-' :: dec_digits n).head? = some '-' := rfl
  rw [if_pos hh]
  simp only [List.tail_cons]
  by_cases hs : n < 10 ^ 8
  · have hlen := dec_digits_length_small8 n hs
    have h9 : (dec_digits n).length < 9 := by omega
    have h1 : n / 100000000 = 0 := by omega
    have h2 : n % 100000000 = n := by omega
    simp only [h9, if_true]
    rw [atol_minus, atol_digits_dec_digits, h1, h2]
    rfl
  · have ha : 0 < n / 100000000 := by omega
    have hb : n % 100000000 < 10 ^ 8 := by omega
    have hn : n = n / 100000000 * 10 ^ 8 + n % 100000000 := by omega
    have hsplit := dec_digits_split 8 (n / 100000000) (n % 100000000) ha hb
    rw [← hn] at hsplit
    have hne := dec_digits_ne_nil (n / 100000000)
    have hpos : 0 < (dec_digits (n / 100000000)).length := List.length_pos.mpr hne
    have hlen : (dec_digits n).length = (dec_digits (n / 100000000)).length + 8 := by
      rw [hsplit, List.length_append, pad_digits_length]
    have h9 : ¬ ((dec_digits n).length < 9) := by omega
    have hsub : ('-' :: dec_digits n).length - 8 = ('-' :: dec_digits (n / 100000000)).length := by
      simp only [List.length_cons]
      omega
    have happ : '-' :: dec_digits n =
        ('-' :: dec_digits (n / 100000000)) ++ pad_digits 8 (n % 100000000) := by
      rw [hsplit]
      rfl
    simp only [h9, if_false]
    rw [hsub, happ, List.drop_left, List.take_left, atol_pad_digits 7 _ hb, atol_minus,
      atol_digits_dec_digits]
    by_cases hz : (n / 100000000 : Nat) = 0
    · omega
    · have : (-((n / 100000000 : Nat) : Int) < 0) := by omega
      rw [if_pos this]

/-- The clock token is parsed back into the quotient and the remainder (C
truncation) by `10^8`. -/
theorem read_clock_value_fmt_ld (x : Int) :
    crx2rnx.read_clock_value (fmt_ld x) = (x.tdiv 100000000, x.tmod 100000000) := by
  unfold fmt_ld
  by_cases hx : x < 0
  · rw [if_pos hx, read_clock_value_neg,
      tdiv_of_nonpos x 100000000 (by omega) (by norm_num),
      tmod_of_nonpos x 100000000 (by omega) (by norm_num)]
    have e : (-x) = (x.natAbs : Int) := by omega
    rw [e]
    norm_cast
  · rw [if_neg hx, read_clock_value_nonneg,
      tdiv_of_nonneg x 100000000 (by omega) (by norm_num),
      tmod_of_nonneg x 100000000 (by omega) (by norm_num)]
    have e : x = (x.natAbs : Int) := by omega
    rw [e]
    norm_cast

/-- The decompressor's clock path on the line written for a first appearance:
`print_clock` is called with the parsed pair at order 0. -/
theorem crx_main_clock_init (x : Int) (shift_clk : Nat) (st : crx2rnx.clock_state)
    (clk1 clk0 : crx2rnx.clock_format) :
    crx2rnx.main_clock (['3', '&'] ++ fmt_ld x) shift_clk st clk1 clk0 =
      match crx2rnx.print_clock false 0 (x.tdiv 100000000) (x.tmod 100000000) shift_clk with
      | crx2rnx.Ending.ok t =>
          crx2rnx.Ending.ok
            ({ clk_order := 0, clk_arc_order := 3, yu := x.tdiv 100000000,
               yl := x.tmod 100000000 },
              { u := setAt clk1.u 0 (x.tdiv 100000000), l := setAt clk1.l 0 (x.tmod 100000000) },
              some t.1)
      | crx2rnx.Ending.error_exit n => crx2rnx.Ending.error_exit n
      | crx2rnx.Ending.skip_epoch => crx2rnx.Ending.skip_epoch := by
  have hs : crx2rnx.sscanf_d ('3' :: '&' :: fmt_ld x) = some 3 :=
    sscanf_digit_mark 3 (by decide) (fmt_ld x)
  unfold crx2rnx.main_clock crx2rnx.read_clock
  simp only [List.cons_append, List.nil_append, List.getD_cons_succ, List.getD_cons_zero,
    if_true, hs, List.drop_succ_cons, List.drop_zero, read_clock_value_fmt_ld]
  simp [crx2rnx.MAX_DIFF_ORDER, crx2rnx.process_clock, setAt_same]

end ClockParse


section ClockPrint

/-- Digits without a superfluous leading zero are what `%.<p>ld` prints for
their value. -/
theorem zero_fill_of_digits (es : List Char) (p : Nat) (hdig : ∀ x ∈ es, isdigit x = true)
    (hne : es ≠ []) (hp : p ≤ es.length) (hz : p < es.length → es.head? ≠ some '0') :
    List.replicate (p - (dec_digits (atol_digits es 0)).length) '0' ++
      dec_digits (atol_digits es 0) = es := by
  by_cases h : p < es.length
  · rw [dec_digits_of_digits es hdig hne (hz h)]
    have : p - es.length = 0 := by omega
    rw [this]
    rfl
  · have hpe : p = es.length := by omega
    have hpos : 0 < es.length := List.length_pos.mpr hne
    obtain ⟨k, hk⟩ : ∃ k, es.length = k + 1 := ⟨es.length - 1, by omega⟩
    have hb : atol_digits es 0 < 10 ^ (k + 1) := atol_digits_zero_lt es (k + 1) (by omega)
    rw [hpe, hk, zero_fill_eq_pad k _ hb, ← hk]
    exact pad_digits_of_digits es hdig

theorem fmt_ld_p_signed (neg : Bool) (es : List Char) (p : Nat)
    (hdig : ∀ x ∈ es, isdigit x = true) (hne : es ≠ []) (hp : p ≤ es.length)
    (hz : p < es.length → es.head? ≠ some '0') (hpos : 0 < atol_digits es 0) :
    fmt_ld_p p ((if neg then -1 else 1) * (atol_digits es 0 : Int)) =
      (if neg then ['-'] else []) ++ es := by
  unfold fmt_ld_p
  cases neg with
  | true =>
    have h1 : (-1 : Int) * (atol_digits es 0 : Int) < 0 := by omega
    have h2 : ((-1 : Int) * (atol_digits es 0 : Int)).natAbs = atol_digits es 0 := by omega
    simp only [if_true]
    rw [if_pos h1, h2, zero_fill_of_digits es p hdig hne hp hz]
  | false =>
    have h1 : ¬ ((1 : Int) * (atol_digits es 0 : Int) < 0) := by omega
    have h2 : ((1 : Int) * (atol_digits es 0 : Int)).natAbs = atol_digits es 0 := by omega
    simp only [Bool.false_eq_true, if_false]
    rw [if_neg h1, h2, zero_fill_of_digits es p hdig hne hp hz]

theorem atol_digits_snoc_one (ds : List Char) (h : ∀ x ∈ ds, isdigit x = true) :
    atol_digits (ds ++ ['1']) 0 = atol_digits ds 0 * 10 + 1 := by
  rw [atol_digits_append _ _ _ h]
  have h1 : isdigit '1' = true := by decide
  simp [atol_digits, h1]

end ClockPrint


section ClockPrintText

/-- The text of `print_clock` when the digits formatted into `tmp` are known:
`pre` is what stands in front of the `shift_clk` digits that follow the
decimal point (a sign, integer digits), at most two characters. -/
theorem print_clock_of_tmp (yu yl : Int) (shift_clk : Nat) (pre fa : List Char)
    (hfa : fa.length = shift_clk) (hpre : pre.length ≤ 2)
    (htmp : fmt_ld_p (shift_clk + 1)
        ((crx2rnx.print_clock_adjust yu yl).1 * 10 +
          (if (crx2rnx.print_clock_adjust yu yl).2 < 0 then -1 else 1)) = pre ++ fa ++ ['1']) :
    crx2rnx.print_clock false 0 yu yl shift_clk =
      crx2rnx.Ending.ok
        (List.replicate (2 - pre.length) ' ' ++ pre ++ ['.'] ++ fa ++
          (fmt_ld_p 8 (labs (crx2rnx.print_clock_adjust yu yl).2) ++ ['\n']), 0) := by
  have hlen : (pre ++ fa ++ ['1']).length - 1 = pre.length + fa.length := by simp
  have htake : List.take (pre.length + fa.length) (pre ++ fa ++ ['1']) = pre ++ fa := by
    have : pre.length + fa.length = (pre ++ fa).length := by simp
    rw [this, List.take_left]
  have hsub : pre.length + fa.length - fa.length = pre.length := by omega
  have hdrop : List.drop pre.length (pre ++ fa) = fa := List.drop_left _ _
  unfold crx2rnx.print_clock
  subst hfa
  simp only [htmp, hlen, htake, hsub, hdrop]
  rcases pre with _ | ⟨a, _ | ⟨b, _ | ⟨c, t⟩⟩⟩
  · simp
  · simp [back_set]
    intro h
    omega
  · simp [back_set]
    rw [if_pos (by omega), if_neg (by omega)]
  · simp at hpre

end ClockPrintText


section ClockRoundTrip

theorem tdiv_tmod_signed (neg : Bool) (X Y : Nat) (hY : Y < 10 ^ 8) :
    ((if neg then -1 else 1) * (X : Int) * 100000000 +
        (if neg then -1 else 1) * (Y : Int)).tdiv 100000000 = (if neg then -1 else 1) * (X : Int) ∧
    ((if neg then -1 else 1) * (X : Int) * 100000000 +
        (if neg then -1 else 1) * (Y : Int)).tmod 100000000 = (if neg then -1 else 1) * (Y : Int) := by
  cases neg with
  | true =>
    simp only [if_true]
    rw [tdiv_of_nonpos _ 100000000 (by omega) (by norm_num),
      tmod_of_nonpos _ 100000000 (by omega) (by norm_num)]
    constructor <;> omega
  | false =>
    simp only [Bool.false_eq_true, if_false]
    rw [tdiv_of_nonneg _ 100000000 (by omega) (by norm_num),
      tmod_of_nonneg _ 100000000 (by omega) (by norm_num)]
    constructor <;> omega

/-- What `print_clock` writes for the pair read from a clock field whose
integer part has no leading zero and which, when negative, has a non-zero
lower part. -/
theorem print_clock_field (pad : Nat) (neg : Bool) (ip fa fb : List Char)
    (hshape : pad + (if neg then 1 else 0) + ip.length = 2)
    (hip : ∀ x ∈ ip, isdigit x = true)
    (hfa : ∀ x ∈ fa, isdigit x = true)
    (hfb : ∀ x ∈ fb, isdigit x = true) (hlen : fb.length = 8)
    (hz : ip = [] ∨ ip.head? ≠ some '0')
    (hneg : neg = true → atol_digits fb 0 ≠ 0) :
    crx2rnx.print_clock false 0 ((if neg then -1 else 1) * (atol_digits (ip ++ fa) 0 : Int))
        ((if neg then -1 else 1) * (atol_digits fb 0 : Int)) fa.length =
      crx2rnx.Ending.ok (clock_field pad neg ip fa fb ++ ['\n'], 0) := by
  have hipfa : ∀ x ∈ ip ++ fa, isdigit x = true := by
    intro x hx
    rcases List.mem_append.1 hx with h | h
    · exact hip x h
    · exact hfa x h
  have hes : ∀ x ∈ ip ++ fa ++ ['1'], isdigit x = true := by
    intro x hx
    rcases List.mem_append.1 hx with h | h
    · exact hipfa x h
    · rw [List.mem_singleton] at h
      rw [h]
      decide
  have hadj : crx2rnx.print_clock_adjust
      ((if neg then -1 else 1) * (atol_digits (ip ++ fa) 0 : Int))
      ((if neg then -1 else 1) * (atol_digits fb 0 : Int)) =
      ((if neg then -1 else 1) * (atol_digits (ip ++ fa) 0 : Int),
        (if neg then -1 else 1) * (atol_digits fb 0 : Int)) := by
    unfold crx2rnx.print_clock_adjust
    cases neg with
    | true =>
      simp only [if_true]
      rw [if_neg (by omega), if_neg (by omega)]
    | false =>
      simp only [Bool.false_eq_true, if_false]
      rw [if_neg (by omega), if_neg (by omega)]
  have hsgn : (if (if neg then -1 else 1) * (atol_digits fb 0 : Int) < 0 then (-1 : Int) else 1) =
      (if neg then -1 else 1) := by
    cases neg with
    | true =>
      have := hneg rfl
      simp only [if_true]
      rw [if_pos (by omega)]
    | false =>
      simp only [Bool.false_eq_true, if_false]
      rw [if_neg (by omega)]
  have hlabs : labs ((if neg then -1 else 1) * (atol_digits fb 0 : Int)) =
      (atol_digits fb 0 : Int) := by
    unfold labs
    cases neg with
    | true =>
      simp only [if_true]
      split_ifs <;> omega
    | false =>
      simp only [Bool.false_eq_true, if_false]
      split_ifs <;> omega
  have hY : atol_digits fb 0 < 10 ^ 8 := atol_digits_zero_lt fb 8 (by omega)
  have hrest : fmt_ld_p 8 (atol_digits fb 0 : Int) = fb := by
    rw [fmt_ld_p8_nat _ hY]
    have := pad_digits_of_digits fb hfb
    rw [hlen] at this
    exact this
  have hval : (if neg then -1 else 1) * (atol_digits (ip ++ fa) 0 : Int) * 10 +
      (if neg then -1 else 1) =
      (if neg then -1 else 1) * (atol_digits (ip ++ fa ++ ['1']) 0 : Int) := by
    rw [atol_digits_snoc_one _ hipfa]
    push_cast
    ring
  have hpre : ((if neg then ['-'] else []) ++ ip).length = 2 - pad := by
    rw [List.length_append]
    cases neg <;> simp at hshape ⊢ <;> omega
  have htmp : fmt_ld_p (fa.length + 1)
      ((crx2rnx.print_clock_adjust ((if neg then -1 else 1) * (atol_digits (ip ++ fa) 0 : Int))
          ((if neg then -1 else 1) * (atol_digits fb 0 : Int))).1 * 10 +
        (if (crx2rnx.print_clock_adjust
            ((if neg then -1 else 1) * (atol_digits (ip ++ fa) 0 : Int))
            ((if neg then -1 else 1) * (atol_digits fb 0 : Int))).2 < 0 then -1 else 1)) =
      ((if neg then ['-'] else []) ++ ip) ++ fa ++ ['1'] := by
    rw [hadj]
    simp only
    rw [hsgn, hval, fmt_ld_p_signed neg (ip ++ fa ++ ['1']) (fa.length + 1) hes (by simp)
      (by simp) ?_ ?_]
    · simp
    · intro hlt
      have hne : ip ≠ [] := by
        intro h
        rw [h] at hlt
        simp at hlt
      rcases hz with h | h
      · exact absurd h hne
      · cases ip with
        | nil => exact absurd rfl hne
        | cons d t => simpa using h
    · rw [atol_digits_snoc_one _ hipfa]
      omega
  rw [print_clock_of_tmp _ _ fa.length _ fa rfl (by omega) htmp, hadj]
  simp only
  rw [hlabs, hrest, hpre]
  have hp : 2 - (2 - pad) = pad := by
    have : pad ≤ 2 := by omega
    omega
  rw [hp]
  unfold clock_field
  simp

end ClockRoundTrip


section ClockRoundTripClaim

/-- The round trip of a clock field whose integer part has no leading zero and
which, when negative, has a non-zero lower part. -/
theorem clock_round_trip_field (pad : Nat) (neg : Bool) (ip fa fb : List Char)
    (hshape : pad + (if neg then 1 else 0) + ip.length = 2)
    (hip : ∀ x ∈ ip, isdigit x = true)
    (hfa : ∀ x ∈ fa, isdigit x = true) (hfa0 : fa ≠ [])
    (hfb : ∀ x ∈ fb, isdigit x = true) (hlen : fb.length = 8)
    (hz : ip = [] ∨ ip.head? ≠ some '0')
    (hneg : neg = true → atol_digits fb 0 ≠ 0) :
    clock_round_trip fa.length (clock_field pad neg ip fa fb) =
      crx2rnx.Ending.ok (some (clock_field pad neg ip fa fb ++ ['\n'])) := by
  obtain ⟨st1, c1, h1, _, _, _⟩ :=
    main_clock_first_and_same pad neg ip fa fb
      { oldline := ['&'], nsat_old := 0, clk_order := -1, ep_count := 0 }
      { u := fun _ => 0, l := fun _ => 0 } { u := fun _ => 0, l := fun _ => 0 }
      hshape hip hfa hfa0 hfb hlen rfl
  have hv := clock_field_value_split neg ip fa fb hip hfa hfb hlen
  have hY : atol_digits fb 0 < 10 ^ 8 := atol_digits_zero_lt fb 8 (by omega)
  obtain ⟨hq, hr⟩ := tdiv_tmod_signed neg (atol_digits (ip ++ fa) 0) (atol_digits fb 0) hY
  rw [hv] at hq hr
  have htake : (['3', '&'] ++ (fmt_ld (clock_field_value neg ip fa fb) ++ ['\n'])).take
      ((['3', '&'] ++ (fmt_ld (clock_field_value neg ip fa fb) ++ ['\n'])).length - 1) =
      ['3', '&'] ++ fmt_ld (clock_field_value neg ip fa fb) := by
    have e : ['3', '&'] ++ (fmt_ld (clock_field_value neg ip fa fb) ++ ['\n']) =
        (['3', '&'] ++ fmt_ld (clock_field_value neg ip fa fb)) ++ ['\n'] := by simp
    rw [e, List.length_append, List.length_singleton, Nat.add_sub_cancel, List.take_left]
  unfold clock_round_trip
  rw [h1]
  simp only
  rw [htake, crx_main_clock_init, hq, hr,
    print_clock_field pad neg ip fa fb hshape hip hfa hfb hlen hz hneg]

/-- C22 (as the claim words it, refuted): the RINEX 2 clock field
` 0.123456789`, the claim's own example, comes back from the decompressor
without its zero, as `  .123456789`. -/
theorem clock_text_round_trip_counterexample :
    clock_round_trip 1 " 0.123456789".toList =
      crx2rnx.Ending.ok (some "  .123456789\n".toList) ∧
    "  .123456789\n".toList ≠ " 0.123456789".toList ++ ['\n'] := by
  decide

/-- C22 (amended): clock text round trip.  For a clock-offset field of RINEX 2
(12 characters, one fractional digit moved by the compressor) or of RINEX 3
(15 characters, four digits moved) whose integer part is absent or begins with
a non-zero digit, and whose last eight digits are not all zero when it carries
a minus sign, the decompressor's `read_clock`, `process_clock` and
`print_clock` applied to the compressor's initialization line write the field's
characters exactly (and the end of line). -/
theorem clock_text_round_trip (pad : Nat) (neg : Bool) (ip fa fb : List Char)
    (hshape : pad + (if neg then 1 else 0) + ip.length = 2)
    (hip : ∀ x ∈ ip, isdigit x = true)
    (hfa : ∀ x ∈ fa, isdigit x = true) (hshift : fa.length = 1 ∨ fa.length = 4)
    (hfb : ∀ x ∈ fb, isdigit x = true) (hlen : fb.length = 8)
    (hz : ip = [] ∨ ip.head? ≠ some '0')
    (hneg : neg = true → dec_value fb ≠ 0) :
    (clock_field pad neg ip fa fb).length = 11 + fa.length ∧
    clock_round_trip fa.length (clock_field pad neg ip fa fb) =
      crx2rnx.Ending.ok (some (clock_field pad neg ip fa fb ++ ['\n'])) := by
  have hfa0 : fa ≠ [] := by
    intro h
    rw [h] at hshift
    simp at hshift
  constructor
  · unfold clock_field
    simp only [List.length_append, List.length_replicate, List.length_singleton, hlen]
    have : (if neg then ['-'] else ([] : List Char)).length = if neg then 1 else 0 := by
      cases neg <;> rfl
    rw [this]
    omega
  · refine clock_round_trip_field pad neg ip fa fb hshape hip hfa hfa0 hfb hlen hz ?_
    intro hn
    rw [← dec_value_eq fb hfb]
    exact hneg hn

/-- C22 witness: the RINEX 2 field `-1.123456789` and the RINEX 3 field
` 1.123456789012` come back unchanged. -/
theorem clock_text_round_trip_witness :
    (clock_field 0 true ['1'] ['1'] "23456789".toList = "-1.123456789".toList ∧
      clock_round_trip 1 "-1.123456789".toList =
        crx2rnx.Ending.ok (some "-1.123456789\n".toList)) ∧
    (clock_field 1 false ['1'] "1234".toList "56789012".toList = " 1.123456789012".toList ∧
      clock_round_trip 4 " 1.123456789012".toList =
        crx2rnx.Ending.ok (some " 1.123456789012\n".toList)) :=
  ⟨⟨by decide,
    (clock_text_round_trip 0 true ['1'] ['1'] "23456789".toList (by decide) (by decide)
      (by decide) (by decide) (by decide) (by decide) (by decide) (by decide)).2⟩,
   ⟨by decide,
    (clock_text_round_trip 1 false ['1'] "1234".toList "56789012".toList (by decide)
      (by decide) (by decide) (by decide) (by decide) (by decide) (by decide) (by decide)).2⟩⟩

end ClockRoundTripClaim


section HeaderTypes

/-- A RINEX 2 header line that declares 101 observation types. -/
theorem sample_types_line_length :
    ("   101    L1    L2    C1    P1    P2    D1    D2    S1    S2" ++
      "# / TYPES OF OBSERV").toList.length = 79 := by
  decide

/-- C23, the code at the failing input: a RINEX 2 `# / TYPES OF OBSERV` line
that declares 101 types passes `header()` of both programs and sets
`ntype = 101`; the same line after an event record stops the compressor with
`error_exit(16)`, and so does a RINEX 3 `SYS / # / OBS TYPES` line with 101
types in `header()` of both programs, while 100 types are accepted there. -/
theorem header_maxtype_rinex2_unchecked :
    (∃ g, rnx2crx.header_line
        ("   101    L1    L2    C1    P1    P2    D1    D2    S1    S2" ++
          "# / TYPES OF OBSERV").toList [] 0 (fun _ => -1) = crx2rnx.Ending.ok (101, g)) ∧
    (∃ g, crx2rnx.header_line
        ("   101    L1    L2    C1    P1    P2    D1    D2    S1    S2" ++
          "# / TYPES OF OBSERV").toList [] 0 (fun _ => -1) = crx2rnx.Ending.ok (101, g)) ∧
    rnx2crx.put_event_line
        ("   101    L1    L2    C1    P1    P2    D1    D2    S1    S2" ++
          "# / TYPES OF OBSERV").toList [] 0 = crx2rnx.Ending.error_exit 16 ∧
    rnx2crx.header_line
        ("G  101 C1C L1C D1C S1C C1W L1W D1W S1W C2W L2W D2W S2W C5Q  " ++
          "SYS / # / OBS TYPES").toList [] 0 (fun _ => -1) = crx2rnx.Ending.error_exit 16 ∧
    crx2rnx.header_line
        ("G  101 C1C L1C D1C S1C C1W L1W D1W S1W C2W L2W D2W S2W C5Q  " ++
          "SYS / # / OBS TYPES").toList [] 0 (fun _ => -1) = crx2rnx.Ending.error_exit 16 ∧
    (∃ g, rnx2crx.header_line
        ("G  100 C1C L1C D1C S1C C1W L1W D1W S1W C2W L2W D2W S2W C5Q  " ++
          "SYS / # / OBS TYPES").toList [] 0 (fun _ => -1) = crx2rnx.Ending.ok (0, g) ∧
      g 'G' = 100) :=
  ⟨⟨_, rfl⟩, ⟨_, rfl⟩, rfl, rfl, rfl, ⟨_, rfl, rfl⟩⟩

/-- In `header()` of both programs a `# / TYPES OF OBSERV` line sets `ntype`
whatever number it declares. -/
theorem header_line_rinex2_any (line stale : List Char) (ntype : Int) (g : Char → Int)
    (h : strncmp_eq 19 (mem_from line stale 60) "# / TYPES OF OBSERV".toList = true ∧
      (mem_from line stale 5).headD NUL ≠ ' ') :
    rnx2crx.header_line line stale ntype g = crx2rnx.Ending.ok (atol line, g) ∧
    crx2rnx.header_line line stale ntype g = crx2rnx.Ending.ok (atol line, g) := by
  unfold rnx2crx.header_line crx2rnx.header_line
  rw [if_pos h, if_pos h]
  exact ⟨rfl, rfl⟩

end HeaderTypes


section HeaderFirst

theorem strncmp_eq_iff (key : List Char) (hk : NUL ∉ key) :
    ∀ a : List Char, strncmp_eq key.length a key = true ↔ a.take key.length = key := by
  induction key with
  | nil => intro a; simp [strncmp_eq]
  | cons c ks ih =>
    intro a
    have hc : c ≠ NUL := fun h => hk (by rw [h]; simp)
    have hks : NUL ∉ ks := fun h => hk (List.mem_cons_of_mem _ h)
    cases a with
    | nil =>
      simp only [List.length_cons, strncmp_eq, List.headD_nil, List.headD_cons, ne_eq]
      rw [if_pos (fun h => hc h.symm)]
      simp
    | cons x xs =>
      simp only [List.length_cons, strncmp_eq, List.headD_cons, ne_eq, List.tail_cons,
        List.take_succ_cons, List.cons.injEq]
      by_cases hx : x = c
      · subst hx
        rw [if_neg (by simp), if_neg hc]
        simp only [true_and]
        exact ih hks xs
      · rw [if_pos hx]
        simp [hx]

theorem mem_from_take (line stale : List Char) (k n : Nat) (h : k + n ≤ line.length) :
    (mem_from line stale k).take n = (line.drop k).take n := by
  unfold mem_from
  rw [List.drop_append_of_le_length (by omega), List.take_append_of_le_length]
  rw [List.length_drop]
  omega

/-- A line that ends inside the columns compared does not match a key without
NUL. -/
theorem mem_from_take_ne (line stale key : List Char) (k : Nat) (hk : NUL ∉ key)
    (h1 : k ≤ line.length) (h2 : line.length < k + key.length) :
    (mem_from line stale k).take key.length ≠ key := by
  intro h
  apply hk
  have hm : NUL ∈ (mem_from line stale k).take key.length := by
    unfold mem_from
    rw [List.drop_append_of_le_length h1, List.take_append_eq_append_take]
    apply List.mem_append_right
    have : key.length - (List.drop k line).length = (key.length - (line.length - k) - 1) + 1 := by
      rw [List.length_drop]
      omega
    rw [this, List.take_succ_cons]
    simp
  rw [h] at hm
  exact hm

end HeaderFirst


section HeaderFirstClaim

theorem take_one_eq (a : List Char) (c : Char) (hc : c ≠ NUL) :
    a.take 1 = [c] ↔ a.headD NUL = c := by
  cases a with
  | nil =>
    simp only [List.take_nil, List.headD_nil]
    constructor
    · intro h
      simp at h
    · intro h
      exact absurd h.symm hc
  | cons x xs => simp

open rnx2crx in
/-- The first line of the header written out: accepted, with the output line,
or refused. -/
theorem header_first_eq (line stale : List Char) :
    header_first line stale =
      if (mem_from line stale 60).take 20 = "RINEX VERSION / TYPE".toList ∧
          (mem_from line stale 20).headD NUL = 'O' ∧ (atol line = 2 ∨ atol line = 3) then
        crx2rnx.Ending.ok (atol line,
          (if atol line = 2 then "1.0".toList else "3.0".toList) ++
            List.replicate 17 ' ' ++ "COMPACT RINEX FORMAT".toList ++ List.replicate 20 ' ' ++
            "CRINEX VERS   / TYPE".toList ++ ['\n'])
      else crx2rnx.Ending.error_exit 15 := by
  have h1 := strncmp_eq_iff "RINEX VERSION / TYPE".toList (by decide) (mem_from line stale 60)
  have h2 := strncmp_eq_iff "O".toList (by decide) (mem_from line stale 20)
  have h3 := take_one_eq (mem_from line stale 20) 'O' (by decide)
  have e1 : "RINEX VERSION / TYPE".toList.length = 20 := by decide
  have e2 : "O".toList.length = 1 := by decide
  rw [e1] at h1
  rw [e2] at h2
  have h2' : strncmp_eq 1 (mem_from line stale 20) "O".toList = true ↔
      (mem_from line stale 20).headD NUL = 'O' := h2.trans h3
  unfold header_first
  by_cases ha : strncmp_eq 20 (mem_from line stale 60) "RINEX VERSION / TYPE".toList = true
  · by_cases hb : strncmp_eq 1 (mem_from line stale 20) "O".toList = true
    · have hn : ¬ (strncmp_eq 20 (mem_from line stale 60) "RINEX VERSION / TYPE".toList = false ∨
          strncmp_eq 1 (mem_from line stale 20) "O".toList = false) := by
        rw [ha, hb]
        simp
      rw [if_neg hn]
      by_cases v2 : atol line = 2
      · have hc : (mem_from line stale 60).take 20 = "RINEX VERSION / TYPE".toList ∧
            (mem_from line stale 20).headD NUL = 'O' ∧ (atol line = 2 ∨ atol line = 3) :=
          ⟨h1.1 ha, h2'.1 hb, Or.inl v2⟩
        rw [if_pos hc, if_pos v2, if_pos v2]
        rfl
      · by_cases v3 : atol line = 3
        · have hc : (mem_from line stale 60).take 20 = "RINEX VERSION / TYPE".toList ∧
              (mem_from line stale 20).headD NUL = 'O' ∧ (atol line = 2 ∨ atol line = 3) :=
            ⟨h1.1 ha, h2'.1 hb, Or.inr v3⟩
          rw [if_pos hc, if_neg v2, if_pos v3, if_neg v2]
          rfl
        · have : ¬ ((mem_from line stale 60).take 20 = "RINEX VERSION / TYPE".toList ∧
              (mem_from line stale 20).headD NUL = 'O' ∧ (atol line = 2 ∨ atol line = 3)) := by
            rintro ⟨_, _, h | h⟩
            · exact v2 h
            · exact v3 h
          rw [if_neg this]
          simp only [v2, v3, if_false]
    · have hb' : strncmp_eq 1 (mem_from line stale 20) "O".toList = false := by
        simpa using hb
      rw [if_pos (Or.inr hb')]
      have : ¬ ((mem_from line stale 60).take 20 = "RINEX VERSION / TYPE".toList ∧
          (mem_from line stale 20).headD NUL = 'O' ∧ (atol line = 2 ∨ atol line = 3)) := by
        rintro ⟨_, h, _⟩
        exact hb (h2'.2 h)
      rw [if_neg this]
  · have ha' : strncmp_eq 20 (mem_from line stale 60) "RINEX VERSION / TYPE".toList = false := by
      simpa using ha
    rw [if_pos (Or.inl ha')]
    have : ¬ ((mem_from line stale 60).take 20 = "RINEX VERSION / TYPE".toList ∧
        (mem_from line stale 20).headD NUL = 'O' ∧ (atol line = 2 ∨ atol line = 3)) := by
      rintro ⟨h, _, _⟩
      exact ha (h1.2 h)
    rw [if_neg this]

end HeaderFirstClaim


section HeaderCheckClaim

open rnx2crx in
/-- C25: compressor header check.  `header()` accepts the first line if and
only if columns 60-79 of the line buffer read `RINEX VERSION / TYPE`, column 20
is `O` and the leading integer of the line is 2 or 3 (for a line of 80
characters or more these are the columns of the line itself; a line that ends
inside columns 60-79 is refused).  It then writes a first output line whose
version field is `1.0` for RINEX 2 and `3.0` for RINEX 3, labelled
`CRINEX VERS   / TYPE`; in every other case it stops with `error_exit(15)`,
which writes `The file format is not valid` and exits with status 1. -/
theorem header_check (line stale : List Char) :
    ((∃ r, header_first line stale = crx2rnx.Ending.ok r) ↔
      ((mem_from line stale 60).take 20 = "RINEX VERSION / TYPE".toList ∧
        (mem_from line stale 20).headD NUL = 'O' ∧ (atol line = 2 ∨ atol line = 3))) ∧
    (80 ≤ line.length →
      (mem_from line stale 60).take 20 = (line.drop 60).take 20 ∧
      (mem_from line stale 20).headD NUL = line.getD 20 NUL) ∧
    (60 ≤ line.length → line.length < 80 →
      header_first line stale = crx2rnx.Ending.error_exit 15) ∧
    (∀ r, header_first line stale = crx2rnx.Ending.ok r →
      (r.1 = 2 ∧ r.2 = ("1.0                 COMPACT RINEX FORMAT                    " ++
          "CRINEX VERS   / TYPE\n").toList) ∨
      (r.1 = 3 ∧ r.2 = ("3.0                 COMPACT RINEX FORMAT                    " ++
          "CRINEX VERS   / TYPE\n").toList)) ∧
    ((¬ ∃ r, header_first line stale = crx2rnx.Ending.ok r) →
      header_first line stale = crx2rnx.Ending.error_exit 15) ∧
    (error_exit_15 line).2 = 1 ∧
    "The file format is not valid".toList <:+: (error_exit_15 line).1 := by
  have he := header_first_eq line stale
  refine ⟨?_, ?_, ?_, ?_, ?_, rfl, ?_⟩
  · rw [he]
    constructor
    · rintro ⟨r, hr⟩
      by_contra hc
      rw [if_neg hc] at hr
      exact crx2rnx.Ending.noConfusion hr
    · intro hc
      rw [if_pos hc]
      exact ⟨_, rfl⟩
  · intro h
    refine ⟨mem_from_take line stale 60 20 (by omega), ?_⟩
    unfold mem_from
    rw [List.drop_append_of_le_length (by omega)]
    have hd : List.drop 20 line ≠ [] := by
      intro e
      have := congrArg List.length e
      rw [List.length_drop] at this
      simp at this
      omega
    obtain ⟨x, xs, hx⟩ := List.exists_cons_of_ne_nil hd
    rw [hx]
    simp only [List.cons_append, List.headD_cons]
    have : line.getD 20 NUL = (List.drop 20 line).getD 0 NUL := by
      rw [List.getD_eq_getElem?_getD, List.getD_eq_getElem?_getD, List.getElem?_drop]
    rw [this, hx]
    rfl
  · intro h1 h2
    rw [he, if_neg]
    rintro ⟨h, _, _⟩
    exact mem_from_take_ne line stale "RINEX VERSION / TYPE".toList 60 (by decide) h1
      (by
        have : "RINEX VERSION / TYPE".toList.length = 20 := by decide
        omega) h
  · intro r hr
    rw [he] at hr
    by_cases hc : (mem_from line stale 60).take 20 = "RINEX VERSION / TYPE".toList ∧
        (mem_from line stale 20).headD NUL = 'O' ∧ (atol line = 2 ∨ atol line = 3)
    · rw [if_pos hc] at hr
      injection hr with hr
      subst hr
      rcases hc.2.2 with v | v
      · left
        simp only [v, if_true]
        exact ⟨trivial, by decide⟩
      · right
        simp only [v]
        exact ⟨trivial, by decide⟩
    · rw [if_neg hc] at hr
      exact crx2rnx.Ending.noConfusion hr
  · intro hn
    rw [he] at hn ⊢
    by_cases hc : (mem_from line stale 60).take 20 = "RINEX VERSION / TYPE".toList ∧
        (mem_from line stale 20).headD NUL = 'O' ∧ (atol line = 2 ∨ atol line = 3)
    · rw [if_pos hc] at hn
      exact absurd ⟨_, rfl⟩ hn
    · rw [if_neg hc]
  · unfold error_exit_15
    refine ⟨"The first line is :\n".toList ++ line ++ "\n\n".toList ++ "ERROR : ".toList,
      ". This program is applicable\n".toList ++
        "        only to RINEX Version 2/3 Observation file.\n".toList, ?_⟩
    simp


/-- A RINEX 2 first line is accepted, the same line of a navigation file
(`N` in column 20) is refused. -/
theorem header_first_sample :
    rnx2crx.header_first
        ("     2.11           OBSERVATION DATA    G (GPS)             " ++
          "RINEX VERSION / TYPE").toList [] =
      crx2rnx.Ending.ok (2,
        ("1.0                 COMPACT RINEX FORMAT                    " ++
          "CRINEX VERS   / TYPE\n").toList) ∧
    rnx2crx.header_first
        ("     2.11           N: GPS NAV DATA                         " ++
          "RINEX VERSION / TYPE").toList [] = crx2rnx.Ending.error_exit 15 := by
  decide

end HeaderCheckClaim


section EventDispatch

theorem atol_single (c : Char) :
    atol [c] = if isdigit c = true then ((c.toNat - 48 : Nat) : Int) else 0 := by
  by_cases hd : isdigit c = true
  · rw [if_pos hd, atol_of_digits [c] (by intro x hx; simp at hx; rw [← hx]; exact hd)]
    simp [atol_digits, hd]
  · rw [if_neg hd]
    have hd' : isdigit c = false := by simpa using hd
    unfold atol
    by_cases hs : isspace c = true
    · simp [List.dropWhile, hs, atol_digits]
    · have hs' : isspace c = false := by simpa using hs
      simp only [List.dropWhile, hs', List.head?_cons, Option.some.injEq, List.tail_cons]
      split_ifs <;> simp [atol_digits, hd']

theorem digit_gt_one (c : Char) (hd : isdigit c = true) :
    1 < c.toNat - 48 ↔ (c ≠ '0' ∧ c ≠ '1') := by
  have h := digit_char_of_isdigit c hd
  have hb := isdigit_val_lt c hd
  constructor
  · intro h1
    constructor
    · intro e
      rw [e] at h1
      revert h1
      decide
    · intro e
      rw [e] at h1
      revert h1
      decide
  · rintro ⟨h0, h1⟩
    by_contra hc
    have hv : c.toNat - 48 = 0 ∨ c.toNat - 48 = 1 := by omega
    rcases hv with e | e
    · rw [e] at h
      exact h0 h.symm
    · rw [e] at h
      exact h1 h.symm

/-- The event test of `main` in terms of the flag character. -/
theorem event_flag_test_iff (rinex_version : Int) (newline : List Char) :
    rnx2crx.event_flag_test rinex_version newline = true ↔
      (isdigit (newline.getD (if rinex_version = 2 then 28 else 31) NUL) = true ∧
        newline.getD (if rinex_version = 2 then 28 else 31) NUL ≠ '0' ∧
        newline.getD (if rinex_version = 2 then 28 else 31) NUL ≠ '1') := by
  unfold rnx2crx.event_flag_test
  generalize newline.getD (if rinex_version = 2 then 28 else 31) NUL = c
  rw [decide_eq_true_iff, atol_single]
  by_cases hd : isdigit c = true
  · rw [if_pos hd]
    have := digit_gt_one c hd
    constructor
    · intro h
      exact ⟨hd, this.1 (by omega)⟩
    · rintro ⟨_, h⟩
      have := this.2 h
      omega
  · rw [if_neg hd]
    constructor
    · intro h
      omega
    · rintro ⟨h, _⟩
      exact absurd h hd

theorem get_next_epoch_rinex2_ok (skip : Bool) (text newline : List Char)
    (h : rnx2crx.get_next_epoch 2 skip text = crx2rnx.Ending.ok newline) :
    newline = CHOP_BLANK (chop_cr text) ∧ 29 ≤ newline.length ∧ newline.getD 0 NUL = ' ' ∧
    newline.getD 27 NUL = ' ' ∧ isdigit (newline.getD 28 NUL) = true ∧
    (newline.getD 29 NUL = ' ' ∨ newline.getD 29 NUL = NUL) := by
  unfold rnx2crx.get_next_epoch at h
  simp only [if_true] at h
  by_cases hc : (CHOP_BLANK (chop_cr text)).length < 29 ∨
      (CHOP_BLANK (chop_cr text)).getD 0 NUL ≠ ' ' ∨
      (CHOP_BLANK (chop_cr text)).getD 27 NUL ≠ ' ' ∨
      isdigit ((CHOP_BLANK (chop_cr text)).getD 28 NUL) = false ∨
      ((CHOP_BLANK (chop_cr text)).getD 29 NUL ≠ ' ' ∧
        (CHOP_BLANK (chop_cr text)).getD 29 NUL ≠ NUL)
  · rw [if_pos hc] at h
    cases skip <;> simp at h
  · rw [if_neg hc] at h
    injection h with h
    subst h
    push_neg at hc
    obtain ⟨a, b, c, d, e⟩ := hc
    refine ⟨rfl, a, b, c, by simpa using d, ?_⟩
    by_cases h29 : (CHOP_BLANK (chop_cr text)).getD 29 NUL = ' '
    · exact Or.inl h29
    · exact Or.inr (e h29)

end EventDispatch


section EventDispatchClaim

open rnx2crx in
/-- C26 (as the claim words it, refuted): a RINEX 3 epoch line that ends
before the event-flag column is accepted by `get_next_epoch`, filled with
blanks up to column 40, and processed as an observation epoch although its
event-flag character (column 31) is a blank, neither `0` nor `1`. -/
theorem event_dispatch_counterexample :
    get_next_epoch 3 false "> 2020 01 01 00 00  0.0000000".toList =
      crx2rnx.Ending.ok "> 2020 01 01 00 00  0.0000000            ".toList ∧
    "> 2020 01 01 00 00  0.0000000            ".toList.getD 31 NUL = ' ' ∧
    event_flag_test 3 "> 2020 01 01 00 00  0.0000000            ".toList = false := by
  decide

open rnx2crx in
/-- C26 (amended): event-flag dispatch in the compressor.  For every line
accepted by `get_next_epoch`, the line is handed to `put_event_data` if and
only if its event-flag character (column 28 for RINEX 2, column 31 for
RINEX 3) is one of the digits `2` to `9`, and is processed as an observation
epoch otherwise.  For RINEX 2, where `get_next_epoch` accepts only a digit in
that column, it is an observation epoch if and only if the flag is `0` or
`1`. -/
theorem event_dispatch (rinex_version : Int) (skip : Bool) (text newline : List Char)
    (h : get_next_epoch rinex_version skip text = crx2rnx.Ending.ok newline) :
    (event_flag_test rinex_version newline = true ↔
      (isdigit (newline.getD (if rinex_version = 2 then 28 else 31) NUL) = true ∧
        newline.getD (if rinex_version = 2 then 28 else 31) NUL ≠ '0' ∧
        newline.getD (if rinex_version = 2 then 28 else 31) NUL ≠ '1')) ∧
    (rinex_version = 2 →
      (event_flag_test rinex_version newline = false ↔
        (newline.getD 28 NUL = '0' ∨ newline.getD 28 NUL = '1'))) := by
  refine ⟨event_flag_test_iff rinex_version newline, ?_⟩
  intro hv
  subst hv
  obtain ⟨_, _, _, _, hd, _⟩ := get_next_epoch_rinex2_ok skip text newline h
  have hi := event_flag_test_iff 2 newline
  simp only [if_true] at hi
  constructor
  · intro hf
    by_contra hc
    push_neg at hc
    have := hi.2 ⟨hd, hc.1, hc.2⟩
    rw [hf] at this
    exact Bool.noConfusion this
  · intro hc
    by_contra hf
    have ht : event_flag_test 2 newline = true := by simpa using hf
    obtain ⟨_, h0, h1⟩ := hi.1 ht
    rcases hc with e | e
    · exact h0 e
    · exact h1 e

open rnx2crx in
/-- C26 witness: a RINEX 2 epoch line with the flag `0` is an observation
epoch. -/
theorem event_dispatch_witness :
    get_next_epoch 2 false " 05  3 24 13 10 36.0000000  0  4G12G09G06E11".toList =
      crx2rnx.Ending.ok " 05  3 24 13 10 36.0000000  0  4G12G09G06E11".toList ∧
    event_flag_test 2 " 05  3 24 13 10 36.0000000  0  4G12G09G06E11".toList = false :=
  ⟨by decide,
   ((event_dispatch 2 false " 05  3 24 13 10 36.0000000  0  4G12G09G06E11".toList
      " 05  3 24 13 10 36.0000000  0  4G12G09G06E11".toList (by decide)).2 rfl).2
    (Or.inl (by decide))⟩

end EventDispatchClaim

section EpochColumns

theorem chop_blank_getD (s : List Char) (i : Nat) (h : s.getD i NUL ≠ ' ') :
    (chop_blank s).getD i NUL = s.getD i NUL := by
  obtain ⟨k, hk, _⟩ := chop_blank_split s
  generalize chop_blank s = c at hk
  subst hk
  by_cases hi : i < c.length
  · rw [List.getD_append _ _ _ _ hi]
  · have hi2 : c.length ≤ i := by omega
    rw [List.getD_append_right _ _ _ _ hi2] at h ⊢
    rw [List.getD_eq_default _ _ hi2]
    by_cases hk : i - c.length < k
    · exfalso
      apply h
      rw [List.getD_eq_getElem _ _ (by simpa using hk)]
      simp
    · rw [List.getD_eq_default _ _ (by simpa using hk)]

theorem CHOP_BLANK_getD (s : List Char) (i : Nat) (h : s.getD i NUL ≠ ' ') :
    (CHOP_BLANK s).getD i NUL = s.getD i NUL := by
  cases s with
  | nil => rfl
  | cons a r =>
    cases i with
    | zero => rfl
    | succ i =>
      have h2 : r.getD i NUL ≠ ' ' := by simpa using h
      have := chop_blank_getD r i h2
      simpa [CHOP_BLANK] using this

theorem chop_cr_getD (s : List Char) (i : Nat) (h : s.getD i NUL ≠ '\r') :
    (chop_cr s).getD i NUL = s.getD i NUL := by
  unfold chop_cr
  split_ifs with hl
  · induction s using List.reverseRecOn with
    | nil => rfl
    | append_singleton l a _ =>
      have ha : a = '\r' := by simpa using hl
      subst ha
      rw [List.dropLast_concat]
      by_cases hi : i < l.length
      · rw [List.getD_append _ _ _ _ hi]
      · have hi2 : l.length ≤ i := by omega
        rw [List.getD_append_right _ _ _ _ hi2] at h ⊢
        rw [List.getD_eq_default _ _ hi2]
        by_cases h0 : i - l.length = 0
        · exfalso
          apply h
          rw [h0]
          rfl
        · rw [List.getD_eq_default _ _ (by simp; omega)]
  · rfl

theorem digit_not_blank (c : Char) (h : isdigit c = true) : c ≠ ' ' ∧ c ≠ '\r' ∧ c ≠ NUL := by
  refine ⟨?_, ?_, ?_⟩ <;> (rintro rfl; revert h; decide)

/-- A RINEX 2 epoch line with a digit in column 29 (counted from 0) is refused
by `get_next_epoch`. -/
theorem get_next_epoch_rinex2_digit29 (skip : Bool) (text : List Char)
    (h : isdigit (text.getD 29 NUL) = true) :
    rnx2crx.get_next_epoch 2 skip text =
      if skip = true then crx2rnx.Ending.skip_epoch else crx2rnx.Ending.error_exit 6 := by
  obtain ⟨h1, h2, h3⟩ := digit_not_blank _ h
  have e1 : (chop_cr text).getD 29 NUL = text.getD 29 NUL := chop_cr_getD text 29 h2
  have e2 : (CHOP_BLANK (chop_cr text)).getD 29 NUL = text.getD 29 NUL := by
    rw [CHOP_BLANK_getD _ _ (by rw [e1]; exact h1), e1]
  unfold rnx2crx.get_next_epoch
  simp only [if_true]
  have hc : (CHOP_BLANK (chop_cr text)).length < 29 ∨
      (CHOP_BLANK (chop_cr text)).getD 0 NUL ≠ ' ' ∨
      (CHOP_BLANK (chop_cr text)).getD 27 NUL ≠ ' ' ∨
      isdigit ((CHOP_BLANK (chop_cr text)).getD 28 NUL) = false ∨
      ((CHOP_BLANK (chop_cr text)).getD 29 NUL ≠ ' ' ∧
        (CHOP_BLANK (chop_cr text)).getD 29 NUL ≠ NUL) := by
    right; right; right; right
    rw [e2]
    exact ⟨h1, h3⟩
  rw [if_pos hc]
  cases skip <;> simp

theorem chop_blank_of_last (s : List Char) (h : ∀ c, s.getLast? = some c → c ≠ ' ') :
    chop_blank s = s := by
  induction s using List.reverseRecOn with
  | nil => rfl
  | append_singleton l a _ =>
    have ha : a ≠ ' ' := h a (by simp)
    unfold chop_blank
    rw [List.rdropWhile_concat]
    simp [ha]

theorem CHOP_BLANK_of_last (s : List Char) (h : ∀ c, s.getLast? = some c → c ≠ ' ') :
    CHOP_BLANK s = s := by
  cases s with
  | nil => rfl
  | cons a r =>
    cases r with
    | nil => rfl
    | cons b t =>
      have : chop_blank (b :: t) = b :: t := by
        apply chop_blank_of_last
        intro c hc
        apply h c
        rw [List.getLast?_cons_cons]
        exact hc
      simp [CHOP_BLANK, this]

theorem chop_cr_of_last (s : List Char) (h : ∀ c, s.getLast? = some c → c ≠ '\r') :
    chop_cr s = s := by
  unfold chop_cr
  split_ifs with hl
  · exact absurd rfl (h _ hl)
  · rfl

end EpochColumns

section SatelliteCount

theorem fmt_ld_natCast (n : Nat) : fmt_ld (n : Int) = dec_digits n := by
  unfold fmt_ld
  rw [if_neg (by omega)]
  simp

theorem dec_digits_length_three (n : Nat) (h : n ≤ 999) :
    1 ≤ (dec_digits n).length ∧ (dec_digits n).length ≤ 3 ∧
    (n ≤ 99 → (dec_digits n).length ≤ 2) ∧ (100 ≤ n → (dec_digits n).length = 3) := by
  have h1 : 1 ≤ (dec_digits n).length := by
    have := dec_digits_ne_nil n
    cases hd : dec_digits n with
    | nil => exact absurd hd this
    | cons a r => simp
  have h3 : (dec_digits n).length ≤ 3 := by
    have e := congrArg List.length (zero_fill_eq_pad 2 n (by norm_num; omega))
    rw [List.length_append, List.length_replicate, pad_digits_length] at e
    omega
  refine ⟨h1, h3, ?_, ?_⟩
  · intro h99
    have e := congrArg List.length (zero_fill_eq_pad 1 n (by norm_num; omega))
    rw [List.length_append, List.length_replicate, pad_digits_length] at e
    omega
  · intro h100
    rw [dec_digits_ge n (by omega), dec_digits_ge (n / 10) (by omega)]
    have := dec_digits_ne_nil (n / 10 / 10)
    cases hd : dec_digits (n / 10 / 10) with
    | nil => exact absurd hd this
    | cons a r =>
      rw [dec_digits_ge n (by omega), dec_digits_ge (n / 10) (by omega), hd] at h3
      simp only [List.length_append, List.length_cons, List.length_nil] at h3 ⊢
      omega

/-- The satellite count as a RINEX line carries it (format `I3`): blanks in
front of the decimal digits, three characters in all. -/
theorem nsat_field (n : Nat) (h : n ≤ 999) :
    ∃ k, fmt_ld_w 3 (n : Int) = List.replicate k ' ' ++ dec_digits n ∧
      k + (dec_digits n).length = 3 ∧ (n ≤ 99 → 0 < k) ∧ (100 ≤ n → k = 0) := by
  obtain ⟨h1, h3, h99, h100⟩ := dec_digits_length_three n h
  refine ⟨3 - (dec_digits n).length, ?_, by omega, ?_, ?_⟩
  · unfold fmt_ld_w
    rw [fmt_ld_natCast]
  · intro hn
    have := h99 hn
    omega
  · intro hn
    have := h100 hn
    omega

theorem atol_nsat_field (k n : Nat) (r : List Char)
    (hr : ∀ c, r.head? = some c → isdigit c = false) :
    atol (List.replicate k ' ' ++ (dec_digits n ++ r)) = (n : Int) := by
  rw [atol_blanks, atol_of_digits, atol_digits_append _ _ _ (dec_digits_all_digit n),
    atol_digits_dec_digits, atol_digits_halt _ _ hr]
  intro c hc
  apply dec_digits_head_digit n c
  cases hd : dec_digits n with
  | nil => exact absurd hd (dec_digits_ne_nil n)
  | cons a t =>
    rw [hd] at hc
    simpa using hc

/-- The head of the epoch loop for a line that `get_next_epoch` accepts, that
is no event record and that carries no clock offset. -/
theorem main_epoch_nsat_of_line (rinex_version : Int) (skip : Bool) (text newline : List Char)
    (clk_order : Int) (clk1 : rnx2crx.clock_format)
    (h : rnx2crx.get_next_epoch rinex_version skip text = crx2rnx.Ending.ok newline)
    (he : rnx2crx.event_flag_test rinex_version newline = false)
    (hl : newline.length ≤ (if rinex_version = 2 then 68 else 41)) :
    rnx2crx.main_epoch_nsat rinex_version skip text clk_order clk1 =
      if atol (newline.drop (if rinex_version = 2 then 29 else 32)) > (rnx2crx.MAXSAT : Int) then
        crx2rnx.Ending.error_exit 8
      else crx2rnx.Ending.ok (some (atol (newline.drop (if rinex_version = 2 then 29 else 32)))) := by
  unfold rnx2crx.main_epoch_nsat
  rw [h]
  simp only [he]
  have hl2 : ¬ newline.length > (if rinex_version = 2 then 68 else 41) := by omega
  simp only [if_neg hl2]
  simp

theorem event_flag_zero_one (rinex_version : Int) (newline : List Char)
    (h : newline.getD (if rinex_version = 2 then 28 else 31) NUL = '0' ∨
      newline.getD (if rinex_version = 2 then 28 else 31) NUL = '1') :
    rnx2crx.event_flag_test rinex_version newline = false := by
  cases hb : rnx2crx.event_flag_test rinex_version newline with
  | false => rfl
  | true =>
    obtain ⟨_, h0, h1⟩ := (event_flag_test_iff rinex_version newline).1 hb
    rcases h with h | h
    · exact absurd h h0
    · exact absurd h h1

theorem getLast_nsat_field (head : List Char) (n : Nat) (h : n ≤ 999) :
    ∀ c, (head ++ fmt_ld_w 3 (n : Int)).getLast? = some c → isdigit c = true := by
  intro c hc
  obtain ⟨k, hk, _⟩ := nsat_field n h
  rw [hk, ← List.append_assoc] at hc
  have hne := dec_digits_ne_nil n
  rw [List.getLast?_append_of_ne_nil _ hne] at hc
  exact dec_digits_all_digit n c (List.mem_of_mem_getLast? hc)

end SatelliteCount

section SatelliteCountClaim

open rnx2crx in
/-- C24 (as the claim words it, refuted): a well-formed RINEX 2 epoch line
that declares 100 satellites, which is MAXSAT and not above it, is not
processed: `get_next_epoch` refuses it with error 6, because the hundreds digit
of the count stands in column 29, where it wants a blank. -/
theorem nsat_bound_counterexample :
    MAXSAT = 100 ∧
    atol ((" 05  3 24 13 10 36.0000000  0100" ++
        "G01G02G03G04G05G06G07G08G09G10G11G12").toList.drop 29) = 100 ∧
    main_epoch_nsat 2 false
      (" 05  3 24 13 10 36.0000000  0100" ++
        "G01G02G03G04G05G06G07G08G09G10G11G12").toList 0
      { u := fun _ => 0, l := fun _ => 0 } = crx2rnx.Ending.error_exit 6 := by
  refine ⟨rfl, by decide, ?_⟩
  unfold main_epoch_nsat
  rw [get_next_epoch_rinex2_digit29 _ _ (by decide)]
  rfl

open rnx2crx in
/-- C24 (amended): an epoch line whose satellite count `n` (up to 999) is
written in format `I3` behind an otherwise well-formed head (first character,
separator columns, event flag `0` or `1`, no clock offset).  RINEX 3: the line
is processed with `nsat = n` for every `n` up to MAXSAT = 100 and the
compressor stops with error 8 exactly when `n > 100`.  RINEX 2 (up to twelve
satellite names on the line): the line is processed with `nsat = n` for every
`n` up to 99; from 100 on the epoch line is refused by `get_next_epoch` (error
6, or the skip under `-s`) before the count is read. -/
theorem nsat_bound (skip : Bool) (head sats : List Char) (n : Nat) (clk_order : Int)
    (clk1 : clock_format) (hn : n ≤ 999) :
    (head.length = 32 → head.getD 0 NUL = '>' →
      (head.getD 31 NUL = '0' ∨ head.getD 31 NUL = '1') →
      main_epoch_nsat 3 skip (head ++ fmt_ld_w 3 (n : Int)) clk_order clk1 =
        if 100 < n then crx2rnx.Ending.error_exit 8
        else crx2rnx.Ending.ok (some (n : Int))) ∧
    (head.length = 29 → head.getD 0 NUL = ' ' → head.getD 27 NUL = ' ' →
      (head.getD 28 NUL = '0' ∨ head.getD 28 NUL = '1') →
      (∀ c, sats.head? = some c → isdigit c = false) →
      (∀ c, sats.getLast? = some c → c ≠ ' ' ∧ c ≠ '\r') → sats.length ≤ 36 →
      main_epoch_nsat 2 skip (head ++ fmt_ld_w 3 (n : Int) ++ sats) clk_order clk1 =
        if 100 ≤ n then
          (if skip = true then crx2rnx.Ending.skip_epoch else crx2rnx.Ending.error_exit 6)
        else crx2rnx.Ending.ok (some (n : Int))) := by
  obtain ⟨k, hk, hklen, hk99, hk100⟩ := nsat_field n hn
  have hflen : (fmt_ld_w 3 (n : Int)).length = 3 := by
    rw [hk, List.length_append, List.length_replicate]
    exact hklen
  constructor
  · intro hlen h0 hflag
    have hlast := getLast_nsat_field head n hn
    have hcr : chop_cr (head ++ fmt_ld_w 3 (n : Int)) = head ++ fmt_ld_w 3 (n : Int) :=
      chop_cr_of_last _ (fun c hc => (digit_not_blank c (hlast c hc)).2.1)
    have hpad : 41 - (head ++ fmt_ld_w 3 (n : Int)).length = 6 := by
      rw [List.length_append, hlen, hflen]
    have hg : get_next_epoch 3 skip (head ++ fmt_ld_w 3 (n : Int)) =
        crx2rnx.Ending.ok (head ++ fmt_ld_w 3 (n : Int) ++ List.replicate 6 ' ') := by
      unfold get_next_epoch
      rw [if_neg (by decide), hcr]
      dsimp only
      rw [hpad]
      have h00 : ¬ (head ++ fmt_ld_w 3 (n : Int)).getD 0 NUL ≠ '>' := by
        rw [List.getD_append _ _ _ _ (by omega), h0]
        simp
      rw [if_neg h00]
    have he : event_flag_test 3 (head ++ fmt_ld_w 3 (n : Int) ++ List.replicate 6 ' ') =
        false := by
      apply event_flag_zero_one
      rw [if_neg (by decide), List.append_assoc, List.getD_append _ _ _ _ (by omega)]
      exact hflag
    rw [main_epoch_nsat_of_line 3 skip _ _ clk_order clk1 hg he
      (by rw [if_neg (by decide)]; simp [hlen, hflen])]
    have hdrop : (head ++ fmt_ld_w 3 (n : Int) ++ List.replicate 6 ' ').drop
        (if (3 : Int) = 2 then 29 else 32) =
        List.replicate k ' ' ++ (dec_digits n ++ List.replicate 6 ' ') := by
      rw [if_neg (by decide), List.append_assoc, List.drop_append_of_le_length (by omega),
        ← hlen, List.drop_length, hk]
      simp
    rw [hdrop, atol_nsat_field k n _ (by intro c hc; cases hc; decide)]
    simp [MAXSAT]
  · intro hlen h0 h27 hflag hs hsl hslen
    by_cases h100 : 100 ≤ n
    · rw [if_pos h100]
      have hk0 := hk100 h100
      subst hk0
      have h29 : isdigit ((head ++ fmt_ld_w 3 (n : Int) ++ sats).getD 29 NUL) = true := by
        rw [List.append_assoc, List.getD_append_right _ _ _ _ (by omega), hlen, hk]
        have hne := dec_digits_ne_nil n
        cases hd : dec_digits n with
        | nil => exact absurd hd hne
        | cons a t =>
          have := dec_digits_head_digit n a (by rw [hd]; rfl)
          simpa using this
      unfold main_epoch_nsat
      rw [get_next_epoch_rinex2_digit29 _ _ h29]
      cases skip <;> rfl
    · rw [if_neg h100]
      have hkpos := hk99 (by omega)
      obtain ⟨k2, rfl⟩ : ∃ k2, k = k2 + 1 := ⟨k - 1, by omega⟩
      have hlast : ∀ c, (head ++ fmt_ld_w 3 (n : Int) ++ sats).getLast? = some c →
          c ≠ ' ' ∧ c ≠ '\r' := by
        intro c hc
        cases sats with
        | nil =>
          rw [List.append_nil] at hc
          have := digit_not_blank c (getLast_nsat_field head n hn c hc)
          exact ⟨this.1, this.2.1⟩
        | cons a t =>
          rw [List.getLast?_append_of_ne_nil _ (by simp)] at hc
          exact hsl c hc
      have hcr : chop_cr (head ++ fmt_ld_w 3 (n : Int) ++ sats) =
          head ++ fmt_ld_w 3 (n : Int) ++ sats :=
        chop_cr_of_last _ (fun c hc => (hlast c hc).2)
      have hcb : CHOP_BLANK (head ++ fmt_ld_w 3 (n : Int) ++ sats) =
          head ++ fmt_ld_w 3 (n : Int) ++ sats :=
        CHOP_BLANK_of_last _ (fun c hc => (hlast c hc).1)
      have hg : get_next_epoch 2 skip (head ++ fmt_ld_w 3 (n : Int) ++ sats) =
          crx2rnx.Ending.ok (head ++ fmt_ld_w 3 (n : Int) ++ sats) := by
        unfold get_next_epoch
        simp only [if_true]
        rw [hcr, hcb]
        have hc : ¬ ((head ++ fmt_ld_w 3 (n : Int) ++ sats).length < 29 ∨
            (head ++ fmt_ld_w 3 (n : Int) ++ sats).getD 0 NUL ≠ ' ' ∨
            (head ++ fmt_ld_w 3 (n : Int) ++ sats).getD 27 NUL ≠ ' ' ∨
            isdigit ((head ++ fmt_ld_w 3 (n : Int) ++ sats).getD 28 NUL) = false ∨
            ((head ++ fmt_ld_w 3 (n : Int) ++ sats).getD 29 NUL ≠ ' ' ∧
              (head ++ fmt_ld_w 3 (n : Int) ++ sats).getD 29 NUL ≠ NUL)) := by
          have e0 : (head ++ fmt_ld_w 3 (n : Int) ++ sats).getD 0 NUL = ' ' := by
            rw [List.append_assoc, List.getD_append _ _ _ _ (by omega)]
            exact h0
          have e27 : (head ++ fmt_ld_w 3 (n : Int) ++ sats).getD 27 NUL = ' ' := by
            rw [List.append_assoc, List.getD_append _ _ _ _ (by omega)]
            exact h27
          have e28 : isdigit ((head ++ fmt_ld_w 3 (n : Int) ++ sats).getD 28 NUL) = true := by
            rw [List.append_assoc, List.getD_append _ _ _ _ (by omega)]
            rcases hflag with h | h <;> rw [h] <;> decide
          have e29 : (head ++ fmt_ld_w 3 (n : Int) ++ sats).getD 29 NUL = ' ' := by
            rw [List.append_assoc, List.getD_append_right _ _ _ _ (by omega), hlen, hk]
            rfl
          have el : 29 ≤ (head ++ fmt_ld_w 3 (n : Int) ++ sats).length := by
            simp only [List.length_append]
            omega
          rw [e0, e27, e28, e29]
          simp
          omega
        rw [if_neg hc]
      have he : event_flag_test 2 (head ++ fmt_ld_w 3 (n : Int) ++ sats) = false := by
        apply event_flag_zero_one
        rw [if_pos rfl, List.append_assoc, List.getD_append _ _ _ _ (by omega)]
        exact hflag
      rw [main_epoch_nsat_of_line 2 skip _ _ clk_order clk1 hg he
        (by rw [if_pos rfl]; simp only [List.length_append]; omega)]
      have hdrop : (head ++ fmt_ld_w 3 (n : Int) ++ sats).drop
          (if (2 : Int) = 2 then 29 else 32) =
          List.replicate (k2 + 1) ' ' ++ (dec_digits n ++ sats) := by
        rw [if_pos rfl, List.append_assoc, List.drop_append_of_le_length (by omega),
          ← hlen, List.drop_length, hk]
        simp
      rw [hdrop, atol_nsat_field (k2 + 1) n _ hs]
      have : ¬ ((n : Int) > (MAXSAT : Int)) := by
        simp only [MAXSAT]
        omega
      rw [if_neg this]

open rnx2crx in
/-- C24 (amended), at the satellite count 100 of a RINEX 3 epoch line and of a
RINEX 2 epoch line. -/
theorem nsat_bound_witness :
    main_epoch_nsat 3 false ("> 2020 01 01 00 00  0.0000000  0".toList ++ fmt_ld_w 3 100)
      0 { u := fun _ => 0, l := fun _ => 0 } = crx2rnx.Ending.ok (some 100) ∧
    main_epoch_nsat 2 false
      (" 05  3 24 13 10 36.0000000  0".toList ++ fmt_ld_w 3 100 ++
        "G01G02G03G04G05G06G07G08G09G10G11G12".toList)
      0 { u := fun _ => 0, l := fun _ => 0 } = crx2rnx.Ending.error_exit 6 :=
  ⟨(nsat_bound false "> 2020 01 01 00 00  0.0000000  0".toList [] 100 0
      { u := fun _ => 0, l := fun _ => 0 } (by decide)).1 (by decide) (by decide)
      (Or.inl (by decide)),
   (nsat_bound false " 05  3 24 13 10 36.0000000  0".toList
      "G01G02G03G04G05G06G07G08G09G10G11G12".toList 100 0
      { u := fun _ => 0, l := fun _ => 0 } (by decide)).2 (by decide) (by decide) (by decide)
      (Or.inl (by decide)) (by intro c hc; cases hc; decide)
      (by intro c hc; cases hc; decide) (by decide)⟩

end SatelliteCountClaim

section PeriodicReset

open rnx2crx in
/-- C27 (evaluation at the failing input): option `-e 1`, second epoch of a
RINEX 2 file, clock offset ` 0.123456789` on the epoch line.  The reset fires
(`++ep_count = 2 > 1`) after `read_clock` has run, `initialize_all` puts
`clk_order` back to `-1`, and the compressor writes an empty clock line: the
offset is not emitted.  The same line at a first epoch without the option is
written `3&123456789`. -/
theorem reset_epoch_clock_lost :
    (∃ c1, main_clock 1 1 " 0.123456789".toList
        { oldline := " 05  3 24 13 10 36.0000000  0  4G12G09G06E11".toList, nsat_old := 4,
          clk_order := 0, ep_count := 1 }
        { u := fun _ => 0, l := fun _ => 0 } { u := fun _ => 0, l := fun _ => 0 } =
      crx2rnx.Ending.ok (initialize_all 1, c1, ['\n'])) ∧
    (initialize_all 1).clk_order = -1 ∧
    (∃ st1 c1, main_clock 0 1 " 0.123456789".toList
        { oldline := ['&'], nsat_old := 0, clk_order := -1, ep_count := 0 }
        { u := fun _ => 0, l := fun _ => 0 } { u := fun _ => 0, l := fun _ => 0 } =
      crx2rnx.Ending.ok (st1, c1, "3&123456789\n".toList)) :=
  ⟨⟨_, rfl⟩, rfl, ⟨_, _, rfl⟩⟩

end PeriodicReset

section BlankFieldFlags

theorem data_put_blank (crinex_version rinex_version : Int) (output_overflow : Bool)
    (ntype : Int) (dy0 : Nat → crx2rnx.data_format) (st : crx2rnx.record_state) (j : Nat)
    (h : (st.dy1 j).arc_order < 0) :
    crx2rnx.data_put crinex_version rinex_version output_overflow ntype dy0 st j =
      crx2rnx.Ending.ok
        { st with
          flag := (crx2rnx.blank_field crinex_version st.flag j).2,
          out_buff := crx2rnx.data_line_end rinex_version ntype j
            (st.out_buff ++ (crx2rnx.blank_field crinex_version st.flag j).1) } := by
  have hn : ¬ (st.dy1 j).arc_order ≥ 0 := by omega
  unfold crx2rnx.data_put
  rw [if_neg hn]

end BlankFieldFlags

section BlankFieldFlagsClaim

open crx2rnx in
/-- C28: for a blank data field `j` (`arc_order < 0`) the pass of the field
loop of `data()` never stops the program.  Under CRINEX 1 it appends 16 spaces
and sets the two stored flags of the field to spaces, all other flags staying
as they are; under CRINEX 3 it appends 14 spaces followed by the two repaired
flags of the field and leaves the stored flags as they are.  (The line end that
may follow the field is `data_line_end`.) -/
theorem blank_field_flags (rinex_version : Int) (output_overflow : Bool) (ntype : Int)
    (dy0 : Nat → data_format) (st : record_state) (j : Nat)
    (h : (st.dy1 j).arc_order < 0) :
    (∃ st1, data_put 1 rinex_version output_overflow ntype dy0 st j = Ending.ok st1 ∧
      st1.out_buff =
        data_line_end rinex_version ntype j (st.out_buff ++ List.replicate 16 ' ') ∧
      st1.flag (j * 2) = ' ' ∧ st1.flag (j * 2 + 1) = ' ' ∧
      (∀ k, k ≠ j * 2 → k ≠ j * 2 + 1 → st1.flag k = st.flag k) ∧
      st1.exit_status = st.exit_status) ∧
    (∃ st3, data_put 3 rinex_version output_overflow ntype dy0 st j = Ending.ok st3 ∧
      st3.out_buff =
        data_line_end rinex_version ntype j
          (st.out_buff ++ (List.replicate 14 ' ' ++ [st.flag (j * 2), st.flag (j * 2 + 1)])) ∧
      st3.flag = st.flag ∧ st3.exit_status = st.exit_status) := by
  constructor
  · refine ⟨_, data_put_blank 1 rinex_version output_overflow ntype dy0 st j h, ?_, ?_, ?_, ?_,
      rfl⟩
    · simp [blank_field]
    · simp [blank_field]
    · simp [blank_field]
    · intro k h1 h2
      simp [blank_field, h1, h2]
  · refine ⟨_, data_put_blank 3 rinex_version output_overflow ntype dy0 st j h, ?_, ?_, rfl⟩
    · simp [blank_field]
    · simp [blank_field]

open crx2rnx in
/-- C28, at a blank first field of three with the flags `"4 7 9 "` in a
buffer holding `"G01"`. -/
theorem blank_field_flags_witness :
    (∃ st1, data_put 1 2 false 3 (fun _ => sample_prev_entry)
        { dy1 := fun _ => { sample_prev_entry with arc_order := -1 },
          flag := fun k => "4 7 9 ".toList.getD k NUL, out_buff := "G01".toList,
          exit_status := 0 } 0 = Ending.ok st1 ∧
      st1.out_buff = "G01".toList ++ List.replicate 16 ' ' ∧
      st1.flag 0 = ' ' ∧ st1.flag 1 = ' ' ∧ st1.flag 2 = '7') ∧
    (∃ st3, data_put 3 3 false 3 (fun _ => sample_prev_entry)
        { dy1 := fun _ => { sample_prev_entry with arc_order := -1 },
          flag := fun k => "4 7 9 ".toList.getD k NUL, out_buff := "G01".toList,
          exit_status := 0 } 0 = Ending.ok st3 ∧
      st3.out_buff = "G01".toList ++ List.replicate 14 ' ' ++ ['4', ' '] ∧
      st3.flag 0 = '4') := by
  have h1 := (blank_field_flags 2 false 3 (fun _ => sample_prev_entry)
    { dy1 := fun _ => { sample_prev_entry with arc_order := -1 },
      flag := fun k => "4 7 9 ".toList.getD k NUL, out_buff := "G01".toList,
      exit_status := 0 } 0 (by decide)).1
  have h3 := (blank_field_flags 3 false 3 (fun _ => sample_prev_entry)
    { dy1 := fun _ => { sample_prev_entry with arc_order := -1 },
      flag := fun k => "4 7 9 ".toList.getD k NUL, out_buff := "G01".toList,
      exit_status := 0 } 0 (by decide)).2
  obtain ⟨st1, e1, b1, f0, f1, f2, _⟩ := h1
  obtain ⟨st3, e3, b3, g, _⟩ := h3
  refine ⟨⟨st1, e1, ?_, f0, f1, ?_⟩, ⟨st3, e3, ?_, ?_⟩⟩
  · rw [b1]
    decide
  · rw [f2 2 (by decide) (by decide)]
    decide
  · rw [b3]
    decide
  · rw [g]
    decide

end BlankFieldFlagsClaim

section MalformedEpoch

open crx2rnx in
/-- C30 (evaluation at the failing input): in default mode (no `-s`) a
reconstructed RINEX 2 epoch line with a character in the separator column 26
does not stop the decompressor: `main` goes to `skip_to_next` with the exit
status set to 2 (warning), as it does under `-s`. -/
theorem malformed_epoch_not_fatal :
    main_epoch_line 2 false 0 " 05  3 24 13 10 36.0000000X 0  4G12G09G06E11".toList =
      (Ending.skip_epoch, 2) ∧
    main_epoch_line 2 true 0 " 05  3 24 13 10 36.0000000X 0  4G12G09G06E11".toList =
      (Ending.skip_epoch, 2) ∧
    main_epoch_line 2 false 0 " 05  3 24 13 10 36.0000000  0  4G12G09G06E11".toList =
      (Ending.ok (), 0) := by
  refine ⟨by decide, by decide, by decide⟩

end MalformedEpoch

section FieldWidth

theorem chop_blank_append_of_last (B x : List Char)
    (hB : ∀ c, B.getLast? = some c → c ≠ ' ') : chop_blank (B ++ x) = B ++ chop_blank x := by
  induction x using List.reverseRecOn with
  | nil =>
    rw [List.append_nil, chop_blank_nil, List.append_nil]
    exact chop_blank_of_last B hB
  | append_singleton l a ih =>
    unfold chop_blank at ih ⊢
    rw [← List.append_assoc, List.rdropWhile_concat, List.rdropWhile_concat]
    by_cases ha : a = ' '
    · simp [ha, ih]
    · simp [ha]

end FieldWidth

section RecordLines

end RecordLines

section FieldLoop

end FieldLoop

section FieldLoopLines

end FieldLoopLines

section RecordLoop

end RecordLoop

section RecordCountClaim

end RecordCountClaim
section TokenInverse

/-- The pair `putdiff` prints is the quotient and the remainder (C truncation)
of the value by `10^5`. -/
theorem putdiff_norm_eq_tdiv (u l : Int) :
    rnx2crx.putdiff_norm u l =
      ((u * 100000 + l).tdiv 100000, (u * 100000 + l).tmod 100000) := by
  obtain ⟨h1, h2, h3, h4, h5⟩ := putdiff_norm_spec u l
  apply Prod.ext
  · dsimp only
    rcases le_total 0 (u * 100000 + l) with hx | hx
    · rw [tdiv_of_nonneg _ 100000 hx (by norm_num)]
      omega
    · rw [tdiv_of_nonpos _ 100000 hx (by norm_num)]
      omega
  · dsimp only
    rcases le_total 0 (u * 100000 + l) with hx | hx
    · rw [tmod_of_nonneg _ 100000 hx (by norm_num)]
      omega
    · rw [tmod_of_nonpos _ 100000 hx (by norm_num)]
      omega

/-- The pair `put_clock` prints is the quotient and the remainder (C
truncation) of the value by `10^8`. -/
theorem put_clock_norm_eq_tdiv (u l : Int) :
    rnx2crx.put_clock_norm u l =
      ((u * 100000000 + l).tdiv 100000000, (u * 100000000 + l).tmod 100000000) := by
  obtain ⟨h1, h2, h3, h4, h5⟩ := put_clock_norm_spec u l
  apply Prod.ext
  · dsimp only
    rcases le_total 0 (u * 100000000 + l) with hx | hx
    · rw [tdiv_of_nonneg _ 100000000 hx (by norm_num)]
      omega
    · rw [tdiv_of_nonpos _ 100000000 hx (by norm_num)]
      omega
  · dsimp only
    rcases le_total 0 (u * 100000000 + l) with hx | hx
    · rw [tmod_of_nonneg _ 100000000 hx (by norm_num)]
      omega
    · rw [tmod_of_nonpos _ 100000000 hx (by norm_num)]
      omega

/-- The line `put_clock` writes, without its line feed. -/
theorem put_clock_dropLast (du dl c_order : Int) :
    (rnx2crx.put_clock du dl c_order).dropLast =
      (if c_order = 0 then ['3', '&'] else []) ++ fmt_ld (du * 100000000 + dl) := by
  rw [put_clock_eq_fmt_ld, ← List.append_assoc, List.dropLast_concat]

/-- The decompressor's `read_clock` on the line `put_clock` wrote: the pair read
is the normalized pair, with the arc order 3 taken from the mark of a first
appearance. -/
theorem read_clock_put_clock (du dl c_order : Int) (st : crx2rnx.clock_state) :
    crx2rnx.read_clock (rnx2crx.put_clock du dl c_order).dropLast st =
      crx2rnx.Ending.ok
        { clk_order := if c_order = 0 then -1 else st.clk_order,
          clk_arc_order := if c_order = 0 then 3 else st.clk_arc_order,
          yu := (rnx2crx.put_clock_norm du dl).1,
          yl := (rnx2crx.put_clock_norm du dl).2 } := by
  rw [put_clock_dropLast, put_clock_norm_eq_tdiv]
  by_cases hc : c_order = 0
  · rw [if_pos hc, if_pos hc, if_pos hc]
    have hs : crx2rnx.sscanf_d ('3' :: '&' :: fmt_ld (du * 100000000 + dl)) = some 3 :=
      sscanf_digit_mark 3 (by decide) _
    unfold crx2rnx.read_clock
    simp only [List.cons_append, List.nil_append, List.getD_cons_succ, List.getD_cons_zero,
      if_true, hs, List.drop_succ_cons, List.drop_zero, read_clock_value_fmt_ld]
    simp [crx2rnx.MAX_DIFF_ORDER]
  · rw [if_neg hc, if_neg hc, if_neg hc, List.nil_append]
    unfold crx2rnx.read_clock
    rw [if_neg (fmt_ld_ne_nil _), if_neg (fmt_ld_getD_ne_amp _ 1), read_clock_value_fmt_ld]

end TokenInverse

section TokenInverseClaim

/-- C32: for all integers `u` and `l`, the decompressor's `getdiff` rule applied
to the text `putdiff` emits returns exactly the normalized pair of `putdiff`;
and for all `du`, `dl` the decompressor's `read_clock` (8 lower digits) applied
to the line `put_clock` emits (with the mark `3&` of a first appearance or
without it) ends normally with exactly the normalized pair of `put_clock` in
`yu`, `yl`. -/
theorem token_parse_inverts_emission (u l du dl c_order : Int) (st : crx2rnx.clock_state) :
    crx2rnx.getdiff_value (rnx2crx.putdiff u l) = rnx2crx.putdiff_norm u l ∧
    crx2rnx.read_clock_value (fmt_ld (du * 100000000 + dl)) = rnx2crx.put_clock_norm du dl ∧
    ∃ st1, crx2rnx.read_clock (rnx2crx.put_clock du dl c_order).dropLast st =
        crx2rnx.Ending.ok st1 ∧
      (st1.yu, st1.yl) = rnx2crx.put_clock_norm du dl := by
  refine ⟨?_, ?_, _, read_clock_put_clock du dl c_order st, rfl⟩
  · rw [putdiff_eq_fmt_ld, getdiff_value_fmt_ld, putdiff_norm_eq_tdiv]
  · rw [read_clock_value_fmt_ld, put_clock_norm_eq_tdiv]

end TokenInverseClaim
section PeriodicResetPeriod

open rnx2crx in
/-- Line 189 in terms of its test. -/
theorem main_ep_reset_fires (N : Int) (st : epoch_state) :
    main_ep_reset N st =
      if ep_reset_fires N st = true then initialize_all 1
      else if N > 0 then { st with ep_count := st.ep_count + 1 } else st := by
  unfold main_ep_reset ep_reset_fires
  by_cases hN : N > 0
  · by_cases hc : st.ep_count + 1 > N
    · simp [hN, hc]
    · simp [hN, hc]
  · simp [hN]

open rnx2crx in
/-- The counter over a run of consecutive observation epochs: before the
epoch numbered `k + 1` it is `0` for `k = 0` and otherwise the position
`c` (from 1 to `N`) of epoch `k` in its run of `N` epochs. -/
theorem ep_count_invariant (N : Int) (s : Nat → epoch_state) (hN : 1 ≤ N)
    (h0 : (s 0).ep_count = 0)
    (hstep : ∀ k, (s (k + 1)).ep_count = (main_ep_reset N (s k)).ep_count) (k : Nat) :
    (k = 0 ∧ (s k).ep_count = 0) ∨
    (∃ q : Nat, 1 ≤ (s k).ep_count ∧ (s k).ep_count ≤ N ∧
      (k : Int) = q * N + (s k).ep_count) := by
  induction k with
  | zero => exact Or.inl ⟨rfl, h0⟩
  | succ k ih =>
    right
    have hs := hstep k
    unfold main_ep_reset at hs
    rw [if_pos (by omega)] at hs
    rcases ih with ⟨hk, hc⟩ | ⟨q, h1, h2, h3⟩
    · rw [if_neg (by omega)] at hs
      dsimp only at hs
      refine ⟨0, by omega, by omega, ?_⟩
      rw [hs, hc, hk]
      simp
    · by_cases hf : (s k).ep_count + 1 > N
      · rw [if_pos hf] at hs
        have e : (s (k + 1)).ep_count = 1 := hs
        have hcN : (s k).ep_count = N := by omega
        refine ⟨q + 1, by omega, by omega, ?_⟩
        rw [e]
        push_cast
        rw [h3, hcN]
        ring
      · rw [if_neg hf] at hs
        dsimp only at hs
        refine ⟨q, by omega, by omega, ?_⟩
        rw [hs]
        push_cast
        rw [h3]
        ring

end PeriodicResetPeriod

section PeriodicResetPeriodClaim

open rnx2crx in
/-- C35: over a run of consecutive observation epochs, in which only line 189
of `main` changes `ep_count` (no event record, no skipped epoch), `s k` being
the state the epoch numbered `k + 1` arrives with and `ep_count` starting from
0: with `-e N`, `N >= 1`, the test of the periodic reset succeeds at the epoch
numbered `e` exactly when `e = m*N + 1` for some `m >= 1` (the epochs `N+1`,
`2N+1`, `3N+1`, ...), and where it succeeds line 189 leaves the state of a full
initialization with the counter at 1; with `N <= 0` it never succeeds and the
state is left as it is. -/
theorem reset_period (N : Int) (s : Nat → epoch_state) (h0 : (s 0).ep_count = 0)
    (hstep : ∀ k, (s (k + 1)).ep_count = (main_ep_reset N (s k)).ep_count) :
    (1 ≤ N → ∀ e : Nat, 1 ≤ e →
      (ep_reset_fires N (s (e - 1)) = true ↔ ∃ m : Nat, 1 ≤ m ∧ (e : Int) = m * N + 1)) ∧
    (N ≤ 0 → ∀ k, ep_reset_fires N (s k) = false ∧ main_ep_reset N (s k) = s k) ∧
    (∀ k, ep_reset_fires N (s k) = true → main_ep_reset N (s k) = initialize_all 1) := by
  refine ⟨?_, ?_, ?_⟩
  · intro hN e he
    obtain ⟨k, rfl⟩ : ∃ k, e = k + 1 := ⟨e - 1, by omega⟩
    rw [Nat.add_sub_cancel]
    have hfire : ep_reset_fires N (s k) = true ↔ (s k).ep_count + 1 > N := by
      unfold ep_reset_fires
      rw [decide_eq_true_iff]
      constructor
      · exact fun h => h.2
      · exact fun h => ⟨by omega, h⟩
    rw [hfire]
    rcases ep_count_invariant N s hN h0 hstep k with ⟨hk, hc⟩ | ⟨q, h1, h2, h3⟩
    · constructor
      · intro h
        omega
      · rintro ⟨m, hm, e⟩
        subst hk
        have : (1 : Int) * N ≤ m * N := by
          apply mul_le_mul_of_nonneg_right _ (by omega)
          exact_mod_cast hm
        push_cast at e
        omega
    · constructor
      · intro h
        refine ⟨q + 1, by omega, ?_⟩
        have hcN : (s k).ep_count = N := by omega
        push_cast
        rw [h3, hcN]
        ring
      · rintro ⟨m, hm, e⟩
        push_cast at e
        have e2 : (m : Int) * N = q * N + (s k).ep_count := by omega
        by_contra hlt
        have hc : (s k).ep_count < N := by omega
        rcases Nat.lt_or_ge q m with hqm | hqm
        · have : ((q : Int) + 1) * N ≤ m * N := by
            apply mul_le_mul_of_nonneg_right _ (by omega)
            exact_mod_cast hqm
          have e3 : ((q : Int) + 1) * N = q * N + N := by ring
          omega
        · have : (m : Int) * N ≤ q * N := by
            apply mul_le_mul_of_nonneg_right _ (by omega)
            exact_mod_cast hqm
          omega
  · intro hN k
    constructor
    · unfold ep_reset_fires
      rw [decide_eq_false_iff_not]
      intro h
      omega
    · unfold main_ep_reset
      rw [if_neg (by omega)]
  · intro k hk
    rw [main_ep_reset_fires, if_pos hk]

open rnx2crx in
/-- C35 at the run of line 189 from the initial state with `-e 3`: the reset
fires at the epochs 4 and 7 and at no other epoch up to 9. -/
theorem reset_period_witness :
    (ep_run 3 0).ep_count = 0 ∧
    (∀ k, (ep_run 3 (k + 1)).ep_count = (main_ep_reset 3 (ep_run 3 k)).ep_count) ∧
    ((1 ≤ (3 : Int) → ∀ e : Nat, 1 ≤ e →
        (ep_reset_fires 3 (ep_run 3 (e - 1)) = true ↔
          ∃ m : Nat, 1 ≤ m ∧ (e : Int) = m * 3 + 1)) ∧
      ((3 : Int) ≤ 0 → ∀ k, ep_reset_fires 3 (ep_run 3 k) = false ∧
        main_ep_reset 3 (ep_run 3 k) = ep_run 3 k) ∧
      (∀ k, ep_reset_fires 3 (ep_run 3 k) = true →
        main_ep_reset 3 (ep_run 3 k) = initialize_all 1)) ∧
    (List.range 9).map (fun k => ep_reset_fires 3 (ep_run 3 k)) =
      [false, false, false, true, false, false, true, false, false] :=
  ⟨rfl, fun _ => rfl, reset_period 3 (ep_run 3) rfl (fun _ => rfl), by decide⟩

end PeriodicResetPeriodClaim
section ArcsNotShared

/-- Two current satellites whose table entries are the same previous slot hold
the same ID. -/
theorem find_sat_same_slot (p_new p_old : List Char) (nsat_old i1 i2 : Nat) (e : Int)
    (h1 : find_sat (p_new.drop (3 * i1)) p_old nsat_old 0 = e)
    (h2 : find_sat (p_new.drop (3 * i2)) p_old nsat_old 0 = e) (he : 0 ≤ e) :
    sat_id p_new i1 = sat_id p_new i2 := by
  obtain ⟨j1, _, v1, s1, _⟩ := (find_sat_id p_new p_old nsat_old i1).2 (by omega)
  obtain ⟨j2, _, v2, s2, _⟩ := (find_sat_id p_new p_old nsat_old i2).2 (by omega)
  have : j1 = j2 := by omega
  subst this
  rw [s1, s2]

/-- A table whose entries are those of the search loop is injective on its
non-negative entries when the current list has no duplicate ID. -/
theorem sattbl_injective (p_new p_old : List Char) (nsat_old nsat : Nat) (t : List Int)
    (ht : ∀ i, i < nsat → t[i]? = some (find_sat (p_new.drop (3 * i)) p_old nsat_old 0))
    (hnew : ∀ i j, i < j → j < nsat → sat_id p_new i ≠ sat_id p_new j)
    (i1 i2 : Nat) (e : Int) (hi1 : i1 < nsat) (hi2 : i2 < nsat)
    (h1 : t[i1]? = some e) (h2 : t[i2]? = some e) (he : 0 ≤ e) : i1 = i2 := by
  rw [ht i1 hi1] at h1
  rw [ht i2 hi2] at h2
  have hs := find_sat_same_slot p_new p_old nsat_old i1 i2 e (Option.some.inj h1)
    (Option.some.inj h2) he
  rcases Nat.lt_trichotomy i1 i2 with h | h | h
  · exact absurd hs (hnew i1 i2 h hi2)
  · exact h
  · exact absurd hs.symm (hnew i2 i1 h hi1)

end ArcsNotShared

section ArcsNotSharedClaim

open crx2rnx in
/-- C39: when the current epoch's satellite list holds no ID twice (of the
previous list nothing is needed), the table `set_sat_table` computes, in the
compressor and in the decompressor, is injective on its non-negative entries:
two current satellites `i1`, `i2` with the same entry `e >= 0` are the same
satellite, so no two satellites of one epoch continue the arc stored in one
previous slot.  The compressor returns a table for such a list. -/
theorem arcs_never_shared (skip : Bool) (nsat : Nat) (p_new p_old : List Char)
    (nsat_old : Nat) (rinex_version ntype : Int) (ntype_gnss : Char → Int)
    (hnew : ∀ i j, i < j → j < nsat → sat_id p_new i ≠ sat_id p_new j) :
    (∃ t, rnx2crx.set_sat_table skip nsat p_new p_old nsat_old = Ending.ok t ∧
      ∀ i1 i2 e, i1 < nsat → i2 < nsat → t[i1]? = some e → t[i2]? = some e → 0 ≤ e →
        i1 = i2) ∧
    (∀ r t, crx2rnx.set_sat_table rinex_version ntype ntype_gnss nsat p_new p_old nsat_old =
        Ending.ok (r, t) →
      ∀ i1 i2 e, i1 < nsat → i2 < nsat → t[i1]? = some e → t[i2]? = some e → 0 ≤ e →
        i1 = i2) := by
  constructor
  · obtain ⟨t, ht⟩ := (set_sat_table_loop_dup skip p_old nsat_old nsat p_new).2
      (by
        rintro ⟨i, j, hij, hj, e⟩
        exact hnew i j hij hj e)
    refine ⟨t, ht, ?_⟩
    obtain ⟨_, hi⟩ := set_sat_table_loop_ok skip p_old nsat_old nsat p_new t ht
    intro i1 i2 e hi1 hi2 h1 h2 he
    exact sattbl_injective p_new p_old nsat_old nsat t hi hnew i1 i2 e hi1 hi2 h1 h2 he
  · intro r t h
    have ht := crx_set_sat_table_ok rinex_version ntype ntype_gnss nsat p_new p_old nsat_old r t h
    obtain ⟨_, hi⟩ := sattbl_loop_spec p_old nsat_old nsat p_new
    rw [ht]
    intro i1 i2 e hi1 hi2 h1 h2 he
    exact sattbl_injective p_new p_old nsat_old nsat _ hi hnew i1 i2 e hi1 hi2 h1 h2 he

open crx2rnx in
/-- C39 at the sample epoch: the current list `G01 G02 G05` against the
previous list `G02 G03 G01`, with the table `2, 0, -1`. -/
theorem arcs_never_shared_witness :
    (∀ i j, i < j → j < 3 → sat_id "G01G02G05".toList i ≠ sat_id "G01G02G05".toList j) ∧
    rnx2crx.set_sat_table false 3 "G01G02G05".toList "G02G03G01".toList 3 =
      Ending.ok [2, 0, -1] ∧
    ((∃ t, rnx2crx.set_sat_table false 3 "G01G02G05".toList "G02G03G01".toList 3 =
          Ending.ok t ∧
        ∀ i1 i2 e, i1 < 3 → i2 < 3 → t[i1]? = some e → t[i2]? = some e → 0 ≤ e →
          i1 = i2) ∧
      (∀ r t, crx2rnx.set_sat_table 2 4 (fun _ => -1) 3 "G01G02G05".toList
          "G02G03G01".toList 3 = Ending.ok (r, t) →
        ∀ i1 i2 e, i1 < 3 → i2 < 3 → t[i1]? = some e → t[i2]? = some e → 0 ≤ e →
          i1 = i2)) :=
  ⟨by
      intro i j hij hj
      interval_cases j <;> interval_cases i <;> decide,
   by decide,
   arcs_never_shared false 3 "G01G02G05".toList "G02G03G01".toList 3 2 4 (fun _ => -1)
    (by
      intro i j hij hj
      interval_cases j <;> interval_cases i <;> decide)⟩

end ArcsNotSharedClaim
section QuadraticArc

/-- The third difference of a quadratic sequence is zero. -/
theorem closed_form_quadratic (v : Nat → Int) (a b c : Int) (n : Nat)
    (hv : ∀ m, m ≤ n + 3 → v m = a + b * m + c * (m : Int) ^ 2) :
    closed_form_difference v (n + 3) = 0 := by
  show v (n + 3) - 3 * v (n + 2) + 3 * v (n + 1) - v n = 0
  rw [hv (n + 3) (by omega), hv (n + 2) (by omega), hv (n + 1) (by omega), hv n (by omega)]
  push_cast
  ring

/-- For quadratic values with lower parts below `10^5` in magnitude the third
difference of the upper parts is at most 7 in magnitude. -/
theorem closed_form_upper_bound (U L : Nat → Int) (a b c : Int) (n : Nat)
    (hv : ∀ m, m ≤ n + 3 → U m * 100000 + L m = a + b * m + c * (m : Int) ^ 2)
    (hl : ∀ m, m ≤ n + 3 → -100000 < L m ∧ L m < 100000) :
    labs (closed_form_difference U (n + 3)) ≤ 100000 := by
  have h0 := closed_form_quadratic (fun m => U m * 100000 + L m) a b c n hv
  rw [closed_form_linear] at h0
  have e1 : closed_form_difference U (n + 3) =
      U (n + 3) - 3 * U (n + 2) + 3 * U (n + 1) - U n := rfl
  have e2 : closed_form_difference L (n + 3) =
      L (n + 3) - 3 * L (n + 2) + 3 * L (n + 1) - L n := rfl
  have l3 := hl (n + 3) (by omega)
  have l2 := hl (n + 2) (by omega)
  have l1 := hl (n + 1) (by omega)
  have l0 := hl n (by omega)
  unfold labs
  split_ifs <;> omega

end QuadraticArc

section QuadraticArcClaim

/-- C38: for an arc that is initialized at epoch 0 and continues in the epochs
`0 < n < N` (satellite present), whose values `v_n = u_n*10^5 + l_n` (lower
parts below `10^5` in magnitude, as `read_value` leaves them) satisfy
`v_n = a + b*n + c*n^2` for integers `a`, `b`, `c`, and whose first and second
differences pass the cycle-slip test at the second and third epoch (the test is
made on the upper part), every token the compressor emits from the fourth
epoch on is exactly `0`. -/
theorem quadratic_tokens_zero (epoch : Nat → arc_epoch) (N : Nat) (py0 : rnx2crx.data_format)
    (a b c : Int)
    (hstart : (epoch 0).i0 < 0 ∨ py0.order = -1)
    (hcont : ∀ n, 0 < n → n < N → 0 ≤ (epoch n).i0)
    (hquad : ∀ n, n < N →
      (epoch n).value.1 * 100000 + (epoch n).value.2 = a + b * n + c * (n : Int) ^ 2)
    (hl : ∀ n, n < N → -100000 < (epoch n).value.2 ∧ (epoch n).value.2 < 100000)
    (hslip1 : 1 < N → labs ((epoch 1).value.1 - (epoch 0).value.1) ≤ 100000)
    (hslip2 : 2 < N →
      labs ((epoch 2).value.1 - 2 * (epoch 1).value.1 + (epoch 0).value.1) ≤ 100000) :
    ∀ n, 3 ≤ n → n < N →
      (rnx2crx.arc_tokens py0 ((List.range N).map epoch))[n]? = some ['0'] := by
  intro n h3 hn
  have hslip : ∀ n, 0 < n → n < N →
      labs (closed_form_difference (fun m => (epoch m).value.1) n) ≤ 100000 := by
    intro m hm hmN
    match m, hm, hmN with
    | 1, _, h => exact hslip1 h
    | 2, _, h => exact hslip2 h
    | k + 3, _, h =>
      exact closed_form_upper_bound (fun m => (epoch m).value.1) (fun m => (epoch m).value.2)
        a b c k (fun m hm => hquad m (by omega)) (fun m hm => hl m (by omega))
  obtain ⟨ht, _⟩ := arc_run_from_start epoch N py0 hstart hcont hslip n hn
  rw [ht, if_neg (by omega), List.nil_append]
  obtain ⟨k, rfl⟩ : ∃ k, n = k + 3 := ⟨n - 3, by omega⟩
  rw [closed_form_quadratic _ a b c k (fun m hm => hquad m (by omega))]
  rfl

/-- C38 at the sample arc `23456789123 + 1234 n + 7 n^2` over six epochs: the
tokens are `3&23456789123`, `1241`, `14`, `0`, `0`, `0`. -/
theorem quadratic_tokens_zero_witness :
    rnx2crx.arc_tokens { u := fun _ => 0, l := fun _ => 0, order := 0 }
        ((List.range 6).map quadratic_epoch) =
      ["3&23456789123".toList, "1241".toList, "14".toList, "0".toList, "0".toList,
        "0".toList] ∧
    ∀ n, 3 ≤ n → n < 6 →
      (rnx2crx.arc_tokens { u := fun _ => 0, l := fun _ => 0, order := 0 }
          ((List.range 6).map quadratic_epoch))[n]? = some ['0'] :=
  ⟨by decide,
   quadratic_tokens_zero quadratic_epoch 6 { u := fun _ => 0, l := fun _ => 0, order := 0 }
    23456789123 1234 7
    (Or.inl (by decide))
    (by intro n h1 h2; interval_cases n <;> decide)
    (by intro n h2; interval_cases n <;> decide)
    (by intro n h2; interval_cases n <;> decide)
    (by intro _; decide)
    (by intro _; decide)⟩

end QuadraticArcClaim
section FileNames

theorem takeWhile_append_stop (p : Char → Bool) (a b : List Char)
    (ha : ∀ x ∈ a, p x = true) (hb : b.head?.map p ≠ some true) :
    (a ++ b).takeWhile p = a := by
  induction a with
  | nil =>
    cases b with
    | nil => rfl
    | cons y ys =>
      have : p y = false := by
        cases h : p y with
        | false => rfl
        | true => simp [h] at hb
      simp [List.takeWhile, this]
  | cons x xs ih =>
    have hx := ha x (List.mem_cons_self _ _)
    rw [List.cons_append, List.takeWhile_cons, hx, if_pos rfl,
      ih (fun y hy => ha y (List.mem_cons_of_mem _ hy))]

/-- The buffer `strncpy` fills from a name shorter than `MAXCLM`: the name and
NULs behind it. -/
theorem strncpy_short (arg : List Char) (hlen : arg.length < MAXCLM) :
    strncpy_chars MAXCLM arg = arg ++ List.replicate (MAXCLM - arg.length) NUL := by
  unfold strncpy_chars
  rw [List.take_of_length_le (by omega)]

theorem c_string_append_nul (a : List Char) (n : Nat) (hnul : NUL ∉ a) :
    c_string (a ++ List.replicate n NUL) = a := by
  unfold c_string
  apply takeWhile_append_stop
  · intro x hx
    have : x ≠ NUL := fun e => hnul (e ▸ hx)
    simpa using this
  · cases n with
    | zero => simp
    | succ n => simp [List.replicate_succ]

theorem getD_append_nul (a : List Char) (n i : Nat) :
    (a ++ List.replicate n NUL).getD i NUL = a.getD i NUL := by
  by_cases h : i < a.length
  · rw [List.getD_append _ _ _ _ h]
  · rw [List.getD_append_right _ _ _ _ (by omega), List.getD_eq_default a _ (by omega)]
    by_cases h2 : i - a.length < n
    · rw [List.getD_eq_getElem _ _ (by simpa using h2)]
      simp
    · rw [List.getD_eq_default _ _ (by simpa using h2)]

theorem strrchr_none (c : Char) (s : List Char) (h : c ∉ s) : strrchr s c = none := by
  induction s with
  | nil => rfl
  | cons x xs ih =>
    have hx : x ≠ c := fun e => h (e ▸ List.mem_cons_self _ _)
    simp [strrchr, ih (fun hc => h (List.mem_cons_of_mem _ hc)), hx]

/-- The last occurrence: the text behind it holds the character no more. -/
theorem strrchr_append (c : Char) (stem ext : List Char) (h : c ∉ ext) :
    strrchr (stem ++ c :: ext) c = some stem.length := by
  induction stem with
  | nil => simp [strrchr, strrchr_none c ext h]
  | cons x xs ih => simp [strrchr, ih]

theorem strrchr_some (c : Char) (s : List Char) :
    ∀ p, strrchr s c = some p →
      ∃ stem ext, s = stem ++ c :: ext ∧ c ∉ ext ∧ stem.length = p := by
  induction s with
  | nil => intro p h; simp [strrchr] at h
  | cons x xs ih =>
    intro p h
    simp only [strrchr] at h
    cases hr : strrchr xs c with
    | some i =>
      rw [hr] at h
      obtain ⟨stem, ext, e, hn, hl⟩ := ih i hr
      simp only [Option.some.injEq] at h
      exact ⟨x :: stem, ext, by rw [e]; rfl, hn, by simp [hl, h]⟩
    | none =>
      rw [hr] at h
      by_cases hx : x = c
      · simp only [hx, if_true, Option.some.injEq] at h
        refine ⟨[], xs, by rw [hx]; rfl, ?_, by simpa using h⟩
        intro hc
        obtain ⟨a, b, e⟩ := List.append_of_mem hc
        have hrec : ∀ (a : List Char), strrchr (a ++ c :: b) c ≠ none := by
          intro a
          induction a with
          | nil =>
            simp only [List.nil_append, strrchr]
            cases strrchr b c <;> simp
          | cons y ys ih2 =>
            simp only [List.cons_append, strrchr]
            cases h3 : strrchr (ys ++ c :: b) c with
            | some _ => simp
            | none => exact absurd h3 ih2
        rw [e] at hr
        exact hrec a hr
      · simp [hx] at h

theorem toupper_eq (c : Char) (k : Nat) (hk1 : 65 ≤ k) (hk2 : k ≤ 90) :
    toupper c = Char.ofNat k ↔ c = Char.ofNat k ∨ c = Char.ofNat (k + 32) := by
  unfold toupper
  have hc : c = Char.ofNat c.toNat := (Char.ofNat_toNat c).symm
  by_cases h : 97 ≤ c.toNat ∧ c.toNat ≤ 122
  · rw [if_pos h]
    obtain ⟨h1, h2⟩ := h
    generalize c.toNat = n at hc h1 h2
    subst hc
    constructor
    · intro e
      right
      have : n - 32 = k := by
        interval_cases n <;> interval_cases k <;> first | rfl | (exact absurd e (by decide))
      congr 1
      omega
    · rintro (e | e)
      · exfalso
        interval_cases n <;> interval_cases k <;> exact absurd e (by decide)
      · have : n = k + 32 := by
          interval_cases n <;> interval_cases k <;> first | rfl | (exact absurd e (by decide))
        subst this
        simp
  · rw [if_neg h]
    constructor
    · exact fun e => Or.inl e
    · rintro (e | e)
      · exact e
      · exfalso
        apply h
        rw [e]
        interval_cases k <;> decide

end FileNames
section FileNameForms

theorem getD_stem_ext (stem ext : List Char) (k : Nat) :
    (stem ++ '.' :: ext).getD (stem.length + (k + 1)) NUL = ext.getD k NUL := by
  rw [List.getD_append_right _ _ _ _ (by omega)]
  have : stem.length + (k + 1) - stem.length = k + 1 := by omega
  rw [this, List.getD_cons_succ]

theorem drop_stem_ext (stem ext rest : List Char) :
    (stem ++ '.' :: ext ++ rest).drop (stem.length + 1) = ext ++ rest := by
  rw [List.append_assoc, List.drop_append]
  rfl

theorem take_stem_ext (stem ext : List Char) :
    (stem ++ '.' :: ext).take (stem.length + 1) = stem ++ ['.'] := by
  rw [List.take_append]
  rfl

theorem set_stem_ext (stem : List Char) (a b c d : Char) :
    (stem ++ '.' :: [a, b, c]).set (stem.length + 3) d = stem ++ '.' :: [a, b, d] := by
  rw [List.set_append_right _ _ (by omega)]
  have : stem.length + 3 - stem.length = 3 := by omega
  rw [this]
  rfl

/-- The name part of the compressor's `parse_args` on a name whose last
extension has three characters. -/
theorem parse_args_outfile_ext (stem : List Char) (a b c : Char)
    (hnul : NUL ∉ stem ++ '.' :: [a, b, c]) (hdot : '.' ∉ [a, b, c])
    (hlen : (stem ++ '.' :: [a, b, c]).length < MAXCLM) :
    rnx2crx.parse_args_outfile (stem ++ '.' :: [a, b, c]) =
      if toupper c ≠ 'O' ∧ [a, b, c] ≠ "RNX".toList ∧ [a, b, c] ≠ "rnx".toList then
        crx2rnx.Ending.error_exit 4
      else if c = 'o' then crx2rnx.Ending.ok (stem ++ '.' :: [a, b, 'd'])
      else if c = 'O' then crx2rnx.Ending.ok (stem ++ '.' :: [a, b, 'D'])
      else if [a, b, c] = "rnx".toList then crx2rnx.Ending.ok (stem ++ ".crx".toList)
      else if [a, b, c] = "RNX".toList then crx2rnx.Ending.ok (stem ++ ".CRX".toList)
      else crx2rnx.Ending.ok (stem ++ '.' :: [a, b, c]) := by
  have hext : NUL ∉ [a, b, c] := fun h =>
    hnul (List.mem_append_right _ (List.mem_cons_of_mem _ h))
  unfold rnx2crx.parse_args_outfile
  dsimp only
  rw [strncpy_short _ hlen, c_string_append_nul _ _ hnul, if_neg (by omega),
    strrchr_append '.' stem [a, b, c] hdot]
  dsimp only
  rw [getD_append_nul, getD_append_nul, getD_stem_ext stem [a, b, c] 3,
    getD_stem_ext stem [a, b, c] 2, drop_stem_ext, c_string_append_nul _ _ hext,
    set_stem_ext, set_stem_ext,
    List.drop_append, take_stem_ext]
  simp only [List.getD_cons_succ, List.getD_cons_zero, List.getD_nil, ne_eq, not_true_eq_false,
    false_or, List.drop_succ_cons, List.drop_zero, List.append_assoc, List.singleton_append]
  rfl

/-- The name part of the decompressor's `fileopen` on a name whose last
extension has three characters. -/
theorem fileopen_outfile_ext (stem : List Char) (a b c : Char)
    (hnul : NUL ∉ stem ++ '.' :: [a, b, c]) (hdot : '.' ∉ [a, b, c])
    (hlen : (stem ++ '.' :: [a, b, c]).length < MAXCLM) :
    crx2rnx.fileopen_outfile (stem ++ '.' :: [a, b, c]) =
      if toupper c ≠ 'D' ∧ [a, b, c] ≠ "CRX".toList ∧ [a, b, c] ≠ "crx".toList then
        crx2rnx.Ending.error_exit 3
      else if c = 'd' then crx2rnx.Ending.ok (stem ++ '.' :: [a, b, 'o'])
      else if c = 'D' then crx2rnx.Ending.ok (stem ++ '.' :: [a, b, 'O'])
      else if [a, b, c] = "crx".toList then crx2rnx.Ending.ok (stem ++ ".rnx".toList)
      else if [a, b, c] = "CRX".toList then crx2rnx.Ending.ok (stem ++ ".RNX".toList)
      else crx2rnx.Ending.ok (stem ++ '.' :: [a, b, c]) := by
  have hext : NUL ∉ [a, b, c] := fun h =>
    hnul (List.mem_append_right _ (List.mem_cons_of_mem _ h))
  unfold crx2rnx.fileopen_outfile
  dsimp only
  rw [strncpy_short _ hlen, c_string_append_nul _ _ hnul, if_neg (by omega),
    strrchr_append '.' stem [a, b, c] hdot]
  dsimp only
  rw [getD_append_nul, getD_append_nul, getD_stem_ext stem [a, b, c] 3,
    getD_stem_ext stem [a, b, c] 2, drop_stem_ext, c_string_append_nul _ _ hext,
    set_stem_ext, set_stem_ext,
    List.drop_append, take_stem_ext]
  simp only [List.getD_cons_succ, List.getD_cons_zero, List.getD_nil, ne_eq, not_true_eq_false,
    false_or, List.drop_succ_cons, List.drop_zero, List.append_assoc, List.singleton_append]
  rfl

end FileNameForms
section FileNameClaim

/-- C31: for a file name `arg` (a C string shorter than `MAXCLM`) whose text
behind the last `.` has three characters `a b c` and ends in `o` or `O`, or is
exactly `rnx` or `RNX`, the compressor accepts the name and derives the output
name with the same stem and the extension `a b d`, `a b D`, `crx` or `CRX`
(only the last letter or the triplet changes, in the same case); the
decompressor accepts that name and derives the original name from it.  The
compressor accepts no other name (names of at most `MAXCLM - 4` characters,
for which the tests stay inside the buffer). -/
theorem file_name_round_trip (arg : List Char) (hnul : NUL ∉ arg)
    (hlen : arg.length < MAXCLM) :
    (∀ stem a b c, arg = stem ++ '.' :: [a, b, c] → '.' ∉ [a, b, c] →
      (c = 'o' ∨ c = 'O' ∨ [a, b, c] = "rnx".toList ∨ [a, b, c] = "RNX".toList) →
      ∃ out, rnx2crx.parse_args_outfile arg = crx2rnx.Ending.ok out ∧
        out = stem ++ '.' ::
          (if c = 'o' then [a, b, 'd'] else if c = 'O' then [a, b, 'D']
            else if [a, b, c] = "rnx".toList then "crx".toList else "CRX".toList) ∧
        crx2rnx.fileopen_outfile out = crx2rnx.Ending.ok arg) ∧
    (arg.length + 4 ≤ MAXCLM → ∀ out,
      rnx2crx.parse_args_outfile arg = crx2rnx.Ending.ok out →
      ∃ stem a b c, arg = stem ++ '.' :: [a, b, c] ∧ '.' ∉ [a, b, c] ∧
        (c = 'o' ∨ c = 'O' ∨ [a, b, c] = "rnx".toList ∨ [a, b, c] = "RNX".toList)) := by
  constructor
  · intro stem a b c harg hdot hform
    subst harg
    have hstem : NUL ∉ stem := fun h => hnul (List.mem_append_left _ h)
    have hmem : ∀ x, x ∈ [a, b, c] → x ≠ NUL := by
      intro x hx e
      exact hnul (List.mem_append_right _ (List.mem_cons_of_mem _ (e ▸ hx)))
    have ha : a ≠ NUL := hmem a (by simp)
    have hb : b ≠ NUL := hmem b (by simp)
    have hda : a ≠ '.' := fun e => hdot (by simp [e])
    have hdb : b ≠ '.' := fun e => hdot (by simp [e])
    have hout : ∀ d : Char, d ≠ NUL → d ≠ '.' →
        NUL ∉ stem ++ '.' :: [a, b, d] ∧ '.' ∉ [a, b, d] ∧
        (stem ++ '.' :: [a, b, d]).length < MAXCLM := by
      intro d hd1 hd2
      refine ⟨?_, ?_, by simpa using hlen⟩
      · intro h
        rcases List.mem_append.mp h with h | h
        · exact hstem h
        · simp only [List.mem_cons, List.mem_singleton, List.not_mem_nil, or_false] at h
          rcases h with h | h | h | h
          · exact absurd h (by decide)
          · exact ha h.symm
          · exact hb h.symm
          · exact hd1 h.symm
      · intro h
        simp only [List.mem_cons, List.mem_singleton, List.not_mem_nil, or_false] at h
        rcases h with h | h | h
        · exact hda h.symm
        · exact hdb h.symm
        · exact hd2 h.symm
    rw [parse_args_outfile_ext stem a b c hnul hdot hlen]
    rcases hform with h | h | h | h
    · subst h
      obtain ⟨h1, h2, h3⟩ := hout 'd' (by decide) (by decide)
      refine ⟨stem ++ '.' :: [a, b, 'd'], ?_, ?_, ?_⟩
      · rw [if_neg (by intro hh; exact hh.1 (by decide)), if_pos rfl]
      · rw [if_pos rfl]
      · rw [fileopen_outfile_ext stem a b 'd' h1 h2 h3,
          if_neg (by intro hh; exact hh.1 (by decide)), if_pos rfl]
    · subst h
      obtain ⟨h1, h2, h3⟩ := hout 'D' (by decide) (by decide)
      refine ⟨stem ++ '.' :: [a, b, 'D'], ?_, ?_, ?_⟩
      · rw [if_neg (by intro hh; exact hh.1 (by decide)), if_neg (by decide), if_pos rfl]
      · rw [if_neg (by decide), if_pos rfl]
      · rw [fileopen_outfile_ext stem a b 'D' h1 h2 h3,
          if_neg (by intro hh; exact hh.1 (by decide)), if_neg (by decide), if_pos rfl]
    · simp only [String.toList, List.cons.injEq, and_true] at h
      obtain ⟨rfl, rfl, rfl⟩ := h
      have h1 : NUL ∉ stem ++ '.' :: ['c', 'r', 'x'] := by
        intro h
        rcases List.mem_append.mp h with h | h
        · exact hstem h
        · exact absurd h (by decide)
      have e1 : (['r', 'n', 'x'] : List Char) = "rnx".toList := rfl
      have e2 : (['c', 'r', 'x'] : List Char) = "crx".toList := rfl
      refine ⟨stem ++ '.' :: "crx".toList, ?_, ?_, ?_⟩
      · rw [if_neg (by intro hh; exact hh.2.2 rfl), if_neg (by decide), if_neg (by decide),
          if_pos e1]
        rfl
      · rw [if_neg (by decide), if_neg (by decide), if_pos e1]
      · show crx2rnx.fileopen_outfile (stem ++ '.' :: ['c', 'r', 'x']) = _
        rw [fileopen_outfile_ext stem 'c' 'r' 'x' h1 (by decide) (by simpa using hlen),
          if_neg (by intro hh; exact hh.2.2 rfl), if_neg (by decide), if_neg (by decide),
          if_pos e2]
        rfl
    · simp only [String.toList, List.cons.injEq, and_true] at h
      obtain ⟨rfl, rfl, rfl⟩ := h
      have h1 : NUL ∉ stem ++ '.' :: ['C', 'R', 'X'] := by
        intro h
        rcases List.mem_append.mp h with h | h
        · exact hstem h
        · exact absurd h (by decide)
      have e1 : (['R', 'N', 'X'] : List Char) = "RNX".toList := rfl
      have e2 : (['C', 'R', 'X'] : List Char) = "CRX".toList := rfl
      have n1 : ¬ (['R', 'N', 'X'] : List Char) = "rnx".toList := by decide
      have n2 : ¬ (['C', 'R', 'X'] : List Char) = "crx".toList := by decide
      refine ⟨stem ++ '.' :: "CRX".toList, ?_, ?_, ?_⟩
      · rw [if_neg (by intro hh; exact hh.2.1 rfl), if_neg (by decide), if_neg (by decide),
          if_neg n1, if_pos e1]
        rfl
      · rw [if_neg (by decide), if_neg (by decide), if_neg n1]
      · show crx2rnx.fileopen_outfile (stem ++ '.' :: ['C', 'R', 'X']) = _
        rw [fileopen_outfile_ext stem 'C' 'R' 'X' h1 (by decide) (by simpa using hlen),
          if_neg (by intro hh; exact hh.2.1 rfl), if_neg (by decide), if_neg (by decide),
          if_neg n2, if_pos e2]
        rfl
  · intro _ out h
    unfold rnx2crx.parse_args_outfile at h
    dsimp only at h
    rw [strncpy_short _ hlen, c_string_append_nul _ _ hnul, if_neg (by omega)] at h
    cases hp : strrchr arg '.' with
    | none =>
      rw [hp] at h
      exact absurd h (by simp)
    | some p =>
      rw [hp] at h
      dsimp only at h
      obtain ⟨stem, ext, harg, hdot, hpl⟩ := strrchr_some '.' arg p hp
      subst hpl
      have hext : NUL ∉ ext := fun hh =>
        hnul (harg ▸ List.mem_append_right _ (List.mem_cons_of_mem _ hh))
      by_cases hc : (arg ++ List.replicate (MAXCLM - arg.length) NUL).getD (stem.length + 4) NUL
            ≠ NUL ∨
          (toupper ((arg ++ List.replicate (MAXCLM - arg.length) NUL).getD
              (stem.length + 3) NUL) ≠ 'O' ∧
            c_string ((arg ++ List.replicate (MAXCLM - arg.length) NUL).drop
              (stem.length + 1)) ≠ "RNX".toList ∧
            c_string ((arg ++ List.replicate (MAXCLM - arg.length) NUL).drop
              (stem.length + 1)) ≠ "rnx".toList)
      · rw [if_pos hc] at h
        exact absurd h (by simp)
      · rw [getD_append_nul, getD_append_nul] at hc
        nth_rewrite 3 [harg] at hc
        nth_rewrite 4 [harg] at hc
        rw [harg, getD_stem_ext stem ext 3, getD_stem_ext stem ext 2, drop_stem_ext,
          c_string_append_nul _ _ hext] at hc
        push_neg at hc
        obtain ⟨h3, hform⟩ := hc
        have hl3 : ext.length ≤ 3 := by
          by_contra hgt
          have hlt : 3 < ext.length := by omega
          rw [List.getD_eq_getElem _ _ hlt] at h3
          exact hext (h3 ▸ List.getElem_mem _)
        have hcases : (ext.getD 2 NUL = 'o' ∨ ext.getD 2 NUL = 'O') ∨
            ext = "RNX".toList ∨ ext = "rnx".toList := by
          by_cases ht : toupper (ext.getD 2 NUL) = 'O'
          · left
            rcases (toupper_eq (ext.getD 2 NUL) 79 (by omega) (by omega)).mp ht with e | e
            · exact Or.inr e
            · exact Or.inl e
          · right
            by_cases hr : ext = "RNX".toList
            · exact Or.inl hr
            · exact Or.inr (hform ht hr)
        have hlen3 : ext.length = 3 := by
          rcases hcases with (e | e) | e | e
          · by_contra hne
            rw [List.getD_eq_default _ _ (by omega)] at e
            exact absurd e (by decide)
          · by_contra hne
            rw [List.getD_eq_default _ _ (by omega)] at e
            exact absurd e (by decide)
          · rw [e]; rfl
          · rw [e]; rfl
        match ext, hlen3, hdot, hcases with
        | [a, b, c], _, hdot, hcases =>
          refine ⟨stem, a, b, c, harg, hdot, ?_⟩
          rcases hcases with (e | e) | e | e
          · exact Or.inl e
          · exact Or.inr (Or.inl e)
          · exact Or.inr (Or.inr (Or.inr e))
          · exact Or.inr (Or.inr (Or.inl e))

/-- C31 at the name `site0010.17o`, with the names `site.rnx` and `SITE.RNX`
evaluated as well. -/
theorem file_name_round_trip_witness :
    (NUL ∉ "site0010.17o".toList ∧ "site0010.17o".toList.length < MAXCLM) ∧
    rnx2crx.parse_args_outfile "site0010.17o".toList =
      crx2rnx.Ending.ok "site0010.17d".toList ∧
    crx2rnx.fileopen_outfile "site0010.17d".toList =
      crx2rnx.Ending.ok "site0010.17o".toList ∧
    rnx2crx.parse_args_outfile "site.rnx".toList = crx2rnx.Ending.ok "site.crx".toList ∧
    crx2rnx.fileopen_outfile "SITE.CRX".toList = crx2rnx.Ending.ok "SITE.RNX".toList ∧
    rnx2crx.parse_args_outfile "site.Rnx".toList = crx2rnx.Ending.error_exit 4 ∧
    (∃ out, rnx2crx.parse_args_outfile "site0010.17o".toList = crx2rnx.Ending.ok out ∧
      out = "site0010".toList ++ '.' ::
        (if 'o' = 'o' then ['1', '7', 'd'] else if 'o' = 'O' then ['1', '7', 'D']
          else if ['1', '7', 'o'] = "rnx".toList then "crx".toList else "CRX".toList) ∧
      crx2rnx.fileopen_outfile out = crx2rnx.Ending.ok "site0010.17o".toList) :=
  ⟨⟨by decide, by decide⟩, by decide, by decide, by decide, by decide, by decide,
   (file_name_round_trip "site0010.17o".toList (by decide) (by decide)).1
    "site0010".toList '1' '7' 'o' rfl (by decide) (Or.inl rfl)⟩

end FileNameClaim
section ClockPrintSlip

/-- C37 (the code at the failing input): for a negative value whose lower
eight digits are zero, `print_clock` gives the additional digit the sign of
`yl = 0`, so the last digit taken from `yu` comes out one lower.  The pair
`(-11, 0)` with shift 1, the value `-1.100000000`, is written
`-1.000000000`; the pair `(-1, 0)`, the value `-0.100000000`, is written
` -.000000000`; the pair `(-100, 0)`, the value `-10.000000000` whose sign and
integer digits need three characters, is written `-9.900000000` without the
out-of-range error, which the neighbouring pair `(-100, -1)` raises.  The
RINEX 2 clock field `-1.100000000` comes back from compression and
decompression as `-1.000000000`. -/
theorem print_clock_negative_slip :
    crx2rnx.print_clock false 0 (-11) 0 1 =
      crx2rnx.Ending.ok ("-1.000000000\n".toList, 0) ∧
    crx2rnx.print_clock false 0 (-1) 0 1 =
      crx2rnx.Ending.ok (" -.000000000\n".toList, 0) ∧
    crx2rnx.print_clock false 0 (-100) 0 1 =
      crx2rnx.Ending.ok ("-9.900000000\n".toList, 0) ∧
    crx2rnx.print_clock false 0 (-100) (-1) 1 = crx2rnx.Ending.error_exit 17 ∧
    crx2rnx.print_clock false 0 (-11) (-1) 1 =
      crx2rnx.Ending.ok ("-1.100000001\n".toList, 0) ∧
    crx2rnx.print_clock false 0 (-11234) 0 4 =
      crx2rnx.Ending.ok ("-1.123300000000\n".toList, 0) ∧
    clock_round_trip 1 "-1.100000000".toList =
      crx2rnx.Ending.ok (some "-1.000000000\n".toList) := by
  decide

end ClockPrintSlip
section EventReinit

/-- The epoch line written against the initialized `oldline`: the line
itself, its first character marked `&` when it is a blank. -/
theorem strdiff_initialized (c : Char) (rest : List Char) :
    rnx2crx.strdiff (rnx2crx.initialize_all 0).oldline (c :: rest) [] =
      chop_blank ((if c = '&' then ' ' else if c = ' ' then '&' else c) :: rest) ++ ['\n'] := by
  unfold rnx2crx.strdiff rnx2crx.initialize_all
  simp only [rnx2crx.strdiff_body, rnx2crx.strdiff_char, List.nil_append]

/-- With no satellite in the previous list every entry of the table is `-1`. -/
theorem set_sat_table_all_new (skip : Bool) (nsat : Nat) (p_new p_old : List Char)
    (t : List Int)
    (h : rnx2crx.set_sat_table skip nsat p_new p_old 0 = crx2rnx.Ending.ok t) :
    ∀ i, i < nsat → t[i]? = some (-1) := by
  obtain ⟨_, hi⟩ := set_sat_table_loop_ok skip p_old 0 nsat p_new t h
  intro i hlt
  rw [hi i hlt]
  rfl

/-- The clock line of the first epoch after an initialization with counter 0,
whatever the option `-e`: the reset does not fire and the offset is written
with the mark `3&`. -/
theorem main_clock_after_init (ep_reset : Int) (pad : Nat) (neg : Bool) (ip fa fb : List Char)
    (clk1 clk0 : rnx2crx.clock_format)
    (hshape : pad + (if neg then 1 else 0) + ip.length = 2)
    (hip : ∀ x ∈ ip, isdigit x = true)
    (hfa : ∀ x ∈ fa, isdigit x = true) (hfa0 : fa ≠ [])
    (hfb : ∀ x ∈ fb, isdigit x = true) (hlen : fb.length = 8) :
    ∃ st1 c1,
      rnx2crx.main_clock ep_reset fa.length (clock_field pad neg ip fa fb)
          (rnx2crx.initialize_all 0) clk1 clk0 =
        crx2rnx.Ending.ok
          (st1, c1, ['3', '&'] ++ (fmt_ld (clock_field_value neg ip fa fb) ++ ['\n'])) ∧
      st1.clk_order = 0 := by
  have hfb0 : fb ≠ [] := by
    intro h
    rw [h] at hlen
    simp at hlen
  have hne : clock_field pad neg ip fa fb ≠ [] := by
    unfold clock_field
    simp
  have hv := clock_field_value_split neg ip fa fb hip hfa hfb hlen
  have hreset : ∃ n : Int, rnx2crx.main_ep_reset ep_reset
      { oldline := ['&'], nsat_old := 0, clk_order := 0, ep_count := 0 } =
      { oldline := ['&'], nsat_old := 0, clk_order := 0, ep_count := n } := by
    unfold rnx2crx.main_ep_reset
    by_cases h : ep_reset > 0
    · rw [if_pos h, if_neg (by dsimp only; omega)]
      exact ⟨_, rfl⟩
    · rw [if_neg h]
      exact ⟨_, rfl⟩
  obtain ⟨n, hn⟩ := hreset
  refine ⟨{ oldline := ['&'], nsat_old := 0, clk_order := 0, ep_count := n },
    { u := setAt clk1.u 0 ((if neg then -1 else 1) * (atol_digits (ip ++ fa) 0 : Int)),
      l := setAt clk1.l 0 ((if neg then -1 else 1) * (atol_digits fb 0 : Int)) }, ?_, rfl⟩
  unfold rnx2crx.main_clock
  rw [if_pos hne, read_clock_field pad neg ip fa fb _ _ hshape hip hfa hfa0 hfb hfb0]
  have h0 : (if (rnx2crx.initialize_all 0).clk_order < 3 then
      (rnx2crx.initialize_all 0).clk_order + 1 else (rnx2crx.initialize_all 0).clk_order) = 0 := by
    decide
  rw [h0]
  have hst : ({ rnx2crx.initialize_all 0 with clk_order := 0 } : rnx2crx.epoch_state) =
      { oldline := ['&'], nsat_old := 0, clk_order := 0, ep_count := 0 } := rfl
  dsimp only
  rw [hst, hn]
  generalize (if neg then -1 else 1) * (atol_digits (ip ++ fa) 0 : Int) = U at hv ⊢
  generalize (if neg then -1 else 1) * (atol_digits fb 0 : Int) = L at hv ⊢
  dsimp only
  rw [if_pos (by decide), if_neg (by decide), put_clock_eq_fmt_ld]
  simp only [Int.toNat_zero, setAt_same, if_true]
  rw [hv]

end EventReinit

section EventReinitClaim

open rnx2crx in
/-- C36: after the compressor has passed an event record through (event flag
above 1), the state the next observation epoch arrives with is that of
`initialize_all(oldline,&nsat_old,0)`, whatever it was before.  The epoch line
is then written without differencing: the line itself with its trailing blanks
cut, its first character written `&` for RINEX 2 (where it is a blank) and `>`
for RINEX 3.  Every entry of the table `set_sat_table` returns is `-1`, and a
non-blank field of a satellite with that entry is written `3&` followed by its
value.  A clock offset on the epoch line is written `3&` followed by its
value, whatever the option `-e`. -/
theorem event_reinitialization (st0 : epoch_state) (ep_reset : Int) (rest : List Char)
    (skip : Bool) (nsat : Nat) (p_new p_old : List Char)
    (pad : Nat) (neg : Bool) (ip fa fb : List Char) (clk1 clk0 : clock_format)
    (hshape : pad + (if neg then 1 else 0) + ip.length = 2)
    (hip : ∀ x ∈ ip, isdigit x = true)
    (hfa : ∀ x ∈ fa, isdigit x = true) (hfa0 : fa ≠ [])
    (hfb : ∀ x ∈ fb, isdigit x = true) (hlen : fb.length = 8) :
    main_event st0 = initialize_all 0 ∧
    strdiff (main_event st0).oldline (' ' :: rest) [] = chop_blank ('&' :: rest) ++ ['\n'] ∧
    strdiff (main_event st0).oldline ('>' :: rest) [] = chop_blank ('>' :: rest) ++ ['\n'] ∧
    (∀ t, set_sat_table skip nsat p_new p_old (main_event st0).nsat_old = crx2rnx.Ending.ok t →
      ∀ i, i < nsat → ∃ e, t[i]? = some e ∧ e = -1 ∧
        ∀ py0 py1 : data_format, (data_field e py0 py1).2 =
          ['3', '&'] ++ canonical_decimal (py1.u 0 * 100000 + py1.l 0)) ∧
    ∃ st1 c1,
      main_clock ep_reset fa.length (clock_field pad neg ip fa fb) (main_event st0) clk1 clk0 =
        crx2rnx.Ending.ok
          (st1, c1, ['3', '&'] ++ (fmt_ld (clock_field_value neg ip fa fb) ++ ['\n'])) := by
  refine ⟨rfl, ?_, ?_, ?_, ?_⟩
  · exact (strdiff_initialized ' ' rest).trans (by simp)
  · exact (strdiff_initialized '>' rest).trans (by simp)
  · intro t ht i hi
    refine ⟨-1, set_sat_table_all_new skip nsat p_new p_old t ht i hi, rfl, ?_⟩
    intro py0 py1
    rw [data_field_init_text (-1) py0 py1 (Or.inl (by decide))]
  · obtain ⟨st1, c1, h, _⟩ := main_clock_after_init ep_reset pad neg ip fa fb clk1 clk0
      hshape hip hfa hfa0 hfb hlen
    exact ⟨st1, c1, h⟩

open rnx2crx in
/-- C36 at a sample epoch that follows an event record, with `-e 5`: the
epoch line, the table for two satellites and the clock offset ` 0.123456789`. -/
theorem event_reinitialization_witness :
    strdiff (main_event (ep_run 5 3)).oldline " 05  3 24 13 10 36.0000000  0  2G12G09".toList [] =
      "&05  3 24 13 10 36.0000000  0  2G12G09\n".toList ∧
    set_sat_table false 2 "G12G09".toList "G12G09".toList (main_event (ep_run 5 3)).nsat_old =
      crx2rnx.Ending.ok [-1, -1] ∧
    (main_event (ep_run 5 3) = initialize_all 0 ∧
      strdiff (main_event (ep_run 5 3)).oldline
          (' ' :: "05  3 24 13 10 36.0000000  0  2G12G09".toList) [] =
        chop_blank ('&' :: "05  3 24 13 10 36.0000000  0  2G12G09".toList) ++ ['\n'] ∧
      strdiff (main_event (ep_run 5 3)).oldline
          ('>' :: "05  3 24 13 10 36.0000000  0  2G12G09".toList) [] =
        chop_blank ('>' :: "05  3 24 13 10 36.0000000  0  2G12G09".toList) ++ ['\n'] ∧
      (∀ t, set_sat_table false 2 "G12G09".toList "G12G09".toList
            (main_event (ep_run 5 3)).nsat_old = crx2rnx.Ending.ok t →
        ∀ i, i < 2 → ∃ e, t[i]? = some e ∧ e = -1 ∧
          ∀ py0 py1 : data_format, (data_field e py0 py1).2 =
            ['3', '&'] ++ canonical_decimal (py1.u 0 * 100000 + py1.l 0)) ∧
      ∃ st1 c1,
        main_clock 5 ['1'].length (clock_field 1 false ['0'] ['1'] "23456789".toList)
            (main_event (ep_run 5 3)) { u := fun _ => 0, l := fun _ => 0 }
            { u := fun _ => 0, l := fun _ => 0 } =
          crx2rnx.Ending.ok
            (st1, c1, ['3', '&'] ++
              (fmt_ld (clock_field_value false ['0'] ['1'] "23456789".toList) ++ ['\n']))) ∧
    (∃ st1 c1,
      main_clock 5 1 " 0.123456789".toList (main_event (ep_run 5 3))
          { u := fun _ => 0, l := fun _ => 0 } { u := fun _ => 0, l := fun _ => 0 } =
        crx2rnx.Ending.ok (st1, c1, "3&123456789\n".toList)) :=
  ⟨by decide, by decide,
   event_reinitialization (ep_run 5 3) 5 "05  3 24 13 10 36.0000000  0  2G12G09".toList false 2
    "G12G09".toList "G12G09".toList 1 false ['0'] ['1'] "23456789".toList
    { u := fun _ => 0, l := fun _ => 0 } { u := fun _ => 0, l := fun _ => 0 }
    (by decide) (by decide) (by decide) (by decide) (by decide) (by decide),
   ⟨_, _, rfl⟩⟩

end EventReinitClaim
section ContinuationLines

theorem sprintf_s_before (mem : Nat → Char) (off : Nat) (s : List Char) (i : Nat)
    (h : i < off) : sprintf_s mem off s i = mem i := by
  unfold sprintf_s
  rw [if_pos h]

theorem sprintf_s_text (mem : Nat → Char) (off : Nat) (s : List Char) (i : Nat)
    (h : i < s.length) : sprintf_s mem off s (off + i) = s.getD i NUL := by
  unfold sprintf_s
  rw [if_neg (by omega), if_pos (by omega), Nat.add_sub_cancel_left]

/-- The loop of `read_more_sat` takes `K` turns when `12 K < n <= 12 K + 12`,
`K >= 1`: it reads `K` lines and stores the text of the `k`-th of them from
offset `36 (k + 1)` behind `p` on. -/
theorem read_more_sat_run (skip : Bool) (K : Nat) :
    ∀ (fuel : Nat) (n : Int) (off : Nat) (lines : List (Option (List Char × List Char)))
      (mem : Nat → Char),
      K + 1 ≤ fuel → 12 * ((K : Int) + 1) < n → n ≤ 12 * ((K : Int) + 1) + 12 →
      (∀ k, k < K + 1 → ∃ l s, lines[k]? = some (some (l, s))) →
      ∃ mem1, rnx2crx.read_more_sat fuel skip n off lines mem =
          crx2rnx.Ending.ok (mem1, lines.drop (K + 1), 0) ∧
        (∀ i, i < off + 36 → mem1 i = mem i) ∧
        ∀ k l s, k < K + 1 → lines[k]? = some (some (l, s)) →
          ∀ i, i < 36 → i < (rnx2crx.more_sat_text l s).length →
            mem1 (off + 36 * (k + 1) + i) = (rnx2crx.more_sat_text l s).getD i NUL := by
  induction K with
  | zero =>
    intro fuel n off lines mem hf h1 h2 hl
    obtain ⟨fuel, rfl⟩ : ∃ f, fuel = f + 1 := ⟨fuel - 1, by omega⟩
    obtain ⟨l, s, h0⟩ := hl 0 (by omega)
    cases lines with
    | nil => simp at h0
    | cons x rest =>
      simp only [List.getElem?_cons_zero, Option.some.injEq] at h0
      subst h0
      refine ⟨sprintf_s mem (off + 36) (rnx2crx.more_sat_text l s), ?_, ?_, ?_⟩
      · simp only [rnx2crx.read_more_sat]
        rw [if_neg (by omega)]
        rfl
      · intro i hi
        exact sprintf_s_before _ _ _ _ hi
      · intro k l1 s1 hk hk1 i _ hi
        have hk0 : k = 0 := by omega
        subst hk0
        simp only [List.getElem?_cons_zero, Option.some.injEq, Prod.mk.injEq] at hk1
        obtain ⟨rfl, rfl⟩ := hk1
        have e : off + 36 * (0 + 1) + i = off + 36 + i := by omega
        rw [e]
        exact sprintf_s_text _ _ _ _ hi
  | succ K ih =>
    intro fuel n off lines mem hf h1 h2 hl
    obtain ⟨fuel, rfl⟩ : ∃ f, fuel = f + 1 := ⟨fuel - 1, by omega⟩
    obtain ⟨l, s, h0⟩ := hl 0 (by omega)
    cases lines with
    | nil => simp at h0
    | cons x rest =>
      simp only [List.getElem?_cons_zero, Option.some.injEq] at h0
      subst h0
      push_cast at h1 h2
      obtain ⟨mem1, e1, e2, e3⟩ := ih fuel (n - 12) (off + 36) rest
        (sprintf_s mem (off + 36) (rnx2crx.more_sat_text l s)) (by omega) (by omega) (by omega)
        (by
          intro k hk
          have := hl (k + 1) (by omega)
          simpa using this)
      refine ⟨mem1, ?_, ?_, ?_⟩
      · simp only [rnx2crx.read_more_sat]
        rw [if_pos (by omega), e1]
        rfl
      · intro i hi
        rw [e2 i (by omega)]
        exact sprintf_s_before _ _ _ _ hi
      · intro k l1 s1 hk hk1 i hi36 hi
        cases k with
        | zero =>
          simp only [List.getElem?_cons_zero, Option.some.injEq, Prod.mk.injEq] at hk1
          obtain ⟨rfl, rfl⟩ := hk1
          have e : off + 36 * (0 + 1) + i = off + 36 + i := by omega
          rw [e, e2 _ (by omega)]
          exact sprintf_s_text _ _ _ _ hi
        | succ k =>
          rw [List.getElem?_cons_succ] at hk1
          have := e3 k l1 s1 (by omega) hk1 i hi36 hi
          have e : off + 36 * (k + 1 + 1) + i = off + 36 + 36 * (k + 1) + i := by omega
          rw [e]
          exact this

/-- The text `read_more_sat` takes from a continuation line in the format of
32 blanks followed by the satellite IDs: the IDs. -/
theorem more_sat_text_indent (ids stale : List Char) (hnul : NUL ∉ ids) :
    rnx2crx.more_sat_text (List.replicate 32 ' ' ++ ids) stale = ids := by
  unfold rnx2crx.more_sat_text mem_from
  have h2 : ((List.replicate 32 ' ' ++ ids ++ NUL :: stale).drop 2).headD NUL = ' ' := by
    simp [List.replicate_succ]
  have h32 : (List.replicate 32 ' ' ++ ids ++ NUL :: stale).drop 32 = ids ++ NUL :: stale := by
    rw [List.append_assoc]
    exact List.drop_left' (by simp)
  rw [if_pos h2, h32]
  unfold c_string
  apply takeWhile_append_stop
  · intro x hx
    have : x ≠ NUL := fun e => hnul (e ▸ hx)
    simpa using this
  · simp

/-- The loop that writes the continuation lines takes `K` turns when
`12 (K - 1) < n <= 12 K`. -/
theorem continuation_loop_run (line stale : List Char) (K : Nat) :
    ∀ (fuel off : Nat) (n : Int), K ≤ fuel → 12 * ((K : Int) - 1) < n → n ≤ 12 * (K : Int) →
      crx2rnx.continuation_loop line stale fuel off n =
        (List.range K).map (fun k =>
          List.replicate 32 ' ' ++ (c_string (mem_from line stale (off + 36 * k))).take 36 ++
            ['\n']) := by
  induction K with
  | zero =>
    intro fuel off n _ _ h2
    cases fuel with
    | zero => rfl
    | succ fuel =>
      simp only [crx2rnx.continuation_loop]
      rw [if_neg (by push_cast at h2; omega)]
      rfl
  | succ K ih =>
    intro fuel off n hf h1 h2
    obtain ⟨fuel, rfl⟩ : ∃ f, fuel = f + 1 := ⟨fuel - 1, by omega⟩
    push_cast at h1 h2
    simp only [crx2rnx.continuation_loop]
    rw [if_pos (by omega), ih fuel (off + 36) (n - 12) (by omega) (by omega) (by omega),
      List.range_succ_eq_map, List.map_cons, List.map_map]
    congr 1
    apply List.map_congr_left
    intro k _
    simp only [Function.comp, Nat.mul_zero, Nat.add_zero]
    have e : off + 36 + 36 * k = off + 36 * (k + 1) := by omega
    rw [e]

/-- Inside the line the text printed with `%.36s` is the part of the line. -/
theorem c_string_mem_from (line stale : List Char) (off : Nat) (hnul : NUL ∉ line)
    (hoff : off ≤ line.length) :
    c_string (mem_from line stale off) = line.drop off := by
  unfold mem_from c_string
  rw [List.drop_append_of_le_length hoff]
  apply takeWhile_append_stop
  · intro x hx
    have : x ≠ NUL := fun e => hnul (e ▸ List.mem_of_mem_drop hx)
    simpa using this
  · simp

end ContinuationLines
section ContinuationLinesClaim

open rnx2crx crx2rnx in
/-- C34: continuation lines of a RINEX 2 epoch with `nsat > 12` satellites,
`K = ceil(nsat/12) - 1`.  The compressor's `read_more_sat`, given `K` lines
that end with a line feed, reads exactly these `K` lines and returns 0; it
leaves the first 12 IDs as they are and stores the text of the `k`-th line
(the IDs behind the 32 blanks) from offset `36 (k + 1)` of the satellite list
on, that is right behind the IDs before it.  The decompressor, for an epoch
line that holds the `nsat` IDs from column 32 on, writes exactly `K`
continuation lines, the `k`-th made of 32 blanks, the next `min(12, nsat -
12 (k + 1))` IDs and a line feed.  For a count of 12 or less the compressor
reads no line and the decompressor writes none. -/
theorem continuation_lines_rinex2 (nsat : Nat) (skip : Bool)
    (lines : List (Option (List Char × List Char))) (mem : Nat → Char)
    (line stale : List Char) (h12 : 12 < nsat)
    (hlines : ∀ k, k < (nsat + 11) / 12 - 1 → ∃ l s, lines[k]? = some (some (l, s)))
    (hnul : NUL ∉ line) (hlen : line.length = 32 + 3 * nsat) :
    (∃ mem1, main_more_sat 2 skip nsat lines mem =
        Ending.ok (mem1, lines.drop ((nsat + 11) / 12 - 1), 0) ∧
      (∀ i, i < 36 → mem1 i = mem i) ∧
      ∀ k l s, k < (nsat + 11) / 12 - 1 → lines[k]? = some (some (l, s)) →
        ∀ i, i < 36 → i < (more_sat_text l s).length →
          mem1 (36 * (k + 1) + i) = (more_sat_text l s).getD i NUL) ∧
    (∀ ids st, NUL ∉ ids → more_sat_text (List.replicate 32 ' ' ++ ids) st = ids) ∧
    (continuation_lines line stale nsat).length = (nsat + 11) / 12 - 1 ∧
    (∀ k, k < (nsat + 11) / 12 - 1 →
      (continuation_lines line stale nsat)[k]? =
        some (List.replicate 32 ' ' ++ (line.drop (32 + 36 * (k + 1))).take 36 ++ ['\n']) ∧
      ((line.drop (32 + 36 * (k + 1))).take 36).length = 3 * min 12 (nsat - 12 * (k + 1))) ∧
    (∀ n rv : Int, n ≤ 12 →
      main_more_sat rv skip n lines mem = Ending.ok (mem, lines, 0) ∧
      continuation_lines line stale n = []) := by
  obtain ⟨K, hK⟩ : ∃ K, (nsat + 11) / 12 - 1 = K + 1 := ⟨(nsat + 11) / 12 - 2, by omega⟩
  rw [hK] at hlines ⊢
  have hloop : continuation_lines line stale nsat =
      (List.range (K + 1)).map (fun k =>
        List.replicate 32 ' ' ++ (c_string (mem_from line stale (68 + 36 * k))).take 36 ++
          ['\n']) := by
    unfold continuation_lines
    rw [Int.toNat_ofNat]
    exact continuation_loop_run line stale (K + 1) nsat 68 (nsat - 12) (by omega)
      (by push_cast; omega) (by push_cast; omega)
  refine ⟨?_, fun ids st h => more_sat_text_indent ids st h, ?_, ?_, ?_⟩
  · obtain ⟨mem1, e1, e2, e3⟩ := read_more_sat_run skip K nsat nsat 0 lines mem (by omega)
      (by omega) (by omega) hlines
    refine ⟨mem1, ?_, ?_, ?_⟩
    · unfold main_more_sat
      rw [if_pos ⟨by omega, rfl⟩, Int.toNat_ofNat]
      exact e1
    · intro i hi
      exact e2 i (by omega)
    · intro k l s hk hl i hi36 hi
      have := e3 k l s hk hl i hi36 hi
      rw [Nat.zero_add] at this
      exact this
  · rw [hloop, List.length_map, List.length_range]
  · intro k hk
    constructor
    · rw [hloop, List.getElem?_map, List.getElem?_range hk, Option.map_some',
        c_string_mem_from line stale _ hnul (by omega)]
      have e : 68 + 36 * k = 32 + 36 * (k + 1) := by omega
      rw [e]
    · rw [List.length_take, List.length_drop, hlen]
      omega
  · intro n rv hn
    constructor
    · unfold main_more_sat
      rw [if_neg (by omega)]
    · unfold continuation_lines
      cases n.toNat with
      | zero => rfl
      | succ f =>
        simp only [continuation_loop]
        rw [if_neg (by omega)]

open rnx2crx crx2rnx in
/-- C34 at the sample epoch of 13 satellites: one continuation line is read,
its ID `G13` stored at offset 36 of the satellite list, and one continuation
line is written. -/
theorem continuation_lines_rinex2_witness :
    (∃ r, main_more_sat 2 false 13 sample_more_sat
        (fun i => "G01G02G03G04G05G06G07G08G09G10G11G12".toList.getD i NUL) = Ending.ok r ∧
      r.2 = ([], 0) ∧
      (List.range 40).map r.1 = "G01G02G03G04G05G06G07G08G09G10G11G12G13".toList ++ [NUL]) ∧
    continuation_lines sample_line13 [] 13 =
      ["                                G13\n".toList] ∧
    ((∃ mem1, main_more_sat 2 false (13 : Nat) sample_more_sat
          (fun i => "G01G02G03G04G05G06G07G08G09G10G11G12".toList.getD i NUL) =
          Ending.ok (mem1, sample_more_sat.drop ((13 + 11) / 12 - 1), 0) ∧
        (∀ i, i < 36 →
          mem1 i = "G01G02G03G04G05G06G07G08G09G10G11G12".toList.getD i NUL) ∧
        ∀ k l s, k < (13 + 11) / 12 - 1 → sample_more_sat[k]? = some (some (l, s)) →
          ∀ i, i < 36 → i < (more_sat_text l s).length →
            mem1 (36 * (k + 1) + i) = (more_sat_text l s).getD i NUL) ∧
      (∀ ids st, NUL ∉ ids → more_sat_text (List.replicate 32 ' ' ++ ids) st = ids) ∧
      (continuation_lines sample_line13 [] (13 : Nat)).length = (13 + 11) / 12 - 1 ∧
      (∀ k, k < (13 + 11) / 12 - 1 →
        (continuation_lines sample_line13 [] (13 : Nat))[k]? =
          some (List.replicate 32 ' ' ++ (sample_line13.drop (32 + 36 * (k + 1))).take 36 ++
            ['\n']) ∧
        ((sample_line13.drop (32 + 36 * (k + 1))).take 36).length =
          3 * min 12 (13 - 12 * (k + 1))) ∧
      (∀ n rv : Int, n ≤ 12 →
        main_more_sat rv false n sample_more_sat
            (fun i => "G01G02G03G04G05G06G07G08G09G10G11G12".toList.getD i NUL) =
          Ending.ok (fun i => "G01G02G03G04G05G06G07G08G09G10G11G12".toList.getD i NUL,
            sample_more_sat, 0) ∧
        continuation_lines sample_line13 [] n = [])) :=
  ⟨⟨_, rfl, rfl, by decide⟩, by decide,
   continuation_lines_rinex2 13 false sample_more_sat
    (fun i => "G01G02G03G04G05G06G07G08G09G10G11G12".toList.getD i NUL) sample_line13 []
    (by decide)
    (by
      intro k hk
      have hk0 : k = 0 := by omega
      subst hk0
      exact ⟨_, _, rfl⟩)
    (by decide) (by decide)⟩

end ContinuationLinesClaim
section RecordSplit

theorem chop_blank_append_cases (A B : List Char) :
    chop_blank (A ++ B) = if chop_blank B = [] then chop_blank A else A ++ chop_blank B := by
  induction A with
  | nil =>
    by_cases h : chop_blank B = []
    · rw [if_pos h, List.nil_append, h, chop_blank_nil]
    · rw [if_neg h, List.nil_append, List.nil_append]
  | cons a A ih =>
    rw [List.cons_append, chop_blank_cons, ih]
    by_cases h : chop_blank B = []
    · rw [if_pos h, if_pos h, chop_blank_cons]
    · rw [if_neg h, if_neg h, if_neg (fun hh => h (List.append_eq_nil.mp hh).2)]
      rfl

theorem takeWhile_token (t rest : List Char) (ht : ' ' ∉ t) :
    (t ++ ' ' :: rest).takeWhile (fun c => c ≠ ' ') = t := by
  apply takeWhile_append_stop
  · intro x hx
    have : x ≠ ' ' := fun e => ht (e ▸ hx)
    simpa using this
  · simp

theorem dropWhile_token (t rest : List Char) (ht : ' ' ∉ t) :
    (t ++ ' ' :: rest).dropWhile (fun c => c ≠ ' ') = ' ' :: rest := by
  induction t with
  | nil => simp
  | cons a t ih =>
    have ha : a ≠ ' ' := fun e => ht (e ▸ List.mem_cons_self _ _)
    rw [List.cons_append, List.dropWhile_cons_of_pos (by simpa using ha)]
    exact ih (fun h => ht (List.mem_cons_of_mem _ h))

theorem takeWhile_no_blank (t : List Char) (ht : ' ' ∉ t) :
    t.takeWhile (fun c => c ≠ ' ') = t := by
  have := takeWhile_append_stop (fun c => decide (c ≠ ' ')) t []
    (by
      intro x hx
      have : x ≠ ' ' := fun e => ht (e ▸ hx)
      simpa using this)
    (by simp)
  rw [List.append_nil] at this
  exact this

theorem dropWhile_no_blank (t : List Char) (ht : ' ' ∉ t) :
    t.dropWhile (fun c => c ≠ ' ') = [] := by
  induction t with
  | nil => rfl
  | cons a t ih =>
    have ha : a ≠ ' ' := fun e => ht (e ▸ List.mem_cons_self _ _)
    rw [List.dropWhile_cons_of_pos (by simpa using ha)]
    exact ih (fun h => ht (List.mem_cons_of_mem _ h))

theorem chop_blank_no_blank (t : List Char) (ht : ' ' ∉ t) : chop_blank t = t := by
  apply chop_blank_of_last
  intro c hc e
  exact ht (e ▸ List.mem_of_mem_getLast? hc)

/-- The fields of an empty line are all empty, and so is the flag string. -/
theorem getdiff_split_nil (n : Nat) :
    crx2rnx.getdiff_split n [] = (List.replicate n [], []) := by
  induction n with
  | zero => rfl
  | succ n ih =>
    simp only [crx2rnx.getdiff_split, List.takeWhile_nil, List.dropWhile_nil, List.drop_nil, ih]
    rfl

/-- Fields that hold no blank, each followed by one blank, and the flag
string behind them are separated again by the loop of `getdiff`. -/
theorem getdiff_split_join (toks : List (List Char)) (fb : List Char)
    (h : ∀ t ∈ toks, ' ' ∉ t) :
    crx2rnx.getdiff_split toks.length ((toks.map (fun t => t ++ [' '])).flatten ++ fb) =
      (toks, fb) := by
  induction toks with
  | nil => rfl
  | cons t ts ih =>
    have ht := h t (List.mem_cons_self _ _)
    have e : ((t :: ts).map (fun t => t ++ [' '])).flatten ++ fb =
        t ++ ' ' :: ((ts.map (fun t => t ++ [' '])).flatten ++ fb) := by
      simp
    rw [e]
    simp only [List.length_cons, crx2rnx.getdiff_split]
    rw [takeWhile_token t _ ht, dropWhile_token t _ ht, List.drop_succ_cons, List.drop_zero,
      ih (fun x hx => h x (List.mem_cons_of_mem _ hx))]

/-- The same after the trailing blanks of the line were cut: the fields come
back, empty where they were cut away, and the flag string without its trailing
blanks. -/
theorem getdiff_split_chop (toks : List (List Char)) (fb : List Char)
    (h : ∀ t ∈ toks, ' ' ∉ t) :
    crx2rnx.getdiff_split toks.length
        (chop_blank ((toks.map (fun t => t ++ [' '])).flatten ++ fb)) =
      (toks, chop_blank fb) := by
  induction toks with
  | nil => rfl
  | cons t ts ih =>
    have ht := h t (List.mem_cons_self _ _)
    have ih1 := ih (fun x hx => h x (List.mem_cons_of_mem _ hx))
    have e : ((t :: ts).map (fun t => t ++ [' '])).flatten ++ fb =
        t ++ ' ' :: ((ts.map (fun t => t ++ [' '])).flatten ++ fb) := by
      simp
    rw [e]
    generalize (ts.map (fun t => t ++ [' '])).flatten ++ fb = R at ih1 ⊢
    have hc : chop_blank (t ++ ' ' :: R) =
        if chop_blank R = [] then t else t ++ ' ' :: chop_blank R := by
      rw [chop_blank_append_cases t (' ' :: R), chop_blank_cons]
      by_cases hR : chop_blank R = []
      · simp [hR, chop_blank_no_blank t ht]
      · simp [hR]
    rw [hc]
    simp only [List.length_cons, crx2rnx.getdiff_split]
    by_cases hR : chop_blank R = []
    · rw [if_pos hR, takeWhile_no_blank t ht, dropWhile_no_blank t ht, List.drop_nil]
      rw [hR] at ih1
      rw [ih1]
    · rw [if_neg hR, takeWhile_token t _ ht, dropWhile_token t _ ht,
        List.drop_succ_cons, List.drop_zero, ih1]

end RecordSplit
section RecordLine

/-- The text of a non-blank field: the decimal of a number, behind the mark
`3&` when the arc is initialized. -/
theorem data_field_text_form (i0 : Int) (py0 py1 : rnx2crx.data_format) :
    ∃ x, (rnx2crx.data_field i0 py0 py1).2 = fmt_ld x ∨
      (rnx2crx.data_field i0 py0 py1).2 = ['3', '&'] ++ fmt_ld x := by
  unfold rnx2crx.data_field
  by_cases h1 : i0 < 0 ∨ py0.order = -1
  · rw [if_pos h1]
    refine ⟨py1.u (0 : Int).toNat * 100000 + py1.l (0 : Int).toNat, Or.inr ?_⟩
    dsimp only
    rw [putdiff_eq_fmt_ld, fmt_ld_arc_order]
    rfl
  · rw [if_neg h1]
    dsimp only
    by_cases h2 : labs ((rnx2crx.take_diff py1 py0).u (rnx2crx.take_diff py1 py0).order.toNat) >
        100000
    · rw [if_pos h2]
      refine ⟨(rnx2crx.take_diff py1 py0).u (0 : Int).toNat * 100000 +
        (rnx2crx.take_diff py1 py0).l (0 : Int).toNat, Or.inr ?_⟩
      dsimp only
      rw [putdiff_eq_fmt_ld, fmt_ld_arc_order]
      rfl
    · rw [if_neg h2]
      exact ⟨_, Or.inl (putdiff_eq_fmt_ld _ _)⟩

theorem fmt_ld_no_blank (x : Int) : ' ' ∉ fmt_ld x := by
  intro h
  rcases fmt_ld_chars x ' ' h with h1 | h1
  · exact absurd h1 (by decide)
  · exact absurd h1 (by decide)

/-- A token holds no blank, and it is empty exactly for a blank field. -/
theorem data_token_spec (i0 : Int) (dy0 dy1 : Nat → rnx2crx.data_format) (j : Nat) :
    ' ' ∉ rnx2crx.data_token i0 dy0 dy1 j ∧
    (rnx2crx.data_token i0 dy0 dy1 j = [] ↔ (dy1 j).order < 0) := by
  unfold rnx2crx.data_token
  by_cases h : (dy1 j).order ≥ 0
  · rw [if_pos h]
    obtain ⟨x, hx | hx⟩ := data_field_text_form i0 (dy0 j) (dy1 j)
    · rw [hx]
      exact ⟨fmt_ld_no_blank x, ⟨fun e => absurd e (fmt_ld_ne_nil x), fun e => by omega⟩⟩
    · rw [hx]
      refine ⟨?_, ⟨fun e => absurd e (by simp), fun e => by omega⟩⟩
      intro hm
      rcases List.mem_append.mp hm with h1 | h1
      · exact absurd h1 (by decide)
      · exact fmt_ld_no_blank x h1
  · rw [if_neg h]
    exact ⟨by simp, ⟨fun _ => by omega, fun _ => rfl⟩⟩

/-- One turn of the field loop: the token and the separator are appended, the
other entries of the row are left as they are. -/
theorem rnx_data_put_spec (rv : Int) (n : Nat) (i0 : Int) (dy0 : Nat → rnx2crx.data_format)
    (st : rnx2crx.record_state) (j : Nat) :
    (rnx2crx.data_put rv n i0 dy0 st j).p_buff =
      st.p_buff ++ (rnx2crx.data_token i0 dy0 st.dy1 j ++
        (if (j : Int) < (n : Int) - 1 then [' '] else [])) ∧
    ∀ k, k ≠ j → (rnx2crx.data_put rv n i0 dy0 st j).dy1 k = st.dy1 k := by
  unfold rnx2crx.data_put rnx2crx.data_token
  by_cases h : (st.dy1 j).order ≥ 0
  · simp only [h, if_true]
    constructor
    · split_ifs <;> simp
    · intro k hk
      split_ifs <;> simp [hk]
  · simp only [h, if_false]
    constructor
    · split_ifs <;> simp
    · intro k _
      split_ifs <;> rfl

/-- The field loop over the first `m` fields. -/
theorem rnx_data_fields (rv : Int) (n : Nat) (i0 : Int) (dy0 : Nat → rnx2crx.data_format)
    (st : rnx2crx.record_state) (m : Nat) :
    ((List.range m).foldl (rnx2crx.data_put rv n i0 dy0) st).p_buff =
      st.p_buff ++ ((List.range m).map (fun j => rnx2crx.data_token i0 dy0 st.dy1 j ++
        (if (j : Int) < (n : Int) - 1 then [' '] else []))).flatten ∧
    ∀ k, m ≤ k → ((List.range m).foldl (rnx2crx.data_put rv n i0 dy0) st).dy1 k = st.dy1 k := by
  induction m with
  | zero => simp
  | succ m ih =>
    obtain ⟨ih1, ih2⟩ := ih
    rw [List.range_succ, List.foldl_append, List.foldl_cons, List.foldl_nil]
    obtain ⟨h1, h2⟩ := rnx_data_put_spec rv n i0 dy0
      ((List.range m).foldl (rnx2crx.data_put rv n i0 dy0) st) m
    constructor
    · rw [h1, ih1, List.map_append, List.flatten_append, List.append_assoc]
      congr 1
      have e : rnx2crx.data_token i0 dy0
          ((List.range m).foldl (rnx2crx.data_put rv n i0 dy0) st).dy1 m =
          rnx2crx.data_token i0 dy0 st.dy1 m := by
        unfold rnx2crx.data_token
        rw [ih2 m (le_refl m)]
      rw [e]
      simp
    · intro k hk
      rw [h2 k (by omega), ih2 k (by omega)]

/-- With the separator behind the last field every token is followed by one
blank. -/
theorem rnx_data_fields_join (tok : Nat → List Char) (n : Nat) (hn : 1 ≤ n) :
    ((List.range n).map (fun j => tok j ++
        (if (j : Int) < (n : Int) - 1 then [' '] else []))).flatten ++ [' '] =
      (((List.range n).map tok).map (fun t => t ++ [' '])).flatten := by
  obtain ⟨m, rfl⟩ : ∃ m, n = m + 1 := ⟨n - 1, by omega⟩
  rw [List.range_succ, List.map_append, List.map_append, List.map_append, List.flatten_append,
    List.flatten_append, List.append_assoc]
  congr 1
  · congr 1
    rw [List.map_map]
    apply List.map_congr_left
    intro j hj
    have hj2 : j < m := List.mem_range.mp hj
    simp only [Function.comp]
    rw [if_pos (by push_cast; omega)]
  · simp

/-- The flags of the record as `data_flags` appends them. -/
theorem data_flags_eq (rv : Int) (i0 : Int) (flag0 flag buf : List Char) :
    rnx2crx.data_flags rv i0 flag0 flag buf =
      (if i0 < 0 ∧ rv ≠ 2 then buf ++ rnx2crx.data_flag_diff rv i0 flag0 flag
        else chop_blank (buf ++ rnx2crx.data_flag_diff rv i0 flag0 flag)) ++ ['\n'] := by
  unfold rnx2crx.data_flags rnx2crx.data_flag_diff rnx2crx.strdiff
  by_cases h : i0 < 0
  · by_cases h2 : rv = 2
    · simp [h, h2]
    · simp [h, h2]
  · simp [h]

theorem data_flag_diff_new3 (rv : Int) (i0 : Int) (flag0 flag : List Char)
    (h : i0 < 0 ∧ rv ≠ 2) : ' ' ∉ rnx2crx.data_flag_diff rv i0 flag0 flag := by
  unfold rnx2crx.data_flag_diff
  rw [if_pos h.1, if_neg h.2]
  intro hm
  obtain ⟨c, _, hc⟩ := List.mem_map.mp hm
  by_cases hcb : c = ' '
  · rw [if_pos hcb] at hc
    exact absurd hc (by decide)
  · rw [if_neg hcb] at hc
    exact hcb hc

end RecordLine
section RecordLineClaim

/-- C33: the record line of one satellite with `ntype >= 1` fields.  The text
the compressor's `data()` appends behind a buffer that ends with a line feed
(no blank at its end) is one line; the loop of the decompressor's `getdiff`
that separates the fields of this line gives back, for every field `j <
ntype`, the token the compressor wrote for it, which is empty exactly for a
blank field and is the text of `putdiff` (behind the mark `3&` for an
initialized arc) otherwise, and it gives back the flag difference with its
trailing blanks cut; this also holds when `strdiff` has cut the line back
into the fields because the flag difference and the last fields were blank. -/
theorem record_line_round_trip (rv : Int) (ntype : Nat) (i0 : Int)
    (dy0 : Nat → rnx2crx.data_format) (flag : List Char) (st : rnx2crx.record_state)
    (hn : 1 ≤ ntype) (hbuf : ∀ c, st.p_buff.getLast? = some c → c ≠ ' ') :
    ∃ line,
      (rnx2crx.data_record rv ntype i0 dy0 flag st).p_buff = st.p_buff ++ line ++ ['\n'] ∧
      crx2rnx.getdiff_split ntype line =
        ((List.range ntype).map (rnx2crx.data_token i0 dy0 st.dy1),
          chop_blank (rnx2crx.data_flag_diff rv i0
            (rnx2crx.data_record rv ntype i0 dy0 flag st).flag0 flag)) ∧
      ∀ j, j < ntype →
        (rnx2crx.data_token i0 dy0 st.dy1 j = [] ↔ (st.dy1 j).order < 0) ∧
        ((st.dy1 j).order ≥ 0 →
          rnx2crx.data_token i0 dy0 st.dy1 j =
            (rnx2crx.data_field i0 (dy0 j) (st.dy1 j)).2) := by
  have htok : ∀ t ∈ (List.range ntype).map (rnx2crx.data_token i0 dy0 st.dy1), ' ' ∉ t := by
    intro t ht
    obtain ⟨j, _, rfl⟩ := List.mem_map.mp ht
    exact (data_token_spec i0 dy0 st.dy1 j).1
  have hl : ((List.range ntype).map (rnx2crx.data_token i0 dy0 st.dy1)).length = ntype := by
    rw [List.length_map, List.length_range]
  have hlast : ∀ j, j < ntype →
      (rnx2crx.data_token i0 dy0 st.dy1 j = [] ↔ (st.dy1 j).order < 0) ∧
      ((st.dy1 j).order ≥ 0 →
        rnx2crx.data_token i0 dy0 st.dy1 j =
          (rnx2crx.data_field i0 (dy0 j) (st.dy1 j)).2) := by
    intro j _
    refine ⟨(data_token_spec i0 dy0 st.dy1 j).2, ?_⟩
    intro h
    unfold rnx2crx.data_token
    rw [if_pos h]
  obtain ⟨hp, _⟩ := rnx_data_fields rv ntype i0 dy0 st ntype
  have hbuf2 : (rnx2crx.data_record rv ntype i0 dy0 flag st).p_buff =
      rnx2crx.data_flags rv i0 (rnx2crx.data_record rv ntype i0 dy0 flag st).flag0 flag
        (st.p_buff ++
          (((List.range ntype).map (rnx2crx.data_token i0 dy0 st.dy1)).map
            (fun t => t ++ [' '])).flatten) := by
    rw [← rnx_data_fields_join (rnx2crx.data_token i0 dy0 st.dy1) ntype hn, ← List.append_assoc,
      ← hp]
    rfl
  rw [hbuf2, data_flags_eq]
  generalize (rnx2crx.data_record rv ntype i0 dy0 flag st).flag0 = F
  by_cases hc : i0 < 0 ∧ rv ≠ 2
  · rw [if_pos hc]
    refine ⟨(((List.range ntype).map (rnx2crx.data_token i0 dy0 st.dy1)).map
        (fun t => t ++ [' '])).flatten ++ rnx2crx.data_flag_diff rv i0 F flag, ?_, ?_, hlast⟩
    · simp only [List.append_assoc]
    · have key := getdiff_split_join _ (rnx2crx.data_flag_diff rv i0 F flag) htok
      rw [hl] at key
      rw [key, chop_blank_no_blank _ (data_flag_diff_new3 rv i0 F flag hc)]
  · rw [if_neg hc]
    refine ⟨chop_blank ((((List.range ntype).map (rnx2crx.data_token i0 dy0 st.dy1)).map
        (fun t => t ++ [' '])).flatten ++ rnx2crx.data_flag_diff rv i0 F flag), ?_, ?_, hlast⟩
    · rw [List.append_assoc, chop_blank_append_of_last _ _ hbuf]
    · have key := getdiff_split_chop _ (rnx2crx.data_flag_diff rv i0 F flag) htok
      rw [hl] at key
      exact key

/-- C33 at a sample record of a new satellite in RINEX 2, three fields with the
second one blank and the flags `47` of the first field: the line is
`3&23456789123  3&1234567 47`.  With the third field and all flags blank as
well the line is cut back to `3&23456789123`, and the fields still come back. -/
theorem record_line_round_trip_witness :
    (rnx2crx.data_record 2 3 (-1) (fun _ => { u := fun _ => 0, l := fun _ => 0, order := -1 })
        "47    ".toList { dy1 := sample_record_dy1, flag0 := [], p_buff := ['\n'] }).p_buff =
      "\n3&23456789123  3&1234567 47\n".toList ∧
    crx2rnx.getdiff_split 3 "3&23456789123  3&1234567 47".toList =
      (["3&23456789123".toList, [], "3&1234567".toList], "47".toList) ∧
    (rnx2crx.data_record 2 3 (-1) (fun _ => { u := fun _ => 0, l := fun _ => 0, order := -1 })
        "      ".toList
        { dy1 := fun j => if j = 0 then sample_record_dy1 0 else sample_record_dy1 1,
          flag0 := [], p_buff := ['\n'] }).p_buff =
      "\n3&23456789123\n".toList ∧
    crx2rnx.getdiff_split 3 "3&23456789123".toList = (["3&23456789123".toList, [], []], []) ∧
    (∀ c, (['\n'] : List Char).getLast? = some c → c ≠ ' ') ∧
    ∃ line,
      (rnx2crx.data_record 2 3 (-1)
          (fun _ => { u := fun _ => 0, l := fun _ => 0, order := -1 }) "47    ".toList
          { dy1 := sample_record_dy1, flag0 := [], p_buff := ['\n'] }).p_buff =
        ['\n'] ++ line ++ ['\n'] ∧
      crx2rnx.getdiff_split 3 line =
        ((List.range 3).map (rnx2crx.data_token (-1)
            (fun _ => { u := fun _ => 0, l := fun _ => 0, order := -1 }) sample_record_dy1),
          chop_blank (rnx2crx.data_flag_diff 2 (-1)
            (rnx2crx.data_record 2 3 (-1)
              (fun _ => { u := fun _ => 0, l := fun _ => 0, order := -1 }) "47    ".toList
              { dy1 := sample_record_dy1, flag0 := [], p_buff := ['\n'] }).flag0
            "47    ".toList)) ∧
      ∀ j, j < 3 →
        (rnx2crx.data_token (-1) (fun _ => { u := fun _ => 0, l := fun _ => 0, order := -1 })
            sample_record_dy1 j = [] ↔ (sample_record_dy1 j).order < 0) ∧
        ((sample_record_dy1 j).order ≥ 0 →
          rnx2crx.data_token (-1) (fun _ => { u := fun _ => 0, l := fun _ => 0, order := -1 })
              sample_record_dy1 j =
            (rnx2crx.data_field (-1) { u := fun _ => 0, l := fun _ => 0, order := -1 }
              (sample_record_dy1 j)).2) :=
  ⟨by decide, by decide, by decide, by decide, by intro c hc; cases hc; decide,
   record_line_round_trip 2 3 (-1) (fun _ => { u := fun _ => 0, l := fun _ => 0, order := -1 })
    "47    ".toList { dy1 := sample_record_dy1, flag0 := [], p_buff := ['\n'] } (by decide)
    (by intro c hc; cases hc; decide)⟩

end RecordLineClaim
